import Mathlib

/-!
# fizzy-cli: pagination, request execution, row mappers and output

A shallow embedding of the Go sources `internal/api/client.go`,
`internal/config/config.go`, `internal/cli/cli.go`, `internal/cli/commands.go`,
`internal/cli/format.go`, `internal/cli/help.go` and `internal/cli/output.go`.

Conventions of the embedding.

* A Go `string` or `[]byte` is a Lean `String` (a sequence of code points);
  byte sequences that are not valid UTF-8 are outside the model.
* A Go `error` is an `Option GoError` (`none` is `nil`); a function returning
  `(T, error)` returns `Except GoError T`.
* The process state a command can change is a `World`: the text written to
  standard output and standard error and the list of HTTP requests handed to
  the transport, in order. The commands that save the configuration (`runAuth`,
  `accountSet`, `runConfig`) also return the calls of `configSave` they make, in
  order (`Saves`).
* What the Go standard library, the operating system and the network decide
  (URL parsing, the JSON tokenizer and encoder, the HTTP round trip, flag
  parsing, the environment and the file system) is supplied by an `Env`, an
  `OS` or a `FlagSets`; the general theorems hold for every one of them, and
  `Env.demo`, `OS.demo` and `FlagSets.demo` are small instances used in the
  examples.
* Two parts of the standard library are modelled in full, for the arguments the
  program passes: the decoding of a parsed JSON value into the records of
  format.go (`json.decodeStruct` and its companions) and the tab writer of
  `printTable` (`tabwriter.Flush`).
* The cases of the command switches that send data are parameters
  (`WriteCommands`); the list and get cases, the `auth` and `config` commands
  and `account set` are modelled.
* A Go map is the list of its entries, each key once; a `range` over the map
  visits the entries in list order, so a statement about every list covers every
  iteration order.
* `for { ... }` loops take a fuel argument and return `none` when it runs out.
-/

namespace FizzyCli

/-! ## Go standard library: `unicode`, `strings`, `fmt` -/

namespace unicode

/-- Go `unicode.IsSpace`: the code points with the Unicode White_Space property. -/
def IsSpace (c : Char) : Bool :=
  let n := c.toNat
  (9 ≤ n && n ≤ 13) || n == 0x20 || n == 0x85 || n == 0xA0 || n == 0x1680 ||
    (0x2000 ≤ n && n ≤ 0x200A) || n == 0x2028 || n == 0x2029 || n == 0x202F ||
    n == 0x205F || n == 0x3000

/-- Simple case folding restricted to what can fold to an ASCII letter: the two
cases of an ASCII letter, U+212A KELVIN SIGN (folds with `k`) and U+017F LATIN
SMALL LETTER LONG S (folds with `s`). Exact whenever one of the two code points
is ASCII. -/
def foldASCII (c : Char) : Char :=
  if c.toNat = 0x212A then 'k'
  else if c.toNat = 0x017F then 's'
  else if 'A'.toNat ≤ c.toNat ∧ c.toNat ≤ 'Z'.toNat then Char.ofNat (c.toNat + 32)
  else c

end unicode

namespace strings

/-- Leading code points satisfying `f` removed (Go `strings.TrimLeftFunc`). -/
def trimLeftChars (f : Char → Bool) (s : List Char) : List Char :=
  s.dropWhile f

/-- Trailing code points satisfying `f` removed (Go `strings.TrimRightFunc`). -/
def trimRightChars (f : Char → Bool) (s : List Char) : List Char :=
  (s.reverse.dropWhile f).reverse

/-- Go `strings.TrimSpace`: leading and trailing white space removed. -/
def TrimSpace (s : String) : String :=
  ⟨trimRightChars unicode.IsSpace (trimLeftChars unicode.IsSpace s.data)⟩

/-- Go `strings.Trim`: leading and trailing code points contained in `cutset` removed. -/
def Trim (s cutset : String) : String :=
  ⟨trimRightChars (fun c => cutset.data.contains c)
    (trimLeftChars (fun c => cutset.data.contains c) s.data)⟩

/-- Go `strings.TrimRight`: trailing code points contained in `cutset` removed. -/
def TrimRight (s cutset : String) : String :=
  ⟨trimRightChars (fun c => cutset.data.contains c) s.data⟩

/-- Segments of `s` between occurrences of the code point `sep`. -/
def splitChars (sep : Char) : List Char → List (List Char)
  | [] => [[]]
  | c :: cs =>
    if c = sep then [] :: splitChars sep cs
    else ((c :: (splitChars sep cs).headD []) :: (splitChars sep cs).tail)

/-- Go `strings.Split(s, sep)` for a separator of one code point (the two call
sites use `","` and `";"`): never empty, `Split("", sep)` is `[""]`. -/
def Split (s : String) (sep : Char) : List String :=
  (splitChars sep s.data).map String.mk

/-- Whether `pat` occurs in `s` starting at some position. -/
def containsChars (pat : List Char) : List Char → Bool
  | [] => pat.isEmpty
  | c :: cs => pat.isPrefixOf (c :: cs) || containsChars pat cs

/-- Go `strings.Contains`. -/
def Contains (s substr : String) : Bool :=
  containsChars substr.data s.data

/-- Go `strings.HasPrefix`. -/
def HasPrefix (s pre : String) : Bool :=
  pre.data.isPrefixOf s.data

/-- Go `strings.EqualFold`, exact whenever one argument is ASCII (the only call
site compares with the constant `"Link"`): equal length in code points and
pairwise equal under simple case folding. -/
def EqualFold (s t : String) : Bool :=
  s.data.map unicode.foldASCII == t.data.map unicode.foldASCII

/-- Go `strings.TrimPrefix`: `s` without the leading `pre`, if it starts with it. -/
def TrimPrefix (s pre : String) : String :=
  if HasPrefix s pre then ⟨s.data.drop pre.length⟩ else s

/-- Go `strings.Join`. -/
def Join (elems : List String) (sep : String) : String :=
  sep.intercalate elems

end strings

namespace fmt

/-- Go `fmt.Sprintf("%d", n)`: base ten, a leading `-` for negatives, no padding. -/
def Sprintd (n : Int) : String :=
  toString n

/-- Go `fmt.Sprintf("%t", b)`. -/
def Sprintt (b : Bool) : String :=
  if b then "true" else "false"

end fmt

/-! ## Errors (`internal/api/client.go`, `internal/cli/cli.go`) -/

/-- The `api.APIError` struct: status code and raw response body. -/
structure APIError where
  Status : Int
  Body : String
  deriving DecidableEq, Repr

/-- `(*APIError).Error`. -/
def APIError.Error (e : APIError) : String :=
  let msg := strings.TrimSpace e.Body
  if msg == "" then
    "api error: status " ++ fmt.Sprintd e.Status
  else
    "api error: status " ++ fmt.Sprintd e.Status ++ ": " ++ msg

/-- The error values the program handles: a `cli.UsageError`, an `*api.APIError`,
any other error (transport, decoding, file system) identified by its message, and
an error wrapping another one (`fmt.Errorf("...%w", err)`). -/
inductive GoError where
  | usage (Msg : String)
  | api (e : APIError)
  | other (msg : String)
  | wrapped (pre : String) (inner : GoError)
  deriving DecidableEq, Repr

/-- The `Error()` method of each error value. -/
def GoError.Error : GoError → String
  | .usage m => m
  | .api e => e.Error
  | .other m => m
  | .wrapped pre inner => pre ++ inner.Error

/-- Go `errors.As(err, &usage)` with `usage` of type `UsageError`: the first
`UsageError` on the unwrap chain, or `none`. -/
def GoError.asUsage : GoError → Option String
  | .usage m => some m
  | .api _ => none
  | .other _ => none
  | .wrapped _ inner => inner.asUsage

/-- Spec-level reading of "is (or wraps) a UsageError". -/
inductive IsOrWrapsUsage : GoError → Prop where
  | is (m : String) : IsOrWrapsUsage (.usage m)
  | wraps (pre : String) (inner : GoError) : IsOrWrapsUsage inner →
      IsOrWrapsUsage (.wrapped pre inner)

/-- Go `http.Header` and the response header map `map[string][]string`: the
entries of the map, each key once; where the program ranges over the map the
entries are visited in list order. -/
abbrev Header := List (String × List String)

/-- The `http.Request` handed to the transport: method, URL, header and the
bytes of the body (`none` when `Do` is called with a nil body). -/
structure HTTPRequest where
  Method : String
  URL : String
  Header : Header
  Body : Option String
  deriving DecidableEq, Repr

/-- Process state visible to a command: standard output, standard error and the
HTTP requests handed to the transport so far, oldest first. -/
structure World where
  stdout : String
  stderr : String
  sent : List HTTPRequest
  deriving DecidableEq, Repr

/-- `printErr` in cli.go. -/
def printErr (w : World) (err : Option GoError) : World :=
  match err with
  | none => w
  | some e => { w with stderr := w.stderr ++ "error: " ++ e.Error ++ "\n" }

/-- `exitCode` in cli.go. -/
def exitCode (err : Option GoError) : Int :=
  match err with
  | none => 0
  | some e =>
    match e.asUsage with
    | some _ => 2
    | none => 1

/-- `handleErr` in commands.go. -/
def handleErr (w : World) (help : String) (err : Option GoError) : Int × World :=
  let w1 := printErr w err
  let w2 :=
    match err.bind GoError.asUsage with
    | some _ => { w1 with stderr := w1.stderr ++ "\n" ++ help }
    | none => w1
  (exitCode err, w2)

/-! ## Configuration and global flags (`internal/config/config.go`, `internal/cli/cli.go`) -/

/-- The `config.Config` struct. -/
structure Config where
  BaseURL : String
  Token : String
  SessionToken : String
  Account : String
  deriving DecidableEq, Repr

/-- The `OutputMode` struct of output.go. -/
structure OutputMode where
  JSON : Bool
  Plain : Bool
  deriving DecidableEq, Repr

/-- The `api.Client` struct; its `HTTP` field is the transport of the `Env`. -/
structure Client where
  BaseURL : String
  Token : String
  SessionToken : String
  Agent : String
  deriving DecidableEq, Repr

/-- The `cli.Context` struct. `Client` is a pointer in Go; `Run` assigns it before
any command runs, and the zero context carries the zero client here. -/
structure Context where
  Config : Config
  ConfigPath : String
  Account : String
  BaseURL : String
  Token : String
  SessionToken : String
  Output : OutputMode
  Client : Client
  Version : String
  Commit : String
  BuildDate : String
  deriving DecidableEq, Repr

/-- The zero value `var ctx Context`. -/
def Context.zero : Context :=
  { Config := ⟨"", "", "", ""⟩, ConfigPath := "", Account := "", BaseURL := "", Token := "",
    SessionToken := "", Output := ⟨false, false⟩, Client := ⟨"", "", "", ""⟩,
    Version := "", Commit := "", BuildDate := "" }

/-- The constant `defaultBaseURL`. -/
def defaultBaseURL : String := "https://app.fizzy.do"

/-- `firstNonEmpty` in cli.go. -/
def firstNonEmpty : List String → String
  | [] => ""
  | v :: rest =>
    if strings.TrimSpace v != "" then strings.TrimSpace v else firstNonEmpty rest

/-- `normalizeAccount` in cli.go. -/
def normalizeAccount (value : String) : String :=
  strings.Trim value "/"

/-- Values of the global flags after `fs.Parse`. -/
structure GlobalFlags where
  flagBaseURL : String
  flagToken : String
  flagAccount : String
  flagConfig : String
  flagJSON : Bool
  flagPlain : Bool
  flagNoColor : Bool
  flagHelp : Bool
  flagVersion : Bool
  deriving DecidableEq, Repr

/-- Failure of `fs.Parse`: `flag.ErrHelp`, or any other error with its message. -/
inductive FlagError where
  | errHelp
  | invalid (msg : String)
  deriving DecidableEq, Repr

/-- Failure of `os.ReadFile`: the file does not exist, or any other error. -/
inductive ReadError where
  | notExist
  | failed (e : GoError)
  deriving DecidableEq, Repr

/-- What the operating system and the `flag` and `encoding/json` packages decide
for `parseGlobal`: environment variables, the user configuration directory, path
joining, the outcome of parsing `args[1:]` against the registered global flags
(given the default of `--config`; the second component is `fs.Args()`), what the
flag set writes to its output when that parsing fails (`flagFailureOutput`, given
the same two arguments: the message of the failure and the usage of the global
flags), reading a file, and decoding the bytes of a config file.

For the commands that read a secret and that save the configuration:
* `stdinIsTTY`: `isTTY(os.Stdin)`;
* `readLine`: the outcome of `reader.ReadString` up to a newline on standard
  input, the end of the input not counting as an error;
* `readAll`: the outcome of `io.ReadAll(os.Stdin)`;
* `dir`, `mkdirAll path`, `writeFile path data`, `rename src dst`: `filepath.Dir`
  and the errors of `os.MkdirAll`, `os.WriteFile` and `os.Rename`, if any;
* `encodeConfig`: `json.MarshalIndent` of a configuration with two spaces. -/
structure OS where
  getenv : String → String
  userConfigDir : Except GoError String
  joinPath : List String → String
  flagParse : String → List String → Except FlagError (GlobalFlags × List String)
  flagFailureOutput : String → List String → String
  readFile : String → Except ReadError String
  decodeConfig : String → Except GoError Config
  stdinIsTTY : Bool
  readLine : Except GoError String
  readAll : Except GoError String
  dir : String → String
  mkdirAll : String → Option GoError
  encodeConfig : Config → Except GoError String
  writeFile : String → String → Option GoError
  rename : String → String → Option GoError

/-- `config.DefaultPath`. -/
def config.DefaultPath (os : OS) : Except GoError String :=
  match os.userConfigDir with
  | .error e => .error e
  | .ok dir => .ok (os.joinPath [dir, "fizzy", "config.json"])

/-- `config.Load`. -/
def config.Load (os : OS) (path : String) : Except GoError Config :=
  match os.readFile path with
  | .error .notExist => .ok ⟨"", "", "", ""⟩
  | .error (.failed e) => .error e
  | .ok data =>
    match os.decodeConfig data with
    | .error e => .error e
    | .ok cfg => .ok cfg

/-- `config.Save`: the directory is created, the configuration is encoded and
written with a final newline to a temporary file next to `path`, and the
temporary file is renamed to `path`. -/
def config.Save (os : OS) (path : String) (cfg : Config) : Option GoError :=
  match os.mkdirAll (os.dir path) with
  | some e => some e
  | none =>
    match os.encodeConfig cfg with
    | .error e => some e
    | .ok data =>
      match os.writeFile (path ++ ".tmp") (data ++ "\n") with
      | some e => some e
      | none => os.rename (path ++ ".tmp") path

/-- Result tuple of `parseGlobal`: context, remaining arguments, showHelp,
showVersion, error. -/
structure ParseResult where
  ctx : Context
  rest : List String
  showHelp : Bool
  showVersion : Bool
  err : Option GoError
  deriving DecidableEq, Repr

/-- `parseGlobal` in cli.go. -/
def parseGlobal (os : OS) (args : List String) : ParseResult :=
  let ctx := Context.zero
  if args.length = 0 then ⟨ctx, [], true, false, none⟩
  else
    let defaultConfigPath : Except GoError String :=
      if os.getenv "FIZZY_CONFIG" == "" then config.DefaultPath os
      else .ok (os.getenv "FIZZY_CONFIG")
    match defaultConfigPath with
    | .error e => ⟨ctx, [], false, false, some e⟩
    | .ok defaultConfigPath =>
      match os.flagParse defaultConfigPath args.tail with
      | .error .errHelp => ⟨ctx, [], true, false, none⟩
      | .error (.invalid msg) => ⟨ctx, [], false, false, some (.usage msg)⟩
      | .ok (fl, rest) =>
        match config.Load os fl.flagConfig with
        | .error e => ⟨ctx, [], false, false, some e⟩
        | .ok cfg =>
          let ctx := { ctx with
            ConfigPath := fl.flagConfig
            Config := cfg
            Output := ⟨fl.flagJSON, fl.flagPlain⟩
            BaseURL := firstNonEmpty
              [fl.flagBaseURL, os.getenv "FIZZY_BASE_URL", cfg.BaseURL, defaultBaseURL]
            Token := firstNonEmpty [fl.flagToken, os.getenv "FIZZY_TOKEN", cfg.Token]
            SessionToken := cfg.SessionToken
            Account := normalizeAccount
              (firstNonEmpty [fl.flagAccount, os.getenv "FIZZY_ACCOUNT", cfg.Account]) }
          if ctx.Output.JSON && ctx.Output.Plain then
            ⟨ctx, [], false, false, some (.usage "--json and --plain cannot be used together")⟩
          else ⟨ctx, rest, fl.flagHelp, fl.flagVersion, none⟩

/-- What `parseGlobal` in cli.go writes to standard error. It writes nothing
itself, but the output of its flag set is standard error
(`fs.SetOutput(os.Stderr)`), so when `fs.Parse(args[1:])` fails the `flag`
package has written there the message of the failure and the usage of the global
flags; a flag set writes nothing when parsing succeeds. -/
def parseGlobalOutput (os : OS) (args : List String) : String :=
  if args.length = 0 then ""
  else
    let defaultConfigPath : Except GoError String :=
      if os.getenv "FIZZY_CONFIG" == "" then config.DefaultPath os
      else .ok (os.getenv "FIZZY_CONFIG")
    match defaultConfigPath with
    | .error _ => ""
    | .ok defaultConfigPath =>
      match os.flagParse defaultConfigPath args.tail with
      | .error _ => os.flagFailureOutput defaultConfigPath args.tail
      | .ok _ => ""

/-! ## Request execution (`internal/api/client.go`) -/

namespace textproto

/-- Go `validHeaderFieldByte`: the token characters of RFC 7230, namely ASCII
letters and digits and the marks ! # $ % & (apostrophe) * + - . ^ _ (grave) | ~. -/
def validHeaderFieldByte (c : Char) : Bool :=
  c.isAlphanum || [33, 35, 36, 37, 38, 39, 42, 43, 45, 46, 94, 95, 96, 124, 126].contains c.toNat

/-- Canonical casing: upper case at the start and after each `-`, lower case elsewhere. -/
def canonChars : Bool → List Char → List Char
  | _, [] => []
  | upper, c :: cs =>
    let c1 := if upper && c.isLower then c.toUpper
      else if !upper && c.isUpper then c.toLower else c
    c1 :: canonChars (c1 == '-') cs

/-- Go `textproto.CanonicalMIMEHeaderKey`: a key made of token characters only
is put in canonical casing; any other key is returned unchanged. -/
def CanonicalMIMEHeaderKey (s : String) : String :=
  if s.data.all validHeaderFieldByte then ⟨canonChars true s.data⟩ else s

end textproto

/-- Go `http.Header.Set`: the values stored under the canonical form of `key`
are replaced by the single value `value`. -/
def Header.Set (h : Header) (key value : String) : Header :=
  (textproto.CanonicalMIMEHeaderKey key, [value]) ::
    h.filter (fun e => e.1 != textproto.CanonicalMIMEHeaderKey key)

/-- The values a header map stores under exactly the key `key` (`h[key]`). -/
def Header.values (h : Header) (key : String) : Option (List String) :=
  h.lookup key

/-- The `api.Response` struct. -/
structure Response where
  Status : Int
  Headers : Header
  Body : String
  deriving DecidableEq, Repr

/-- What the transport returns for a request that produced a response: the
`StatusCode` and `Header` of the `http.Response` and the bytes `io.ReadAll`
reads from its body. -/
structure HTTPResponse where
  StatusCode : Int
  Header : Header
  Body : String
  deriving DecidableEq, Repr

/-- Go `url.URL`. -/
structure URL where
  Scheme : String
  Opaque : String
  User : String
  Host : String
  Path : String
  RawPath : String
  OmitHost : Bool
  ForceQuery : Bool
  RawQuery : String
  Fragment : String
  RawFragment : String
  deriving DecidableEq, Repr

/-- Go `url.Values` (`map[string][]string`). -/
abbrev Values := List (String × List String)

/-- A JSON document as the decoder sees it: literals keep their text, objects
keep their members in order. A `json.RawMessage` is represented by the JSON
value its bytes denote. -/
inductive JSON where
  | null
  | bool (b : Bool)
  | number (lit : String)
  | string (s : String)
  | array (elems : List JSON)
  | object (members : List (String × JSON))

/-- What the Go standard library and the network decide.

* `urlParse`, `urlResolveReference`, `urlString`, `valuesEncode`: `url.Parse`,
  `(*URL).ResolveReference`, `(*URL).String`, `Values.Encode`.
* `newRequest method url`: the error of `http.NewRequestWithContext`, if any.
* `roundTrip n req`: outcome of `c.HTTP.Do(req)` followed by `io.ReadAll` of the
  response body, for the request sent after `n` earlier ones.
* `jsonParse`: the JSON value denoted by a body, or the syntax error of
  `json.Unmarshal`.
* `jsonAny`: the value `json.Unmarshal` stores into an `any` once the syntax is
  checked (a number becomes a `float64`), or the error it returns when a number
  is out of the range of `float64`.
* `jsonIndent`: the text `json.Encoder` with `SetIndent("", "  ")` produces for a
  value, without the final newline.
* `jsonMarshal`: the text `json.Marshal` produces for a value.
* `quote`: the text the verb `%q` of `fmt` produces for a string. -/
structure Env where
  urlParse : String → Except GoError URL
  urlResolveReference : URL → URL → URL
  urlString : URL → String
  valuesEncode : Values → String
  newRequest : String → String → Option GoError
  roundTrip : Nat → HTTPRequest → Except GoError HTTPResponse
  jsonParse : String → Except GoError JSON
  jsonAny : JSON → Except GoError JSON
  jsonIndent : JSON → String
  jsonMarshal : JSON → String
  quote : String → String

/-- `NewClient` in client.go. -/
def NewClient (baseURL token sessionToken agent : String) : Client :=
  { BaseURL := strings.TrimRight baseURL "/", Token := token, SessionToken := sessionToken,
    Agent := agent }

/-- `buildURL` in client.go. -/
def buildURL (env : Env) (baseURL path : String) (query : Option Values) : Except GoError String :=
  if strings.HasPrefix path "http://" || strings.HasPrefix path "https://" then
    match env.urlParse path with
    | .error e => .error e
    | .ok u =>
      let u := match query with
        | some q => { u with RawQuery := env.valuesEncode q }
        | none => u
      .ok (env.urlString u)
  else
    match env.urlParse baseURL with
    | .error e => .error e
    | .ok base =>
      match env.urlParse path with
      | .error e => .error e
      | .ok rel =>
        let u := env.urlResolveReference base rel
        let u := match query with
          | some q => { u with RawQuery := env.valuesEncode q }
          | none => u
        .ok (env.urlString u)

/-- The header of the request `(*Client).Do` builds (client.go lines 71 to 89),
starting from the empty header of a new request. `headers` is `none` for a nil
map; the final loop ranges over the map in list order. -/
def Client.requestHeader (c : Client) (contentType : String)
    (headers : Option (List (String × String))) : Header :=
  let h : Header := []
  let h := h.Set "Accept" "application/json"
  let h := if c.Agent != "" then h.Set "User-Agent" c.Agent else h
  let h :=
    if c.Token != "" then h.Set "Authorization" ("Bearer " ++ c.Token)
    else if c.SessionToken != "" then
      match headers with
      | none => h.Set "Cookie" ("session_token=" ++ c.SessionToken)
      | some hs =>
        if (hs.lookup "Cookie").isNone then h.Set "Cookie" ("session_token=" ++ c.SessionToken)
        else h
    else h
  let h := if contentType != "" then h.Set "Content-Type" contentType else h
  (headers.getD []).foldl (fun h kv => h.Set kv.1 kv.2) h

/-- `(*Client).Do` in client.go. The body reader is an in-memory buffer at every
call site, so copying it cannot fail and `body` is its content. -/
def Client.Do (env : Env) (c : Client) (w : World) (method path : String)
    (query : Option Values) (body : Option String) (contentType : String)
    (headers : Option (List (String × String))) : Except GoError Response × World :=
  match buildURL env c.BaseURL path query with
  | .error e => (.error e, w)
  | .ok urlStr =>
    match env.newRequest method urlStr with
    | some e => (.error e, w)
    | none =>
      let req : HTTPRequest :=
        { Method := method, URL := urlStr,
          Header := c.requestHeader contentType headers, Body := body }
      let w1 := { w with sent := w.sent ++ [req] }
      match env.roundTrip w.sent.length req with
      | .error e => (.error e, w1)
      | .ok resp =>
        if resp.StatusCode ≥ 400 then
          (.error (.api { Status := resp.StatusCode, Body := resp.Body }), w1)
        else
          (.ok { Status := resp.StatusCode, Headers := resp.Header, Body := resp.Body }, w1)

/-! ## Go standard library: `text/tabwriter`

The writer `tabwriter.NewWriter(w, 0, 4, 2, ' ', 0)` of `printTable`: minimal
cell width 0, padding 2, padding character space, no flags. -/

namespace tabwriter

/-- The `padding` argument of `NewWriter` in `printTable`. -/
def padding : Nat := 2

/-- A cell ends at a horizontal or vertical tab (`Write`, case `'\t', '\v'`). -/
def isCellEnd (c : Char) : Bool :=
  c == '\t' || c == Char.ofNat 11

/-- A line ends at a newline or a form feed (`Write`, case `'\n', '\f'`). -/
def isLineEnd (c : Char) : Bool :=
  c == '\n' || c == Char.ofNat 12

/-- The cells of a line: the text between cell ends; the last cell is the text
after the last cell end. -/
def splitCells : List Char → List (List Char)
  | [] => [[]]
  | c :: cs =>
    if isCellEnd c then [] :: splitCells cs
    else
      match splitCells cs with
      | [] => [[c]]
      | cell :: cells => (c :: cell) :: cells

/-- The text cut at line ends. Every piece but the last comes with `some ff`,
where `ff` tells whether a form feed ended it; the last piece is the text after
the last line end and comes with `none`. -/
def splitLines : List Char → List (List Char × Option Bool)
  | [] => [([], none)]
  | c :: cs =>
    if isLineEnd c then ([], some (c == Char.ofNat 12)) :: splitLines cs
    else
      match splitLines cs with
      | [] => [([c], none)]
      | (l, e) :: ls => (c :: l, e) :: ls

/-- A buffered line of the writer: its cells and how it ended. -/
structure Line where
  cells : List (List Char)
  ending : Option Bool
  deriving DecidableEq, Repr

/-- The buffered line of a piece of text. A line that was ended holds the cell
before the line end even when that cell is empty; at `Flush` the unfinished
cell of the last line is added only when it is not empty. -/
def Line.ofText (piece : List Char × Option Bool) : Line :=
  match piece.2 with
  | some ff => { cells := splitCells piece.1, ending := some ff }
  | none =>
    let cells := splitCells piece.1
    { cells := if cells.getLast? = some [] then cells.dropLast else cells, ending := none }

/-- Width of the column block of column `j` that starts with the first line of
`ls` (`format`, "column block begin"): the widest cell of column `j` in the
leading lines that have such a cell, plus the padding. A line has a cell in
column `j` when `j` is less than its number of cells minus one (its last cell
belongs to no column), and a form feed ends every block. -/
def blockWidth (j : Nat) : List Line → Nat
  | [] => 0
  | l :: rest =>
    if j + 1 < l.cells.length then
      max ((l.cells.getD j []).length + padding)
        (if l.ending = some true then 0 else blockWidth j rest)
    else 0

/-- The column widths in force for the first line of `ls`, which has `n`
columns: `carry` holds the widths of the blocks the preceding line is part of,
and a column the preceding line does not have starts a new block. -/
def lineWidths (carry : List Nat) (ls : List Line) (n : Nat) : List Nat :=
  (List.range n).map (fun j => if j < carry.length then carry.getD j 0 else blockWidth j ls)

/-- The cells of one line as `writeLines` emits them: every cell of a column is
followed by spaces up to the column width, the last cell is written as it is. -/
def writeCells : List Nat → List (List Char) → List Char
  | _, [] => []
  | _, [c] => c
  | ws, c :: c2 :: cs =>
    c ++ List.replicate (ws.headD 0 - c.length) ' ' ++ writeCells ws.tail (c2 :: cs)

/-- The text `format` emits for the buffered lines: each line with its cells
padded, followed by a newline when the line was ended (a form feed is written
as a newline). -/
def format : List Nat → List Line → List Char
  | _, [] => []
  | carry, l :: rest =>
    let ws := lineWidths carry (l :: rest) (l.cells.length - 1)
    writeCells ws l.cells ++ (if l.ending.isSome then ['\n'] else []) ++
      format (if l.ending = some true then [] else ws) rest

/-- The text the writer emits, up to and including `Flush`, for the text
written to it. Text width is counted in code points. -/
def Flush (text : String) : String :=
  ⟨format [] ((splitLines text.data).map Line.ofText)⟩

end tabwriter

/-! ## Output (`internal/cli/output.go`) -/

/-- `printJSON` in output.go: the indented encoding of `data` followed by the
newline `Encode` appends. Writing to the in-memory stream cannot fail. -/
def printJSON (env : Env) (w : World) (data : JSON) : Except GoError World :=
  .ok { w with stdout := w.stdout ++ env.jsonIndent data ++ "\n" }

/-- `printJSONBytes` in output.go. -/
def printJSONBytes (env : Env) (w : World) (data : String) : Except GoError World :=
  if data.length = 0 then .ok w
  else
    match env.jsonParse data with
    | .error e => .error (.wrapped "invalid JSON response: " e)
    | .ok parsed =>
      match env.jsonAny parsed with
      | .error e => .error (.wrapped "invalid JSON response: " e)
      | .ok v => printJSON env w v

/-- `joinRow` in output.go. -/
def joinRow (cols : List String) : String :=
  "\t".intercalate cols

/-- The text `printTable` writes into its tab writer before flushing. -/
def tableText (headers : List String) (rows : List (List String)) (plain : Bool) : String :=
  (if !plain && headers.length > 0 then joinRow headers ++ "\n" else "") ++
    String.join (rows.map (fun row => joinRow row ++ "\n"))

/-- `printTable` in output.go: the tab writer is created, written to and flushed
within the call. -/
def printTable (w : World) (headers : List String) (rows : List (List String))
    (plain : Bool) : World :=
  { w with stdout := w.stdout ++ tabwriter.Flush (tableText headers rows plain) }

/-! ## Pagination (`internal/cli/commands.go`) -/

/-- The loop over `parts` in `nextLink`. -/
def nextLinkParts : List String → String
  | [] => ""
  | part :: rest =>
    match strings.Split (strings.TrimSpace part) ';' with
    | s0 :: s1 :: _ =>
      let urlPart := strings.TrimSpace s0
      let relPart := strings.TrimSpace s1
      if strings.Contains relPart "rel=\"next\"" then strings.Trim urlPart "<>"
      else nextLinkParts rest
    | _ => nextLinkParts rest

/-- `nextLink` in commands.go. -/
def nextLink (headers : Header) : String :=
  let linkHeader :=
    match headers.find? (fun kv => strings.EqualFold kv.1 "Link" && kv.2.length > 0) with
    | some (_, v :: _) => v
    | _ => ""
  if linkHeader == "" then ""
  else nextLinkParts (strings.Split linkHeader ',')

/-- The kind named in the message of a `json.UnmarshalTypeError`. -/
def JSON.kind : JSON → String
  | .null => "null"
  | .bool _ => "bool"
  | .number _ => "number"
  | .string _ => "string"
  | .array _ => "array"
  | .object _ => "object"

/-- Go `json.Unmarshal(body, &page)` for `page` of type `[]json.RawMessage`: an
array yields its elements, `null` yields the nil slice, any other value is a
type error, and a body that is not JSON is a syntax error. -/
def unmarshalRawMessages (env : Env) (body : String) : Except GoError (List JSON) :=
  match env.jsonParse body with
  | .error e => .error e
  | .ok (.array elems) => .ok elems
  | .ok .null => .ok []
  | .ok v => .error (.other ("json: cannot unmarshal " ++ v.kind ++
      " into Go value of type []json.RawMessage"))

/-- `printJSONResponse` in commands.go. -/
def printJSONResponse (env : Env) (w : World) (resp : Response) : Int × World :=
  if resp.Body.length = 0 then
    match printJSON env w (.object [("status", .number (fmt.Sprintd resp.Status))]) with
    | .error e => handleErr w "" (some e)
    | .ok w1 => (0, w1)
  else
    match printJSONBytes env w resp.Body with
    | .error e => handleErr w "" (some e)
    | .ok w1 => (0, w1)

/-- `outputListRows` in commands.go. -/
def outputListRows (w : World) (ctx : Context) (body : String)
    (headers : List String) (rowFn : String → Except GoError (List (List String))) :
    Int × World :=
  match rowFn body with
  | .error e => handleErr w "" (some e)
  | .ok rows => (0, printTable w headers rows ctx.Output.Plain)

/-- `outputListOrJSON` in commands.go. -/
def outputListOrJSON (env : Env) (w : World) (ctx : Context) (resp : Response)
    (headers : List String) (rowFn : String → Except GoError (List (List String))) :
    Int × World :=
  if ctx.Output.JSON then printJSONResponse env w resp
  else outputListRows w ctx resp.Body headers rowFn

/-- The `for` loop of `listWithPagination` taken when `ctx.Output.JSON` is set
(lines 1042 to 1062), one unit of fuel per iteration. -/
def jsonPagesLoop (env : Env) (ctx : Context) (help : String) :
    Nat → World → List JSON → String → Option Values → Option (Int × World)
  | 0, _, _, _, _ => none
  | fuel + 1, w, combined, nextPath, nextQuery =>
    match ctx.Client.Do env w "GET" nextPath nextQuery none "" none with
    | (.error e, w1) => some (handleErr w1 help (some e))
    | (.ok resp, w1) =>
      match unmarshalRawMessages env resp.Body with
      | .error e => some (handleErr w1 help (some e))
      | .ok page =>
        if nextLink resp.Headers == "" then
          match printJSON env w1 (.array (combined ++ page)) with
          | .error e => some (handleErr w1 help (some e))
          | .ok w2 => some (0, w2)
        else jsonPagesLoop env ctx help fuel w1 (combined ++ page) (nextLink resp.Headers) none

/-- The `for` loop of `listWithPagination` for tabular output (lines 1068 to
1090), one unit of fuel per iteration. -/
def rowPagesLoop (env : Env) (ctx : Context) (help : String) (headers : List String)
    (rowFn : String → Except GoError (List (List String))) :
    Nat → World → Bool → String → Option Values → Option (Int × World)
  | 0, _, _, _, _ => none
  | fuel + 1, w, printedHeader, nextPath, nextQuery =>
    match ctx.Client.Do env w "GET" nextPath nextQuery none "" none with
    | (.error e, w1) => some (handleErr w1 help (some e))
    | (.ok resp, w1) =>
      match rowFn resp.Body with
      | .error e => some (handleErr w1 help (some e))
      | .ok rows =>
        let w2 :=
          if !printedHeader then printTable w1 headers rows ctx.Output.Plain
          else printTable w1 [] rows true
        if nextLink resp.Headers == "" then some (0, w2)
        else rowPagesLoop env ctx help headers rowFn fuel w2 true (nextLink resp.Headers) none

/-- `listWithPagination` in commands.go. `none` means the fuel ran out before
the loop ended. -/
def listWithPagination (env : Env) (fuel : Nat) (w : World) (ctx : Context) (help path : String)
    (query : Option Values) (all : Bool) (headers : List String)
    (rowFn : String → Except GoError (List (List String))) : Option (Int × World) :=
  if !all then
    match ctx.Client.Do env w "GET" path query none "" none with
    | (.error e, w1) => some (handleErr w1 help (some e))
    | (.ok resp, w1) => some (outputListOrJSON env w1 ctx resp headers rowFn)
  else if ctx.Output.JSON then
    jsonPagesLoop env ctx help fuel w [] path query
  else
    rowPagesLoop env ctx help headers rowFn fuel w false path query

/-! ## Go standard library: decoding with `encoding/json`

`json.Unmarshal` first checks the syntax of the whole body (`Env.jsonParse`) and
then stores the value into the target. The functions below follow the decoder
over the parsed value. A value of the wrong kind is a type error; the decoder
records the first one and returns it at the end, and every caller in format.go
discards the target when an error is returned, so decoding stops here at the
first type error. The message of a type error names the kind of the JSON value
and the Go type of the target; the field path Go adds to it is left out. -/

namespace json

/-- The `json.UnmarshalTypeError` for a JSON value described by `value` and a
target of type `goType`. -/
def typeError (value goType : String) : GoError :=
  .other ("json: cannot unmarshal " ++ value ++ " into Go value of type " ++ goType)

/-- Whether the member name `key` selects the field tagged `name`: the decoder
looks for an exact match first and for a match under case folding next; the
field names of one record stay distinct under case folding. -/
def selects (key name : String) : Bool :=
  strings.EqualFold key name

/-- Go `strconv.ParseInt(lit, 10, 64)`: an optional sign, then one or more
decimal digits, the value within the range of `int64`. -/
def parseInt64 (lit : String) : Option Int :=
  let digits := match lit.data with
    | '-' :: ds => ds
    | '+' :: ds => ds
    | ds => ds
  if digits.isEmpty || !digits.all Char.isDigit then none
  else
    let n : Int := digits.foldl (fun acc d => acc * 10 + (d.toNat - '0'.toNat)) 0
    let v : Int := if lit.data.head? = some '-' then -n else n
    if -9223372036854775808 ≤ v ∧ v ≤ 9223372036854775807 then some v else none

/-- Storing a value into a `string`: `null` leaves the target as it is. -/
def decodeString (cur : String) : JSON → Except GoError String
  | .null => .ok cur
  | .string s => .ok s
  | v => .error (typeError v.kind "string")

/-- Storing a value into a `bool`. -/
def decodeBool (cur : Bool) : JSON → Except GoError Bool
  | .null => .ok cur
  | .bool b => .ok b
  | v => .error (typeError v.kind "bool")

/-- Storing a value into an `int` (64 bits): the literal has to be an integer in
range. -/
def decodeInt (cur : Int) : JSON → Except GoError Int
  | .null => .ok cur
  | .number lit =>
    match parseInt64 lit with
    | some n => .ok n
    | none => .error (typeError ("number " ++ lit) "int")
  | v => .error (typeError v.kind "int")

/-- The members of an object stored one after the other, in document order, into
the record `cur`; `setField` stores one member. -/
def decodeMembers {α : Type} (setField : α → String → JSON → Except GoError α) :
    α → List (String × JSON) → Except GoError α
  | cur, [] => .ok cur
  | cur, (key, v) :: rest =>
    match setField cur key v with
    | .error e => .error e
    | .ok next => decodeMembers setField next rest

/-- Storing a value into a struct: `null` leaves it as it is, an object stores its
members into it. -/
def decodeStruct {α : Type} (setField : α → String → JSON → Except GoError α) (goType : String)
    (cur : α) : JSON → Except GoError α
  | .null => .ok cur
  | .object members => decodeMembers setField cur members
  | v => .error (typeError v.kind goType)

/-- The elements of an array stored into a slice whose backing array holds
`cur`: element `i` is stored into the `i`-th element of the backing array, if
there is one, and into a zero value otherwise (the decoder grows the slice one
element at a time and new room is zeroed); the slice ends with as many elements
as the array. For a slice decoded from a fresh variable `cur` is empty. -/
def decodeElems {α : Type} (decodeElem : α → JSON → Except GoError α) (zero : α) :
    List α → List JSON → Except GoError (List α)
  | _, [] => .ok []
  | cur, e :: es =>
    match decodeElem (cur.headD zero) e with
    | .error err => .error err
    | .ok x =>
      match decodeElems decodeElem zero cur.tail es with
      | .error err => .error err
      | .ok xs => .ok (x :: xs)

/-- Storing a value into a slice: `null` makes it nil, an array stores its
elements. -/
def decodeSlice {α : Type} (decodeElem : α → JSON → Except GoError α) (zero : α)
    (goType : String) (cur : List α) : JSON → Except GoError (List α)
  | .null => .ok []
  | .array elems => decodeElems decodeElem zero cur elems
  | v => .error (typeError v.kind goType)

/-- Storing a value into a slice that a record holds, where an earlier member
of the same document may have stored an array already. `cur` is the slice and
`spare` is what its backing array holds after the last element of the slice:
the elements that an earlier, longer array stored and a shorter one cut off
(`v.SetLen(i)` truncates without clearing). An array stores element `i` into
the `i`-th element of `cur` followed by `spare` (`v.SetLen(i + 1)` re-exposes
what the backing array holds) and into a zero value beyond; what it does not
reach stays in the backing array. `null` makes the slice nil and an empty array
makes it a new empty slice, both without a backing array. The result is the new
slice and what its backing array holds after it. -/
def decodeSliceField {α : Type} (decodeElem : α → JSON → Except GoError α) (zero : α)
    (goType : String) (cur spare : List α) : JSON → Except GoError (List α × List α)
  | .null => .ok ([], [])
  | .array [] => .ok ([], [])
  | .array (e :: es) =>
    match decodeElems decodeElem zero (cur ++ spare) (e :: es) with
    | .error err => .error err
    | .ok xs => .ok (xs, (cur ++ spare).drop (e :: es).length)
  | v => .error (typeError v.kind goType)

/-- Go `json.Unmarshal(body, &target)`, with `decode` storing the parsed value
into the target. -/
def Unmarshal {α : Type} (env : Env) (body : String) (decode : JSON → Except GoError α) :
    Except GoError α :=
  match env.jsonParse body with
  | .error e => .error e
  | .ok v => decode v

end json

/-! ## Records, row mappers and detail formats (`internal/cli/format.go`) -/

/-- `boardListHeaders` in format.go. -/
def boardListHeaders : List String := ["ID", "NAME", "ALL_ACCESS", "CREATED"]

/-- `cardListHeaders` in format.go. -/
def cardListHeaders : List String := ["#", "TITLE", "STATUS", "BOARD", "LAST_ACTIVE"]

/-- `commentListHeaders` in format.go. -/
def commentListHeaders : List String := ["ID", "CREATOR", "BODY", "CREATED"]

/-- `tagListHeaders` in format.go. -/
def tagListHeaders : List String := ["ID", "TITLE"]

/-- `columnListHeaders` in format.go. -/
def columnListHeaders : List String := ["ID", "NAME", "COLOR"]

/-- `userListHeaders` in format.go. -/
def userListHeaders : List String := ["ID", "NAME", "ROLE", "EMAIL"]

/-- `notificationListHeaders` in format.go. -/
def notificationListHeaders : List String := ["ID", "READ", "TITLE", "CARD", "CREATED"]

/-- `type user struct` in format.go. -/
structure user where
  ID : String
  Name : String
  Role : String
  Email : String
  deriving DecidableEq, Repr

/-- `type board struct` in format.go. -/
structure board where
  ID : String
  Name : String
  AllAccess : Bool
  CreatedAt : String
  Creator : user
  URL : String
  deriving DecidableEq, Repr

/-- `type step struct` in format.go. -/
structure step where
  ID : String
  Content : String
  Completed : Bool
  deriving DecidableEq, Repr

/-- `type card struct` in format.go. `TagsSpare` and `StepsSpare` are not fields
of the Go struct: they are what the backing arrays of `Tags` and `Steps` hold
after the last element of the slice (see `json.decodeSliceField`). -/
structure card where
  ID : String
  Number : Int
  Title : String
  Status : String
  Description : String
  Tags : List String
  Golden : Bool
  LastActiveAt : String
  CreatedAt : String
  Board : board
  Creator : user
  Steps : List step
  TagsSpare : List String
  StepsSpare : List step
  deriving DecidableEq, Repr

/-- The anonymous struct of the field `Body` of `comment`. -/
structure commentBody where
  Plain : String
  deriving DecidableEq, Repr

/-- `type comment struct` in format.go. -/
structure comment where
  ID : String
  CreatedAt : String
  Body : commentBody
  Creator : user
  deriving DecidableEq, Repr

/-- `type tag struct` in format.go. -/
structure tag where
  ID : String
  Title : String
  deriving DecidableEq, Repr

/-- `type column struct` in format.go. -/
structure column where
  ID : String
  Name : String
  Color : String
  CreatedAt : String
  deriving DecidableEq, Repr

/-- The anonymous struct of the field `Card` of `notification`. -/
structure notificationCard where
  Title : String
  deriving DecidableEq, Repr

/-- `type notification struct` in format.go. -/
structure notification where
  ID : String
  Read : Bool
  CreatedAt : String
  Title : String
  Body : String
  Card : notificationCard
  deriving DecidableEq, Repr

/-- The anonymous struct of the elements of `identity.Accounts`. -/
structure account where
  Name : String
  Slug : String
  User : user
  deriving DecidableEq, Repr

/-- `type identity struct` in format.go. `AccountsSpare` is what the backing
array of `Accounts` holds after the last element of the slice (see
`json.decodeSliceField`). -/
structure identity where
  Accounts : List account
  AccountsSpare : List account
  deriving DecidableEq, Repr

/-- The zero value of `user`. -/
def user.zero : user := ⟨"", "", "", ""⟩

/-- The zero value of `board`. -/
def board.zero : board := ⟨"", "", false, "", user.zero, ""⟩

/-- The zero value of `step`. -/
def step.zero : step := ⟨"", "", false⟩

/-- The zero value of `card`. -/
def card.zero : card :=
  ⟨"", 0, "", "", "", [], false, "", "", board.zero, user.zero, [], [], []⟩

/-- The zero value of `commentBody`. -/
def commentBody.zero : commentBody := ⟨""⟩

/-- The zero value of `comment`. -/
def comment.zero : comment := ⟨"", "", commentBody.zero, user.zero⟩

/-- The zero value of `tag`. -/
def tag.zero : tag := ⟨"", ""⟩

/-- The zero value of `column`. -/
def column.zero : column := ⟨"", "", "", ""⟩

/-- The zero value of `notificationCard`. -/
def notificationCard.zero : notificationCard := ⟨""⟩

/-- The zero value of `notification`. -/
def notification.zero : notification := ⟨"", false, "", "", "", notificationCard.zero⟩

/-- The zero value of `account`. -/
def account.zero : account := ⟨"", "", user.zero⟩

/-- The zero value of `identity`. -/
def identity.zero : identity := ⟨[], []⟩

/-- One member of an object stored into a `user`, by the `json` tags of its
fields; a member that selects no field is skipped. -/
def user.setField (u : user) (key : String) (v : JSON) : Except GoError user :=
  if json.selects key "id" then (json.decodeString u.ID v).map (fun x => { u with ID := x })
  else if json.selects key "name" then
    (json.decodeString u.Name v).map (fun x => { u with Name := x })
  else if json.selects key "role" then
    (json.decodeString u.Role v).map (fun x => { u with Role := x })
  else if json.selects key "email_address" then
    (json.decodeString u.Email v).map (fun x => { u with Email := x })
  else .ok u

/-- Storing a value into a `user`. -/
def user.decode : user → JSON → Except GoError user :=
  json.decodeStruct user.setField "cli.user"

/-- One member of an object stored into a `board`. -/
def board.setField (b : board) (key : String) (v : JSON) : Except GoError board :=
  if json.selects key "id" then (json.decodeString b.ID v).map (fun x => { b with ID := x })
  else if json.selects key "name" then
    (json.decodeString b.Name v).map (fun x => { b with Name := x })
  else if json.selects key "all_access" then
    (json.decodeBool b.AllAccess v).map (fun x => { b with AllAccess := x })
  else if json.selects key "created_at" then
    (json.decodeString b.CreatedAt v).map (fun x => { b with CreatedAt := x })
  else if json.selects key "creator" then
    (user.decode b.Creator v).map (fun x => { b with Creator := x })
  else if json.selects key "url" then
    (json.decodeString b.URL v).map (fun x => { b with URL := x })
  else .ok b

/-- Storing a value into a `board`. -/
def board.decode : board → JSON → Except GoError board :=
  json.decodeStruct board.setField "cli.board"

/-- One member of an object stored into a `step`. -/
def step.setField (s : step) (key : String) (v : JSON) : Except GoError step :=
  if json.selects key "id" then (json.decodeString s.ID v).map (fun x => { s with ID := x })
  else if json.selects key "content" then
    (json.decodeString s.Content v).map (fun x => { s with Content := x })
  else if json.selects key "completed" then
    (json.decodeBool s.Completed v).map (fun x => { s with Completed := x })
  else .ok s

/-- Storing a value into a `step`. -/
def step.decode : step → JSON → Except GoError step :=
  json.decodeStruct step.setField "cli.step"

/-- One member of an object stored into a `card`. -/
def card.setField (c : card) (key : String) (v : JSON) : Except GoError card :=
  if json.selects key "id" then (json.decodeString c.ID v).map (fun x => { c with ID := x })
  else if json.selects key "number" then
    (json.decodeInt c.Number v).map (fun x => { c with Number := x })
  else if json.selects key "title" then
    (json.decodeString c.Title v).map (fun x => { c with Title := x })
  else if json.selects key "status" then
    (json.decodeString c.Status v).map (fun x => { c with Status := x })
  else if json.selects key "description" then
    (json.decodeString c.Description v).map (fun x => { c with Description := x })
  else if json.selects key "tags" then
    (json.decodeSliceField json.decodeString "" "[]string" c.Tags c.TagsSpare v).map
      (fun x => { c with Tags := x.1, TagsSpare := x.2 })
  else if json.selects key "golden" then
    (json.decodeBool c.Golden v).map (fun x => { c with Golden := x })
  else if json.selects key "last_active_at" then
    (json.decodeString c.LastActiveAt v).map (fun x => { c with LastActiveAt := x })
  else if json.selects key "created_at" then
    (json.decodeString c.CreatedAt v).map (fun x => { c with CreatedAt := x })
  else if json.selects key "board" then
    (board.decode c.Board v).map (fun x => { c with Board := x })
  else if json.selects key "creator" then
    (user.decode c.Creator v).map (fun x => { c with Creator := x })
  else if json.selects key "steps" then
    (json.decodeSliceField step.decode step.zero "[]cli.step" c.Steps c.StepsSpare v).map
      (fun x => { c with Steps := x.1, StepsSpare := x.2 })
  else .ok c

/-- Storing a value into a `card`. -/
def card.decode : card → JSON → Except GoError card :=
  json.decodeStruct card.setField "cli.card"

/-- One member of an object stored into the `Body` of a `comment`. -/
def commentBody.setField (b : commentBody) (key : String) (v : JSON) :
    Except GoError commentBody :=
  if json.selects key "plain_text" then
    (json.decodeString b.Plain v).map (fun x => { b with Plain := x })
  else .ok b

/-- Storing a value into the `Body` of a `comment`. -/
def commentBody.decode : commentBody → JSON → Except GoError commentBody :=
  json.decodeStruct commentBody.setField "struct \x7b Plain string \"json:\\\"plain_text\\\"\" \x7d"

/-- One member of an object stored into a `comment`. -/
def comment.setField (c : comment) (key : String) (v : JSON) : Except GoError comment :=
  if json.selects key "id" then (json.decodeString c.ID v).map (fun x => { c with ID := x })
  else if json.selects key "created_at" then
    (json.decodeString c.CreatedAt v).map (fun x => { c with CreatedAt := x })
  else if json.selects key "body" then
    (commentBody.decode c.Body v).map (fun x => { c with Body := x })
  else if json.selects key "creator" then
    (user.decode c.Creator v).map (fun x => { c with Creator := x })
  else .ok c

/-- Storing a value into a `comment`. -/
def comment.decode : comment → JSON → Except GoError comment :=
  json.decodeStruct comment.setField "cli.comment"

/-- One member of an object stored into a `tag`. -/
def tag.setField (t : tag) (key : String) (v : JSON) : Except GoError tag :=
  if json.selects key "id" then (json.decodeString t.ID v).map (fun x => { t with ID := x })
  else if json.selects key "title" then
    (json.decodeString t.Title v).map (fun x => { t with Title := x })
  else .ok t

/-- Storing a value into a `tag`. -/
def tag.decode : tag → JSON → Except GoError tag :=
  json.decodeStruct tag.setField "cli.tag"

/-- One member of an object stored into a `column`. -/
def column.setField (c : column) (key : String) (v : JSON) : Except GoError column :=
  if json.selects key "id" then (json.decodeString c.ID v).map (fun x => { c with ID := x })
  else if json.selects key "name" then
    (json.decodeString c.Name v).map (fun x => { c with Name := x })
  else if json.selects key "color" then
    (json.decodeString c.Color v).map (fun x => { c with Color := x })
  else if json.selects key "created_at" then
    (json.decodeString c.CreatedAt v).map (fun x => { c with CreatedAt := x })
  else .ok c

/-- Storing a value into a `column`. -/
def column.decode : column → JSON → Except GoError column :=
  json.decodeStruct column.setField "cli.column"

/-- One member of an object stored into the `Card` of a `notification`. -/
def notificationCard.setField (c : notificationCard) (key : String) (v : JSON) :
    Except GoError notificationCard :=
  if json.selects key "title" then
    (json.decodeString c.Title v).map (fun x => { c with Title := x })
  else .ok c

/-- Storing a value into the `Card` of a `notification`. -/
def notificationCard.decode : notificationCard → JSON → Except GoError notificationCard :=
  json.decodeStruct notificationCard.setField "struct \x7b Title string \"json:\\\"title\\\"\" \x7d"

/-- One member of an object stored into a `notification`. -/
def notification.setField (n : notification) (key : String) (v : JSON) :
    Except GoError notification :=
  if json.selects key "id" then (json.decodeString n.ID v).map (fun x => { n with ID := x })
  else if json.selects key "read" then
    (json.decodeBool n.Read v).map (fun x => { n with Read := x })
  else if json.selects key "created_at" then
    (json.decodeString n.CreatedAt v).map (fun x => { n with CreatedAt := x })
  else if json.selects key "title" then
    (json.decodeString n.Title v).map (fun x => { n with Title := x })
  else if json.selects key "body" then
    (json.decodeString n.Body v).map (fun x => { n with Body := x })
  else if json.selects key "card" then
    (notificationCard.decode n.Card v).map (fun x => { n with Card := x })
  else .ok n

/-- Storing a value into a `notification`. -/
def notification.decode : notification → JSON → Except GoError notification :=
  json.decodeStruct notification.setField "cli.notification"

/-- One member of an object stored into an element of `identity.Accounts`. -/
def account.setField (a : account) (key : String) (v : JSON) : Except GoError account :=
  if json.selects key "name" then
    (json.decodeString a.Name v).map (fun x => { a with Name := x })
  else if json.selects key "slug" then
    (json.decodeString a.Slug v).map (fun x => { a with Slug := x })
  else if json.selects key "user" then
    (user.decode a.User v).map (fun x => { a with User := x })
  else .ok a

/-- Storing a value into an element of `identity.Accounts`. -/
def account.decode : account → JSON → Except GoError account :=
  json.decodeStruct account.setField
    "struct \x7b Name string \"json:\\\"name\\\"\"; Slug string \"json:\\\"slug\\\"\"; User cli.user \"json:\\\"user\\\"\" \x7d"

/-- One member of an object stored into an `identity`. -/
def identity.setField (i : identity) (key : String) (v : JSON) : Except GoError identity :=
  if json.selects key "accounts" then
    (json.decodeSliceField account.decode account.zero
      "[]struct \x7b Name string \"json:\\\"name\\\"\"; Slug string \"json:\\\"slug\\\"\"; User cli.user \"json:\\\"user\\\"\" \x7d"
      i.Accounts i.AccountsSpare v).map
      (fun x => { i with Accounts := x.1, AccountsSpare := x.2 })
  else .ok i

/-- Storing a value into an `identity`. -/
def identity.decode : identity → JSON → Except GoError identity :=
  json.decodeStruct identity.setField "cli.identity"

/-- `identityToRows` in format.go. -/
def identityToRows (env : Env) (body : String) : Except GoError (List (List String)) :=
  match json.Unmarshal env body (identity.decode identity.zero) with
  | .error e => .error e
  | .ok id =>
    .ok (id.Accounts.map (fun acct => [strings.TrimPrefix acct.Slug "/", acct.Name, acct.User.Name]))

/-- `boardListRows` in format.go. -/
def boardListRows (env : Env) (body : String) : Except GoError (List (List String)) :=
  match json.Unmarshal env body (json.decodeSlice board.decode board.zero "[]cli.board" []) with
  | .error e => .error e
  | .ok boards => .ok (boards.map (fun b => [b.ID, b.Name, fmt.Sprintt b.AllAccess, b.CreatedAt]))

/-- `cardListRows` in format.go. -/
def cardListRows (env : Env) (body : String) : Except GoError (List (List String)) :=
  match json.Unmarshal env body (json.decodeSlice card.decode card.zero "[]cli.card" []) with
  | .error e => .error e
  | .ok cards =>
    .ok (cards.map (fun c => [fmt.Sprintd c.Number, c.Title, c.Status, c.Board.Name, c.LastActiveAt]))

/-- `commentListRows` in format.go. -/
def commentListRows (env : Env) (body : String) : Except GoError (List (List String)) :=
  match json.Unmarshal env body
      (json.decodeSlice comment.decode comment.zero "[]cli.comment" []) with
  | .error e => .error e
  | .ok comments => .ok (comments.map (fun c => [c.ID, c.Creator.Name, c.Body.Plain, c.CreatedAt]))

/-- `tagListRows` in format.go. -/
def tagListRows (env : Env) (body : String) : Except GoError (List (List String)) :=
  match json.Unmarshal env body (json.decodeSlice tag.decode tag.zero "[]cli.tag" []) with
  | .error e => .error e
  | .ok tags => .ok (tags.map (fun t => [t.ID, t.Title]))

/-- `columnListRows` in format.go. -/
def columnListRows (env : Env) (body : String) : Except GoError (List (List String)) :=
  match json.Unmarshal env body (json.decodeSlice column.decode column.zero "[]cli.column" []) with
  | .error e => .error e
  | .ok cols => .ok (cols.map (fun c => [c.ID, c.Name, c.Color]))

/-- `userListRows` in format.go. -/
def userListRows (env : Env) (body : String) : Except GoError (List (List String)) :=
  match json.Unmarshal env body (json.decodeSlice user.decode user.zero "[]cli.user" []) with
  | .error e => .error e
  | .ok users => .ok (users.map (fun u => [u.ID, u.Name, u.Role, u.Email]))

/-- `notificationListRows` in format.go. -/
def notificationListRows (env : Env) (body : String) : Except GoError (List (List String)) :=
  match json.Unmarshal env body
      (json.decodeSlice notification.decode notification.zero "[]cli.notification" []) with
  | .error e => .error e
  | .ok notes =>
    .ok (notes.map (fun n =>
      [n.ID, if n.Read then "yes" else "no", n.Title, n.Card.Title, n.CreatedAt]))

/-- `formatBoard` in format.go. -/
def formatBoard (env : Env) (body : String) : Except GoError String :=
  match json.Unmarshal env body (board.decode board.zero) with
  | .error e => .error e
  | .ok b =>
    .ok ("ID: " ++ b.ID ++ "\nName: " ++ b.Name ++ "\nAll access: " ++ fmt.Sprintt b.AllAccess ++
      "\nCreated: " ++ b.CreatedAt ++ "\nCreator: " ++ b.Creator.Name ++ "\nURL: " ++ b.URL)

/-- The lines `formatCard` writes for the steps of a card. -/
def formatSteps (steps : List step) : String :=
  String.join (steps.map (fun s =>
    "- [" ++ (if s.Completed then "x" else " ") ++ "] " ++ s.Content ++ "\n"))

/-- `formatCard` in format.go. -/
def formatCard (env : Env) (body : String) : Except GoError String :=
  match json.Unmarshal env body (card.decode card.zero) with
  | .error e => .error e
  | .ok c =>
    let builder := "ID: " ++ c.ID ++ "\n"
    let builder := builder ++ "Number: " ++ fmt.Sprintd c.Number ++ "\n"
    let builder := builder ++ "Title: " ++ c.Title ++ "\n"
    let builder := builder ++ "Status: " ++ c.Status ++ "\n"
    let builder := builder ++ "Board: " ++ c.Board.Name ++ "\n"
    let builder := builder ++ "Creator: " ++ c.Creator.Name ++ "\n"
    let builder :=
      if c.Tags.length > 0 then builder ++ "Tags: " ++ strings.Join c.Tags ", " ++ "\n"
      else builder
    let builder := if c.Golden then builder ++ "Golden: true\n" else builder
    let builder :=
      if c.LastActiveAt != "" then builder ++ "Last active: " ++ c.LastActiveAt ++ "\n"
      else builder
    let builder :=
      if c.CreatedAt != "" then builder ++ "Created: " ++ c.CreatedAt ++ "\n" else builder
    let builder :=
      if c.Description != "" then builder ++ "\nDescription:\n" ++ c.Description ++ "\n"
      else builder
    let builder :=
      if c.Steps.length > 0 then builder ++ "\nSteps:\n" ++ formatSteps c.Steps else builder
    .ok (strings.TrimSpace builder)

/-- `formatComment` in format.go. -/
def formatComment (env : Env) (body : String) : Except GoError String :=
  match json.Unmarshal env body (comment.decode comment.zero) with
  | .error e => .error e
  | .ok c =>
    .ok ("ID: " ++ c.ID ++ "\nCreator: " ++ c.Creator.Name ++ "\nCreated: " ++ c.CreatedAt ++
      "\nBody: " ++ c.Body.Plain)

/-- `formatColumn` in format.go. -/
def formatColumn (env : Env) (body : String) : Except GoError String :=
  match json.Unmarshal env body (column.decode column.zero) with
  | .error e => .error e
  | .ok c =>
    .ok ("ID: " ++ c.ID ++ "\nName: " ++ c.Name ++ "\nColor: " ++ c.Color ++ "\nCreated: " ++
      c.CreatedAt)

/-- `formatUser` in format.go. -/
def formatUser (env : Env) (body : String) : Except GoError String :=
  match json.Unmarshal env body (user.decode user.zero) with
  | .error e => .error e
  | .ok u =>
    .ok ("ID: " ++ u.ID ++ "\nName: " ++ u.Name ++ "\nRole: " ++ u.Role ++ "\nEmail: " ++ u.Email)

/-! ## Commands (`internal/cli/cli.go`, `internal/cli/help.go`, `internal/cli/commands.go`) -/

/-- `helpForAccount` in help.go. -/
def helpForAccount : String :=
  "USAGE:\n" ++
  "  fizzy-cli account list\n" ++
  "  fizzy-cli account set <account-slug>\n" ++
  "\n" ++
  "NOTES:\n" ++
  "  Account slugs can be provided with or without a leading slash.\n"

/-- `helpForBoard` in help.go. -/
def helpForBoard : String :=
  "USAGE:\n" ++
  "  fizzy-cli board list\n" ++
  "  fizzy-cli board get <board-id>\n" ++
  "  fizzy-cli board create --name <name> [--all-access] [--auto-postpone-days N] [--public-description TEXT]\n" ++
  "  fizzy-cli board update <board-id> [--name <name>] [--all-access] [--no-all-access] [--auto-postpone-days N] [--public-description TEXT] [--user-id ID ...]\n" ++
  "  fizzy-cli board delete <board-id>\n"

/-- `helpForCard` in help.go. -/
def helpForCard : String :=
  "USAGE:\n" ++
  "  fizzy-cli card list [filters]\n" ++
  "  fizzy-cli card get <card-number>\n" ++
  "  fizzy-cli card create --board-id <board-id> --title <title> [--description TEXT] [--status drafted|published] [--tag-id ID ...] [--image PATH]\n" ++
  "  fizzy-cli card update <card-number> [--title TEXT] [--description TEXT] [--status drafted|published] [--tag-id ID ...] [--image PATH]\n" ++
  "  fizzy-cli card delete <card-number>\n" ++
  "  fizzy-cli card close <card-number>\n" ++
  "  fizzy-cli card reopen <card-number>\n" ++
  "  fizzy-cli card not-now <card-number>\n" ++
  "  fizzy-cli card triage <card-number> --column-id <column-id>\n" ++
  "  fizzy-cli card untriage <card-number>\n" ++
  "  fizzy-cli card tag <card-number> --title <tag-title>\n" ++
  "  fizzy-cli card assign <card-number> --assignee-id <user-id>\n" ++
  "  fizzy-cli card watch <card-number>\n" ++
  "  fizzy-cli card unwatch <card-number>\n" ++
  "\n" ++
  "FILTERS:\n" ++
  "  --board-id ID           repeatable\n" ++
  "  --tag-id ID             repeatable\n" ++
  "  --assignee-id ID        repeatable\n" ++
  "  --creator-id ID         repeatable\n" ++
  "  --closer-id ID          repeatable\n" ++
  "  --card-id ID            repeatable\n" ++
  "  --indexed-by VALUE      all|closed|not_now|stalled|postponing_soon|golden\n" ++
  "  --sorted-by VALUE       latest|newest|oldest\n" ++
  "  --assignment-status     unassigned\n" ++
  "  --creation VALUE        today|yesterday|thisweek|lastweek|thismonth|lastmonth|thisyear|lastyear\n" ++
  "  --closure VALUE         today|yesterday|thisweek|lastweek|thismonth|lastmonth|thisyear|lastyear\n" ++
  "  --term VALUE            repeatable search terms\n" ++
  "  --all                   follow pagination\n"

/-- `helpForComment` in help.go. -/
def helpForComment : String :=
  "USAGE:\n" ++
  "  fizzy-cli comment list <card-number>\n" ++
  "  fizzy-cli comment get <card-number> <comment-id>\n" ++
  "  fizzy-cli comment create <card-number> --body <text>\n" ++
  "  fizzy-cli comment update <card-number> <comment-id> --body <text>\n" ++
  "  fizzy-cli comment delete <card-number> <comment-id>\n"

/-- `helpForTag` in help.go. -/
def helpForTag : String :=
  "USAGE:\n" ++
  "  fizzy-cli tag list\n"

/-- `helpForColumn` in help.go. -/
def helpForColumn : String :=
  "USAGE:\n" ++
  "  fizzy-cli column list --board-id <board-id>\n" ++
  "  fizzy-cli column get --board-id <board-id> <column-id>\n" ++
  "  fizzy-cli column create --board-id <board-id> --name <name> [--color <color>]\n" ++
  "  fizzy-cli column update --board-id <board-id> <column-id> [--name <name>] [--color <color>]\n" ++
  "  fizzy-cli column delete --board-id <board-id> <column-id>\n"

/-- `helpForUser` in help.go. -/
def helpForUser : String :=
  "USAGE:\n" ++
  "  fizzy-cli user list\n" ++
  "  fizzy-cli user get <user-id>\n" ++
  "  fizzy-cli user update <user-id> [--name <name>] [--avatar PATH]\n" ++
  "  fizzy-cli user deactivate <user-id>\n"

/-- `helpForNotification` in help.go. -/
def helpForNotification : String :=
  "USAGE:\n" ++
  "  fizzy-cli notification list [--unread]\n" ++
  "  fizzy-cli notification read <notification-id>\n" ++
  "  fizzy-cli notification unread <notification-id>\n" ++
  "  fizzy-cli notification read-all\n"

/-- `ensureAccount` in cli.go. -/
def ensureAccount (ctx : Context) : Option GoError :=
  if ctx.Account == "" then
    some (.usage
      "missing account slug; set --account or FIZZY_ACCOUNT, or run \x27fizzy-cli account set\x27")
  else none

/-- `ensureToken` in cli.go. -/
def ensureToken (ctx : Context) : Option GoError :=
  if ctx.Token == "" && ctx.SessionToken == "" then
    some (.usage
      "missing credentials; set --token or FIZZY_TOKEN, or run \x27fizzy-cli auth login\x27")
  else none

/-- `withAccount` in cli.go. -/
def withAccount (ctx : Context) (path : String) : String :=
  "/" ++ ctx.Account ++ path

/-- Values of the flags of a flag set after `fs.Parse`: of the flags registered
with `fs.String`, with `fs.Bool` and with `fs.Var` on a `multiString`, by flag
name. -/
structure FlagValues where
  string : String → String
  bool : String → Bool
  values : String → List String

/-- What the `flag` package decides for the flag set of a sub-command:
`parse name args` is the outcome of `fs.Parse(args)` on the flag set that the
source creates with `flag.NewFlagSet(name, flag.ContinueOnError)` and the flags
it registers on it. -/
structure FlagSets where
  parse : String → List String → Except FlagError FlagValues

/-- The cases of the command switches that send data (create, update, delete
and the card actions), which the properties stated here do not look into: each
receives the context and the arguments of its command. `accountSet` stands for
the `set` case of `runAccount`, which is modelled by the function `accountSet`
further down and passed by `Run`. -/
structure WriteCommands where
  board : World → Context → List String → Int × World
  card : World → Context → List String → Int × World
  comment : World → Context → List String → Int × World
  column : World → Context → List String → Int × World
  user : World → Context → List String → Int × World
  accountSet : World → Context → List String → Int × World

/-- `usageError` in commands.go. -/
def usageError (w : World) (help : String) (err : FlagError) : Int × World :=
  match err with
  | .errHelp => (0, { w with stdout := w.stdout ++ help })
  | .invalid msg => handleErr w help (some (.usage msg))

/-- `outputNoContent` in commands.go. -/
def outputNoContent (env : Env) (w : World) (ctx : Context) (resp : Response)
    (successMessage : String) : Int × World :=
  if ctx.Output.JSON then
    match printJSON env w (.object [("status", .number (fmt.Sprintd resp.Status))]) with
    | .error e => handleErr w "" (some e)
    | .ok w1 => (0, w1)
  else (0, { w with stdout := w.stdout ++ successMessage ++ ".\n" })

/-- `outputJSONOrPretty` in commands.go. -/
def outputJSONOrPretty (env : Env) (w : World) (ctx : Context) (body : String)
    (formatFn : String → Except GoError String) : Int × World :=
  if ctx.Output.JSON then
    match printJSONBytes env w body with
    | .error e => handleErr w "" (some e)
    | .ok w1 => (0, w1)
  else
    match formatFn body with
    | .error e => handleErr w "" (some e)
    | .ok text => (0, { w with stdout := w.stdout ++ text ++ "\n" })

/-- Go `url.Values.Add`. -/
def Values.Add (q : Values) (key value : String) : Values :=
  match q.lookup key with
  | some _ => q.map (fun kv => if kv.1 == key then (kv.1, kv.2 ++ [value]) else kv)
  | none => q ++ [(key, [value])]

/-- Go `url.Values.Set`. -/
def Values.Set (q : Values) (key value : String) : Values :=
  q.filter (fun kv => kv.1 != key) ++ [(key, [value])]

/-- `addListParam` in commands.go. -/
def addListParam (values : Values) (key : String) (list : List String) : Values :=
  list.foldl
    (fun q v => if strings.TrimSpace v != "" then Values.Add q key (strings.TrimSpace v) else q)
    values

/-- `setStringParam` in commands.go. -/
def setStringParam (values : Values) (key value : String) : Values :=
  if strings.TrimSpace value != "" then Values.Set values key (strings.TrimSpace value)
  else values

/-- `runAccount` in commands.go. -/
def runAccount (env : Env) (wr : WriteCommands) (w : World) (ctx : Context)
    (args : List String) : Int × World :=
  match args with
  | [] => (2, { w with stderr := w.stderr ++ helpForAccount })
  | cmd :: _ =>
    if cmd == "list" then
      match ensureToken ctx with
      | some err => handleErr w helpForAccount (some err)
      | none =>
        match ctx.Client.Do env w "GET" "/my/identity" none none "" none with
        | (.error e, w1) => handleErr w1 helpForAccount (some e)
        | (.ok resp, w1) =>
          if ctx.Output.JSON then printJSONResponse env w1 resp
          else
            match identityToRows env resp.Body with
            | .error e => handleErr w1 helpForAccount (some e)
            | .ok rows => (0, printTable w1 ["SLUG", "NAME", "USER"] rows ctx.Output.Plain)
    else if cmd == "set" then wr.accountSet w ctx args
    else (2, { w with stderr := w.stderr ++ helpForAccount })

/-- `runBoard` in commands.go. -/
def runBoard (env : Env) (wr : WriteCommands) (w : World) (ctx : Context)
    (args : List String) : Int × World :=
  match args with
  | [] => (2, { w with stderr := w.stderr ++ helpForBoard })
  | cmd :: rest =>
    match ensureToken ctx with
    | some err => handleErr w helpForBoard (some err)
    | none =>
      match ensureAccount ctx with
      | some err => handleErr w helpForBoard (some err)
      | none =>
        if cmd == "list" then
          match ctx.Client.Do env w "GET" (withAccount ctx "/boards") none none "" none with
          | (.error e, w1) => handleErr w1 helpForBoard (some e)
          | (.ok resp, w1) => outputListOrJSON env w1 ctx resp boardListHeaders (boardListRows env)
        else if cmd == "get" then
          match rest with
          | [] => handleErr w helpForBoard (some (.usage "board id is required"))
          | id :: _ =>
            match ctx.Client.Do env w "GET" (withAccount ctx ("/boards/" ++ id)) none none ""
                none with
            | (.error e, w1) => handleErr w1 helpForBoard (some e)
            | (.ok resp, w1) => outputJSONOrPretty env w1 ctx resp.Body (formatBoard env)
        else if cmd == "create" || cmd == "update" || cmd == "delete" then wr.board w ctx args
        else (2, { w with stderr := w.stderr ++ helpForBoard })

/-- The query that the `list` case of `runCard` builds from its flags (commands.go
lines 423 to 435). -/
def cardListQuery (v : FlagValues) : Values :=
  let query : Values := []
  let query := addListParam query "board_ids[]" (v.values "board-id")
  let query := addListParam query "tag_ids[]" (v.values "tag-id")
  let query := addListParam query "assignee_ids[]" (v.values "assignee-id")
  let query := addListParam query "creator_ids[]" (v.values "creator-id")
  let query := addListParam query "closer_ids[]" (v.values "closer-id")
  let query := addListParam query "card_ids[]" (v.values "card-id")
  let query := addListParam query "terms[]" (v.values "term")
  let query := setStringParam query "indexed_by" (v.string "indexed-by")
  let query := setStringParam query "sorted_by" (v.string "sorted-by")
  let query := setStringParam query "assignment_status" (v.string "assignment-status")
  let query := setStringParam query "creation" (v.string "creation")
  setStringParam query "closure" (v.string "closure")

/-- `simpleCardAction` in commands.go (its parameter `name` is not used there). -/
def simpleCardAction (env : Env) (w : World) (ctx : Context) (help : String)
    (args : List String) (method suffix message : String) : Int × World :=
  match args with
  | _ :: number :: _ =>
    match ctx.Client.Do env w method (withAccount ctx ("/cards/" ++ number ++ suffix)) none none ""
        none with
    | (.error e, w1) => handleErr w1 help (some e)
    | (.ok resp, w1) => outputNoContent env w1 ctx resp message
  | _ => handleErr w help (some (.usage "card number is required"))

/-- `runCard` in commands.go. `none` means the fuel of `listWithPagination` ran
out. -/
def runCard (env : Env) (fl : FlagSets) (wr : WriteCommands) (fuel : Nat) (w : World)
    (ctx : Context) (args : List String) : Option (Int × World) :=
  match args with
  | [] => some (2, { w with stderr := w.stderr ++ helpForCard })
  | cmd :: rest =>
    match ensureToken ctx with
    | some err => some (handleErr w helpForCard (some err))
    | none =>
      match ensureAccount ctx with
      | some err => some (handleErr w helpForCard (some err))
      | none =>
        if cmd == "list" then
          match fl.parse "card list" rest with
          | .error err => some (usageError w helpForCard err)
          | .ok v =>
            listWithPagination env fuel w ctx helpForCard (withAccount ctx "/cards")
              (some (cardListQuery v)) (v.bool "all") cardListHeaders (cardListRows env)
        else if cmd == "get" then
          match rest with
          | [] => some (handleErr w helpForCard (some (.usage "card number is required")))
          | number :: _ =>
            match ctx.Client.Do env w "GET" (withAccount ctx ("/cards/" ++ number)) none none ""
                none with
            | (.error e, w1) => some (handleErr w1 helpForCard (some e))
            | (.ok resp, w1) => some (outputJSONOrPretty env w1 ctx resp.Body (formatCard env))
        else if cmd == "close" then
          some (simpleCardAction env w ctx helpForCard args "POST" "/closure" "Card closed")
        else if cmd == "reopen" then
          some (simpleCardAction env w ctx helpForCard args "DELETE" "/closure" "Card reopened")
        else if cmd == "not-now" then
          some (simpleCardAction env w ctx helpForCard args "POST" "/not_now"
            "Card moved to Not Now")
        else if cmd == "untriage" then
          some (simpleCardAction env w ctx helpForCard args "DELETE" "/triage"
            "Card moved back to triage")
        else if cmd == "watch" then
          some (simpleCardAction env w ctx helpForCard args "POST" "/watch" "Subscribed to card")
        else if cmd == "unwatch" then
          some (simpleCardAction env w ctx helpForCard args "DELETE" "/watch"
            "Unsubscribed from card")
        else if cmd == "create" || cmd == "update" || cmd == "delete" || cmd == "triage" ||
            cmd == "tag" || cmd == "assign" then
          some (wr.card w ctx args)
        else some (2, { w with stderr := w.stderr ++ helpForCard })

/-- `runComment` in commands.go. -/
def runComment (env : Env) (wr : WriteCommands) (w : World) (ctx : Context)
    (args : List String) : Int × World :=
  match args with
  | [] => (2, { w with stderr := w.stderr ++ helpForComment })
  | cmd :: rest =>
    match ensureToken ctx with
    | some err => handleErr w helpForComment (some err)
    | none =>
      match ensureAccount ctx with
      | some err => handleErr w helpForComment (some err)
      | none =>
        if cmd == "list" then
          match rest with
          | [] => handleErr w helpForComment (some (.usage "card number is required"))
          | number :: _ =>
            match ctx.Client.Do env w "GET" (withAccount ctx ("/cards/" ++ number ++ "/comments"))
                none none "" none with
            | (.error e, w1) => handleErr w1 helpForComment (some e)
            | (.ok resp, w1) =>
              outputListOrJSON env w1 ctx resp commentListHeaders (commentListRows env)
        else if cmd == "get" then
          match rest with
          | number :: id :: _ =>
            match ctx.Client.Do env w "GET"
                (withAccount ctx ("/cards/" ++ number ++ "/comments/" ++ id)) none none ""
                none with
            | (.error e, w1) => handleErr w1 helpForComment (some e)
            | (.ok resp, w1) => outputJSONOrPretty env w1 ctx resp.Body (formatComment env)
          | _ =>
            handleErr w helpForComment (some (.usage "card number and comment id are required"))
        else if cmd == "create" || cmd == "update" || cmd == "delete" then wr.comment w ctx args
        else (2, { w with stderr := w.stderr ++ helpForComment })

/-- `runTag` in commands.go. -/
def runTag (env : Env) (w : World) (ctx : Context) (args : List String) : Int × World :=
  if args.length = 0 || args.head? != some "list" then
    (2, { w with stderr := w.stderr ++ helpForTag })
  else
    match ensureToken ctx with
    | some err => handleErr w helpForTag (some err)
    | none =>
      match ensureAccount ctx with
      | some err => handleErr w helpForTag (some err)
      | none =>
        match ctx.Client.Do env w "GET" (withAccount ctx "/tags") none none "" none with
        | (.error e, w1) => handleErr w1 helpForTag (some e)
        | (.ok resp, w1) => outputListOrJSON env w1 ctx resp tagListHeaders (tagListRows env)

/-- `runColumn` in commands.go. -/
def runColumn (env : Env) (fl : FlagSets) (wr : WriteCommands) (w : World) (ctx : Context)
    (args : List String) : Int × World :=
  match args with
  | [] => (2, { w with stderr := w.stderr ++ helpForColumn })
  | cmd :: rest =>
    match ensureToken ctx with
    | some err => handleErr w helpForColumn (some err)
    | none =>
      match ensureAccount ctx with
      | some err => handleErr w helpForColumn (some err)
      | none =>
        if cmd == "list" then
          match fl.parse "column list" rest with
          | .error err => usageError w helpForColumn err
          | .ok v =>
            if strings.TrimSpace (v.string "board-id") == "" then
              handleErr w helpForColumn (some (.usage "--board-id is required"))
            else
              match ctx.Client.Do env w "GET"
                  (withAccount ctx
                    ("/boards/" ++ strings.TrimSpace (v.string "board-id") ++ "/columns"))
                  none none "" none with
              | (.error e, w1) => handleErr w1 helpForColumn (some e)
              | (.ok resp, w1) =>
                outputListOrJSON env w1 ctx resp columnListHeaders (columnListRows env)
        else if cmd == "get" then
          match rest with
          | [] => handleErr w helpForColumn (some (.usage "column id is required"))
          | id :: flagArgs =>
            match fl.parse "column get" flagArgs with
            | .error err => usageError w helpForColumn err
            | .ok v =>
              if strings.TrimSpace (v.string "board-id") == "" then
                handleErr w helpForColumn (some (.usage "--board-id is required"))
              else
                match ctx.Client.Do env w "GET"
                    (withAccount ctx
                      ("/boards/" ++ strings.TrimSpace (v.string "board-id") ++ "/columns/" ++ id))
                    none none "" none with
                | (.error e, w1) => handleErr w1 helpForColumn (some e)
                | (.ok resp, w1) => outputJSONOrPretty env w1 ctx resp.Body (formatColumn env)
        else if cmd == "create" || cmd == "update" || cmd == "delete" then wr.column w ctx args
        else (2, { w with stderr := w.stderr ++ helpForColumn })

/-- `runUser` in commands.go. -/
def runUser (env : Env) (wr : WriteCommands) (w : World) (ctx : Context)
    (args : List String) : Int × World :=
  match args with
  | [] => (2, { w with stderr := w.stderr ++ helpForUser })
  | cmd :: rest =>
    match ensureToken ctx with
    | some err => handleErr w helpForUser (some err)
    | none =>
      match ensureAccount ctx with
      | some err => handleErr w helpForUser (some err)
      | none =>
        if cmd == "list" then
          match ctx.Client.Do env w "GET" (withAccount ctx "/users") none none "" none with
          | (.error e, w1) => handleErr w1 helpForUser (some e)
          | (.ok resp, w1) => outputListOrJSON env w1 ctx resp userListHeaders (userListRows env)
        else if cmd == "get" then
          match rest with
          | [] => handleErr w helpForUser (some (.usage "user id is required"))
          | id :: _ =>
            match ctx.Client.Do env w "GET" (withAccount ctx ("/users/" ++ id)) none none ""
                none with
            | (.error e, w1) => handleErr w1 helpForUser (some e)
            | (.ok resp, w1) => outputJSONOrPretty env w1 ctx resp.Body (formatUser env)
        else if cmd == "update" || cmd == "deactivate" then wr.user w ctx args
        else (2, { w with stderr := w.stderr ++ helpForUser })

/-- `runNotification` in commands.go. -/
def runNotification (env : Env) (fl : FlagSets) (w : World) (ctx : Context)
    (args : List String) : Int × World :=
  match args with
  | [] => (2, { w with stderr := w.stderr ++ helpForNotification })
  | cmd :: rest =>
    match ensureToken ctx with
    | some err => handleErr w helpForNotification (some err)
    | none =>
      match ensureAccount ctx with
      | some err => handleErr w helpForNotification (some err)
      | none =>
        if cmd == "list" then
          match fl.parse "notification list" rest with
          | .error err => usageError w helpForNotification err
          | .ok v =>
            let query : Values := []
            let query := if v.bool "unread" then Values.Set query "unread" "true" else query
            match ctx.Client.Do env w "GET" (withAccount ctx "/notifications") (some query) none ""
                none with
            | (.error e, w1) => handleErr w1 helpForNotification (some e)
            | (.ok resp, w1) =>
              outputListOrJSON env w1 ctx resp notificationListHeaders (notificationListRows env)
        else if cmd == "read" then
          match rest with
          | [] => handleErr w helpForNotification (some (.usage "notification id is required"))
          | id :: _ =>
            match ctx.Client.Do env w "POST"
                (withAccount ctx ("/notifications/" ++ id ++ "/reading")) none none "" none with
            | (.error e, w1) => handleErr w1 helpForNotification (some e)
            | (.ok resp, w1) => outputNoContent env w1 ctx resp "Notification marked read"
        else if cmd == "unread" then
          match rest with
          | [] => handleErr w helpForNotification (some (.usage "notification id is required"))
          | id :: _ =>
            match ctx.Client.Do env w "DELETE"
                (withAccount ctx ("/notifications/" ++ id ++ "/reading")) none none "" none with
            | (.error e, w1) => handleErr w1 helpForNotification (some e)
            | (.ok resp, w1) => outputNoContent env w1 ctx resp "Notification marked unread"
        else if cmd == "read-all" then
          match ctx.Client.Do env w "POST" (withAccount ctx "/notifications/bulk_reading") none
              none "" none with
          | (.error e, w1) => handleErr w1 helpForNotification (some e)
          | (.ok resp, w1) => outputNoContent env w1 ctx resp "Notifications marked read"
        else (2, { w with stderr := w.stderr ++ helpForNotification })

/-- `rootHelp` in help.go. -/
def rootHelp : String :=
  "fizzy-cli - CLI for the Fizzy kanban board\n" ++
  "\n" ++
  "USAGE:\n" ++
  "  fizzy-cli [global flags] <command> [args]\n" ++
  "\n" ++
  "EXAMPLES:\n" ++
  "  fizzy-cli auth login --token $FIZZY_TOKEN\n" ++
  "  fizzy-cli account list\n" ++
  "  fizzy-cli account set 897362094\n" ++
  "  fizzy-cli board list\n" ++
  "  fizzy-cli card list --board-id 03f5v9zkft4hj9qq0lsn9ohcm\n" ++
  "  fizzy-cli card create --board-id 03f5v9zkft4hj9qq0lsn9ohcm --title \"Add dark mode\" --description \"Switch theme\"\n" ++
  "  fizzy-cli comment list 4\n" ++
  "  fizzy-cli notification list --unread\n" ++
  "\n" ++
  "COMMANDS:\n" ++
  "  auth              Manage authentication\n" ++
  "  account           Account selection and identity info\n" ++
  "  config            Manage persisted defaults\n" ++
  "  board             Manage boards\n" ++
  "  card              Manage cards\n" ++
  "  comment           Manage card comments\n" ++
  "  tag               List tags\n" ++
  "  column            Manage columns\n" ++
  "  user              Manage users\n" ++
  "  notification      Manage notifications\n" ++
  "  help              Show help for a command\n" ++
  "\n" ++
  "GLOBAL FLAGS:\n" ++
  "  --base-url string   API base URL (env: FIZZY_BASE_URL, default: https://app.fizzy.do)\n" ++
  "  --token string      Personal access token (env: FIZZY_TOKEN)\n" ++
  "  --account string    Account slug (env: FIZZY_ACCOUNT)\n" ++
  "  --config string     Config file path (env: FIZZY_CONFIG)\n" ++
  "  --json              JSON output\n" ++
  "  --plain             Plain, line-oriented output\n" ++
  "  --no-color          Disable color (respects NO_COLOR by default)\n" ++
  "  -h, --help          Show help\n" ++
  "  --version           Print version\n"

/-- `helpForAuth` in help.go. -/
def helpForAuth : String :=
  "USAGE:\n" ++
  "  fizzy-cli auth login [--token TOKEN]\n" ++
  "  fizzy-cli auth login --email user@example.com [--code ABC123]\n" ++
  "  fizzy-cli auth logout\n" ++
  "  fizzy-cli auth status\n" ++
  "\n" ++
  "FLAGS:\n" ++
  "  --token string   Personal access token (reads from stdin or prompt if omitted)\n" ++
  "  --email string   Email address for magic-link login\n" ++
  "  --code string    Magic-link code (required if not running in a TTY)\n"

/-- `helpForConfig` in help.go. -/
def helpForConfig : String :=
  "USAGE:\n" ++
  "  fizzy-cli config show\n" ++
  "  fizzy-cli config set [--base-url URL] [--account SLUG]\n"
/-- `helpForCommand` in help.go. -/
def helpForCommand (env : Env) (cmd : String) : String :=
  if cmd == "auth" then helpForAuth
  else if cmd == "account" then helpForAccount
  else if cmd == "config" then helpForConfig
  else if cmd == "board" then helpForBoard
  else if cmd == "card" then helpForCard
  else if cmd == "comment" then helpForComment
  else if cmd == "tag" then helpForTag
  else if cmd == "column" then helpForColumn
  else if cmd == "user" then helpForUser
  else if cmd == "notification" then helpForNotification
  else "Unknown command " ++ env.quote cmd ++ ".\n\n" ++ rootHelp

/-- The calls of `configSave` that a command makes, oldest first: the path and
the configuration passed. -/
abbrev Saves := List (String × Config)

/-- `configSave` in commands.go. -/
def configSave (os : OS) (path : String) (cfg : Config) : Option GoError :=
  config.Save os path cfg

/-- `mustJSON` in commands.go. -/
def mustJSON (env : Env) (v : JSON) : String :=
  env.jsonMarshal v

/-- `readSecret` in commands.go. -/
def readSecret (os : OS) (w : World) (label : String) : Except GoError String × World :=
  if os.stdinIsTTY then
    let w1 := { w with stderr := w.stderr ++ label ++ ": " }
    match os.readLine with
    | .error e => (.error e, w1)
    | .ok text => (.ok (strings.TrimSpace text), w1)
  else
    match os.readAll with
    | .error e => (.error e, w)
    | .ok data => (.ok (strings.TrimSpace data), w)

/-- The `pendingAuthResponse` struct of commands.go. -/
structure pendingAuthResponse where
  PendingAuthenticationToken : String
  deriving DecidableEq, Repr

/-- The `sessionAuthResponse` struct of commands.go. -/
structure sessionAuthResponse where
  SessionToken : String
  deriving DecidableEq, Repr

/-- One member of an object stored into a `pendingAuthResponse`. -/
def pendingAuthResponse.setField (p : pendingAuthResponse) (key : String) (v : JSON) :
    Except GoError pendingAuthResponse :=
  if json.selects key "pending_authentication_token" then
    (json.decodeString p.PendingAuthenticationToken v).map
      (fun x => { p with PendingAuthenticationToken := x })
  else .ok p

/-- Storing a value into a `pendingAuthResponse`. -/
def pendingAuthResponse.decode : pendingAuthResponse → JSON → Except GoError pendingAuthResponse :=
  json.decodeStruct pendingAuthResponse.setField "cli.pendingAuthResponse"

/-- One member of an object stored into a `sessionAuthResponse`. -/
def sessionAuthResponse.setField (s : sessionAuthResponse) (key : String) (v : JSON) :
    Except GoError sessionAuthResponse :=
  if json.selects key "session_token" then
    (json.decodeString s.SessionToken v).map (fun x => { s with SessionToken := x })
  else .ok s

/-- Storing a value into a `sessionAuthResponse`. -/
def sessionAuthResponse.decode : sessionAuthResponse → JSON → Except GoError sessionAuthResponse :=
  json.decodeStruct sessionAuthResponse.setField "cli.sessionAuthResponse"

/-- The part of `authMagicLink` that follows the reading of the code (commands.go
lines 139 to 163): the code is verified and the session token is saved. -/
def authMagicLinkVerify (env : Env) (os : OS) (w : World) (ctx : Context) (client : Client)
    (pending : pendingAuthResponse) (code : String) : (Int × World) × Saves :=
  if strings.TrimSpace code == "" then
    (handleErr w helpForAuth (some (.usage "magic link code is required")), [])
  else
    let verifyRequest := JSON.object [("code", .string (strings.TrimSpace code))]
    let headers :=
      [("Cookie", "pending_authentication_token=" ++ pending.PendingAuthenticationToken)]
    match client.Do env w "POST" "/session/magic_link" none (some (mustJSON env verifyRequest))
        "application/json" (some headers) with
    | (.error e, w1) => (handleErr w1 helpForAuth (some e), [])
    | (.ok verifyResp, w1) =>
      match json.Unmarshal env verifyResp.Body (sessionAuthResponse.decode ⟨""⟩) with
      | .error e => (handleErr w1 helpForAuth (some e), [])
      | .ok session =>
        if strings.TrimSpace session.SessionToken == "" then
          (handleErr w1 helpForAuth (some (.other "missing session_token in response")), [])
        else
          let cfg := { ctx.Config with SessionToken := session.SessionToken, Token := "" }
          match configSave os ctx.ConfigPath cfg with
          | some e => (handleErr w1 helpForAuth (some e), [(ctx.ConfigPath, cfg)])
          | none =>
            ((0, { w1 with stdout := w1.stdout ++ "Session saved to " ++ ctx.ConfigPath ++ "\n" }),
              [(ctx.ConfigPath, cfg)])

/-- `authMagicLink` in commands.go. -/
def authMagicLink (env : Env) (os : OS) (w : World) (ctx : Context) (email code : String) :
    (Int × World) × Saves :=
  if strings.TrimSpace email == "" then
    (handleErr w helpForAuth (some (.usage "--email is required")), [])
  else
    let client := NewClient ctx.BaseURL "" "" ("fizzy-cli/" ++ ctx.Version)
    let request := JSON.object [("email_address", .string email)]
    match client.Do env w "POST" "/session" none (some (mustJSON env request))
        "application/json" none with
    | (.error e, w1) => (handleErr w1 helpForAuth (some e), [])
    | (.ok resp, w1) =>
      match json.Unmarshal env resp.Body (pendingAuthResponse.decode ⟨""⟩) with
      | .error e => (handleErr w1 helpForAuth (some e), [])
      | .ok pending =>
        if strings.TrimSpace pending.PendingAuthenticationToken == "" then
          (handleErr w1 helpForAuth
            (some (.other "missing pending_authentication_token in response")), [])
        else if strings.TrimSpace code == "" then
          if !os.stdinIsTTY then
            (handleErr w1 helpForAuth
              (some (.usage "--code is required when not running in a TTY")), [])
          else
            match readSecret os w1 "Magic link code" with
            | (.error e, w2) => (handleErr w2 helpForAuth (some e), [])
            | (.ok readCode, w2) => authMagicLinkVerify env os w2 ctx client pending readCode
        else authMagicLinkVerify env os w1 ctx client pending code

/-- `runAuth` in commands.go. -/
def runAuth (env : Env) (os : OS) (fl : FlagSets) (w : World) (ctx : Context)
    (args : List String) : (Int × World) × Saves :=
  match args with
  | [] => ((2, { w with stderr := w.stderr ++ helpForAuth }), [])
  | cmd :: rest =>
    if cmd == "login" then
      match fl.parse "auth login" rest with
      | .error err => (usageError w helpForAuth err, [])
      | .ok v =>
        if strings.TrimSpace (v.string "token") != "" &&
            strings.TrimSpace (v.string "email") != "" then
          (handleErr w helpForAuth
            (some (.usage "--token and --email cannot be used together")), [])
        else if strings.TrimSpace (v.string "email") != "" then
          authMagicLink env os w ctx (strings.TrimSpace (v.string "email"))
            (strings.TrimSpace (v.string "code"))
        else
          let val := strings.TrimSpace (v.string "token")
          let read : Except GoError String × World :=
            if val == "" then readSecret os w "Token" else (.ok val, w)
          match read with
          | (.error e, w1) => (handleErr w1 helpForAuth (some e), [])
          | (.ok val, w1) =>
            if val == "" then
              (handleErr w1 helpForAuth (some (.usage "token is required")), [])
            else
              let cfg := { ctx.Config with Token := val, SessionToken := "" }
              match configSave os ctx.ConfigPath cfg with
              | some e => (handleErr w1 helpForAuth (some e), [(ctx.ConfigPath, cfg)])
              | none =>
                ((0, { w1 with
                    stdout := w1.stdout ++ "Token saved to " ++ ctx.ConfigPath ++ "\n" }),
                  [(ctx.ConfigPath, cfg)])
    else if cmd == "logout" then
      let cfg := { ctx.Config with Token := "", SessionToken := "" }
      match configSave os ctx.ConfigPath cfg with
      | some e => (handleErr w helpForAuth (some e), [(ctx.ConfigPath, cfg)])
      | none =>
        ((0, { w with stdout := w.stdout ++ "Credentials cleared.\n" }), [(ctx.ConfigPath, cfg)])
    else if cmd == "status" then
      if ctx.Token == "" && ctx.SessionToken == "" then
        ((0, { w with stdout := w.stdout ++ "Not logged in (no credentials configured).\n" }), [])
      else
        match ensureToken ctx with
        | some err => (handleErr w helpForAuth (some err), [])
        | none =>
          match ctx.Client.Do env w "GET" "/my/identity" none none "" none with
          | (.error e, w1) => (handleErr w1 helpForAuth (some e), [])
          | (.ok resp, w1) =>
            if ctx.Output.JSON then (printJSONResponse env w1 resp, [])
            else
              let authType :=
                if ctx.Token != "" then "personal access token" else "session token"
              let w2 := { w1 with
                stdout := w1.stdout ++ "Authenticated using " ++ authType ++
                  ". Accessible accounts:\n" }
              match identityToRows env resp.Body with
              | .error e => (handleErr w2 helpForAuth (some e), [])
              | .ok rows => ((0, printTable w2 ["SLUG", "NAME", "USER"] rows ctx.Output.Plain), [])
    else ((2, { w with stderr := w.stderr ++ helpForAuth }), [])

/-- The `set` case of `runAccount` (commands.go lines 188 to 202); `args` are the
arguments of `account`, with `set` first. -/
def accountSet (os : OS) (w : World) (ctx : Context) (args : List String) :
    (Int × World) × Saves :=
  match args with
  | _ :: slugArg :: _ =>
    let slug := normalizeAccount slugArg
    if slug == "" then
      (handleErr w helpForAccount (some (.usage "account slug is required")), [])
    else
      let cfg := { ctx.Config with Account := slug }
      match configSave os ctx.ConfigPath cfg with
      | some e => (handleErr w helpForAccount (some e), [(ctx.ConfigPath, cfg)])
      | none =>
        ((0, { w with stdout := w.stdout ++ "Default account set to " ++ slug ++ "\n" }),
          [(ctx.ConfigPath, cfg)])
  | _ => (handleErr w helpForAccount (some (.usage "account slug is required")), [])

/-- `runConfig` in commands.go. -/
def runConfig (env : Env) (os : OS) (fl : FlagSets) (w : World) (ctx : Context)
    (args : List String) : (Int × World) × Saves :=
  match args with
  | [] => ((2, { w with stderr := w.stderr ++ helpForConfig }), [])
  | cmd :: rest =>
    if cmd == "show" then
      if ctx.Output.JSON then
        let payload := JSON.object
          [("base_url", .string (firstNonEmpty [ctx.Config.BaseURL, ctx.BaseURL])),
            ("account", .string ctx.Config.Account),
            ("token_set", .bool (ctx.Config.Token != "")),
            ("session_token_set", .bool (ctx.Config.SessionToken != "")),
            ("config_path", .string ctx.ConfigPath)]
        match printJSON env w payload with
        | .error e => (handleErr w helpForConfig (some e), [])
        | .ok w1 => ((0, w1), [])
      else
        let out := w.stdout ++ "Config path: " ++ ctx.ConfigPath ++ "\n"
        let out := out ++ "Base URL: " ++ firstNonEmpty [ctx.Config.BaseURL, ctx.BaseURL] ++ "\n"
        let out :=
          if ctx.Config.Account != "" then out ++ "Account: " ++ ctx.Config.Account ++ "\n"
          else out
        let out := out ++ "Token set: " ++ fmt.Sprintt (ctx.Config.Token != "") ++ "\n"
        let out := out ++ "Session token set: " ++
          fmt.Sprintt (ctx.Config.SessionToken != "") ++ "\n"
        ((0, { w with stdout := out }), [])
    else if cmd == "set" then
      match fl.parse "config set" rest with
      | .error err => (usageError w helpForConfig err, [])
      | .ok v =>
        if strings.TrimSpace (v.string "base-url") == "" &&
            strings.TrimSpace (v.string "account") == "" then
          (handleErr w helpForConfig
            (some (.usage "at least one of --base-url or --account is required")), [])
        else
          let cfg := ctx.Config
          let cfg :=
            if strings.TrimSpace (v.string "base-url") != "" then
              { cfg with BaseURL := strings.TrimSpace (v.string "base-url") }
            else cfg
          let cfg :=
            if strings.TrimSpace (v.string "account") != "" then
              { cfg with Account := normalizeAccount (v.string "account") }
            else cfg
          match configSave os ctx.ConfigPath cfg with
          | some e => (handleErr w helpForConfig (some e), [(ctx.ConfigPath, cfg)])
          | none =>
            ((0, { w with stdout := w.stdout ++ "Config updated.\n" }), [(ctx.ConfigPath, cfg)])
    else ((2, { w with stderr := w.stderr ++ helpForConfig }), [])

/-- `Run` in cli.go. The result is the exit code and the process state; `none`
means the fuel of `listWithPagination` ran out. The call of `parseGlobal` gives
its result and what it wrote to standard error (`parseGlobalOutput`). The test
`showHelp || len(rest) == 0` is the empty case of the match on `rest` followed
by the test of `showHelp`, and the `set` case of `runAccount` is `accountSet`. -/
def Run (env : Env) (os : OS) (fl : FlagSets) (wr : WriteCommands) (fuel : Nat) (w : World)
    (version commit buildDate : String) (args : List String) : Option (Int × World) :=
  let p := parseGlobal os args
  let w := { w with stderr := w.stderr ++ parseGlobalOutput os args }
  match p.err with
  | some err => some (exitCode (some err), printErr w (some err))
  | none =>
    if p.showVersion then
      some (0, { w with
        stdout := w.stdout ++ "fizzy-cli " ++ version ++ " (" ++ commit ++ ") " ++ buildDate ++
          "\n" })
    else
      match p.rest with
      | [] => some (0, { w with stdout := w.stdout ++ rootHelp })
      | cmd :: rest =>
        if p.showHelp then some (0, { w with stdout := w.stdout ++ rootHelp })
        else
          let ctx := { p.ctx with
            Version := version
            Commit := commit
            BuildDate := buildDate
            Client := NewClient p.ctx.BaseURL p.ctx.Token p.ctx.SessionToken
              ("fizzy-cli/" ++ version) }
          if cmd == "help" then
            match rest with
            | sub :: _ => some (0, { w with stdout := w.stdout ++ helpForCommand env sub })
            | [] => some (0, { w with stdout := w.stdout ++ rootHelp })
          else if cmd == "auth" then some (runAuth env os fl w ctx rest).1
          else if cmd == "account" then
            some (runAccount env
              { wr with accountSet := fun w ctx args => (accountSet os w ctx args).1 } w ctx rest)
          else if cmd == "config" then some (runConfig env os fl w ctx rest).1
          else if cmd == "board" then some (runBoard env wr w ctx rest)
          else if cmd == "card" then runCard env fl wr fuel w ctx rest
          else if cmd == "comment" then some (runComment env wr w ctx rest)
          else if cmd == "tag" then some (runTag env w ctx rest)
          else if cmd == "column" then some (runColumn env fl wr w ctx rest)
          else if cmd == "user" then some (runUser env wr w ctx rest)
          else if cmd == "notification" then some (runNotification env fl w ctx rest)
          else
            let w1 := printErr w (some (.usage ("unknown command " ++ env.quote cmd)))
            some (2, { w1 with stderr := w1.stderr ++ "\n" ++ rootHelp })

/-! ## Notions used to state the properties -/

/-- A string is blank when every code point of it is white space. -/
def Blank (s : String) : Bool :=
  s.data.all unicode.IsSpace

/-- The string `t` is `s` with surrounding white space trimmed: `s` is `t`
between two runs of white space, and `t` neither starts nor ends with one. -/
def IsTrimOf (t s : String) : Prop :=
  (∃ pre post : List Char, s.data = pre ++ t.data ++ post ∧
      (∀ c ∈ pre, unicode.IsSpace c = true) ∧ (∀ c ∈ post, unicode.IsSpace c = true)) ∧
    (∀ c ∈ t.data.head?, unicode.IsSpace c = false) ∧
    (∀ c ∈ t.data.getLast?, unicode.IsSpace c = false)

/-- Precedence of sources as the specification words it: the flag if it is not
blank, else the environment variable if not blank, else the config-file value if
not blank, else the built-in default; the chosen value with surrounding white
space trimmed. -/
def resolveBySpec (flagValue envValue fileValue builtin : String) : String :=
  if !Blank flagValue then strings.TrimSpace flagValue
  else if !Blank envValue then strings.TrimSpace envValue
  else if !Blank fileValue then strings.TrimSpace fileValue
  else builtin

/-- No two keys of the extra-header map name the same header, that is, have
the same canonical form. -/
def CanonDistinct (hs : List (String × String)) : Prop :=
  (hs.map (fun kv => textproto.CanonicalMIMEHeaderKey kv.1)).Nodup

/-- One entry of a `Link` header value: the url in angle brackets, then the
relation parameter. -/
def linkEntry (url rel : String) : String :=
  "<" ++ url ++ ">; rel=\"" ++ rel ++ "\""

/-- A `Link` header value: the entries `(url, relation)`, separated by a comma
followed by the padding `pad`. -/
def linkValue (pad : String) : List (String × String) → String
  | [] => ""
  | e :: es =>
    match es with
    | [] => linkEntry e.1 e.2
    | _ :: _ => linkEntry e.1 e.2 ++ "," ++ pad ++ linkValue pad es

/-- The url of the first entry whose relation is `next`, the empty string if
there is none. -/
def firstNext : List (String × String) → String
  | [] => ""
  | e :: es => if e.2 = "next" then e.1 else firstNext es

/-- The executor answers the walk that starts at `path` and `query` with the
pages `ps`, in order: every request of the walk succeeds with the next page of
`ps`, every page but the last carries a next cursor (which the walk follows
with a nil query) and the last page carries none. -/
def servesPages (env : Env) (c : Client) :
    World → String → Option Values → List Response → Bool
  | _, _, _, [] => false
  | w, path, query, [p] =>
    match c.Do env w "GET" path query none "" none with
    | (.ok q, _) => q == p && nextLink p.Headers == ""
    | (.error _, _) => false
  | w, path, query, p :: p2 :: ps =>
    match c.Do env w "GET" path query none "" none with
    | (.ok q, w1) =>
      q == p && nextLink p.Headers != "" &&
        servesPages env c w1 (nextLink p.Headers) none (p2 :: ps)
    | (.error _, _) => false

/-- The elements of a page body read as `[]json.RawMessage` (empty when the
body does not decode). -/
def pageElems (env : Env) (p : Response) : List JSON :=
  match unmarshalRawMessages env p.Body with
  | .ok elems => elems
  | .error _ => []

/-- The page body is accepted by the loop that consumes it: it decodes as
`[]json.RawMessage` in JSON mode, `rowFn` succeeds on it in tabular mode. -/
def pageAccepted (env : Env) (json : Bool)
    (rowFn : String → Except GoError (List (List String))) (p : Response) : Bool :=
  if json then
    match unmarshalRawMessages env p.Body with
    | .ok _ => true
    | .error _ => false
  else
    match rowFn p.Body with
    | .ok _ => true
    | .error _ => false

/-- Consecutive requests of a walk: each request but the last was answered
with a status below 400 and a next cursor, and the request after it went to the
URL that `buildURL` makes from that cursor with a nil query. `i` is the number
of requests sent before the first of the list. -/
def CursorChain (env : Env) (c : Client) : Nat → List HTTPRequest → Prop
  | _, [] => True
  | _, [_] => True
  | i, r1 :: r2 :: rest =>
    (∃ resp, env.roundTrip i r1 = .ok resp ∧ resp.StatusCode < 400 ∧
        nextLink resp.Header ≠ "" ∧
        buildURL env c.BaseURL (nextLink resp.Header) none = .ok r2.URL) ∧
      CursorChain env c (i + 1) (r2 :: rest)

/-- The executor answers the walk that starts at `path` and `query` with the
pages `ps`, each accepted by the loop (`accepted`) and carrying a next cursor,
and then lets the walk fail: the request that follows them returns an error, or
it returns a page that is not accepted. -/
def failsAfter (env : Env) (c : Client) (accepted : Response → Bool) :
    World → String → Option Values → List Response → Bool
  | w, path, query, [] =>
    match c.Do env w "GET" path query none "" none with
    | (.ok q, _) => !accepted q
    | (.error _, _) => true
  | w, path, query, p :: ps =>
    match c.Do env w "GET" path query none "" none with
    | (.ok q, w1) =>
      q == p && accepted p && nextLink p.Headers != "" &&
        failsAfter env c accepted w1 (nextLink p.Headers) none ps
    | (.error _, _) => false

/-- The lines written into a tab writer for the rows of one page: the cells of
each row joined by tabs, one line per row. -/
def rowLines (rows : List (List String)) : String :=
  String.join (rows.map (fun row => joinRow row ++ "\n"))

/-- What the row-streamed walk leaves on standard output for pages with the given
rows: the page that comes first when no header has been printed (`printed` is
false) is rendered by `printTable` with the headers and the plain flag, every
other page without a header; each page goes through a tab writer of its own. -/
def streamedPages (headers : List String) (plain : Bool) :
    Bool → List (List (List String)) → String
  | _, [] => ""
  | printed, rows :: rest =>
    (if printed then tabwriter.Flush (tableText [] rows true)
      else tabwriter.Flush (tableText headers rows plain)) ++
      streamedPages headers plain true rest

/-- The rows `rowFn` makes of a page body (none when the body does not decode). -/
def pageRows (rowFn : String → Except GoError (List (List String))) (p : Response) :
    List (List String) :=
  match rowFn p.Body with
  | .ok rows => rows
  | .error _ => []

/-- The header rendered once, as the specification words it: the header row
followed by the first page's rows, then the rows of every later page with no
header. Each page is aligned by the tab writer that `printTable` creates for it. -/
def headerOnce (headers : List String) : List (List (List String)) → String
  | [] => ""
  | rows :: rest =>
    tabwriter.Flush (joinRow headers ++ "\n" ++ rowLines rows) ++
      String.join (rest.map (fun rows => tabwriter.Flush (rowLines rows)))

/-- The outcome the specification gives for an empty body in JSON mode: exit code
0 and, on standard output, the status-only object with the status code of the
response. -/
def statusOnly (env : Env) (w : World) (resp : Response) : Int × World :=
  (0, { w with stdout := w.stdout ++
    env.jsonIndent (.object [("status", .number (fmt.Sprintd resp.Status))]) ++ "\n" })

/-- Base-10 text of an integer with no padding: a minus sign for a negative
number, then the decimal digits of its absolute value. -/
def decimal (n : Int) : String :=
  (if n < 0 then "-" else "") ++ String.mk (Nat.toDigits 10 n.natAbs)

/-- A slug with its leading slash stripped. -/
def stripLeadingSlash (slug : String) : String :=
  match slug.data with
  | '/' :: rest => ⟨rest⟩
  | _ => slug

/-- The columns of a board in the table of the specification. -/
def boardColumns (b : board) : List String :=
  [b.ID, b.Name, if b.AllAccess then "true" else "false", b.CreatedAt]

/-- The columns of a card in the table of the specification. -/
def cardColumns (c : card) : List String :=
  [decimal c.Number, c.Title, c.Status, c.Board.Name, c.LastActiveAt]

/-- The columns of a comment in the table of the specification. -/
def commentColumns (c : comment) : List String :=
  [c.ID, c.Creator.Name, c.Body.Plain, c.CreatedAt]

/-- The columns of a tag in the table of the specification. -/
def tagColumns (t : tag) : List String :=
  [t.ID, t.Title]

/-- The columns of a column in the table of the specification. -/
def columnColumns (c : column) : List String :=
  [c.ID, c.Name, c.Color]

/-- The columns of a user in the table of the specification. -/
def userColumns (u : user) : List String :=
  [u.ID, u.Name, u.Role, u.Email]

/-- The columns of a notification in the table of the specification. -/
def notificationColumns (n : notification) : List String :=
  [n.ID, if n.Read then "yes" else "no", n.Title, n.Card.Title, n.CreatedAt]

/-- The columns of a account of an identity in the table of the specification. -/
def accountColumns (a : account) : List String :=
  [stripLeadingSlash a.Slug, a.Name, a.User.Name]

/-- Column by column for `boardListRows`: the member of an element that the
column is read from and the text the column shows when the element lacks that
member (the empty string, `0` for a number, `false` or `no` for a boolean). -/
def boardFields : List (String × String) :=
  [("id", ""), ("name", ""), ("all_access", "false"), ("created_at", "")]

/-- The same for `cardListRows`. -/
def cardFields : List (String × String) :=
  [("number", "0"), ("title", ""), ("status", ""), ("board", ""), ("last_active_at", "")]

/-- The same for `commentListRows`. -/
def commentFields : List (String × String) :=
  [("id", ""), ("creator", ""), ("body", ""), ("created_at", "")]

/-- The same for `tagListRows`. -/
def tagFields : List (String × String) :=
  [("id", ""), ("title", "")]

/-- The same for `columnListRows`. -/
def columnFields : List (String × String) :=
  [("id", ""), ("name", ""), ("color", "")]

/-- The same for `userListRows`. -/
def userFields : List (String × String) :=
  [("id", ""), ("name", ""), ("role", ""), ("email_address", "")]

/-- The same for `notificationListRows`. -/
def notificationFields : List (String × String) :=
  [("id", ""), ("read", "no"), ("title", ""), ("card", ""), ("created_at", "")]

/-- The same for `identityToRows`. -/
def accountFields : List (String × String) :=
  [("slug", ""), ("name", ""), ("user", "")]

/-- The row has one column per field, and every column whose member the object
lacks (no member name selects it) shows the text for a missing member. -/
def MissingShowsZero (fields : List (String × String)) (members : List (String × JSON))
    (row : List String) : Prop :=
  row.length = fields.length ∧
    ∀ j key zero, fields.get? j = some (key, zero) →
      (∀ kv ∈ members, json.selects kv.1 key = false) → row.get? j = some zero

/-- A cell is clean when it holds none of the characters that the tab writer
reads as the end of a cell or of a line (tab, vertical tab, newline, form
feed). -/
def CleanCell (s : String) : Bool :=
  s.data.all (fun c => !tabwriter.isCellEnd c && !tabwriter.isLineEnd c)

/-- The line shows the cells in order: every cell but the last is followed by at
least two spaces of padding, the last cell ends the line. -/
def ShowsCells : List Char → List (List Char) → Prop
  | line, [] => line = []
  | line, [c] => line = c
  | line, c :: c2 :: cs =>
    ∃ n rest, 2 ≤ n ∧ line = c ++ List.replicate n ' ' ++ rest ∧ ShowsCells rest (c2 :: cs)

/-- The rows `printTable` writes, the header first when it is shown. -/
def shownRows (headers : List String) (rows : List (List String)) (plain : Bool) :
    List (List String) :=
  (if !plain && headers.length > 0 then [headers] else []) ++ rows

/-- The cells of a row separated by two spaces. -/
def spacedLine (row : List String) : String :=
  "  ".intercalate row

/-- A text made of the given lines, each ended by a newline. -/
def unlines (lines : List String) : String :=
  String.join (lines.map (fun line => line ++ "\n"))

/-- The line of one step in the detail view of a card. -/
def stepLine (s : step) : String :=
  if s.Completed then "- [x] " ++ s.Content else "- [ ] " ++ s.Content

/-- The lines of the detail view of a card as the specification words them: the
six lines that are always there, then the optional lines and blocks, each
present exactly when its field is not empty (when `golden` is true). A block
starts with an empty line and a title line. -/
def cardLayout (c : card) : List String :=
  ["ID: " ++ c.ID, "Number: " ++ decimal c.Number, "Title: " ++ c.Title,
    "Status: " ++ c.Status, "Board: " ++ c.Board.Name, "Creator: " ++ c.Creator.Name] ++
  (if c.Tags ≠ [] then ["Tags: " ++ ", ".intercalate c.Tags] else []) ++
  (if c.Golden = true then ["Golden: true"] else []) ++
  (if c.LastActiveAt ≠ "" then ["Last active: " ++ c.LastActiveAt] else []) ++
  (if c.CreatedAt ≠ "" then ["Created: " ++ c.CreatedAt] else []) ++
  (if c.Description ≠ "" then ["", "Description:", c.Description] else []) ++
  (if c.Steps ≠ [] then ["", "Steps:"] ++ c.Steps.map stepLine else [])

/-! ## A small environment for examples -/

/-- A URL holding the whole text in `Path`. -/
def Env.demoURL (s : String) : URL :=
  { Scheme := "", Opaque := "", User := "", Host := "", Path := s, RawPath := "",
    OmitHost := false, ForceQuery := false, RawQuery := "", Fragment := "", RawFragment := "" }

/-- Text of a scalar JSON value in the example environment. -/
def Env.demoScalar : JSON → String
  | .number lit => lit
  | .string s => "\"" ++ s ++ "\""
  | .bool true => "true"
  | .bool false => "false"
  | .null => "null"
  | _ => "..."

/-- An environment for examples: URLs are kept as text (a relative path is
appended to the base, a query is appended after `?`), every request is
accepted, the transport answers the `n`-th request with the `n`-th response of
`responses`, the JSON reader knows the bodies `[]`, `[1]` and `[2,3]` and rejects
every other one and stores every value as it is, arrays of scalars are printed
on one line, `json.Marshal` writes an object of scalars on one line, and `%q`
puts a string between double quotes. -/
def Env.demo (responses : List HTTPResponse) : Env :=
  { urlParse := fun s => .ok (Env.demoURL s)
    urlResolveReference := fun base rel => { rel with Path := base.Path ++ rel.Path }
    urlString := fun u => if u.RawQuery == "" then u.Path else u.Path ++ "?" ++ u.RawQuery
    valuesEncode := fun q =>
      "&".intercalate (q.map (fun kv => kv.1 ++ "=" ++ ",".intercalate kv.2))
    newRequest := fun _ _ => none
    roundTrip := fun n _ =>
      match responses.get? n with
      | some r => .ok r
      | none => .error (.other "connection refused")
    jsonParse := fun body =>
      if body == "[]" then .ok (.array [])
      else if body == "[1]" then .ok (.array [.number "1"])
      else if body == "[2,3]" then .ok (.array [.number "2", .number "3"])
      else .error (.other "invalid character")
    jsonAny := fun v => .ok v
    jsonIndent := fun v =>
      match v with
      | .array elems => "[" ++ ", ".intercalate (elems.map Env.demoScalar) ++ "]"
      | other => Env.demoScalar other
    jsonMarshal := fun v =>
      match v with
      | .object members =>
        "\x7b" ++ ",".intercalate (members.map (fun kv =>
          "\"" ++ kv.1 ++ "\":" ++ Env.demoScalar kv.2)) ++ "\x7d"
      | other => Env.demoScalar other
    quote := fun s => "\"" ++ s ++ "\"" }

/-- A reader of urls of the form `scheme://host/path?query#fragment` for
examples, with scheme `http` or `https` and no escapes, and of paths with an
optional query and fragment: the fragment starts after the first `#`, the query
after the first `?` before it, the host ends at the first `/`. -/
def Env.demoParseURL (s : String) : URL :=
  let beforeFragment := s.data.takeWhile (fun c => c != '#')
  let fragment := (s.data.dropWhile (fun c => c != '#')).drop 1
  let beforeQuery := beforeFragment.takeWhile (fun c => c != '?')
  let query := (beforeFragment.dropWhile (fun c => c != '?')).drop 1
  let scheme : String :=
    if "https://".data.isPrefixOf beforeQuery then "https"
    else if "http://".data.isPrefixOf beforeQuery then "http"
    else ""
  let afterScheme := if scheme == "" then beforeQuery else beforeQuery.drop (scheme.length + 3)
  let host := if scheme == "" then [] else afterScheme.takeWhile (fun c => c != '/')
  let path := if scheme == "" then afterScheme else afterScheme.dropWhile (fun c => c != '/')
  { Scheme := scheme, Opaque := "", User := "", Host := ⟨host⟩, Path := ⟨path⟩, RawPath := "",
    OmitHost := false, ForceQuery := false, RawQuery := ⟨query⟩, Fragment := ⟨fragment⟩,
    RawFragment := "" }

/-- The text of a url for examples: scheme and host, the path, the query after
`?` if there is one, the fragment after `#` if it is not empty. -/
def Env.demoPrintURL (u : URL) : String :=
  (if u.Scheme == "" then "" else u.Scheme ++ "://" ++ u.Host) ++ u.Path ++
    (if u.RawQuery == "" then "" else "?" ++ u.RawQuery) ++
    (if u.Fragment == "" then "" else "#" ++ u.Fragment)

/-- The example environment with urls that have a scheme, a host, a path, a
query and a fragment; a reference with a scheme replaces the base, any other
reference (an absolute path in the examples) replaces its path, query and
fragment. -/
def Env.demoURLs : Env :=
  { Env.demo [] with
    urlParse := fun s => .ok (Env.demoParseURL s)
    urlResolveReference := fun base rel =>
      if rel.Scheme == "" then
        { base with Path := rel.Path, RawQuery := rel.RawQuery, Fragment := rel.Fragment }
      else rel
    urlString := Env.demoPrintURL }

/-- The example environment with a JSON reader that knows the listed bodies and
rejects every other one. -/
def Env.demoJSON (docs : List (String × JSON)) (responses : List HTTPResponse) : Env :=
  { Env.demo responses with
    jsonParse := fun body =>
      match docs.lookup body with
      | some v => .ok v
      | none => .error (.other "invalid character") }

/-- The example environment with a JSON reader for three bodies that are
numbers: `1e999`, which is valid JSON and out of the range of `float64`, so that
storing it into an `any` fails; `9007199254740993` (2^53 + 1), which is stored as
the nearest `float64`, 9007199254740992; and the text `9007199254740992` followed
by a newline. -/
def Env.demoNumbers : Env :=
  { Env.demo [] with
    jsonParse := fun body =>
      if body == "1e999" then .ok (.number "1e999")
      else if body == "9007199254740993" then .ok (.number "9007199254740993")
      else if body == "9007199254740992\n" then .ok (.number "9007199254740992")
      else .error (.other "invalid character")
    jsonAny := fun v =>
      match v with
      | .number lit =>
        if lit == "1e999" then .error (json.typeError "number 1e999" "float64")
        else if lit == "9007199254740993" then .ok (.number "9007199254740992")
        else .ok v
      | other => .ok other }

/-- A context for examples: account `acme`, base URL `https://x`, token `t`, and
the given output mode. -/
def Context.demo (json plain : Bool) : Context :=
  ⟨⟨"", "", "", ""⟩, "", "acme", "https://x", "t", "", ⟨json, plain⟩,
    ⟨"https://x", "t", "", ""⟩, "", "", ""⟩

/-- Two pages of tags for examples: the bodies and the JSON values they denote. -/
def demoTagDocs : List (String × JSON) :=
  [("[\x7b\"id\":\"t1\",\"title\":\"bug\"\x7d]",
      .array [.object [("id", .string "t1"), ("title", .string "bug")]]),
    ("[\x7b\"id\":\"t2\",\"title\":\"feature\"\x7d]",
      .array [.object [("id", .string "t2"), ("title", .string "feature")]])]

/-- The first page of tags, with a cursor to the second. -/
def demoTagPage1 : HTTPResponse :=
  ⟨200, [("Link", ["<https://x/acme/tags?page=2>; rel=\"next\""])],
    "[\x7b\"id\":\"t1\",\"title\":\"bug\"\x7d]"⟩

/-- The second page of tags, without a cursor. -/
def demoTagPage2 : HTTPResponse :=
  ⟨200, [], "[\x7b\"id\":\"t2\",\"title\":\"feature\"\x7d]"⟩

/-- Data-changing commands for examples: they do nothing and return 0. -/
def WriteCommands.demo : WriteCommands :=
  { board := fun w _ _ => (0, w)
    card := fun w _ _ => (0, w)
    comment := fun w _ _ => (0, w)
    column := fun w _ _ => (0, w)
    user := fun w _ _ => (0, w)
    accountSet := fun w _ _ => (0, w) }

/-- Flag sets for examples: `--all` and `--unread` are accepted anywhere among the
arguments, `--board-id` is followed by its value, every other flag keeps its
default. -/
def FlagSets.demo : FlagSets :=
  { parse := fun _ args =>
      .ok { string := fun name =>
              if name == "board-id" then
                match args with
                | "--board-id" :: v :: _ => v
                | _ => ""
              else ""
            bool := fun name =>
              (name == "all" && args.contains "--all") ||
                (name == "unread" && args.contains "--unread")
            values := fun _ => [] } }

/-- The argument that follows the flag `--name`, the empty string when the flag
is not among the arguments. -/
def FlagSets.demoValue (name : String) : List String → String
  | [] => ""
  | [_] => ""
  | a :: v :: rest => if a == "--" ++ name then v else FlagSets.demoValue name (v :: rest)

/-- Flag sets for examples with string flags: `-h`, `-help` and `--help` make
the parse fail with `flag.ErrHelp` (no flag set registers them); otherwise every
string flag `--name` takes the argument after it and every other flag keeps its
default. -/
def FlagSets.demoStrings : FlagSets :=
  { parse := fun _ args =>
      if args.contains "-h" || args.contains "-help" || args.contains "--help" then
        .error .errHelp
      else
        .ok { string := fun name => FlagSets.demoValue name args
              bool := fun _ => false
              values := fun _ => [] } }

/-- The two response bodies of a magic-link login for examples, and the JSON
values they denote. -/
def demoAuthDocs : List (String × JSON) :=
  [("\x7b\"pending_authentication_token\":\"p1\"\x7d",
      .object [("pending_authentication_token", .string "p1")]),
    ("\x7b\"session_token\":\"s1\"\x7d", .object [("session_token", .string "s1")])]

/-- A context for examples whose configuration file holds the given token and
session token and is stored at `/cfg`. -/
def Context.demoSaved (token session : String) : Context :=
  { Context.demo false false with Config := ⟨"", token, session, ""⟩, ConfigPath := "/cfg" }

/-- A page with one card that has a number and a title and lacks every other
member. -/
def demoPartialCardDocs : List (String × JSON) :=
  [("[\x7b\"number\":7,\"title\":\"Fix bug\"\x7d]",
      .array [.object [("number", .number "7"), ("title", .string "Fix bug")]])]

/-- Two pages of one card each for examples: the bodies and the JSON values they
denote. -/
def demoCardDocs : List (String × JSON) :=
  [("[\x7b\"number\":1,\"title\":\"Fix bug\",\"status\":\"published\",\"board\":\x7b\"name\":\"Dev\"\x7d,\"last_active_at\":\"2024-01-02\"\x7d]",
      .array [.object [("number", .number "1"), ("title", .string "Fix bug"),
        ("status", .string "published"), ("board", .object [("name", .string "Dev")]),
        ("last_active_at", .string "2024-01-02")]]),
    ("[\x7b\"number\":2,\"title\":\"Add feature\",\"status\":\"drafted\",\"board\":\x7b\"name\":\"Dev\"\x7d,\"last_active_at\":\"2024-01-03\"\x7d]",
      .array [.object [("number", .number "2"), ("title", .string "Add feature"),
        ("status", .string "drafted"), ("board", .object [("name", .string "Dev")]),
        ("last_active_at", .string "2024-01-03")]])]

/-- The first page of cards, with a cursor to the second. -/
def demoCardPage1 : HTTPResponse :=
  ⟨200, [("Link", ["<https://x/acme/cards?page=2>; rel=\"next\""])],
    "[\x7b\"number\":1,\"title\":\"Fix bug\",\"status\":\"published\",\"board\":\x7b\"name\":\"Dev\"\x7d,\"last_active_at\":\"2024-01-02\"\x7d]"⟩

/-- The second page of cards, without a cursor. -/
def demoCardPage2 : HTTPResponse :=
  ⟨200, [],
    "[\x7b\"number\":2,\"title\":\"Add feature\",\"status\":\"drafted\",\"board\":\x7b\"name\":\"Dev\"\x7d,\"last_active_at\":\"2024-01-03\"\x7d]"⟩

/-- The body of one card for examples, with tags, the golden mark and two
steps, and the JSON value it denotes. -/
def demoCardDetailDocs : List (String × JSON) :=
  [("\x7b\"id\":\"c1\",\"number\":7,\"title\":\"Fix bug\",\"tags\":[\"a\",\"b\"],\"golden\":true,\"steps\":[\x7b\"content\":\"one\",\"completed\":true\x7d,\x7b\"content\":\"two\"\x7d]\x7d",
      .object [("id", .string "c1"), ("number", .number "7"), ("title", .string "Fix bug"),
        ("tags", .array [.string "a", .string "b"]), ("golden", .bool true),
        ("steps", .array [.object [("content", .string "one"), ("completed", .bool true)],
          .object [("content", .string "two")]])])]

/-- The body of a card in which the member `tags` occurs three times (two
tags, then one, then two `null`s) and the member `steps` occurs three times (two
steps, then one, then two empty objects), and the JSON value it denotes. -/
def demoRepeatedMemberDocs : List (String × JSON) :=
  [("\x7b\"tags\":[\"a\",\"b\"],\"tags\":[\"c\"],\"tags\":[null,null],\"steps\":[\x7b\"content\":\"one\"\x7d,\x7b\"content\":\"two\",\"completed\":true\x7d],\"steps\":[\x7b\"content\":\"uno\"\x7d],\"steps\":[\x7b\x7d,\x7b\x7d]\x7d",
      .object [("tags", .array [.string "a", .string "b"]), ("tags", .array [.string "c"]),
        ("tags", .array [.null, .null]),
        ("steps", .array [.object [("content", .string "one")],
          .object [("content", .string "two"), ("completed", .bool true)]]),
        ("steps", .array [.object [("content", .string "uno")]]),
        ("steps", .array [.object [], .object []])])]

/-- An operating system for examples: the listed environment variables, no
config file, a reader of the flags `--base-url`, `--token` and `--account`
(each followed by its value) that stops at the first other argument and never
fails, a standard
input that is not a terminal and holds nothing, and a file system on which
every operation succeeds. -/
def OS.demoFlags : GlobalFlags → List String → GlobalFlags × List String
  | fl, [] => (fl, [])
  | fl, [a] => (fl, [a])
  | fl, a :: v :: rest =>
    if a == "--base-url" then OS.demoFlags { fl with flagBaseURL := v } rest
    else if a == "--token" then OS.demoFlags { fl with flagToken := v } rest
    else if a == "--account" then OS.demoFlags { fl with flagAccount := v } rest
    else (fl, a :: v :: rest)

/-- The example operating system with environment `vars`. -/
def OS.demo (vars : List (String × String)) : OS :=
  { getenv := fun name => (vars.lookup name).getD ""
    userConfigDir := .ok "/home/u/.config"
    joinPath := fun parts => "/".intercalate parts
    flagParse := fun dflt args =>
      .ok (OS.demoFlags
        { flagBaseURL := "", flagToken := "", flagAccount := "", flagConfig := dflt,
          flagJSON := false, flagPlain := false, flagNoColor := false, flagHelp := false,
          flagVersion := false } args)
    flagFailureOutput := fun _ _ => ""
    readFile := fun _ => .error .notExist
    decodeConfig := fun _ => .error (.other "unexpected end of JSON input")
    stdinIsTTY := false
    readLine := .ok ""
    readAll := .ok ""
    dir := fun _ => "/home/u/.config/fizzy"
    mkdirAll := fun _ => none
    encodeConfig := fun cfg =>
      .ok ("base_url=" ++ cfg.BaseURL ++ " token=" ++ cfg.Token ++ " session_token=" ++
        cfg.SessionToken ++ " account=" ++ cfg.Account)
    writeFile := fun _ _ => none
    rename := fun _ _ => none }

/-- A reader of the switches `--json` and `--plain` that stops at the first other
argument. -/
def OS.demoSwitches : GlobalFlags → List String → GlobalFlags × List String
  | fl, [] => (fl, [])
  | fl, a :: rest =>
    if a == "--json" then OS.demoSwitches { fl with flagJSON := true } rest
    else if a == "--plain" then OS.demoSwitches { fl with flagPlain := true } rest
    else (fl, a :: rest)

/-- The example operating system with the reader of `--json` and `--plain` and
with a config file of the given content (`none`: there is no config file). The
decoder of the example system rejects every content as truncated JSON. -/
def OS.demoOutput (file : Option String) : OS :=
  { OS.demo [] with
    flagParse := fun dflt args =>
      .ok (OS.demoSwitches
        { flagBaseURL := "", flagToken := "", flagAccount := "", flagConfig := dflt,
          flagJSON := false, flagPlain := false, flagNoColor := false, flagHelp := false,
          flagVersion := false } args)
    readFile := fun _ =>
      match file with
      | some data => .ok data
      | none => .error .notExist }

/-! ## Properties: exit codes (C9) -/

/-- `errors.As` finds a `UsageError` exactly in the errors that are or wrap one. -/
theorem asUsage_isSome_iff (e : GoError) : e.asUsage.isSome = true ↔ IsOrWrapsUsage e := by
  induction e with
  | usage m => simp [GoError.asUsage]; exact .is m
  | api a => simp [GoError.asUsage]; intro h; cases h
  | other m => simp [GoError.asUsage]; intro h; cases h
  | wrapped pre inner ih =>
    simp only [GoError.asUsage]
    rw [ih]
    constructor
    · intro h; exact .wraps pre inner h
    · intro h; cases h; assumption

/-- The exit code of a non-nil error. -/
theorem exitCode_some (e : GoError) :
    exitCode (some e) = if e.asUsage.isSome then 2 else 1 := by
  unfold exitCode
  cases h : e.asUsage <;> simp [h]

/-- C9: `exitCode` returns 0 exactly for the nil error, 2 exactly for an error that
is or wraps a `UsageError`, and 1 exactly for every other error; `handleErr`
returns the code `exitCode` gives for the error it reports, writes the message
of that error to standard error and leaves standard output and the request log
untouched. -/
theorem exitCode_mapping (err : Option GoError) (w : World) (help : String) :
    (exitCode err = 0 ↔ err = none) ∧
    (exitCode err = 2 ↔ ∃ e, err = some e ∧ IsOrWrapsUsage e) ∧
    (exitCode err = 1 ↔ ∃ e, err = some e ∧ ¬ IsOrWrapsUsage e) ∧
    (handleErr w help err).1 = exitCode err ∧
    (handleErr w help err).2.stdout = w.stdout ∧
    (handleErr w help err).2.sent = w.sent ∧
    (∀ e, err = some e → ∃ tail, (handleErr w help err).2.stderr = w.stderr ++ "error: " ++ e.Error ++ "\n" ++ tail) := by
  cases err with
  | none => 
    simp [exitCode, handleErr, printErr]
  | some e =>
    rw [exitCode_some]
    simp only [← asUsage_isSome_iff]
    refine ⟨?_, ?_, ?_, ?_, ?_, ?_, ?_⟩
    · cases h : e.asUsage <;> simp [h]
    · cases h : e.asUsage <;> simp [h]
    · cases h : e.asUsage <;> simp [h]
    · simp [handleErr, exitCode_some]
    · simp only [handleErr, printErr, Option.bind]
      cases e.asUsage <;> simp
    · simp only [handleErr, printErr, Option.bind]
      cases e.asUsage <;> simp
    · intro e' he
      cases he
      simp only [handleErr, printErr, Option.bind]
      cases e.asUsage
      · exact ⟨"", by simp⟩
      · exact ⟨"\n" ++ help, by simp only [String.append_assoc]⟩

/-! ## Properties: trimming, error messages (C8) and credential resolution (C10) -/

/-- Trailing trim is `List.rdropWhile`. -/
theorem trimRightChars_eq (p : Char → Bool) (l : List Char) :
    strings.trimRightChars p l = l.rdropWhile p := rfl

/-- Trimming leaves nothing exactly when every code point is trimmed. -/
theorem trimChars_eq_nil_iff (p : Char → Bool) (l : List Char) :
    strings.trimRightChars p (strings.trimLeftChars p l) = [] ↔ ∀ c ∈ l, p c = true := by
  rw [trimRightChars_eq, List.rdropWhile_eq_nil_iff, strings.trimLeftChars]
  constructor
  · intro h
    have hnil : l.dropWhile p = [] := by
      by_contra hne
      have h0 := List.head_dropWhile_not p l hne
      have := h _ (List.head_mem hne)
      simp [this] at h0
    exact List.dropWhile_eq_nil_iff.mp hnil
  · intro h c hc
    exact h c (List.dropWhile_subset p hc)

/-- What trimming on both sides leaves. -/
theorem trimChars_spec (p : Char → Bool) (l : List Char) :
    (∃ pre post : List Char,
        l = pre ++ strings.trimRightChars p (strings.trimLeftChars p l) ++ post ∧
        (∀ c ∈ pre, p c = true) ∧ (∀ c ∈ post, p c = true)) ∧
      (∀ c ∈ (strings.trimRightChars p (strings.trimLeftChars p l)).head?, p c = false) ∧
      (∀ c ∈ (strings.trimRightChars p (strings.trimLeftChars p l)).getLast?, p c = false) := by
  rw [trimRightChars_eq, strings.trimLeftChars]
  refine ⟨⟨l.takeWhile p, (l.dropWhile p).rtakeWhile p, ?_, ?_, ?_⟩, ?_, ?_⟩
  · have h1 : (l.dropWhile p).rdropWhile p ++ (l.dropWhile p).rtakeWhile p = l.dropWhile p := by
      simp only [List.rdropWhile, List.rtakeWhile]
      rw [← List.reverse_append, List.takeWhile_append_dropWhile, List.reverse_reverse]
    rw [List.append_assoc, h1, List.takeWhile_append_dropWhile]
  · intro c hc
    exact List.mem_takeWhile_imp hc
  · intro c hc
    exact List.mem_rtakeWhile_imp hc
  · intro c hc
    have hne : (l.dropWhile p).rdropWhile p ≠ [] := by
      intro h; rw [h] at hc; simp at hc
    have hne2 : l.dropWhile p ≠ [] := by
      intro h; rw [h] at hne; simp at hne
    obtain ⟨t, ht⟩ := List.rdropWhile_prefix p (l := l.dropWhile p)
    have h0 := List.head_dropWhile_not p l hne2
    have hh : (l.dropWhile p).head? = some c := by
      rw [← ht, List.head?_append_of_ne_nil _ hne]
      exact hc
    rw [List.head?_eq_head hne2] at hh
    simp only [Option.some.injEq] at hh
    rw [hh] at h0
    simpa using h0
  · intro c hc
    have hne : (l.dropWhile p).rdropWhile p ≠ [] := by
      intro h; rw [h] at hc; simp at hc
    have h0 := List.rdropWhile_last_not p (l.dropWhile p) hne
    rw [List.getLast?_eq_getLast _ hne] at hc
    simp only [Option.mem_def, Option.some.injEq] at hc
    rw [hc] at h0
    simpa using h0

/-- `TrimSpace` yields the empty string exactly on blank strings. -/
theorem TrimSpace_eq_empty_iff (s : String) : strings.TrimSpace s = "" ↔ Blank s = true := by
  rw [String.ext_iff]
  simp only [strings.TrimSpace, Blank, List.all_eq_true]
  exact trimChars_eq_nil_iff _ _

/-- `TrimSpace` trims surrounding white space. -/
theorem TrimSpace_isTrimOf (s : String) : IsTrimOf (strings.TrimSpace s) s :=
  trimChars_spec unicode.IsSpace s.data

/-- C8, counterexample: the message of the `APIError` with status 404 and body
`not found` is `api error: status 404: not found`, which is not the trimmed body;
and the body made of a space and a newline is not empty, yet its message is the
generic `api error: status 500` rather than the trimmed body. -/
theorem apiError_message_is_not_the_trimmed_body :
    (APIError.mk 404 "not found").Error = "api error: status 404: not found" ∧
    (APIError.mk 404 "not found").Error ≠ strings.TrimSpace "not found" ∧
    (APIError.mk 500 " \n").Body ≠ "" ∧
    (APIError.mk 500 " \n").Error = "api error: status 500" ∧
    (APIError.mk 500 " \n").Error ≠ strings.TrimSpace " \n" := by
  decide

/-- C8, amended: for every `APIError` with status N and body b, the message is
`api error: status N` when b is blank (empty or white space only), and otherwise
`api error: status N: ` followed by b with its surrounding white space trimmed. -/
theorem apiError_message (e : APIError) :
    IsTrimOf (strings.TrimSpace e.Body) e.Body ∧
    e.Error =
      if Blank e.Body then "api error: status " ++ fmt.Sprintd e.Status
      else "api error: status " ++ fmt.Sprintd e.Status ++ ": " ++ strings.TrimSpace e.Body := by
  refine ⟨TrimSpace_isTrimOf e.Body, ?_⟩
  unfold APIError.Error
  by_cases h : Blank e.Body = true
  · have := (TrimSpace_eq_empty_iff e.Body).mpr h
    simp [h, this]
  · have h2 : strings.TrimSpace e.Body ≠ "" := fun hh => h ((TrimSpace_eq_empty_iff e.Body).mp hh)
    simp [h, h2]

/-- The test `TrimSpace(v) != ""` of `firstNonEmpty`. -/
theorem trimSpace_bne_empty (v : String) : (strings.TrimSpace v != "") = !Blank v := by
  by_cases h : Blank v = true
  · have := (TrimSpace_eq_empty_iff v).mpr h
    simp [h, this]
  · have h2 : strings.TrimSpace v ≠ "" := fun hh => h ((TrimSpace_eq_empty_iff v).mp hh)
    simp [h, h2]

/-- Three sources, no default. -/
theorem firstNonEmpty_three (a b c : String) :
    firstNonEmpty [a, b, c] = resolveBySpec a b c "" := by
  simp only [firstNonEmpty, resolveBySpec, trimSpace_bne_empty]

/-- Three sources and a non-blank default. -/
theorem firstNonEmpty_four (a b c d : String) (hd : Blank d = false)
    (hd2 : strings.TrimSpace d = d) :
    firstNonEmpty [a, b, c, d] = resolveBySpec a b c d := by
  have hne : d ≠ "" := by
    rintro rfl
    exact absurd hd (by decide)
  simp only [firstNonEmpty, resolveBySpec, trimSpace_bne_empty, hd, hd2]
  simp [hne]

/-- A non-empty default keeps the resolved value non-empty. -/
theorem resolveBySpec_ne_empty (a b c d : String) (hd : d ≠ "") :
    resolveBySpec a b c d ≠ "" := by
  unfold resolveBySpec
  split_ifs with h1 h2 h3
  · intro h; rw [TrimSpace_eq_empty_iff] at h; simp [h] at h1
  · intro h; rw [TrimSpace_eq_empty_iff] at h; simp [h] at h2
  · intro h; rw [TrimSpace_eq_empty_iff] at h; simp [h] at h3
  · exact hd

/-- C10, amended: whenever `parseGlobal` gets past flag parsing and config
loading, base URL and token are the white-space-trimmed value of the first
non-blank source in the order flag, environment variable, config file (then
`https://app.fizzy.do` for the base URL and the empty string for the token); the
account is chosen the same way and then stripped of leading and trailing
slashes; the session token comes from the config file; and the resolved base URL
is never empty. -/
theorem parseGlobal_precedence (os : OS) (args : List String) (p : String) (fl : GlobalFlags)
    (rest : List String) (cfg : Config)
    (hargs : args ≠ [])
    (hpath : (if os.getenv "FIZZY_CONFIG" == "" then config.DefaultPath os
      else .ok (os.getenv "FIZZY_CONFIG")) = .ok p)
    (hflags : os.flagParse p args.tail = .ok (fl, rest))
    (hload : config.Load os fl.flagConfig = .ok cfg) :
    (parseGlobal os args).ctx.BaseURL =
        resolveBySpec fl.flagBaseURL (os.getenv "FIZZY_BASE_URL") cfg.BaseURL defaultBaseURL ∧
      (parseGlobal os args).ctx.Token =
        resolveBySpec fl.flagToken (os.getenv "FIZZY_TOKEN") cfg.Token "" ∧
      (parseGlobal os args).ctx.Account =
        normalizeAccount
          (resolveBySpec fl.flagAccount (os.getenv "FIZZY_ACCOUNT") cfg.Account "") ∧
      (parseGlobal os args).ctx.SessionToken = cfg.SessionToken ∧
      (parseGlobal os args).ctx.BaseURL ≠ "" := by
  have hlen : ¬ args.length = 0 := by
    intro h; exact hargs (List.length_eq_zero.mp h)
  have h4 := firstNonEmpty_four fl.flagBaseURL (os.getenv "FIZZY_BASE_URL") cfg.BaseURL
    defaultBaseURL (by decide) (by decide)
  have hne := resolveBySpec_ne_empty fl.flagBaseURL (os.getenv "FIZZY_BASE_URL") cfg.BaseURL
    defaultBaseURL (by decide)
  unfold parseGlobal
  simp only [hlen, if_false, hpath, hflags, hload, h4, firstNonEmpty_three]
  split_ifs <;> exact ⟨rfl, rfl, rfl, rfl, hne⟩

/-- C10, witness: with `FIZZY_ACCOUNT=/acme`, `--token " tok "` and no config file
the base URL resolves to the default, the token to `tok` and the account to
`acme`. -/
theorem parseGlobal_precedence_witness :
    (["fizzy-cli", "--token", " tok ", "board", "list"] : List String) ≠ [] ∧
      (parseGlobal (OS.demo [("FIZZY_ACCOUNT", "/acme")])
        ["fizzy-cli", "--token", " tok ", "board", "list"]).ctx.BaseURL =
          "https://app.fizzy.do" ∧
      (parseGlobal (OS.demo [("FIZZY_ACCOUNT", "/acme")])
        ["fizzy-cli", "--token", " tok ", "board", "list"]).ctx.Token = "tok" ∧
      (parseGlobal (OS.demo [("FIZZY_ACCOUNT", "/acme")])
        ["fizzy-cli", "--token", " tok ", "board", "list"]).ctx.Account = "acme" := by
  have h := parseGlobal_precedence (OS.demo [("FIZZY_ACCOUNT", "/acme")])
    ["fizzy-cli", "--token", " tok ", "board", "list"] "/home/u/.config/fizzy/config.json"
    { flagBaseURL := "", flagToken := " tok ", flagAccount := "",
      flagConfig := "/home/u/.config/fizzy/config.json", flagJSON := false, flagPlain := false,
      flagNoColor := false, flagHelp := false, flagVersion := false }
    ["board", "list"] ⟨"", "", "", ""⟩ (by decide) rfl rfl rfl
  exact ⟨by decide, h.1.trans (by decide), h.2.1.trans (by decide), h.2.2.1.trans (by decide)⟩

/-- C10, counterexample: with `--account /` and `FIZZY_ACCOUNT=acme` the flag is
not blank, yet the resolved account is the empty string, not the flag value; and
`--token " tok "` resolves to `tok`, not to the flag value. -/
theorem parseGlobal_flag_value_not_kept :
    Blank "/" = false ∧ Blank " tok " = false ∧
    (parseGlobal (OS.demo [("FIZZY_ACCOUNT", "acme")])
      ["fizzy-cli", "--account", "/", "--token", " tok ", "board", "list"]).ctx.Account = "" ∧
    (parseGlobal (OS.demo [("FIZZY_ACCOUNT", "acme")])
      ["fizzy-cli", "--account", "/", "--token", " tok ", "board", "list"]).ctx.Token = "tok" := by
  decide

/-! ## Properties: request execution (C5, C6, C7) -/

/-- Once the URL is built and the request accepted, `Do` sends one request and
normalises the outcome of the transport. -/
theorem Do_of_request_built (env : Env) (c : Client) (w : World) (method path : String)
    (query : Option Values) (body : Option String) (contentType : String)
    (headers : Option (List (String × String))) (urlStr : String)
    (hurl : buildURL env c.BaseURL path query = .ok urlStr)
    (hreq : env.newRequest method urlStr = none) :
    c.Do env w method path query body contentType headers =
      (match env.roundTrip w.sent.length
          ⟨method, urlStr, c.requestHeader contentType headers, body⟩ with
        | .error e => .error e
        | .ok resp =>
          if resp.StatusCode ≥ 400 then .error (.api ⟨resp.StatusCode, resp.Body⟩)
          else .ok ⟨resp.StatusCode, resp.Header, resp.Body⟩,
       { w with sent := w.sent ++ [⟨method, urlStr, c.requestHeader contentType headers, body⟩] }) := by
  unfold Client.Do
  simp only [hurl, hreq]
  cases h : env.roundTrip w.sent.length ⟨method, urlStr, c.requestHeader contentType headers, body⟩ with
  | error e => simp
  | ok resp => 
    by_cases hs : resp.StatusCode ≥ 400 <;> simp [hs]

/-- C7: for every transport response with status s and body b, `Do` fails with an
`APIError` carrying exactly s and the unmodified b if and only if s is at least
400 (and fails in no other way); otherwise it succeeds with a `Response` whose
status, headers and body are those of the transport response. -/
theorem Do_normalises_status (env : Env) (c : Client) (w : World) (method path : String)
    (query : Option Values) (body : Option String) (contentType : String)
    (headers : Option (List (String × String))) (urlStr : String) (resp : HTTPResponse)
    (hurl : buildURL env c.BaseURL path query = .ok urlStr)
    (hreq : env.newRequest method urlStr = none)
    (hresp : env.roundTrip w.sent.length
      ⟨method, urlStr, c.requestHeader contentType headers, body⟩ = .ok resp) :
    ((c.Do env w method path query body contentType headers).1 =
        .error (.api ⟨resp.StatusCode, resp.Body⟩) ↔ resp.StatusCode ≥ 400) ∧
      ((c.Do env w method path query body contentType headers).1 =
        .ok ⟨resp.StatusCode, resp.Header, resp.Body⟩ ↔ resp.StatusCode < 400) ∧
      (∀ e, (c.Do env w method path query body contentType headers).1 = .error e →
        e = .api ⟨resp.StatusCode, resp.Body⟩) := by
  rw [Do_of_request_built env c w method path query body contentType headers urlStr hurl hreq]
  simp only [hresp]
  by_cases hs : resp.StatusCode ≥ 400
  · have : ¬ resp.StatusCode < 400 := by omega
    simp [hs, this]
  · have : resp.StatusCode < 400 := by omega
    simp [hs, this]

/-- C7, witness: a 404 answer with body `not found` becomes the `APIError` with
status 404 and that body. -/
theorem Do_normalises_status_witness :
    buildURL (Env.demo [⟨404, [], "not found"⟩]) "https://app.fizzy.do" "/cards/9" none =
        .ok "https://app.fizzy.do/cards/9" ∧
      (Env.demo [⟨404, [], "not found"⟩]).newRequest "GET" "https://app.fizzy.do/cards/9" = none ∧
      (Env.demo [⟨404, [], "not found"⟩]).roundTrip 0
        ⟨"GET", "https://app.fizzy.do/cards/9",
          (Client.mk "https://app.fizzy.do" "t" "" "").requestHeader "" none, none⟩ =
        .ok ⟨404, [], "not found"⟩ ∧
      (((Client.mk "https://app.fizzy.do" "t" "" "").Do (Env.demo [⟨404, [], "not found"⟩])
          ⟨"", "", []⟩ "GET" "/cards/9" none none "" none).1 =
        .error (.api ⟨404, "not found"⟩) ↔ (404 : Int) ≥ 400) :=
  ⟨rfl, rfl, rfl,
    (Do_normalises_status (Env.demo [⟨404, [], "not found"⟩])
      (Client.mk "https://app.fizzy.do" "t" "" "") ⟨"", "", []⟩ "GET" "/cards/9" none none ""
      none "https://app.fizzy.do/cards/9" ⟨404, [], "not found"⟩ rfl rfl rfl).1⟩

/-- Removing the entries of one key does not change what another key maps to. -/
theorem lookup_filter_ne (h : Header) (k ck : String) (hk : k ≠ ck) :
    (h.filter (fun e => e.1 != ck)).lookup k = h.lookup k := by
  induction h with
  | nil => rfl
  | cons e rest ih =>
    obtain ⟨a, b⟩ := e
    by_cases ha : a = ck
    · subst ha
      have : (k == a) = false := by simpa using hk
      simp [List.filter_cons, List.lookup_cons, this, ih]
    · have h1 : (a != ck) = true := by simpa using ha
      simp only [List.filter_cons, h1, if_true, List.lookup_cons, ih]

/-- After `Set`, the canonical key holds exactly the new value. -/
theorem values_Set_self (h : Header) (key value : String) :
    (h.Set key value).values (textproto.CanonicalMIMEHeaderKey key) = some [value] := by
  simp [Header.Set, Header.values, List.lookup_cons]

/-- `Set` leaves every other key alone. -/
theorem values_Set_of_ne (h : Header) (key value k : String)
    (hk : k ≠ textproto.CanonicalMIMEHeaderKey key) :
    (h.Set key value).values k = h.values k := by
  have : (k == textproto.CanonicalMIMEHeaderKey key) = false := by simpa using hk
  simp only [Header.Set, Header.values, List.lookup_cons, this]
  exact lookup_filter_ne h k _ hk

/-- The loop over the extra headers leaves alone every key none of them names. -/
theorem values_foldl_Set_of_not_mem (hs : List (String × String)) (h : Header) (k : String)
    (hk : ∀ kv ∈ hs, textproto.CanonicalMIMEHeaderKey kv.1 ≠ k) :
    (hs.foldl (fun h kv => h.Set kv.1 kv.2) h).values k = h.values k := by
  induction hs generalizing h with
  | nil => rfl
  | cons a rest ih =>
    simp only [List.foldl_cons]
    rw [ih _ (fun kv hkv => hk kv (List.mem_cons_of_mem _ hkv))]
    exact values_Set_of_ne h a.1 a.2 k (fun hh => hk a (List.mem_cons_self _ _) hh.symm)

/-- After the loop over extra headers that name each header once, each named
header holds the value supplied for it. -/
theorem values_foldl_Set_of_mem (hs : List (String × String)) (h : Header)
    (hd : CanonDistinct hs) (kv : String × String) (hkv : kv ∈ hs) :
    (hs.foldl (fun h kv => h.Set kv.1 kv.2) h).values (textproto.CanonicalMIMEHeaderKey kv.1) =
      some [kv.2] := by
  induction hs generalizing h with
  | nil => cases hkv
  | cons a rest ih =>
    simp only [CanonDistinct, List.map_cons, List.nodup_cons, List.mem_map, not_exists,
      not_and] at hd
    simp only [List.foldl_cons]
    rcases List.mem_cons.mp hkv with rfl | hmem
    · rw [values_foldl_Set_of_not_mem rest _ _ (fun x hx => hd.1 x hx)]
      exact values_Set_self h kv.1 kv.2
    · exact ih _ hd.2 hmem

/-- The header `Do` builds is the loop over the extra headers applied to a header
whose `Authorization` and `Cookie` entries are the defaults chosen from the
credentials. -/
theorem requestHeader_eq (c : Client) (contentType : String)
    (headers : Option (List (String × String))) :
    ∃ base : Header, c.requestHeader contentType headers =
        (headers.getD []).foldl (fun h kv => h.Set kv.1 kv.2) base ∧
      base.values "Authorization" =
        (if c.Token != "" then some ["Bearer " ++ c.Token] else none) ∧
      base.values "Cookie" =
        (if c.Token == "" && c.SessionToken != "" &&
            ((headers.getD []).lookup "Cookie").isNone
          then some ["session_token=" ++ c.SessionToken] else none) := by
  refine ⟨_, rfl, ?_, ?_⟩
  · have e1 : textproto.CanonicalMIMEHeaderKey "Accept" = "Accept" := by decide
    have e2 : textproto.CanonicalMIMEHeaderKey "User-Agent" = "User-Agent" := by decide
    have e3 : textproto.CanonicalMIMEHeaderKey "Authorization" = "Authorization" := by decide
    have e4 : textproto.CanonicalMIMEHeaderKey "Cookie" = "Cookie" := by decide
    have e5 : textproto.CanonicalMIMEHeaderKey "Content-Type" = "Content-Type" := by decide
    by_cases ht : c.Token = "" <;> by_cases hs : c.SessionToken = "" <;>
      by_cases ha : c.Agent = "" <;> by_cases hc : contentType = "" <;>
      cases headers <;>
      simp [ht, hs, ha, hc, Header.Set, Header.values, List.lookup_cons, e1, e2, e3, e4, e5, List.filter_cons, apply_ite]
  · have e1 : textproto.CanonicalMIMEHeaderKey "Accept" = "Accept" := by decide
    have e2 : textproto.CanonicalMIMEHeaderKey "User-Agent" = "User-Agent" := by decide
    have e3 : textproto.CanonicalMIMEHeaderKey "Authorization" = "Authorization" := by decide
    have e4 : textproto.CanonicalMIMEHeaderKey "Cookie" = "Cookie" := by decide
    have e5 : textproto.CanonicalMIMEHeaderKey "Content-Type" = "Content-Type" := by decide
    by_cases ht : c.Token = "" <;> by_cases hs : c.SessionToken = "" <;>
      by_cases ha : c.Agent = "" <;> by_cases hc : contentType = "" <;>
      rcases headers with _ | hs' <;>
      first
        | (cases hl : List.lookup "Cookie" hs' <;>
            simp [ht, hs, ha, hc, hl, Header.Set, Header.values, List.lookup_cons, e1, e2, e3, e4,
              e5, List.filter_cons, apply_ite])
        | simp [ht, hs, ha, hc, Header.Set, Header.values, List.lookup_cons, e1, e2, e3, e4, e5,
            List.filter_cons, apply_ite]

/-- A successful lookup returns an entry of the list. -/
theorem mem_of_lookup_eq_some (l : List (String × String)) (k v : String)
    (h : l.lookup k = some v) : (k, v) ∈ l := by
  induction l with
  | nil => simp at h
  | cons a rest ih =>
    obtain ⟨a1, a2⟩ := a
    rw [List.lookup_cons] at h
    by_cases hk : k = a1
    · subst hk
      simp only [beq_self_eq_true, Option.some.injEq] at h
      subst h
      exact List.mem_cons_self _ _
    · have : (k == a1) = false := by simpa using hk
      rw [this] at h
      exact List.mem_cons_of_mem _ (ih h)

/-- The request `Do` hands to the transport. -/
theorem Do_sent_of_request_built (env : Env) (c : Client) (w : World) (method path : String)
    (query : Option Values) (body : Option String) (contentType : String)
    (headers : Option (List (String × String))) (urlStr : String)
    (hurl : buildURL env c.BaseURL path query = .ok urlStr)
    (hreq : env.newRequest method urlStr = none) :
    (c.Do env w method path query body contentType headers).2.sent =
      w.sent ++ [⟨method, urlStr, c.requestHeader contentType headers, body⟩] := by
  rw [Do_of_request_built env c w method path query body contentType headers urlStr hurl hreq]

/-- Explicit headers win: each header the caller names once carries the caller's value. -/
theorem requestHeader_explicit (c : Client) (contentType : String)
    (headers : Option (List (String × String))) (hd : CanonDistinct (headers.getD []))
    (kv : String × String) (hkv : kv ∈ headers.getD []) :
    (c.requestHeader contentType headers).values (textproto.CanonicalMIMEHeaderKey kv.1) =
      some [kv.2] := by
  obtain ⟨base, hb, -, -⟩ := requestHeader_eq c contentType headers
  rw [hb]
  exact values_foldl_Set_of_mem _ base hd kv hkv

/-- C5, amended: for every client with a non-empty Token (whatever its
SessionToken) and extra headers that name no header twice (no two keys with the
same canonical form), the request handed to the transport carries
`Authorization: Bearer <Token>` unless the extra headers name Authorization,
carries no Cookie header unless the extra headers name Cookie, and carries for
every header the extra headers name exactly the caller's value; so an explicit
Cookie is carried verbatim and no `session_token=` default is added. -/
theorem Do_bearer_token_headers (env : Env) (c : Client) (w : World) (method path : String)
    (query : Option Values) (body : Option String) (contentType : String)
    (headers : Option (List (String × String))) (urlStr : String)
    (hurl : buildURL env c.BaseURL path query = .ok urlStr)
    (hreq : env.newRequest method urlStr = none)
    (htok : c.Token ≠ "") (hd : CanonDistinct (headers.getD [])) :
    ∃ req : HTTPRequest,
      (c.Do env w method path query body contentType headers).2.sent = w.sent ++ [req] ∧
      ((∀ kv ∈ headers.getD [], textproto.CanonicalMIMEHeaderKey kv.1 ≠ "Authorization") →
        req.Header.values "Authorization" = some ["Bearer " ++ c.Token]) ∧
      ((∀ kv ∈ headers.getD [], textproto.CanonicalMIMEHeaderKey kv.1 ≠ "Cookie") →
        req.Header.values "Cookie" = none) ∧
      (∀ kv ∈ headers.getD [],
        req.Header.values (textproto.CanonicalMIMEHeaderKey kv.1) = some [kv.2]) := by
  refine ⟨_, Do_sent_of_request_built env c w method path query body contentType headers urlStr
    hurl hreq, ?_, ?_, ?_⟩
  · intro hno
    obtain ⟨base, hb, hauth, -⟩ := requestHeader_eq c contentType headers
    show (c.requestHeader contentType headers).values "Authorization" = _
    rw [hb, values_foldl_Set_of_not_mem _ base _ hno, hauth]
    simp [htok]
  · intro hno
    obtain ⟨base, hb, -, hcookie⟩ := requestHeader_eq c contentType headers
    show (c.requestHeader contentType headers).values "Cookie" = _
    rw [hb, values_foldl_Set_of_not_mem _ base _ hno, hcookie]
    simp [htok]
  · intro kv hkv
    exact requestHeader_explicit c contentType headers hd kv hkv

/-- C6, amended: for every client with an empty Token and a non-empty
SessionToken and extra headers that name no header twice (no two keys with the
same canonical form), the request carries `Cookie: session_token=<SessionToken>`
when no extra header names Cookie, carries the caller's value when one does, and
carries for every header the extra headers name exactly the caller's value. -/
theorem Do_session_cookie_headers (env : Env) (c : Client) (w : World) (method path : String)
    (query : Option Values) (body : Option String) (contentType : String)
    (headers : Option (List (String × String))) (urlStr : String)
    (hurl : buildURL env c.BaseURL path query = .ok urlStr)
    (hreq : env.newRequest method urlStr = none)
    (htok : c.Token = "") (hsess : c.SessionToken ≠ "")
    (hd : CanonDistinct (headers.getD [])) :
    ∃ req : HTTPRequest,
      (c.Do env w method path query body contentType headers).2.sent = w.sent ++ [req] ∧
      ((∀ kv ∈ headers.getD [], textproto.CanonicalMIMEHeaderKey kv.1 ≠ "Cookie") →
        req.Header.values "Cookie" = some ["session_token=" ++ c.SessionToken]) ∧
      (∀ kv ∈ headers.getD [], textproto.CanonicalMIMEHeaderKey kv.1 = "Cookie" →
        req.Header.values "Cookie" = some [kv.2]) ∧
      (∀ kv ∈ headers.getD [],
        req.Header.values (textproto.CanonicalMIMEHeaderKey kv.1) = some [kv.2]) := by
  refine ⟨_, Do_sent_of_request_built env c w method path query body contentType headers urlStr
    hurl hreq, ?_, ?_, ?_⟩
  · intro hno
    obtain ⟨base, hb, -, hcookie⟩ := requestHeader_eq c contentType headers
    show (c.requestHeader contentType headers).values "Cookie" = _
    rw [hb, values_foldl_Set_of_not_mem _ base _ hno, hcookie]
    have hnone : (headers.getD []).lookup "Cookie" = none := by
      cases hl : (headers.getD []).lookup "Cookie" with
      | none => rfl
      | some v =>
        have e4 : textproto.CanonicalMIMEHeaderKey "Cookie" = "Cookie" := by decide
        exact absurd e4 (hno _ (mem_of_lookup_eq_some _ _ _ hl))
    simp [htok, hsess, hnone]
  · intro kv hkv hc
    have := requestHeader_explicit c contentType headers hd kv hkv
    rw [hc] at this
    exact this
  · intro kv hkv
    exact requestHeader_explicit c contentType headers hd kv hkv

/-- C5, counterexample: with Token `tok` and SessionToken `sess`, extra headers
holding `Authorization: Basic abc` make the request carry that value and not
`Bearer tok`; and extra headers holding the keys `Cookie` (value `a`) and `cookie`
(value `b`), visited in that order, make the request carry `Cookie: b`, not the
value of the `Cookie` entry. -/
theorem Do_explicit_authorization_overrides_bearer :
    ((Client.mk "https://app.fizzy.do" "tok" "sess" "").Do (Env.demo []) ⟨"", "", []⟩ "GET"
        "/my/identity" none none "" (some [("Authorization", "Basic abc")])).2.sent =
      [⟨"GET", "https://app.fizzy.do/my/identity",
        [("Authorization", ["Basic abc"]), ("Accept", ["application/json"])], none⟩] ∧
    ((Client.mk "https://app.fizzy.do" "tok" "sess" "").Do (Env.demo []) ⟨"", "", []⟩ "GET"
        "/my/identity" none none "" (some [("Cookie", "a"), ("cookie", "b")])).2.sent =
      [⟨"GET", "https://app.fizzy.do/my/identity",
        [("Cookie", ["b"]), ("Authorization", ["Bearer tok"]), ("Accept", ["application/json"])],
        none⟩] := by
  decide

/-- C5, witness: the magic-link request of a client holding both credentials
carries the bearer token and the explicit pending-authentication cookie. -/
theorem Do_bearer_token_headers_witness :
    buildURL (Env.demo []) "https://app.fizzy.do" "/session/magic_link" none =
        .ok "https://app.fizzy.do/session/magic_link" ∧
      (Env.demo []).newRequest "POST" "https://app.fizzy.do/session/magic_link" = none ∧
      (Client.mk "https://app.fizzy.do" "tok" "sess" "").Token ≠ "" ∧
      CanonDistinct ((some [("Cookie", "pending_authentication_token=p")]).getD []) ∧
      ∃ req : HTTPRequest,
        ((Client.mk "https://app.fizzy.do" "tok" "sess" "").Do (Env.demo []) ⟨"", "", []⟩ "POST"
          "/session/magic_link" none (some "{}") "application/json"
          (some [("Cookie", "pending_authentication_token=p")])).2.sent = [] ++ [req] ∧
        req.Header.values "Authorization" = some ["Bearer tok"] ∧
        req.Header.values "Cookie" = some ["pending_authentication_token=p"] := by
  have h := Do_bearer_token_headers (Env.demo []) (Client.mk "https://app.fizzy.do" "tok" "sess" "")
    ⟨"", "", []⟩ "POST" "/session/magic_link" none (some "{}") "application/json"
    (some [("Cookie", "pending_authentication_token=p")])
    "https://app.fizzy.do/session/magic_link" rfl rfl (by decide) (by unfold CanonDistinct; decide)
  obtain ⟨req, hsent, hauth, -, hexp⟩ := h
  exact ⟨rfl, rfl, by decide, by unfold CanonDistinct; decide, req, hsent,
    hauth (by decide), hexp ("Cookie", "pending_authentication_token=p") (by decide)⟩

/-- C6, counterexample: the extra headers with the two distinct keys `Cookie`
(value `a`) and `cookie` (value `b`), visited in that order, leave the request
with `Cookie: b`, so the key `Cookie` does not end with the caller's value `a`. -/
theorem Do_colliding_header_keys :
    ([("Cookie", "a"), ("cookie", "b")] : List (String × String)).map Prod.fst =
      ["Cookie", "cookie"] ∧
    ((Client.mk "https://app.fizzy.do" "" "sess" "").Do (Env.demo []) ⟨"", "", []⟩ "GET"
        "/my/identity" none none "" (some [("Cookie", "a"), ("cookie", "b")])).2.sent =
      [⟨"GET", "https://app.fizzy.do/my/identity",
        [("Cookie", ["b"]), ("Accept", ["application/json"])], none⟩] := by
  decide

/-- C6, witness: with only `X-Trace` supplied the request carries the session
cookie default and the caller's `X-Trace`. -/
theorem Do_session_cookie_headers_witness :
    buildURL (Env.demo []) "https://app.fizzy.do" "/my/identity" none =
        .ok "https://app.fizzy.do/my/identity" ∧
      (Env.demo []).newRequest "GET" "https://app.fizzy.do/my/identity" = none ∧
      (Client.mk "https://app.fizzy.do" "" "sess" "").Token = "" ∧
      (Client.mk "https://app.fizzy.do" "" "sess" "").SessionToken ≠ "" ∧
      CanonDistinct ((some [("X-Trace", "1")]).getD []) ∧
      ∃ req : HTTPRequest,
        ((Client.mk "https://app.fizzy.do" "" "sess" "").Do (Env.demo []) ⟨"", "", []⟩ "GET"
          "/my/identity" none none "" (some [("X-Trace", "1")])).2.sent = [] ++ [req] ∧
        req.Header.values "Cookie" = some ["session_token=sess"] ∧
        req.Header.values "X-Trace" = some ["1"] := by
  have h := Do_session_cookie_headers (Env.demo [])
    (Client.mk "https://app.fizzy.do" "" "sess" "") ⟨"", "", []⟩ "GET" "/my/identity" none none ""
    (some [("X-Trace", "1")]) "https://app.fizzy.do/my/identity" rfl rfl rfl (by decide)
    (by unfold CanonDistinct; decide)
  obtain ⟨req, hsent, hdef, -, hexp⟩ := h
  exact ⟨rfl, rfl, rfl, by decide, by unfold CanonDistinct; decide, req, hsent,
    hdef (by decide), hexp ("X-Trace", "1") (by decide)⟩

/-! ## Properties: the next-page cursor (C3) -/

/-- The code points of one `Link` entry (code point 34 is the double quote). -/
theorem linkEntry_data (url rel : String) :
    (linkEntry url rel).data =
      '<' :: (url.data ++ ('>' :: ';' :: ' ' :: 'r' :: 'e' :: 'l' :: '=' :: Char.ofNat 34 ::
        (rel.data ++ [Char.ofNat 34]))) := by
  simp only [linkEntry, String.data_append, List.append_assoc, List.cons_append,
    List.nil_append]

/-- Text without the separator is a single segment. -/
theorem splitChars_of_not_mem (sep : Char) (a : List Char) (ha : sep ∉ a) :
    strings.splitChars sep a = [a] := by
  induction a with
  | nil => rfl
  | cons c cs ih =>
    have hc : c ≠ sep := fun h => ha (h ▸ List.mem_cons_self _ _)
    have hcs : sep ∉ cs := fun h => ha (List.mem_cons_of_mem _ h)
    simp [strings.splitChars, hc, ih hcs]

/-- The first segment ends at the first separator. -/
theorem splitChars_append_sep (sep : Char) (a b : List Char) (ha : sep ∉ a) :
    strings.splitChars sep (a ++ sep :: b) = a :: strings.splitChars sep b := by
  induction a with
  | nil => simp [strings.splitChars]
  | cons c cs ih =>
    have hc : c ≠ sep := fun h => ha (h ▸ List.mem_cons_self _ _)
    have hcs : sep ∉ cs := fun h => ha (List.mem_cons_of_mem _ h)
    simp [strings.splitChars, hc, ih hcs]

/-- Trimming removes leading padding and nothing else when the text starts and
ends with code points that are kept. -/
theorem trimChars_of_padded (p : Char → Bool) (pre mid : List Char) (x y : Char)
    (hpre : ∀ c ∈ pre, p c = true) (hx : p x = false) (hy : p y = false) :
    strings.trimRightChars p (strings.trimLeftChars p (pre ++ x :: (mid ++ [y]))) =
      x :: (mid ++ [y]) := by
  rw [trimRightChars_eq, strings.trimLeftChars, List.dropWhile_append_of_pos hpre,
    List.dropWhile_cons_of_neg (by rw [hx]; exact Bool.false_ne_true), ← List.cons_append,
    List.rdropWhile_concat_neg _ _ _ (by rw [hy]; exact Bool.false_ne_true)]

/-- The text after the opening quote starts with `next` and the closing quote
exactly when the relation is `next`. -/
theorem isPrefixOf_next (r : List Char) (hq : Char.ofNat 34 ∉ r) :
    ['n', 'e', 'x', 't', Char.ofNat 34].isPrefixOf (r ++ [Char.ofNat 34]) =
      decide (r = ['n', 'e', 'x', 't']) := by
  rcases r with _ | ⟨a, _ | ⟨b, _ | ⟨c, _ | ⟨d, _ | ⟨e, r⟩⟩⟩⟩⟩
  · decide
  · simp only [List.mem_singleton] at hq
    have : ('e' == Char.ofNat 34) = false := by decide
    simp [List.isPrefixOf, this]
  · have : ('x' == Char.ofNat 34) = false := by decide
    simp [List.isPrefixOf, this]
  · have : ('t' == Char.ofNat 34) = false := by decide
    simp [List.isPrefixOf, this]
  · have hh : ∀ x y : Char, (x == y) = decide (y = x) := by
      intro x y
      by_cases h : x = y
      · simp [h]
      · have h2 : ¬ y = x := fun e => h e.symm
        simp [h, h2]
    simp [List.isPrefixOf, hh]
  · have he : e ≠ Char.ofNat 34 := fun h => hq (by simp [h])
    have : (Char.ofNat 34 == e) = false := by simpa using fun h => he h.symm
    simp [List.isPrefixOf, this]

/-- A pattern holding more copies of a code point than the text does not occur in it. -/
theorem containsChars_false_of_count (q : Char) (pat text : List Char)
    (h : text.count q < pat.count q) : strings.containsChars pat text = false := by
  induction text with
  | nil =>
    cases pat with
    | nil => simp at h
    | cons x xs => rfl
  | cons c cs ih =>
    have h1 : pat.isPrefixOf (c :: cs) = false := by
      by_contra hp
      have hp : pat.isPrefixOf (c :: cs) = true := by simpa using hp
      have := (List.isPrefixOf_iff_prefix.mp hp).sublist.count_le q
      omega
    have h2 : cs.count q ≤ (c :: cs).count q := by
      rw [List.count_cons]; omega
    simp [strings.containsChars, h1, ih (by omega)]

/-- The relation parameter contains `rel="next"` exactly when the relation is `next`. -/
theorem containsChars_rel (r : List Char) (hq : Char.ofNat 34 ∉ r) :
    strings.containsChars ['r', 'e', 'l', '=', Char.ofNat 34, 'n', 'e', 'x', 't', Char.ofNat 34]
        ('r' :: 'e' :: 'l' :: '=' :: Char.ofNat 34 :: (r ++ [Char.ofNat 34])) =
      decide (r = ['n', 'e', 'x', 't']) := by
  have hcount : (r ++ [Char.ofNat 34]).count (Char.ofNat 34) <
      ['r', 'e', 'l', '=', Char.ofNat 34, 'n', 'e', 'x', 't', Char.ofNat 34].count
        (Char.ofNat 34) := by
    rw [List.count_append, List.count_eq_zero_of_not_mem hq]
    decide
  have h5 := containsChars_false_of_count (Char.ofNat 34) _ _ hcount
  simp only [strings.containsChars, h5, Bool.or_false]
  have e1 : ('r' == 'e') = false := by decide
  have e2 : ('r' == 'l') = false := by decide
  have e3 : ('r' == '=') = false := by decide
  have e4 : ('r' == Char.ofNat 34) = false := by decide
  simp only [List.isPrefixOf, e1, e2, e3, e4, beq_self_eq_true, Bool.true_and, Bool.false_and,
    Bool.or_false]
  exact isPrefixOf_next r hq

/-- Removing the angle brackets around a url that holds none returns the url. -/
theorem trim_angle (url : List Char) (h1 : '<' ∉ url) (h2 : '>' ∉ url) :
    strings.trimRightChars (fun c => "<>".data.contains c)
      (strings.trimLeftChars (fun c => "<>".data.contains c) ('<' :: (url ++ ['>']))) = url := by
  have hp : ∀ c : Char, ("<>".data.contains c) = true ↔ c = '<' ∨ c = '>' := by
    intro c
    show (['<', '>'].contains c) = true ↔ _
    simp
  have hnot : ∀ c ∈ url, ("<>".data.contains c) = false := by
    intro c hc
    have : ¬ (c = '<' ∨ c = '>') := by
      rintro (rfl | rfl)
      · exact h1 hc
      · exact h2 hc
    rw [← hp] at this
    simpa using this
  rw [trimRightChars_eq, strings.trimLeftChars]
  cases url with
  | nil => decide
  | cons x xs =>
    have hx := hnot x (List.mem_cons_self _ _)
    have hlt : ("<>".data.contains '<') = true := by decide
    have hgt : ("<>".data.contains '>') = true := by decide
    rw [List.dropWhile_cons_of_pos hlt, List.cons_append,
      List.dropWhile_cons_of_neg (by rw [hx]; exact Bool.false_ne_true),
      ← List.cons_append, List.rdropWhile_concat_pos _ _ _ hgt, List.rdropWhile_eq_self_iff]
    intro hl
    have := hnot _ (List.getLast_mem hl)
    show ¬ ("<>".data.contains ((x :: xs).getLast hl)) = true
    rw [this]
    exact Bool.false_ne_true

/-- One iteration of the loop of `nextLink` on a well-formed entry. -/
theorem nextLinkParts_cons (part : String) (rest : List String) (pre : List Char)
    (url rel : String)
    (hpart : part.data = pre ++ (linkEntry url rel).data)
    (hpre : ∀ c ∈ pre, unicode.IsSpace c = true)
    (hurl : ∀ c ∈ url.data, c ∉ [',', ';', '<', '>'])
    (hrel : ∀ c ∈ rel.data, c ∉ [',', ';', Char.ofNat 34]) :
    nextLinkParts (part :: rest) = if rel = "next" then url else nextLinkParts rest := by
  have hu1 : ';' ∉ url.data := fun h => hurl _ h (by simp)
  have hu2 : '<' ∉ url.data := fun h => hurl _ h (by simp)
  have hu3 : '>' ∉ url.data := fun h => hurl _ h (by simp)
  have hr1 : ';' ∉ rel.data := fun h => hrel _ h (by simp)
  have hr2 : Char.ofNat 34 ∉ rel.data := fun h => hrel _ h (by simp)
  have hentry : (linkEntry url rel).data =
      '<' :: ((url.data ++ ('>' :: ';' :: ' ' :: 'r' :: 'e' :: 'l' :: '=' :: Char.ofNat 34 ::
        rel.data)) ++ [Char.ofNat 34]) := by
    rw [linkEntry_data]
    simp
  have htrim : strings.TrimSpace part = linkEntry url rel := by
    rw [String.ext_iff]
    show strings.trimRightChars _ (strings.trimLeftChars _ part.data) = _
    rw [hpart, hentry]
    exact trimChars_of_padded _ _ _ _ _ hpre (by decide) (by decide)
  have hsplit : strings.Split (linkEntry url rel) ';' =
      [String.mk ('<' :: (url.data ++ ['>'])),
        String.mk (' ' :: 'r' :: 'e' :: 'l' :: '=' :: Char.ofNat 34 ::
          (rel.data ++ [Char.ofNat 34]))] := by
    unfold strings.Split
    rw [linkEntry_data]
    have h1 : ';' ∉ '<' :: (url.data ++ ['>']) := by
      simp [hu1]
    have h2 : ';' ∉ ' ' :: 'r' :: 'e' :: 'l' :: '=' :: Char.ofNat 34 ::
        (rel.data ++ [Char.ofNat 34]) := by
      simp [hr1]
    have := splitChars_append_sep ';' _ (' ' :: 'r' :: 'e' :: 'l' :: '=' :: Char.ofNat 34 ::
        (rel.data ++ [Char.ofNat 34])) h1
    simp only [List.cons_append, List.append_assoc, List.nil_append] at this
    rw [this, splitChars_of_not_mem _ _ h2]
    rfl
  have hs0 : strings.TrimSpace (String.mk ('<' :: (url.data ++ ['>']))) =
      String.mk ('<' :: (url.data ++ ['>'])) := by
    rw [String.ext_iff]
    exact trimChars_of_padded _ [] _ _ _ (by simp) (by decide) (by decide)
  have hs1 : strings.TrimSpace (String.mk (' ' :: 'r' :: 'e' :: 'l' :: '=' :: Char.ofNat 34 ::
      (rel.data ++ [Char.ofNat 34]))) =
      String.mk ('r' :: 'e' :: 'l' :: '=' :: Char.ofNat 34 :: (rel.data ++ [Char.ofNat 34])) := by
    rw [String.ext_iff]
    have := trimChars_of_padded unicode.IsSpace [' ']
      ('e' :: 'l' :: '=' :: Char.ofNat 34 :: rel.data) 'r' (Char.ofNat 34)
      (by decide) (by decide) (by decide)
    simpa using this
  have hcontains : strings.Contains
      (String.mk ('r' :: 'e' :: 'l' :: '=' :: Char.ofNat 34 :: (rel.data ++ [Char.ofNat 34])))
      "rel=\"next\"" = decide (rel = "next") := by
    show strings.containsChars _ _ = _
    have := containsChars_rel rel.data hr2
    rw [show ("rel=\"next\"" : String).data =
      ['r', 'e', 'l', '=', Char.ofNat 34, 'n', 'e', 'x', 't', Char.ofNat 34] from rfl, this]
    simp only [String.ext_iff]
  have htrimurl : strings.Trim (String.mk ('<' :: (url.data ++ ['>']))) "<>" = url := by
    rw [String.ext_iff]
    exact trim_angle url.data hu2 hu3
  rw [nextLinkParts, htrim, hsplit]
  simp only [hs0, hs1, hcontains, htrimurl]
  by_cases h : rel = "next" <;> simp [h]

/-- A well-formed entry holds no comma. -/
theorem comma_not_mem_linkEntry (url rel : String)
    (hurl : ∀ c ∈ url.data, c ∉ [',', ';', '<', '>'])
    (hrel : ∀ c ∈ rel.data, c ∉ [',', ';', Char.ofNat 34]) :
    ',' ∉ (linkEntry url rel).data := by
  have hu : ',' ∉ url.data := fun h => hurl _ h (by simp)
  have hr : ',' ∉ rel.data := fun h => hrel _ h (by simp)
  rw [linkEntry_data]
  simp [hu, hr]

/-- White space holds no comma. -/
theorem comma_not_mem_spaces (pre : List Char) (hpre : ∀ c ∈ pre, unicode.IsSpace c = true) :
    ',' ∉ pre := by
  intro h
  exact absurd (hpre _ h) (by decide)

/-- Splitting always yields at least one segment. -/
theorem splitChars_ne_nil (sep : Char) (l : List Char) : strings.splitChars sep l ≠ [] := by
  cases l with
  | nil => simp [strings.splitChars]
  | cons c cs =>
    by_cases h : c = sep <;> simp [strings.splitChars, h]

/-- Splitting distributes over a separator. -/
theorem splitChars_append_sep_all (sep : Char) (a b : List Char) :
    strings.splitChars sep (a ++ sep :: b) =
      strings.splitChars sep a ++ strings.splitChars sep b := by
  induction a with
  | nil => simp [strings.splitChars]
  | cons c cs ih =>
    by_cases h : c = sep
    · simp [strings.splitChars, h, ih]
    · have hne := splitChars_ne_nil sep cs
      simp only [List.cons_append, strings.splitChars, h, if_false]
      have ih' : strings.splitChars sep (cs.append (sep :: b)) =
          strings.splitChars sep cs ++ strings.splitChars sep b := ih
      rw [ih']
      cases hs : strings.splitChars sep cs with
      | nil => exact absurd hs hne
      | cons x xs => simp

/-- Text without the separator joins the first segment of what follows it. -/
theorem splitChars_append_of_not_mem (sep : Char) (a t : List Char) (ha : sep ∉ a) :
    strings.splitChars sep (a ++ t) =
      (a ++ (strings.splitChars sep t).headD []) :: (strings.splitChars sep t).tail := by
  induction a with
  | nil =>
    have hne := splitChars_ne_nil sep t
    cases hs : strings.splitChars sep t with
    | nil => exact absurd hs hne
    | cons x xs => simp [hs]
  | cons c cs ih =>
    have hc : c ≠ sep := fun h => ha (h ▸ List.mem_cons_self _ _)
    have hcs : sep ∉ cs := fun h => ha (List.mem_cons_of_mem _ h)
    simp [strings.splitChars, hc, ih hcs]

/-- Every segment is a sublist of the text. -/
theorem sublist_of_mem_splitChars (sep : Char) (l seg : List Char)
    (h : seg ∈ strings.splitChars sep l) : seg.Sublist l := by
  induction l generalizing seg with
  | nil =>
    simp only [strings.splitChars, List.mem_singleton] at h
    rw [h]
  | cons c cs ih =>
    have hne := splitChars_ne_nil sep cs
    by_cases hc : c = sep
    · simp only [strings.splitChars, hc, if_true, List.mem_cons] at h
      rcases h with rfl | h
      · exact List.nil_sublist _
      · exact (ih seg h).cons _
    · simp only [strings.splitChars, hc, if_false, List.mem_cons] at h
      cases hs : strings.splitChars sep cs with
      | nil => exact absurd hs hne
      | cons x xs =>
        rw [hs] at h ih
        simp only [List.headD_cons, List.tail_cons] at h
        rcases h with rfl | h
        · exact (ih x (List.mem_cons_self _ _)).cons₂ _
        · exact (ih seg (List.mem_cons_of_mem _ h)).cons _

/-- Trimming yields a sublist. -/
theorem trimChars_sublist (p : Char → Bool) (l : List Char) :
    (strings.trimRightChars p (strings.trimLeftChars p l)).Sublist l := by
  rw [trimRightChars_eq, strings.trimLeftChars]
  exact (List.rdropWhile_prefix p _).sublist.trans (List.dropWhile_sublist p)

/-- Trailing trim stops at a code point that is kept. -/
theorem rdropWhile_append_kept (p : Char → Bool) (a b : List Char) (y : Char)
    (hy : p y = false) :
    (a ++ y :: b).rdropWhile p = a ++ y :: b.rdropWhile p := by
  induction b using List.reverseRecOn with
  | nil =>
    rw [List.rdropWhile_nil]
    exact List.rdropWhile_concat_neg _ _ _ (by rw [hy]; exact Bool.false_ne_true)
  | append_singleton b' z ih =>
    have e : a ++ y :: (b' ++ [z]) = (a ++ y :: b') ++ [z] := by simp
    rw [e, List.rdropWhile_concat, List.rdropWhile_concat]
    by_cases hz : p z = true
    · simp only [hz, if_true]; exact ih
    · simp only [hz]; simp

/-- A part whose second section holds at most one double quote is skipped. -/
theorem nextLinkParts_skip (part : String) (rest : List String)
    (h : ∀ s0 s1 tl, strings.Split (strings.TrimSpace part) ';' = s0 :: s1 :: tl →
      s1.data.count (Char.ofNat 34) ≤ 1) :
    nextLinkParts (part :: rest) = nextLinkParts rest := by
  rw [nextLinkParts]
  split
  · rename_i s0 s1 tl heq
    have hc := h s0 s1 tl heq
    have hsub := (trimChars_sublist unicode.IsSpace s1.data).count_le (Char.ofNat 34)
    have hfalse : strings.Contains (strings.TrimSpace s1) "rel=\"next\"" = false := by
      apply containsChars_false_of_count (Char.ofNat 34)
      have h2 : ("rel=\"next\"" : String).data.count (Char.ofNat 34) = 2 := by decide
      rw [h2]
      show (strings.trimRightChars unicode.IsSpace
        (strings.trimLeftChars unicode.IsSpace s1.data)).count (Char.ofNat 34) < 2
      omega
    simp [hfalse]
  · rfl

/-- A part holding at most one double quote is skipped. -/
theorem nextLinkParts_skip_of_count (part : String) (rest : List String)
    (h : part.data.count (Char.ofNat 34) ≤ 1) :
    nextLinkParts (part :: rest) = nextLinkParts rest := by
  apply nextLinkParts_skip
  intro s0 s1 tl heq
  have hmem : s1 ∈ strings.Split (strings.TrimSpace part) ';' := by
    rw [heq]; simp
  simp only [strings.Split, List.mem_map] at hmem
  obtain ⟨seg, hseg, rfl⟩ := hmem
  have h1 := (sublist_of_mem_splitChars ';' _ seg hseg).count_le (Char.ofNat 34)
  have h2 := (trimChars_sublist unicode.IsSpace part.data).count_le (Char.ofNat 34)
  have h3 : (strings.TrimSpace part).data =
      strings.trimRightChars unicode.IsSpace (strings.trimLeftChars unicode.IsSpace part.data) :=
    rfl
  rw [h3] at h1
  show seg.count (Char.ofNat 34) ≤ 1
  omega

/-- Parts that are all skipped do not change the result. -/
theorem nextLinkParts_append_skipped (parts rest : List String)
    (h : ∀ p ∈ parts, ∀ r, nextLinkParts (p :: r) = nextLinkParts r) :
    nextLinkParts (parts ++ rest) = nextLinkParts rest := by
  induction parts with
  | nil => rfl
  | cons p ps ih =>
    rw [List.cons_append, h p (List.mem_cons_self _ _)]
    exact ih (fun x hx => h x (List.mem_cons_of_mem _ hx))

/-- The segment before the first separator inside a quote-free relation holds no double quote. -/
theorem headD_splitChars_count (sep : Char) (r t : List Char) (hsep : sep ∈ r)
    (hq : Char.ofNat 34 ∉ r) :
    ((strings.splitChars sep (r ++ t)).headD []).count (Char.ofNat 34) = 0 := by
  obtain ⟨r0, r1, rfl⟩ := List.append_of_mem hsep
  have hne := splitChars_ne_nil sep r0
  rw [List.append_assoc, List.cons_append, splitChars_append_sep_all]
  cases hs : strings.splitChars sep r0 with
  | nil => exact absurd hs hne
  | cons x xs =>
    simp only [List.cons_append, List.headD_cons]
    have hx : x ∈ strings.splitChars sep r0 := by rw [hs]; exact List.mem_cons_self _ _
    have hsub := sublist_of_mem_splitChars sep r0 x hx
    apply List.count_eq_zero_of_not_mem
    intro hmem
    exact hq (List.mem_append_left _ (hsub.subset hmem))

/-- The part holding the url of an entry is skipped when the text between the
opening quote and the next semicolon holds no closing quote. -/
theorem nextLinkParts_first_part_skipped (pre : List Char) (url : String) (t0 : List Char)
    (rest : List String)
    (hpre : ∀ c ∈ pre, unicode.IsSpace c = true)
    (hurl : ∀ c ∈ url.data, c ∉ [',', ';', '<', '>'])
    (ht0 : ((strings.splitChars ';' (t0.rdropWhile unicode.IsSpace)).headD []).count
      (Char.ofNat 34) = 0) :
    nextLinkParts (String.mk (pre ++ '<' :: (url.data ++ '>' :: ';' :: ' ' :: 'r' :: 'e' ::
      'l' :: '=' :: Char.ofNat 34 :: t0)) :: rest) = nextLinkParts rest := by
  have hu1 : ';' ∉ url.data := fun h => hurl _ h (by simp)
  have htrim : (strings.TrimSpace (String.mk (pre ++ '<' :: (url.data ++ '>' :: ';' :: ' ' ::
      'r' :: 'e' :: 'l' :: '=' :: Char.ofNat 34 :: t0)))).data =
      ('<' :: (url.data ++ ['>'])) ++ ';' :: ([' ', 'r', 'e', 'l', '=', Char.ofNat 34] ++
        t0.rdropWhile unicode.IsSpace) := by
    show strings.trimRightChars _ (strings.trimLeftChars _ _) = _
    rw [trimRightChars_eq, strings.trimLeftChars, List.dropWhile_append_of_pos hpre,
      List.dropWhile_cons_of_neg (by decide)]
    have e : '<' :: (url.data ++ '>' :: ';' :: ' ' :: 'r' :: 'e' :: 'l' :: '=' ::
        Char.ofNat 34 :: t0) =
        ('<' :: (url.data ++ ['>', ';', ' ', 'r', 'e', 'l', '='])) ++ Char.ofNat 34 :: t0 := by
      simp
    rw [e, rdropWhile_append_kept _ _ _ _ (by decide)]
    simp
  have hA : ';' ∉ '<' :: (url.data ++ ['>']) := by simp [hu1]
  have hY : ';' ∉ [' ', 'r', 'e', 'l', '=', Char.ofNat 34] := by decide
  apply nextLinkParts_skip
  intro s0 s1 tl heq
  unfold strings.Split at heq
  rw [htrim, splitChars_append_sep_all, splitChars_of_not_mem _ _ hA,
    splitChars_append_of_not_mem _ _ _ hY] at heq
  simp only [List.singleton_append, List.map_cons, List.cons.injEq] at heq
  rw [← heq.2.1]
  show ([' ', 'r', 'e', 'l', '=', Char.ofNat 34] ++ _).count (Char.ofNat 34) ≤ 1
  rw [List.count_append, ht0]
  decide

/-- The loop of `nextLink` over the parts one entry splits into: it returns the
url when the relation is `next` and otherwise moves on to the parts after it. -/
theorem nextLinkParts_entry (pre : List Char) (url rel : String) (rest : List String)
    (hpre : ∀ c ∈ pre, unicode.IsSpace c = true)
    (hurl : ∀ c ∈ url.data, c ∉ [',', ';', '<', '>'])
    (hrel : Char.ofNat 34 ∉ rel.data) :
    nextLinkParts
        ((strings.splitChars ',' (pre ++ (linkEntry url rel).data)).map String.mk ++ rest) =
      if rel = "next" then url else nextLinkParts rest := by
  by_cases hc : ',' ∈ rel.data ∨ ';' ∈ rel.data
  · have hne : rel ≠ "next" := by
      rintro rfl
      revert hc
      decide
    rw [if_neg hne]
    have hcount : (rel.data ++ [Char.ofNat 34]).count (Char.ofNat 34) = 1 := by
      rw [List.count_append, List.count_eq_zero_of_not_mem hrel]
      decide
    have hH : ',' ∉ pre ++ '<' :: (url.data ++
        ['>', ';', ' ', 'r', 'e', 'l', '=', Char.ofNat 34]) := by
      have hu : ',' ∉ url.data := fun h => hurl _ h (by simp)
      have hp := comma_not_mem_spaces pre hpre
      simp [hu, hp]
    have hdata : pre ++ (linkEntry url rel).data =
        (pre ++ '<' :: (url.data ++ ['>', ';', ' ', 'r', 'e', 'l', '=', Char.ofNat 34])) ++
          (rel.data ++ [Char.ofNat 34]) := by
      rw [linkEntry_data]; simp
    rw [hdata, splitChars_append_of_not_mem _ _ _ hH]
    simp only [List.map_cons, List.cons_append]
    have hfirst : (pre ++ '<' :: (url.data ++
        ['>', ';', ' ', 'r', 'e', 'l', '=', Char.ofNat 34])) ++
        (strings.splitChars ',' (rel.data ++ [Char.ofNat 34])).headD [] =
        pre ++ '<' :: (url.data ++ '>' :: ';' :: ' ' :: 'r' :: 'e' :: 'l' :: '=' ::
          Char.ofNat 34 :: (strings.splitChars ',' (rel.data ++ [Char.ofNat 34])).headD []) := by
      simp
    rw [hfirst, nextLinkParts_first_part_skipped pre url _ _ hpre hurl]
    · apply nextLinkParts_append_skipped
      intro p hp r
      simp only [List.mem_map] at hp
      obtain ⟨seg, hseg, rfl⟩ := hp
      apply nextLinkParts_skip_of_count
      have := (sublist_of_mem_splitChars ',' _ seg (List.mem_of_mem_tail hseg)).count_le
        (Char.ofNat 34)
      show seg.count (Char.ofNat 34) ≤ 1
      omega
    · by_cases hcomma : ',' ∈ rel.data
      · have h0 := headD_splitChars_count ',' rel.data [Char.ofNat 34] hcomma hrel
        have hne2 := splitChars_ne_nil ';'
          (((strings.splitChars ',' (rel.data ++ [Char.ofNat 34])).headD []).rdropWhile
            unicode.IsSpace)
        have hmem : (strings.splitChars ';'
            (((strings.splitChars ',' (rel.data ++ [Char.ofNat 34])).headD []).rdropWhile
              unicode.IsSpace)).headD [] ∈ strings.splitChars ';'
            (((strings.splitChars ',' (rel.data ++ [Char.ofNat 34])).headD []).rdropWhile
              unicode.IsSpace) := by
          cases hs : strings.splitChars ';'
              (((strings.splitChars ',' (rel.data ++ [Char.ofNat 34])).headD []).rdropWhile
                unicode.IsSpace) with
          | nil => exact absurd hs hne2
          | cons x xs => simp
        have h1 := (sublist_of_mem_splitChars ';' _ _ hmem).count_le (Char.ofNat 34)
        have h2 := (List.rdropWhile_prefix unicode.IsSpace
          ((strings.splitChars ',' (rel.data ++ [Char.ofNat 34])).headD [])).sublist.count_le
          (Char.ofNat 34)
        omega
      · have hsemi : ';' ∈ rel.data := hc.resolve_left hcomma
        have hnc : ',' ∉ rel.data ++ [Char.ofNat 34] := by
          simp [hcomma]
        rw [splitChars_of_not_mem _ _ hnc]
        simp only [List.headD_cons]
        rw [List.rdropWhile_concat_neg _ _ _ (by decide)]
        exact headD_splitChars_count ';' rel.data [Char.ofNat 34] hsemi hrel
  · have hrel' : ∀ c ∈ rel.data, c ∉ [',', ';', Char.ofNat 34] := by
      intro c hcm hin
      simp only [List.mem_cons, List.mem_singleton, List.not_mem_nil, or_false] at hin
      rcases hin with rfl | rfl | rfl
      · exact hc (Or.inl hcm)
      · exact hc (Or.inr hcm)
      · exact hrel hcm
    have hcomma : ',' ∉ pre ++ (linkEntry url rel).data := by
      rw [List.mem_append, not_or]
      exact ⟨comma_not_mem_spaces pre hpre, comma_not_mem_linkEntry url rel hurl hrel'⟩
    rw [splitChars_of_not_mem _ _ hcomma]
    simp only [List.map_cons, List.map_nil, List.singleton_append]
    exact nextLinkParts_cons _ _ pre url rel rfl hpre hurl hrel'

/-- The loop of `nextLink` over the parts of a well-formed `Link` value. -/
theorem nextLinkParts_linkValue (pad : String) (hpad : Blank pad = true)
    (entries : List (String × String)) (hne : entries ≠ [])
    (hurl : ∀ e ∈ entries, ∀ c ∈ e.1.data, c ∉ [',', ';', '<', '>'])
    (hrel : ∀ e ∈ entries, Char.ofNat 34 ∉ e.2.data)
    (pre : List Char) (hpre : ∀ c ∈ pre, unicode.IsSpace c = true) :
    nextLinkParts
        ((strings.splitChars ',' (pre ++ (linkValue pad entries).data)).map String.mk) =
      firstNext entries := by
  have hpad' : ∀ c ∈ pad.data, unicode.IsSpace c = true := by
    simpa [Blank] using hpad
  induction entries generalizing pre with
  | nil => exact absurd rfl hne
  | cons e es ih =>
    have hue := hurl e (List.mem_cons_self _ _)
    have hre := hrel e (List.mem_cons_self _ _)
    cases es with
    | nil =>
      simp only [linkValue]
      have := nextLinkParts_entry pre e.1 e.2 [] hpre hue hre
      rw [List.append_nil] at this
      rw [this]
      simp [firstNext, nextLinkParts]
    | cons e2 es2 =>
      have hdata : pre ++ (linkValue pad (e :: e2 :: es2)).data =
          (pre ++ (linkEntry e.1 e.2).data) ++
            ',' :: (pad.data ++ (linkValue pad (e2 :: es2)).data) := by
        simp only [linkValue, String.data_append, List.append_assoc]
        rfl
      rw [hdata, splitChars_append_sep_all, List.map_append,
        nextLinkParts_entry pre e.1 e.2 _ hpre hue hre,
        ih (by simp) (fun x hx => hurl x (List.mem_cons_of_mem _ hx))
          (fun x hx => hrel x (List.mem_cons_of_mem _ hx)) pad.data hpad']
      simp [firstNext]

/-- Without a `Link` header there is no cursor. -/
theorem nextLink_of_no_link (headers : Header)
    (h : ∀ kv ∈ headers, strings.EqualFold kv.1 "Link" = false) : nextLink headers = "" := by
  have : headers.find? (fun kv => strings.EqualFold kv.1 "Link" && kv.2.length > 0) = none := by
    rw [List.find?_eq_none]
    intro kv hkv
    simp [h kv hkv]
  simp [nextLink, this]

/-- No entry with relation `next`, no cursor. -/
theorem firstNext_of_no_next (entries : List (String × String))
    (h : ∀ e ∈ entries, e.2 ≠ "next") : firstNext entries = "" := by
  induction entries with
  | nil => rfl
  | cons e es ih =>
    simp [firstNext, h e (List.mem_cons_self _ _),
      ih (fun x hx => h x (List.mem_cons_of_mem _ hx))]

/-- C3: for every header map whose only `Link` header (name matched under case
folding) has as first value a list of entries `<url>; rel="relation"` separated
by a comma and optional white space, with urls free of `,` `;` `<` `>` and
relations free of the double quote that delimits them, `nextLink` returns exactly the
url of the first entry whose relation is `next`, brackets removed, whatever the
other relations are; it returns the empty string when no entry has relation
`next`, and when the map has no `Link` header at all. -/
theorem nextLink_extracts_cursor (before after : Header) (k pad : String)
    (entries : List (String × String)) (more : List String)
    (hk : strings.EqualFold k "Link" = true)
    (hother : ∀ kv ∈ before ++ after, strings.EqualFold kv.1 "Link" = false)
    (hpad : Blank pad = true)
    (hurl : ∀ e ∈ entries, ∀ c ∈ e.1.data, c ∉ [',', ';', '<', '>'])
    (hrel : ∀ e ∈ entries, Char.ofNat 34 ∉ e.2.data) :
    nextLink (before ++ (k, linkValue pad entries :: more) :: after) = firstNext entries ∧
      ((∀ e ∈ entries, e.2 ≠ "next") →
        nextLink (before ++ (k, linkValue pad entries :: more) :: after) = "") ∧
      nextLink (before ++ after) = "" := by
  have hmain : nextLink (before ++ (k, linkValue pad entries :: more) :: after) =
      firstNext entries := by
    have hfind : (before ++ (k, linkValue pad entries :: more) :: after).find?
        (fun kv => strings.EqualFold kv.1 "Link" && kv.2.length > 0) =
        some (k, linkValue pad entries :: more) := by
      rw [List.find?_append]
      have hb : before.find? (fun kv => strings.EqualFold kv.1 "Link" && kv.2.length > 0) =
          none := by
        rw [List.find?_eq_none]
        intro kv hkv
        simp [hother kv (List.mem_append_left _ hkv)]
      rw [hb]
      simp [hk]
    unfold nextLink
    simp only [hfind]
    cases entries with
    | nil => simp [linkValue, firstNext]
    | cons e es =>
      have hnonempty : (linkValue pad (e :: es) == "") = false := by
        have : (linkValue pad (e :: es)).data ≠ [] := by
          cases es with
          | nil => simp [linkValue, linkEntry_data]
          | cons e2 es2 => simp [linkValue, String.data_append, linkEntry_data]
        have h2 : linkValue pad (e :: es) ≠ "" := by
          intro h; rw [h] at this; exact this rfl
        simpa using h2
      simp only [hnonempty]
      have := nextLinkParts_linkValue pad hpad (e :: es) (by simp) hurl hrel [] (by simp)
      simpa [strings.Split] using this
  refine ⟨hmain, ?_, ?_⟩
  · intro h
    rw [hmain, firstNext_of_no_next entries h]
  · exact nextLink_of_no_link _ hother

/-- C3, witness: the header value
`<https://x/y?page=2>; rel="next", <https://x/y?page=1>; rel="prev"` yields
`https://x/y?page=2`. -/
theorem nextLink_extracts_cursor_witness :
    strings.EqualFold "Link" "Link" = true ∧
      (∀ kv ∈ ([] : Header) ++ [], strings.EqualFold kv.1 "Link" = false) ∧
      Blank " " = true ∧
      (∀ e ∈ [("https://x/y?page=2", "next"), ("https://x/y?page=1", "prev")],
        ∀ c ∈ e.1.data, c ∉ [',', ';', '<', '>']) ∧
      (∀ e ∈ [("https://x/y?page=2", "next"), ("https://x/y?page=1", "prev")],
        Char.ofNat 34 ∉ e.2.data) ∧
      linkValue " " [("https://x/y?page=2", "next"), ("https://x/y?page=1", "prev")] =
        "<https://x/y?page=2>; rel=\"next\", <https://x/y?page=1>; rel=\"prev\"" ∧
      nextLink [("Link",
          [linkValue " " [("https://x/y?page=2", "next"), ("https://x/y?page=1", "prev")]])] =
        "https://x/y?page=2" :=
  ⟨by decide, by decide, by decide, by decide, by decide, by decide,
    (nextLink_extracts_cursor [] [] "Link" " "
      [("https://x/y?page=2", "next"), ("https://x/y?page=1", "prev")] []
      (by decide) (by decide) (by decide) (by decide) (by decide)).1⟩

/-! ## Properties: pagination (C1, C2, C4) -/

/-- When `buildURL` fails, `Do` fails with that error and sends nothing. -/
theorem Do_of_url_error (env : Env) (c : Client) (w : World) (method path : String)
    (query : Option Values) (body : Option String) (contentType : String)
    (headers : Option (List (String × String))) (e : GoError)
    (hurl : buildURL env c.BaseURL path query = .error e) :
    c.Do env w method path query body contentType headers = (.error e, w) := by
  unfold Client.Do
  simp only [hurl]

/-- When the request cannot be created, `Do` fails with that error and sends nothing. -/
theorem Do_of_request_error (env : Env) (c : Client) (w : World) (method path : String)
    (query : Option Values) (body : Option String) (contentType : String)
    (headers : Option (List (String × String))) (urlStr : String) (e : GoError)
    (hurl : buildURL env c.BaseURL path query = .ok urlStr)
    (hreq : env.newRequest method urlStr = some e) :
    c.Do env w method path query body contentType headers = (.error e, w) := by
  unfold Client.Do
  simp only [hurl, hreq]

/-- A successful `Do` sent one request, which the transport answered with a status below 400. -/
theorem Do_ok_inv (env : Env) (c : Client) (w : World) (method path : String)
    (query : Option Values) (body : Option String) (contentType : String)
    (headers : Option (List (String × String))) (p : Response) (w1 : World)
    (h : c.Do env w method path query body contentType headers = (.ok p, w1)) :
    ∃ urlStr resp, buildURL env c.BaseURL path query = .ok urlStr ∧
      env.newRequest method urlStr = none ∧
      env.roundTrip w.sent.length ⟨method, urlStr, c.requestHeader contentType headers, body⟩ =
        .ok resp ∧
      resp.StatusCode < 400 ∧
      p = ⟨resp.StatusCode, resp.Header, resp.Body⟩ ∧
      w1 = { w with sent := w.sent ++
        [⟨method, urlStr, c.requestHeader contentType headers, body⟩] } := by
  cases hurl : buildURL env c.BaseURL path query with
  | error e =>
    rw [Do_of_url_error env c w method path query body contentType headers e hurl] at h
    simp at h
  | ok urlStr =>
    cases hreq : env.newRequest method urlStr with
    | some e =>
      rw [Do_of_request_error env c w method path query body contentType headers urlStr e hurl
        hreq] at h
      simp at h
    | none =>
      rw [Do_of_request_built env c w method path query body contentType headers urlStr hurl
        hreq] at h
      cases hresp : env.roundTrip w.sent.length
          ⟨method, urlStr, c.requestHeader contentType headers, body⟩ with
      | error e => simp [hresp] at h
      | ok resp =>
        by_cases hs : resp.StatusCode ≥ 400
        · simp [hresp, hs] at h
        · simp only [hresp, hs, if_false, Prod.mk.injEq, Except.ok.injEq] at h
          exact ⟨urlStr, resp, rfl, hreq, hresp, by omega, h.1.symm, h.2.symm⟩

/-- The output streams are untouched by `Do`, which sends at most one request. -/
theorem Do_world (env : Env) (c : Client) (w : World) (method path : String)
    (query : Option Values) (body : Option String) (contentType : String)
    (headers : Option (List (String × String))) :
    (c.Do env w method path query body contentType headers).2.stdout = w.stdout ∧
      (c.Do env w method path query body contentType headers).2.stderr = w.stderr ∧
      ((c.Do env w method path query body contentType headers).2.sent = w.sent ∨
        ∃ urlStr, buildURL env c.BaseURL path query = .ok urlStr ∧
          (c.Do env w method path query body contentType headers).2.sent =
            w.sent ++ [⟨method, urlStr, c.requestHeader contentType headers, body⟩]) := by
  cases hurl : buildURL env c.BaseURL path query with
  | error e =>
    rw [Do_of_url_error env c w method path query body contentType headers e hurl]
    exact ⟨rfl, rfl, Or.inl rfl⟩
  | ok urlStr =>
    cases hreq : env.newRequest method urlStr with
    | some e =>
      rw [Do_of_request_error env c w method path query body contentType headers urlStr e hurl
        hreq]
      exact ⟨rfl, rfl, Or.inl rfl⟩
    | none =>
      rw [Do_of_request_built env c w method path query body contentType headers urlStr hurl
        hreq]
      exact ⟨rfl, rfl, Or.inr ⟨urlStr, rfl, rfl⟩⟩

/-- What serving a non-empty page sequence says about its first page. -/
theorem servesPages_cons (env : Env) (c : Client) (w : World) (path : String)
    (query : Option Values) (p : Response) (ps : List Response)
    (h : servesPages env c w path query (p :: ps) = true) :
    ∃ w1, c.Do env w "GET" path query none "" none = (.ok p, w1) ∧
      (ps = [] → (nextLink p.Headers == "") = true) ∧
      (ps ≠ [] → (nextLink p.Headers == "") = false ∧
        servesPages env c w1 (nextLink p.Headers) none ps = true) := by
  cases ps with
  | nil =>
    unfold servesPages at h
    split at h
    · rename_i q w1 hdo
      simp only [Bool.and_eq_true, beq_iff_eq] at h
      refine ⟨w1, ?_, fun _ => ?_, fun hne => absurd rfl hne⟩
      · rw [hdo, h.1]
      · simp [h.2]
    · exact absurd h (by simp)
  | cons p2 rest =>
    unfold servesPages at h
    split at h
    · rename_i q w1 hdo
      simp only [Bool.and_eq_true, beq_iff_eq, bne_iff_ne, ne_eq] at h
      refine ⟨w1, ?_, fun hnil => absurd hnil (by simp), fun _ => ⟨?_, h.2⟩⟩
      · rw [hdo, h.1.1]
      · simpa using h.1.2
    · exact absurd h (by simp)

/-- The outcome of `Do` depends on the world only through the requests sent so far. -/
theorem Do_congr_sent (env : Env) (c : Client) (w w2 : World) (method path : String)
    (query : Option Values) (body : Option String) (contentType : String)
    (headers : Option (List (String × String))) (h : w.sent = w2.sent) :
    (c.Do env w method path query body contentType headers).1 =
        (c.Do env w2 method path query body contentType headers).1 ∧
      (c.Do env w method path query body contentType headers).2.sent =
        (c.Do env w2 method path query body contentType headers).2.sent := by
  cases hurl : buildURL env c.BaseURL path query with
  | error e =>
    rw [Do_of_url_error env c w method path query body contentType headers e hurl,
      Do_of_url_error env c w2 method path query body contentType headers e hurl]
    exact ⟨rfl, h⟩
  | ok urlStr =>
    cases hreq : env.newRequest method urlStr with
    | some e =>
      rw [Do_of_request_error env c w method path query body contentType headers urlStr e hurl
        hreq, Do_of_request_error env c w2 method path query body contentType headers urlStr e
        hurl hreq]
      exact ⟨rfl, h⟩
    | none =>
      rw [Do_of_request_built env c w method path query body contentType headers urlStr hurl
        hreq, Do_of_request_built env c w2 method path query body contentType headers urlStr
        hurl hreq]
      simp only [h]
      exact ⟨trivial, trivial⟩

/-- Serving a page sequence depends on the world only through the requests sent so far. -/
theorem servesPages_congr (env : Env) (c : Client) (ps : List Response) :
    ∀ (w w2 : World) (path : String) (query : Option Values), w.sent = w2.sent →
      servesPages env c w path query ps = servesPages env c w2 path query ps := by
  induction ps with
  | nil => intro w w2 path query _; rfl
  | cons p ps ih =>
    intro w w2 path query h
    obtain ⟨h1, h2⟩ := Do_congr_sent env c w w2 "GET" path query none "" none h
    rcases hd : c.Do env w "GET" path query none "" none with ⟨r, w1⟩
    rcases hd2 : c.Do env w2 "GET" path query none "" none with ⟨r2, w1'⟩
    rw [hd, hd2] at h1 h2
    simp only at h1 h2
    subst h1
    cases ps with
    | nil =>
      unfold servesPages
      rw [hd, hd2]
      cases r <;> rfl
    | cons p2 rest =>
      unfold servesPages
      rw [hd, hd2]
      cases r with
      | error e => rfl
      | ok q =>
        simp only
        rw [ih w1 w1' _ _ h2]

/-- The world after `handleErr`: only standard error changes. -/
theorem handleErr_world (w : World) (help : String) (err : Option GoError) :
    (handleErr w help err).2.stdout = w.stdout ∧ (handleErr w help err).2.sent = w.sent := by
  cases err with
  | none => exact ⟨rfl, rfl⟩
  | some e =>
    simp only [handleErr, printErr, Option.bind]
    cases e.asUsage <;> exact ⟨rfl, rfl⟩

/-- The elements of a page that decodes. -/
theorem pageElems_of_ok (env : Env) (p : Response) (elems : List JSON)
    (h : unmarshalRawMessages env p.Body = .ok elems) : pageElems env p = elems := by
  simp [pageElems, h]

/-- The JSON loop on a served page sequence: it ends within as many iterations as
there are pages, and when every page decodes it prints the concatenation once. -/
theorem jsonPagesLoop_serves (env : Env) (ctx : Context) (help : String) (ps : List Response) :
    ∀ (fuel : Nat) (w : World) (combined : List JSON) (path : String) (query : Option Values),
      servesPages env ctx.Client w path query ps = true → ps.length ≤ fuel →
      ∃ code w', jsonPagesLoop env ctx help fuel w combined path query = some (code, w') ∧
        w'.sent.length ≤ w.sent.length + ps.length ∧
        ((∀ p ∈ ps, ∃ elems, unmarshalRawMessages env p.Body = .ok elems) →
          code = 0 ∧ w'.sent.length = w.sent.length + ps.length ∧
          w'.stdout = w.stdout ++ env.jsonIndent (.array (combined ++ ps.flatMap (pageElems env)))
            ++ "\n" ∧
          w'.stderr = w.stderr) := by
  induction ps with
  | nil =>
    intro fuel w combined path query h
    simp [servesPages] at h
  | cons p ps ih =>
    intro fuel w combined path query hserve hfuel
    obtain ⟨w1, hdo, hlast, hmore⟩ := servesPages_cons env ctx.Client w path query p ps hserve
    obtain ⟨urlStr, resp, -, -, -, -, -, hw1⟩ := Do_ok_inv env ctx.Client w "GET" path query none
      "" none p w1 hdo
    have hsent1 : w1.sent.length = w.sent.length + 1 := by rw [hw1]; simp
    have hout1 : w1.stdout = w.stdout := by rw [hw1]
    have herr1 : w1.stderr = w.stderr := by rw [hw1]
    obtain ⟨f, rfl⟩ : ∃ f, fuel = f + 1 := ⟨fuel - 1, by simp at hfuel; omega⟩
    rw [jsonPagesLoop]
    simp only [hdo]
    cases hdec : unmarshalRawMessages env p.Body with
    | error e =>
      refine ⟨(handleErr w1 help (some e)).1, (handleErr w1 help (some e)).2, rfl, ?_, ?_⟩
      · rw [(handleErr_world w1 help (some e)).2, hsent1]; simp
      · intro hall
        obtain ⟨elems, he⟩ := hall p (List.mem_cons_self _ _)
        rw [hdec] at he
        cases he
    | ok page =>
      have hpe := pageElems_of_ok env p page hdec
      by_cases hnil : ps = []
      · subst hnil
        simp only [hlast rfl, if_true, printJSON]
        refine ⟨_, _, rfl, ?_, ?_⟩
        · simp [hsent1]
        · intro _
          simp [hsent1, hout1, herr1, hpe, List.flatMap_cons]
      · obtain ⟨hnext, hserve'⟩ := hmore hnil
        simp only [hnext]
        obtain ⟨code, w', hrun, hle, hacc⟩ := ih f w1 (combined ++ page)
          (nextLink p.Headers) none hserve' (by simp at hfuel; omega)
        refine ⟨code, w', by simpa using hrun, ?_, ?_⟩
        · simp only [List.length_cons]; omega
        · intro hall
          obtain ⟨hc, hs, ho, he⟩ := hacc (fun x hx => hall x (List.mem_cons_of_mem _ hx))
          refine ⟨hc, ?_, ?_, ?_⟩
          · simp only [List.length_cons]; omega
          · rw [ho, hout1, List.flatMap_cons, hpe, List.append_assoc]
          · rw [he, herr1]

/-- The world after `printTable`: only standard output changes. -/
theorem printTable_world (w : World) (headers : List String)
    (rows : List (List String)) (plain : Bool) :
    (printTable w headers rows plain).sent = w.sent ∧
      (printTable w headers rows plain).stderr = w.stderr :=
  ⟨rfl, rfl⟩

/-- The tabular loop on a served page sequence: it ends within as many iterations
as there are pages, with one request per page when `rowFn` accepts every page. -/
theorem rowPagesLoop_serves (env : Env) (ctx : Context) (help : String) (headers : List String)
    (rowFn : String → Except GoError (List (List String))) (ps : List Response) :
    ∀ (fuel : Nat) (w : World) (printed : Bool) (path : String) (query : Option Values),
      servesPages env ctx.Client w path query ps = true → ps.length ≤ fuel →
      ∃ code w', rowPagesLoop env ctx help headers rowFn fuel w printed path query =
          some (code, w') ∧
        w'.sent.length ≤ w.sent.length + ps.length ∧
        ((∀ p ∈ ps, ∃ rows, rowFn p.Body = .ok rows) →
          code = 0 ∧ w'.sent.length = w.sent.length + ps.length) := by
  induction ps with
  | nil =>
    intro fuel w printed path query h
    simp [servesPages] at h
  | cons p ps ih =>
    intro fuel w printed path query hserve hfuel
    obtain ⟨w1, hdo, hlast, hmore⟩ := servesPages_cons env ctx.Client w path query p ps hserve
    obtain ⟨urlStr, resp, -, -, -, -, -, hw1⟩ := Do_ok_inv env ctx.Client w "GET" path query none
      "" none p w1 hdo
    have hsent1 : w1.sent.length = w.sent.length + 1 := by rw [hw1]; simp
    obtain ⟨f, rfl⟩ : ∃ f, fuel = f + 1 := ⟨fuel - 1, by simp at hfuel; omega⟩
    rw [rowPagesLoop]
    simp only [hdo]
    cases hdec : rowFn p.Body with
    | error e =>
      refine ⟨(handleErr w1 help (some e)).1, (handleErr w1 help (some e)).2, rfl, ?_, ?_⟩
      · rw [(handleErr_world w1 help (some e)).2, hsent1]; simp
      · intro hall
        obtain ⟨rows, he⟩ := hall p (List.mem_cons_self _ _)
        rw [hdec] at he
        cases he
    | ok rows =>
      by_cases hnil : ps = []
      · subst hnil
        simp only [hlast rfl, if_true]
        refine ⟨_, _, rfl, ?_, ?_⟩
        · cases printed <;> simp [printTable, hsent1]
        · intro _
          cases printed <;> simp [printTable, hsent1]
      · obtain ⟨hnext, hserve'⟩ := hmore hnil
        simp only [hnext]
        obtain ⟨code, w', hrun, hle, hacc⟩ := ih f
          (if !printed then printTable w1 headers rows ctx.Output.Plain
            else printTable w1 [] rows true) true
          (nextLink p.Headers) none
          ((servesPages_congr env ctx.Client ps _ w1 _ _
            (by cases printed <;> rfl)).trans hserve')
          (by simp at hfuel; omega)
        have hw2 : (if !printed then printTable w1 headers rows ctx.Output.Plain
            else printTable w1 [] rows true).sent = w1.sent := by
          cases printed <;> rfl
        rw [hw2] at hle hacc
        refine ⟨code, w', by simpa using hrun, ?_, ?_⟩
        · simp only [List.length_cons]; omega
        · intro hall
          obtain ⟨hc, hs⟩ := hacc (fun x hx => hall x (List.mem_cons_of_mem _ hx))
          refine ⟨hc, ?_⟩
          simp only [List.length_cons]; omega

/-- C1: in `listWithPagination` with all=true and JSON output, for every sequence
of pages p1..pn (n at least 1) that the executor serves along the walk, where
each body decodes as `[]json.RawMessage`, every page but the last carries a next
cursor and the last carries none, the run ends (fuel n suffices) with exit code
0, nothing on standard error, and on standard output, after what was there, the
encoding of one JSON array holding the elements of p1, p2, ..., pn in page
order, followed by a newline. -/
theorem listWithPagination_json_all_concatenates (env : Env) (fuel : Nat) (w : World)
    (ctx : Context) (help path : String) (query : Option Values) (headers : List String)
    (rowFn : String → Except GoError (List (List String))) (ps : List Response)
    (hjson : ctx.Output.JSON = true)
    (hserve : servesPages env ctx.Client w path query ps = true)
    (hdec : ∀ p ∈ ps, ∃ elems, unmarshalRawMessages env p.Body = .ok elems)
    (hfuel : ps.length ≤ fuel) :
    ∃ w', listWithPagination env fuel w ctx help path query true headers rowFn = some (0, w') ∧
      w'.stdout = w.stdout ++ env.jsonIndent (.array (ps.flatMap (pageElems env))) ++ "\n" ∧
      w'.stderr = w.stderr := by
  obtain ⟨code, w', hrun, -, hacc⟩ :=
    jsonPagesLoop_serves env ctx help ps fuel w [] path query hserve hfuel
  obtain ⟨hc, -, ho, he⟩ := hacc hdec
  subst hc
  refine ⟨w', ?_, by simpa using ho, he⟩
  simp [listWithPagination, hjson, hrun]

/-- C1, witness: pages `[1]` (with a next link) and `[2,3]` print the array of 1, 2, 3. -/
theorem listWithPagination_json_all_concatenates_witness :
    (⟨⟨"", "", "", ""⟩, "", "acme", "https://x", "t", "", ⟨true, false⟩,
        ⟨"https://x", "t", "", ""⟩, "", "", ""⟩ : Context).Output.JSON = true ∧
    servesPages
        (Env.demo [⟨200, [("Link", ["<https://x/acme/cards?page=2>; rel=\"next\""])], "[1]"⟩,
          ⟨200, [], "[2,3]"⟩])
        ⟨"https://x", "t", "", ""⟩ ⟨"", "", []⟩ "/acme/cards" (some [("tag", ["a"])])
        [⟨200, [("Link", ["<https://x/acme/cards?page=2>; rel=\"next\""])], "[1]"⟩,
          ⟨200, [], "[2,3]"⟩] = true ∧
    ∃ w', listWithPagination
        (Env.demo [⟨200, [("Link", ["<https://x/acme/cards?page=2>; rel=\"next\""])], "[1]"⟩,
          ⟨200, [], "[2,3]"⟩])
        2 ⟨"", "", []⟩
        ⟨⟨"", "", "", ""⟩, "", "acme", "https://x", "t", "", ⟨true, false⟩,
          ⟨"https://x", "t", "", ""⟩, "", "", ""⟩
        "" "/acme/cards" (some [("tag", ["a"])]) true [] (fun _ => .ok []) = some (0, w') ∧
      w'.stdout = "[1, 2, 3]\n" ∧ w'.stderr = "" := by
  have h := listWithPagination_json_all_concatenates
    (Env.demo [⟨200, [("Link", ["<https://x/acme/cards?page=2>; rel=\"next\""])], "[1]"⟩,
      ⟨200, [], "[2,3]"⟩])
    2 ⟨"", "", []⟩
    ⟨⟨"", "", "", ""⟩, "", "acme", "https://x", "t", "", ⟨true, false⟩,
      ⟨"https://x", "t", "", ""⟩, "", "", ""⟩
    "" "/acme/cards" (some [("tag", ["a"])]) [] (fun _ => .ok [])
    [⟨200, [("Link", ["<https://x/acme/cards?page=2>; rel=\"next\""])], "[1]"⟩,
      ⟨200, [], "[2,3]"⟩]
    rfl (by decide)
    (by
      intro p hp
      simp only [List.mem_cons, List.mem_singleton, List.not_mem_nil, or_false] at hp
      rcases hp with rfl | rfl
      · exact ⟨_, rfl⟩
      · exact ⟨_, rfl⟩)
    (by decide)
  obtain ⟨w', hrun, ho, he⟩ := h
  exact ⟨rfl, by decide, w', hrun, ho.trans (by decide), he⟩

/-- Printing JSON bytes sends no request. -/
theorem printJSONBytes_sent (env : Env) (w w2 : World) (data : String)
    (h : printJSONBytes env w data = .ok w2) : w2.sent = w.sent := by
  unfold printJSONBytes at h
  by_cases hlen : data.length = 0
  · simp only [hlen, if_true, Except.ok.injEq] at h
    rw [← h]
  · simp only [hlen, if_false] at h
    cases hp : env.jsonParse data with
    | error e => rw [hp] at h; simp at h
    | ok v =>
      rw [hp] at h
      cases ha : env.jsonAny v with
      | error e => simp [ha] at h
      | ok g =>
        simp only [ha, printJSON, Except.ok.injEq] at h
        rw [← h]

/-- Printing a response as JSON sends no request. -/
theorem printJSONResponse_sent (env : Env) (w : World) (resp : Response) :
    (printJSONResponse env w resp).2.sent = w.sent := by
  unfold printJSONResponse
  by_cases hlen : resp.Body.length = 0
  · simp only [hlen, if_true, printJSON]
  · simp only [hlen, if_false]
    cases hb : printJSONBytes env w resp.Body with
    | error e => exact (handleErr_world _ _ _).2
    | ok w2 => exact printJSONBytes_sent env w w2 _ hb

/-- Rendering one page sends no request. -/
theorem outputListOrJSON_sent (env : Env) (w : World) (ctx : Context) (resp : Response)
    (headers : List String) (rowFn : String → Except GoError (List (List String))) :
    (outputListOrJSON env w ctx resp headers rowFn).2.sent = w.sent := by
  unfold outputListOrJSON
  by_cases hj : ctx.Output.JSON = true
  · simp only [hj, if_true]
    exact printJSONResponse_sent env w resp
  · simp only [hj]
    unfold outputListRows
    cases hr : rowFn resp.Body with
    | error e => exact (handleErr_world _ _ _).2
    | ok rows => rfl

/-- C2, amended: `listWithPagination` with all=false ends whatever the fuel and
sends at most one request, exactly one whenever the executor returned a
response, whatever its Link header; with all=true, in either output mode, for
every sequence of n pages the executor serves along the walk (the first n-1
carrying a next cursor, the n-th none) the run ends with fuel n, sends at most n
requests, and sends exactly n and returns 0 when every page body is accepted
(decodes as a JSON array in JSON mode, is accepted by `rowFn` in tabular mode). -/
theorem listWithPagination_request_count (env : Env) (fuel : Nat) (w : World) (ctx : Context)
    (help path : String) (query : Option Values) (headers : List String)
    (rowFn : String → Except GoError (List (List String))) :
    (∃ code w', listWithPagination env fuel w ctx help path query false headers rowFn =
          some (code, w') ∧
        w'.sent.length ≤ w.sent.length + 1 ∧
        (∀ p, (ctx.Client.Do env w "GET" path query none "" none).1 = .ok p →
          w'.sent.length = w.sent.length + 1)) ∧
      (∀ ps : List Response, servesPages env ctx.Client w path query ps = true →
        ps.length ≤ fuel →
        ∃ code w', listWithPagination env fuel w ctx help path query true headers rowFn =
            some (code, w') ∧
          w'.sent.length ≤ w.sent.length + ps.length ∧
          ((∀ p ∈ ps, pageAccepted env ctx.Output.JSON rowFn p = true) →
            code = 0 ∧ w'.sent.length = w.sent.length + ps.length)) := by
  constructor
  · rcases hdo : ctx.Client.Do env w "GET" path query none "" none with ⟨r, w1⟩
    have hworld := Do_world env ctx.Client w "GET" path query none "" none
    rw [hdo] at hworld
    have hle : w1.sent.length ≤ w.sent.length + 1 := by
      rcases hworld.2.2 with h | ⟨u, -, h⟩
      · simp only at h; rw [h]; omega
      · simp only at h; rw [h]; simp
    cases r with
    | error e =>
      refine ⟨(handleErr w1 help (some e)).1, (handleErr w1 help (some e)).2, ?_, ?_, ?_⟩
      · simp [listWithPagination, hdo]
      · rw [(handleErr_world w1 help (some e)).2]; exact hle
      · intro p hp; simp at hp
    | ok resp =>
      obtain ⟨urlStr, hresp, -, -, -, -, -, hw1⟩ := Do_ok_inv env ctx.Client w "GET" path query
        none "" none resp w1 hdo
      have hsent1 : w1.sent.length = w.sent.length + 1 := by rw [hw1]; simp
      have hout := outputListOrJSON_sent env w1 ctx resp headers rowFn
      refine ⟨(outputListOrJSON env w1 ctx resp headers rowFn).1,
        (outputListOrJSON env w1 ctx resp headers rowFn).2, ?_, ?_, ?_⟩
      · simp [listWithPagination, hdo]
      · rw [hout, hsent1]
      · intro _ _; rw [hout, hsent1]
  · intro ps hserve hfuel
    by_cases hjson : ctx.Output.JSON = true
    · obtain ⟨code, w', hrun, hle, hacc⟩ :=
        jsonPagesLoop_serves env ctx help ps fuel w [] path query hserve hfuel
      refine ⟨code, w', by simp [listWithPagination, hjson, hrun], hle, ?_⟩
      intro hall
      have := hacc (fun p hp => by
        have h := hall p hp
        simp only [pageAccepted, hjson, if_true] at h
        cases hd : unmarshalRawMessages env p.Body with
        | error e => rw [hd] at h; simp at h
        | ok elems => exact ⟨elems, rfl⟩)
      exact ⟨this.1, this.2.1⟩
    · obtain ⟨code, w', hrun, hle, hacc⟩ :=
        rowPagesLoop_serves env ctx help headers rowFn ps fuel w false path query hserve hfuel
      refine ⟨code, w', by simp [listWithPagination, hjson, hrun], hle, ?_⟩
      intro hall
      exact hacc (fun p hp => by
        have h := hall p hp
        simp only [pageAccepted, hjson] at h
        cases hd : rowFn p.Body with
        | error e => rw [hd] at h; simp at h
        | ok rows => exact ⟨rows, rfl⟩)

/-- C2, counterexample: a two-page sequence whose first page carries a next
cursor and whose second carries none, the body of the first being `oops`: in
JSON mode the run returns 1 after a single request and prints nothing. -/
theorem listWithPagination_stops_at_undecodable_page :
    servesPages
        (Env.demo [⟨200, [("Link", ["<https://x/acme/cards?page=2>; rel=\"next\""])], "oops"⟩,
          ⟨200, [], "[1]"⟩])
        ⟨"https://x", "t", "", ""⟩ ⟨"", "", []⟩ "/acme/cards" none
        [⟨200, [("Link", ["<https://x/acme/cards?page=2>; rel=\"next\""])], "oops"⟩,
          ⟨200, [], "[1]"⟩] = true ∧
    (listWithPagination
        (Env.demo [⟨200, [("Link", ["<https://x/acme/cards?page=2>; rel=\"next\""])], "oops"⟩,
          ⟨200, [], "[1]"⟩])
        2 ⟨"", "", []⟩
        ⟨⟨"", "", "", ""⟩, "", "acme", "https://x", "t", "", ⟨true, false⟩,
          ⟨"https://x", "t", "", ""⟩, "", "", ""⟩
        "" "/acme/cards" none true [] (fun _ => .ok [])).map
      (fun r => (r.1, r.2.sent.length, r.2.stdout)) = some (1, 1, "") := by
  decide

/-- C2, witness: two decodable pages in tabular mode, two requests, exit code 0. -/
theorem listWithPagination_request_count_witness :
    servesPages
        (Env.demo [⟨200, [("Link", ["<https://x/acme/cards?page=2>; rel=\"next\""])], "[1]"⟩,
          ⟨200, [], "[2,3]"⟩])
        ⟨"https://x", "t", "", ""⟩ ⟨"", "", []⟩ "/acme/cards" none
        [⟨200, [("Link", ["<https://x/acme/cards?page=2>; rel=\"next\""])], "[1]"⟩,
          ⟨200, [], "[2,3]"⟩] = true ∧
    ∃ code w', listWithPagination
        (Env.demo [⟨200, [("Link", ["<https://x/acme/cards?page=2>; rel=\"next\""])], "[1]"⟩,
          ⟨200, [], "[2,3]"⟩])
        5 ⟨"", "", []⟩
        ⟨⟨"", "", "", ""⟩, "", "acme", "https://x", "t", "", ⟨false, true⟩,
          ⟨"https://x", "t", "", ""⟩, "", "", ""⟩
        "" "/acme/cards" none true [] (fun _ => .ok []) = some (code, w') ∧
      code = 0 ∧ w'.sent.length = 2 := by
  have h := (listWithPagination_request_count
    (Env.demo [⟨200, [("Link", ["<https://x/acme/cards?page=2>; rel=\"next\""])], "[1]"⟩,
      ⟨200, [], "[2,3]"⟩])
    5 ⟨"", "", []⟩
    ⟨⟨"", "", "", ""⟩, "", "acme", "https://x", "t", "", ⟨false, true⟩,
      ⟨"https://x", "t", "", ""⟩, "", "", ""⟩
    "" "/acme/cards" none [] (fun _ => .ok [])).2
    [⟨200, [("Link", ["<https://x/acme/cards?page=2>; rel=\"next\""])], "[1]"⟩,
      ⟨200, [], "[2,3]"⟩] (by decide) (by decide)
  obtain ⟨code, w', hrun, -, hacc⟩ := h
  obtain ⟨hc, hs⟩ := hacc (by decide)
  exact ⟨by decide, code, w', hrun, hc, hs⟩

/-- The requests sent are those sent before `handleErr`. -/
theorem handleErr_eq_sent (w : World) (help : String) (err : Option GoError) (code : Int)
    (w' : World) (h : handleErr w help err = (code, w')) : w'.sent = w.sent := by
  have := (handleErr_world w help err).2
  rw [h] at this
  exact this

/-- The requests of the JSON loop form a cursor chain starting at the URL built
from the initial path and query. -/
theorem jsonPagesLoop_chain (env : Env) (ctx : Context) (help : String) :
    ∀ (fuel : Nat) (w : World) (combined : List JSON) (path : String) (query : Option Values)
      (code : Int) (w' : World),
      jsonPagesLoop env ctx help fuel w combined path query = some (code, w') →
      ∃ reqs, w'.sent = w.sent ++ reqs ∧ CursorChain env ctx.Client w.sent.length reqs ∧
        (∀ r ∈ reqs.head?, buildURL env ctx.Client.BaseURL path query = .ok r.URL) := by
  intro fuel
  induction fuel with
  | zero => intro w combined path query code w' h; simp [jsonPagesLoop] at h
  | succ f ih =>
    intro w combined path query code w' h
    rw [jsonPagesLoop] at h
    rcases hdo : ctx.Client.Do env w "GET" path query none "" none with ⟨r, w1⟩
    rw [hdo] at h
    cases r with
    | error e =>
      simp only [Option.some.injEq] at h
      have hw := Do_world env ctx.Client w "GET" path query none "" none
      rw [hdo] at hw
      have hs : w'.sent = w1.sent := handleErr_eq_sent w1 help (some e) code w' h
      rcases hw.2.2 with h0 | ⟨u, hu, h1⟩
      · exact ⟨[], by rw [hs]; simpa using h0, trivial, by simp⟩
      · exact ⟨[_], by rw [hs]; exact h1, trivial, by simpa using hu⟩
    | ok resp =>
      obtain ⟨urlStr, hresp, hurl, -, hrt, hlt, hp, hw1⟩ := Do_ok_inv env ctx.Client w "GET" path
        query none "" none resp w1 hdo
      have hs1 : w1.sent = w.sent ++
          [⟨"GET", urlStr, ctx.Client.requestHeader "" none, none⟩] := by rw [hw1]
      simp only at h
      cases hdec : unmarshalRawMessages env resp.Body with
      | error e =>
        rw [hdec] at h
        simp only [Option.some.injEq] at h
        have hs : w'.sent = w1.sent := handleErr_eq_sent w1 help (some e) code w' h
        exact ⟨[_], by rw [hs, hs1], trivial, by simpa using hurl⟩
      | ok page =>
        rw [hdec] at h
        simp only at h
        by_cases hnext : (nextLink resp.Headers == "") = true
        · simp only [hnext, if_true, printJSON, Option.some.injEq, Prod.mk.injEq] at h
          have hs : w'.sent = w1.sent := by rw [← h.2]
          exact ⟨[_], by rw [hs, hs1], trivial, by simpa using hurl⟩
        · simp only [hnext] at h
          obtain ⟨reqs, hr1, hr2, hr3⟩ := ih w1 _ _ _ code w' h
          refine ⟨(⟨"GET", urlStr, ctx.Client.requestHeader "" none, none⟩ : HTTPRequest) :: reqs,
            by rw [hr1, hs1]; simp, ?_, by simpa using hurl⟩
          cases reqs with
          | nil => trivial
          | cons r2 rest =>
            refine ⟨⟨hresp, hrt, hlt, ?_, ?_⟩, ?_⟩
            · rw [hp] at hnext; simpa using hnext
            · have := hr3 r2 (by simp)
              rw [hp] at this; exact this
            · have hl : w1.sent.length = w.sent.length + 1 := by rw [hs1]; simp
              rw [hl] at hr2; exact hr2

/-- The requests of the tabular loop form a cursor chain starting at the URL built
from the initial path and query. -/
theorem rowPagesLoop_chain (env : Env) (ctx : Context) (help : String) (headers : List String)
    (rowFn : String → Except GoError (List (List String))) :
    ∀ (fuel : Nat) (w : World) (printed : Bool) (path : String) (query : Option Values)
      (code : Int) (w' : World),
      rowPagesLoop env ctx help headers rowFn fuel w printed path query = some (code, w') →
      ∃ reqs, w'.sent = w.sent ++ reqs ∧ CursorChain env ctx.Client w.sent.length reqs ∧
        (∀ r ∈ reqs.head?, buildURL env ctx.Client.BaseURL path query = .ok r.URL) := by
  intro fuel
  induction fuel with
  | zero => intro w printed path query code w' h; simp [rowPagesLoop] at h
  | succ f ih =>
    intro w printed path query code w' h
    rw [rowPagesLoop] at h
    rcases hdo : ctx.Client.Do env w "GET" path query none "" none with ⟨r, w1⟩
    rw [hdo] at h
    cases r with
    | error e =>
      simp only [Option.some.injEq] at h
      have hw := Do_world env ctx.Client w "GET" path query none "" none
      rw [hdo] at hw
      have hs : w'.sent = w1.sent := handleErr_eq_sent w1 help (some e) code w' h
      rcases hw.2.2 with h0 | ⟨u, hu, h1⟩
      · exact ⟨[], by rw [hs]; simpa using h0, trivial, by simp⟩
      · exact ⟨[_], by rw [hs]; exact h1, trivial, by simpa using hu⟩
    | ok resp =>
      obtain ⟨urlStr, hresp, hurl, -, hrt, hlt, hp, hw1⟩ := Do_ok_inv env ctx.Client w "GET" path
        query none "" none resp w1 hdo
      have hs1 : w1.sent = w.sent ++
          [⟨"GET", urlStr, ctx.Client.requestHeader "" none, none⟩] := by rw [hw1]
      simp only at h
      cases hdec : rowFn resp.Body with
      | error e =>
        rw [hdec] at h
        simp only [Option.some.injEq] at h
        have hs : w'.sent = w1.sent := handleErr_eq_sent w1 help (some e) code w' h
        exact ⟨[_], by rw [hs, hs1], trivial, by simpa using hurl⟩
      | ok rows =>
        rw [hdec] at h
        simp only at h
        have hw2 : (if !printed then printTable w1 headers rows ctx.Output.Plain
            else printTable w1 [] rows true).sent = w1.sent := by
          cases printed <;> rfl
        by_cases hnext : (nextLink resp.Headers == "") = true
        · simp only [hnext, if_true, Option.some.injEq, Prod.mk.injEq] at h
          have hs : w'.sent = w1.sent := by rw [← h.2, hw2]
          exact ⟨[_], by rw [hs, hs1], trivial, by simpa using hurl⟩
        · simp only [hnext] at h
          obtain ⟨reqs, hr1, hr2, hr3⟩ := ih _ _ _ _ code w' h
          rw [hw2] at hr1 hr2
          refine ⟨(⟨"GET", urlStr, ctx.Client.requestHeader "" none, none⟩ : HTTPRequest) :: reqs,
            by rw [hr1, hs1]; simp, ?_, by simpa using hurl⟩
          cases reqs with
          | nil => trivial
          | cons r2 rest =>
            refine ⟨⟨hresp, hrt, hlt, ?_, ?_⟩, ?_⟩
            · rw [hp] at hnext; simpa using hnext
            · have := hr3 r2 (by simp)
              rw [hp] at this; exact this
            · have hl : w1.sent.length = w.sent.length + 1 := by rw [hs1]; simp
              rw [hl] at hr2; exact hr2

/-- With a nil query, `buildURL` turns an absolute path into the printed form of
its parse: the base URL is not consulted and no query is encoded. -/
theorem buildURL_nil_query_absolute (env : Env) (baseURL cursor : String) (u : URL)
    (habs : (strings.HasPrefix cursor "http://" || strings.HasPrefix cursor "https://") = true)
    (hparse : env.urlParse cursor = .ok u) :
    buildURL env baseURL cursor none = .ok (env.urlString u) := by
  unfold buildURL
  simp only [habs, if_true, hparse]

/-- C4: in both all-pages loops of `listWithPagination`, the requests sent by a
run form a chain: the first goes to the URL built from the initial path and
query, and every later one goes to the URL `buildURL` makes from the cursor of
the preceding response and a nil query, so the query of the original request is
not applied again; and for an absolute cursor that URL is the cursor parsed and
printed back, its own query string included. -/
theorem listWithPagination_cursor_replaces_path_and_query (env : Env) (fuel : Nat) (w : World)
    (ctx : Context) (help path : String) (query : Option Values) (headers : List String)
    (rowFn : String → Except GoError (List (List String))) (code : Int) (w' : World)
    (h : listWithPagination env fuel w ctx help path query true headers rowFn =
      some (code, w')) :
    (∃ reqs, w'.sent = w.sent ++ reqs ∧ CursorChain env ctx.Client w.sent.length reqs ∧
        (∀ r ∈ reqs.head?, buildURL env ctx.Client.BaseURL path query = .ok r.URL)) ∧
      (∀ (cursor : String) (u : URL),
        (strings.HasPrefix cursor "http://" || strings.HasPrefix cursor "https://") = true →
        env.urlParse cursor = .ok u →
        buildURL env ctx.Client.BaseURL cursor none = .ok (env.urlString u)) := by
  refine ⟨?_, fun cursor u habs hparse =>
    buildURL_nil_query_absolute env _ cursor u habs hparse⟩
  unfold listWithPagination at h
  simp only [Bool.not_true, Bool.false_eq_true, if_false] at h
  by_cases hjson : ctx.Output.JSON = true
  · simp only [hjson, if_true] at h
    exact jsonPagesLoop_chain env ctx help fuel w [] path query code w' h
  · simp only [hjson] at h
    exact rowPagesLoop_chain env ctx help headers rowFn fuel w false path query code w' h

/-- C4, witness: the first request carries the original query `tag=a`, the second
goes to the cursor `https://x/acme/cards?page=2` as it is. -/
theorem listWithPagination_cursor_replaces_path_and_query_witness :
    listWithPagination
        (Env.demo [⟨200, [("Link", ["<https://x/acme/cards?page=2>; rel=\"next\""])], "[1]"⟩,
          ⟨200, [], "[2,3]"⟩])
        2 ⟨"", "", []⟩
        ⟨⟨"", "", "", ""⟩, "", "acme", "https://x", "t", "", ⟨true, false⟩,
          ⟨"https://x", "t", "", ""⟩, "", "", ""⟩
        "" "/acme/cards" (some [("tag", ["a"])]) true [] (fun _ => .ok []) =
      some (0, ⟨"[1, 2, 3]\n", "",
        [⟨"GET", "https://x/acme/cards?tag=a",
            [("Authorization", ["Bearer t"]), ("Accept", ["application/json"])], none⟩,
          ⟨"GET", "https://x/acme/cards?page=2",
            [("Authorization", ["Bearer t"]), ("Accept", ["application/json"])], none⟩]⟩) ∧
    ∃ reqs : List HTTPRequest,
      [⟨"GET", "https://x/acme/cards?tag=a",
          [("Authorization", ["Bearer t"]), ("Accept", ["application/json"])], none⟩,
        ⟨"GET", "https://x/acme/cards?page=2",
          [("Authorization", ["Bearer t"]), ("Accept", ["application/json"])], none⟩] =
        [] ++ reqs ∧
      CursorChain
        (Env.demo [⟨200, [("Link", ["<https://x/acme/cards?page=2>; rel=\"next\""])], "[1]"⟩,
          ⟨200, [], "[2,3]"⟩])
        ⟨"https://x", "t", "", ""⟩ 0 reqs := by
  have h0 : listWithPagination
        (Env.demo [⟨200, [("Link", ["<https://x/acme/cards?page=2>; rel=\"next\""])], "[1]"⟩,
          ⟨200, [], "[2,3]"⟩])
        2 ⟨"", "", []⟩
        ⟨⟨"", "", "", ""⟩, "", "acme", "https://x", "t", "", ⟨true, false⟩,
          ⟨"https://x", "t", "", ""⟩, "", "", ""⟩
        "" "/acme/cards" (some [("tag", ["a"])]) true [] (fun _ => .ok []) =
      some (0, ⟨"[1, 2, 3]\n", "",
        [⟨"GET", "https://x/acme/cards?tag=a",
            [("Authorization", ["Bearer t"]), ("Accept", ["application/json"])], none⟩,
          ⟨"GET", "https://x/acme/cards?page=2",
            [("Authorization", ["Bearer t"]), ("Accept", ["application/json"])], none⟩]⟩) := by
    decide
  obtain ⟨⟨reqs, h1, h2, -⟩, -⟩ := listWithPagination_cursor_replaces_path_and_query _ _ _ _ _ _
    _ _ _ _ _ h0
  exact ⟨h0, reqs, h1, h2⟩

/-! ## Properties: credentials required (C11) -/

/-- A usage error handled by `handleErr`: exit code 2, nothing on standard output,
no request. -/
theorem handleErr_usage (w : World) (help msg : String) :
    (handleErr w help (some (.usage msg))).1 = 2 ∧
      (handleErr w help (some (.usage msg))).2.stdout = w.stdout ∧
      (handleErr w help (some (.usage msg))).2.sent = w.sent := by
  refine ⟨?_, (handleErr_world w help _).1, (handleErr_world w help _).2⟩
  simp [handleErr, exitCode, GoError.asUsage]

/-- `ensureToken` with both credentials empty. -/
theorem ensureToken_of_empty (ctx : Context) (h : ctx.Token = "" ∧ ctx.SessionToken = "") :
    ensureToken ctx = some (.usage
      "missing credentials; set --token or FIZZY_TOKEN, or run \x27fizzy-cli auth login\x27") := by
  simp [ensureToken, h.1, h.2]

/-- C11: `ensureToken` fails, with a `UsageError`, exactly when both the token and
the session token are empty; and in that state each of the commands board, card,
comment, tag, column, user, notification and `account list`, whatever its
arguments, returns exit code 2 and hands no request to the transport. -/
theorem unauthenticated_commands_exit_2 (env : Env) (fl : FlagSets) (wr : WriteCommands)
    (fuel : Nat) (w : World) (ctx : Context) (args : List String) :
    ((∃ msg, ensureToken ctx = some (.usage msg)) ↔ (ctx.Token = "" ∧ ctx.SessionToken = "")) ∧
    (ensureToken ctx = none ↔ ¬ (ctx.Token = "" ∧ ctx.SessionToken = "")) ∧
    (ctx.Token = "" ∧ ctx.SessionToken = "" →
      ((runBoard env wr w ctx args).1 = 2 ∧ (runBoard env wr w ctx args).2.sent = w.sent) ∧
      (∃ w', runCard env fl wr fuel w ctx args = some (2, w') ∧ w'.sent = w.sent) ∧
      ((runComment env wr w ctx args).1 = 2 ∧ (runComment env wr w ctx args).2.sent = w.sent) ∧
      ((runTag env w ctx args).1 = 2 ∧ (runTag env w ctx args).2.sent = w.sent) ∧
      ((runColumn env fl wr w ctx args).1 = 2 ∧
        (runColumn env fl wr w ctx args).2.sent = w.sent) ∧
      ((runUser env wr w ctx args).1 = 2 ∧ (runUser env wr w ctx args).2.sent = w.sent) ∧
      ((runNotification env fl w ctx args).1 = 2 ∧
        (runNotification env fl w ctx args).2.sent = w.sent) ∧
      ((runAccount env wr w ctx ("list" :: args)).1 = 2 ∧
        (runAccount env wr w ctx ("list" :: args)).2.sent = w.sent)) := by
  refine ⟨?_, ?_, ?_⟩
  · constructor
    · rintro ⟨msg, h⟩
      by_contra hne
      have : ensureToken ctx = none := by
        simp only [ensureToken]
        rw [if_neg]
        simpa [not_and] using hne
      rw [this] at h
      cases h
    · intro h
      exact ⟨_, ensureToken_of_empty ctx h⟩
  · constructor
    · intro h hempty
      rw [ensureToken_of_empty ctx hempty] at h
      cases h
    · intro hne
      simp only [ensureToken]
      rw [if_neg]
      simpa [not_and] using hne
  · intro hempty
    obtain ⟨msg, ht⟩ : ∃ msg, ensureToken ctx = some (.usage msg) :=
      ⟨_, ensureToken_of_empty ctx hempty⟩
    refine ⟨?_, ?_, ?_, ?_, ?_, ?_, ?_, ?_⟩
    · cases args with
      | nil => exact ⟨rfl, rfl⟩
      | cons cmd rest =>
        simp only [runBoard, ht]
        exact ⟨(handleErr_usage w _ _).1, (handleErr_usage w _ _).2.2⟩
    · cases args with
      | nil => exact ⟨_, rfl, rfl⟩
      | cons cmd rest =>
        simp only [runCard, ht]
        refine ⟨(handleErr w helpForCard (some (.usage msg))).2, ?_,
          (handleErr_usage w _ msg).2.2⟩
        exact congrArg some (Prod.ext (handleErr_usage w _ msg).1 rfl)
    · cases args with
      | nil => exact ⟨rfl, rfl⟩
      | cons cmd rest =>
        simp only [runComment, ht]
        exact ⟨(handleErr_usage w _ _).1, (handleErr_usage w _ _).2.2⟩
    · simp only [runTag, ht]
      split
      · exact ⟨rfl, rfl⟩
      · exact ⟨(handleErr_usage w _ _).1, (handleErr_usage w _ _).2.2⟩
    · cases args with
      | nil => exact ⟨rfl, rfl⟩
      | cons cmd rest =>
        simp only [runColumn, ht]
        exact ⟨(handleErr_usage w _ _).1, (handleErr_usage w _ _).2.2⟩
    · cases args with
      | nil => exact ⟨rfl, rfl⟩
      | cons cmd rest =>
        simp only [runUser, ht]
        exact ⟨(handleErr_usage w _ _).1, (handleErr_usage w _ _).2.2⟩
    · cases args with
      | nil => exact ⟨rfl, rfl⟩
      | cons cmd rest =>
        simp only [runNotification, ht]
        exact ⟨(handleErr_usage w _ _).1, (handleErr_usage w _ _).2.2⟩
    · simp only [runAccount, ht]
      simp only [beq_self_eq_true, if_true]
      exact ⟨(handleErr_usage w _ _).1, (handleErr_usage w _ _).2.2⟩

/-! ## Properties: failures and streaming in pagination (C15, C18, C19) -/

/-- An error handled by `handleErr` gives a non-zero exit code. -/
theorem handleErr_code_ne_zero (w : World) (help : String) (e : GoError) :
    (handleErr w help (some e)).1 ≠ 0 := by
  show exitCode (some e) ≠ 0
  rw [exitCode_some]
  split <;> decide

/-- Failing after a page sequence depends on the world only through the requests
sent so far. -/
theorem failsAfter_congr (env : Env) (c : Client) (accepted : Response → Bool)
    (ps : List Response) :
    ∀ (w w2 : World) (path : String) (query : Option Values), w.sent = w2.sent →
      failsAfter env c accepted w path query ps = failsAfter env c accepted w2 path query ps := by
  induction ps with
  | nil =>
    intro w w2 path query h
    obtain ⟨h1, -⟩ := Do_congr_sent env c w w2 "GET" path query none "" none h
    rcases hd : c.Do env w "GET" path query none "" none with ⟨r, w1⟩
    rcases hd2 : c.Do env w2 "GET" path query none "" none with ⟨r2, w1'⟩
    rw [hd, hd2] at h1
    simp only at h1
    subst h1
    simp only [failsAfter, hd, hd2]
    cases r <;> rfl
  | cons p ps ih =>
    intro w w2 path query h
    obtain ⟨h1, h2⟩ := Do_congr_sent env c w w2 "GET" path query none "" none h
    rcases hd : c.Do env w "GET" path query none "" none with ⟨r, w1⟩
    rcases hd2 : c.Do env w2 "GET" path query none "" none with ⟨r2, w1'⟩
    rw [hd, hd2] at h1 h2
    simp only at h1 h2
    subst h1
    simp only [failsAfter, hd, hd2]
    cases r with
    | error e => rfl
    | ok q => simp only; rw [ih w1 w1' _ _ h2]

/-- Unfolding `failsAfter` at a page. -/
theorem failsAfter_cons (env : Env) (c : Client) (accepted : Response → Bool) (w : World)
    (path : String) (query : Option Values) (p : Response) (ps : List Response)
    (h : failsAfter env c accepted w path query (p :: ps) = true) :
    ∃ w1, c.Do env w "GET" path query none "" none = (.ok p, w1) ∧ accepted p = true ∧
      (nextLink p.Headers == "") = false ∧
      failsAfter env c accepted w1 (nextLink p.Headers) none ps = true := by
  unfold failsAfter at h
  split at h
  · rename_i q w1 hdo
    simp only [Bool.and_eq_true, beq_iff_eq, bne_iff_ne, ne_eq] at h
    refine ⟨w1, ?_, h.1.1.2, ?_, h.2⟩
    · rw [hdo, h.1.1.1]
    · simpa using h.1.2
  · exact absurd h (by simp)

/-- The rows of a page that `rowFn` accepts. -/
theorem pageRows_of_accepted (env : Env) (rowFn : String → Except GoError (List (List String)))
    (p : Response) (h : pageAccepted env false rowFn p = true) :
    rowFn p.Body = .ok (pageRows rowFn p) := by
  unfold pageAccepted at h
  unfold pageRows
  cases hr : rowFn p.Body with
  | ok rows => rfl
  | error e => simp [hr] at h

/-- The tabular loop on a served page sequence that `rowFn` accepts: it returns 0
and has appended the pages to standard output, one after the other. -/
theorem rowPagesLoop_streams (env : Env) (ctx : Context) (help : String) (headers : List String)
    (rowFn : String → Except GoError (List (List String))) (ps : List Response) :
    ∀ (fuel : Nat) (w : World) (printed : Bool) (path : String) (query : Option Values),
      servesPages env ctx.Client w path query ps = true → ps.length ≤ fuel →
      (∀ p ∈ ps, pageAccepted env false rowFn p = true) →
      ∃ w', rowPagesLoop env ctx help headers rowFn fuel w printed path query = some (0, w') ∧
        w'.stdout = w.stdout ++
          streamedPages headers ctx.Output.Plain printed (ps.map (pageRows rowFn)) ∧
        w'.stderr = w.stderr := by
  induction ps with
  | nil =>
    intro fuel w printed path query h
    simp [servesPages] at h
  | cons p ps ih =>
    intro fuel w printed path query hserve hfuel hacc
    obtain ⟨w1, hdo, hlast, hmore⟩ := servesPages_cons env ctx.Client w path query p ps hserve
    obtain ⟨urlStr, resp, -, -, -, -, -, hw1⟩ := Do_ok_inv env ctx.Client w "GET" path query none
      "" none p w1 hdo
    have hout1 : w1.stdout = w.stdout := by rw [hw1]
    have herr1 : w1.stderr = w.stderr := by rw [hw1]
    obtain ⟨f, rfl⟩ : ∃ f, fuel = f + 1 := ⟨fuel - 1, by simp at hfuel; omega⟩
    have hrows := pageRows_of_accepted env rowFn p (hacc p (List.mem_cons_self _ _))
    rw [rowPagesLoop]
    simp only [hdo, hrows]
    by_cases hnil : ps = []
    · subst hnil
      simp only [hlast rfl, if_true]
      refine ⟨_, rfl, ?_, ?_⟩
      · cases printed <;>
          simp [printTable, hout1, streamedPages]
      · cases printed <;> simp [printTable, herr1]
    · obtain ⟨hnext, hserve'⟩ := hmore hnil
      simp only [hnext]
      obtain ⟨w', hrun, ho, he⟩ := ih f
        (if !printed then printTable w1 headers (pageRows rowFn p) ctx.Output.Plain
          else printTable w1 [] (pageRows rowFn p) true) true
        (nextLink p.Headers) none
        ((servesPages_congr env ctx.Client ps _ w1 _ _
          (by cases printed <;> rfl)).trans hserve')
        (by simp at hfuel; omega)
        (fun x hx => hacc x (List.mem_cons_of_mem _ hx))
      refine ⟨w', by simpa using hrun, ?_, ?_⟩
      · rw [ho]
        cases printed <;>
          simp [printTable, hout1, streamedPages, String.append_assoc]
      · rw [he]
        cases printed <;> simp [printTable, herr1]

/-- The tabular loop when the walk fails after the pages `ps`: it returns a
non-zero code and standard output holds the pages `ps`, which were written
before the failure. -/
theorem rowPagesLoop_fails (env : Env) (ctx : Context) (help : String) (headers : List String)
    (rowFn : String → Except GoError (List (List String))) (ps : List Response) :
    ∀ (fuel : Nat) (w : World) (printed : Bool) (path : String) (query : Option Values),
      failsAfter env ctx.Client (pageAccepted env false rowFn) w path query ps = true →
      ps.length < fuel →
      ∃ code w', rowPagesLoop env ctx help headers rowFn fuel w printed path query =
          some (code, w') ∧ code ≠ 0 ∧
        w'.stdout = w.stdout ++
          streamedPages headers ctx.Output.Plain printed (ps.map (pageRows rowFn)) := by
  induction ps with
  | nil =>
    intro fuel w printed path query hfail hfuel
    obtain ⟨f, rfl⟩ : ∃ f, fuel = f + 1 := ⟨fuel - 1, by simp at hfuel; omega⟩
    rw [rowPagesLoop]
    unfold failsAfter at hfail
    have hdw := Do_world env ctx.Client w "GET" path query none "" none
    rcases hdo : ctx.Client.Do env w "GET" path query none "" none with ⟨r, w1⟩
    rw [hdo] at hfail hdw
    simp only at hdw
    cases r with
    | error e =>
      refine ⟨(handleErr w1 help (some e)).1, (handleErr w1 help (some e)).2, rfl,
        handleErr_code_ne_zero _ _ _, ?_⟩
      rw [(handleErr_world w1 help (some e)).1, hdw.1]
      simp [streamedPages]
    | ok q =>
      simp only [pageAccepted, Bool.false_eq_true, if_false] at hfail
      cases hr : rowFn q.Body with
      | ok rows => simp [hr] at hfail
      | error e =>
        simp only [hr]
        refine ⟨(handleErr w1 help (some e)).1, (handleErr w1 help (some e)).2, rfl,
          handleErr_code_ne_zero _ _ _, ?_⟩
        rw [(handleErr_world w1 help (some e)).1, hdw.1]
        simp [streamedPages]
  | cons p ps ih =>
    intro fuel w printed path query hfail hfuel
    obtain ⟨w1, hdo, hacc, hnext, hfail'⟩ :=
      failsAfter_cons env ctx.Client _ w path query p ps hfail
    obtain ⟨urlStr, resp, -, -, -, -, -, hw1⟩ := Do_ok_inv env ctx.Client w "GET" path query none
      "" none p w1 hdo
    have hout1 : w1.stdout = w.stdout := by rw [hw1]
    obtain ⟨f, rfl⟩ : ∃ f, fuel = f + 1 := ⟨fuel - 1, by simp at hfuel; omega⟩
    have hrows := pageRows_of_accepted env rowFn p hacc
    rw [rowPagesLoop]
    simp only [hdo, hrows, hnext]
    obtain ⟨code, w', hrun, hcode, ho⟩ := ih f
      (if !printed then printTable w1 headers (pageRows rowFn p) ctx.Output.Plain
        else printTable w1 [] (pageRows rowFn p) true) true
      (nextLink p.Headers) none
      ((failsAfter_congr env ctx.Client _ ps _ w1 _ _
        (by cases printed <;> rfl)).trans hfail')
      (by simp at hfuel; omega)
    refine ⟨code, w', by simpa using hrun, hcode, ?_⟩
    rw [ho]
    cases printed <;>
      simp [printTable, hout1, streamedPages, String.append_assoc]

/-- The JSON loop when the walk fails after the pages `ps`: it returns a non-zero
code and has written nothing to standard output. -/
theorem jsonPagesLoop_fails (env : Env) (ctx : Context) (help : String)
    (rowFn : String → Except GoError (List (List String))) (ps : List Response) :
    ∀ (fuel : Nat) (w : World) (combined : List JSON) (path : String) (query : Option Values),
      failsAfter env ctx.Client (pageAccepted env true rowFn) w path query ps = true →
      ps.length < fuel →
      ∃ code w', jsonPagesLoop env ctx help fuel w combined path query = some (code, w') ∧
        code ≠ 0 ∧ w'.stdout = w.stdout := by
  induction ps with
  | nil =>
    intro fuel w combined path query hfail hfuel
    obtain ⟨f, rfl⟩ : ∃ f, fuel = f + 1 := ⟨fuel - 1, by simp at hfuel; omega⟩
    rw [jsonPagesLoop]
    unfold failsAfter at hfail
    have hdw := Do_world env ctx.Client w "GET" path query none "" none
    rcases hdo : ctx.Client.Do env w "GET" path query none "" none with ⟨r, w1⟩
    rw [hdo] at hfail hdw
    simp only at hdw
    cases r with
    | error e =>
      refine ⟨(handleErr w1 help (some e)).1, (handleErr w1 help (some e)).2, rfl,
        handleErr_code_ne_zero _ _ _, ?_⟩
      rw [(handleErr_world w1 help (some e)).1, hdw.1]
    | ok q =>
      simp only [pageAccepted, if_true] at hfail
      cases hr : unmarshalRawMessages env q.Body with
      | ok elems => simp [hr] at hfail
      | error e =>
        simp only [hr]
        refine ⟨(handleErr w1 help (some e)).1, (handleErr w1 help (some e)).2, rfl,
          handleErr_code_ne_zero _ _ _, ?_⟩
        rw [(handleErr_world w1 help (some e)).1, hdw.1]
  | cons p ps ih =>
    intro fuel w combined path query hfail hfuel
    obtain ⟨w1, hdo, hacc, hnext, hfail'⟩ :=
      failsAfter_cons env ctx.Client _ w path query p ps hfail
    obtain ⟨urlStr, resp, -, -, -, -, -, hw1⟩ := Do_ok_inv env ctx.Client w "GET" path query none
      "" none p w1 hdo
    have hout1 : w1.stdout = w.stdout := by rw [hw1]
    obtain ⟨f, rfl⟩ : ∃ f, fuel = f + 1 := ⟨fuel - 1, by simp at hfuel; omega⟩
    rw [jsonPagesLoop]
    simp only [hdo]
    simp only [pageAccepted, if_true] at hacc
    cases hr : unmarshalRawMessages env p.Body with
    | error e => simp [hr] at hacc
    | ok page =>
      simp only [hnext]
      obtain ⟨code, w', hrun, hcode, ho⟩ := ih f w1 (combined ++ page) (nextLink p.Headers) none
        hfail' (by simp at hfuel; omega)
      exact ⟨code, w', by simpa using hrun, hcode, by rw [ho, hout1]⟩

/-- The tabular loop passes through the state in which the pages written so far
are on standard output and the request for the next page has not been sent: from
there it goes on as the loop started in that state, whose first step is the
request for the next page. -/
theorem rowPagesLoop_passes (env : Env) (ctx : Context) (help : String) (headers : List String)
    (rowFn : String → Except GoError (List (List String))) (pre : List Response) :
    ∀ (last : Response) (post : List Response) (fuel : Nat) (w : World) (printed : Bool)
      (path : String) (query : Option Values),
      servesPages env ctx.Client w path query (pre ++ last :: post) = true → post ≠ [] →
      (∀ p ∈ pre ++ [last], pageAccepted env false rowFn p = true) → pre.length + 1 ≤ fuel →
      ∃ wk, wk.stdout = w.stdout ++
          streamedPages headers ctx.Output.Plain printed ((pre ++ [last]).map (pageRows rowFn)) ∧
        wk.sent.length = w.sent.length + (pre.length + 1) ∧
        servesPages env ctx.Client wk (nextLink last.Headers) none post = true ∧
        rowPagesLoop env ctx help headers rowFn fuel w printed path query =
          rowPagesLoop env ctx help headers rowFn (fuel - (pre.length + 1)) wk true
            (nextLink last.Headers) none := by
  induction pre with
  | nil =>
    intro last post fuel w printed path query hserve hpost hacc hfuel
    simp only [List.nil_append] at hserve hacc
    obtain ⟨w1, hdo, -, hmore⟩ := servesPages_cons env ctx.Client w path query last post hserve
    obtain ⟨hnext, hserve'⟩ := hmore hpost
    obtain ⟨urlStr, resp, -, -, -, -, -, hw1⟩ := Do_ok_inv env ctx.Client w "GET" path query none
      "" none last w1 hdo
    have hout1 : w1.stdout = w.stdout := by rw [hw1]
    have hsent1 : w1.sent.length = w.sent.length + 1 := by rw [hw1]; simp
    obtain ⟨f, rfl⟩ : ∃ f, fuel = f + 1 := ⟨fuel - 1, by simp at hfuel; omega⟩
    have hrows := pageRows_of_accepted env rowFn last (hacc last (List.mem_singleton_self _))
    refine ⟨if !printed then printTable w1 headers (pageRows rowFn last) ctx.Output.Plain
      else printTable w1 [] (pageRows rowFn last) true, ?_, ?_, ?_, ?_⟩
    · cases printed <;> simp [printTable, hout1, streamedPages]
    · cases printed <;> simp [printTable, hsent1]
    · exact (servesPages_congr env ctx.Client post _ w1 _ _
        (by cases printed <;> rfl)).trans hserve'
    · rw [rowPagesLoop]
      simp only [hdo, hrows, hnext]
      simp
  | cons p pre ih =>
    intro last post fuel w printed path query hserve hpost hacc hfuel
    simp only [List.cons_append] at hserve hacc
    obtain ⟨w1, hdo, -, hmore⟩ :=
      servesPages_cons env ctx.Client w path query p (pre ++ last :: post) hserve
    obtain ⟨hnext, hserve'⟩ := hmore (by simp)
    obtain ⟨urlStr, resp, -, -, -, -, -, hw1⟩ := Do_ok_inv env ctx.Client w "GET" path query none
      "" none p w1 hdo
    have hout1 : w1.stdout = w.stdout := by rw [hw1]
    have hsent1 : w1.sent.length = w.sent.length + 1 := by rw [hw1]; simp
    obtain ⟨f, rfl⟩ : ∃ f, fuel = f + 1 := ⟨fuel - 1, by simp at hfuel; omega⟩
    have hrows := pageRows_of_accepted env rowFn p (hacc p (List.mem_cons_self _ _))
    obtain ⟨wk, ho, hs, hsv, hrun⟩ := ih last post f
      (if !printed then printTable w1 headers (pageRows rowFn p) ctx.Output.Plain
        else printTable w1 [] (pageRows rowFn p) true) true
      (nextLink p.Headers) none
      ((servesPages_congr env ctx.Client _ _ w1 _ _
        (by cases printed <;> rfl)).trans hserve')
      hpost (fun x hx => hacc x (List.mem_cons_of_mem _ hx))
      (by simp at hfuel; omega)
    refine ⟨wk, ?_, ?_, hsv, ?_⟩
    · rw [ho]
      cases printed <;>
        simp [printTable, hout1, streamedPages, String.append_assoc]
    · rw [hs]
      cases printed <;> simp [printTable, hsent1] <;> omega
    · rw [rowPagesLoop]
      simp only [hdo, hrows, hnext]
      simp only [List.length_cons, Nat.add_sub_add_right]
      simpa using hrun

/-- `String.join` of a list with a head. -/
theorem string_join_cons (a : String) (l : List String) :
    String.join (a :: l) = a ++ String.join l := by
  rw [String.join_eq, String.join_eq]
  apply String.ext
  simp

/-- The text `printTable` hands to the tab writer when it prints no header. -/
theorem tableText_plain (headers : List String) (rows : List (List String)) :
    tableText headers rows true = rowLines rows := by
  simp [tableText, rowLines]

/-- The text `printTable` hands to the tab writer when it prints the header. -/
theorem tableText_header (headers : List String) (rows : List (List String))
    (h : headers ≠ []) :
    tableText headers rows false = joinRow headers ++ "\n" ++ rowLines rows := by
  have : 0 < headers.length := List.length_pos.mpr h
  simp [tableText, rowLines, this]

/-- Pages after the header was printed. -/
theorem streamedPages_printed (headers : List String) (plain : Bool)
    (rowss : List (List (List String))) :
    streamedPages headers plain true rowss =
      String.join (rowss.map (fun rows => tabwriter.Flush (rowLines rows))) := by
  induction rowss with
  | nil => rfl
  | cons rows rest ih =>
    simp only [streamedPages, if_true, ih, tableText_plain, List.map_cons, string_join_cons]

/-- With a header and without the plain flag the streamed pages show the header
once. -/
theorem streamedPages_headerOnce (headers : List String) (h : headers ≠ [])
    (rowss : List (List (List String))) :
    streamedPages headers false false rowss = headerOnce headers rowss := by
  cases rowss with
  | nil => rfl
  | cons rows rest =>
    simp only [streamedPages, headerOnce, streamedPages_printed, tableText_header headers rows h]
    simp

/-- C15: in `listWithPagination` with all=true, tabular output and plain=false, for
every sequence of pages that the executor serves along the walk and the row
mapper accepts, and a header list that is not empty, the run returns 0 and
standard output receives the header row followed by the first page's rows, then
for every later page that page's rows with no header, in page order (each page
aligned by its own tab writer); and each page is written before the request for
the next page is issued: when a page other than the last has been written, the
run is in a state whose standard output ends with the pages up to that one, to
which exactly as many requests were sent, and it goes on from there as the loop
whose first step is the request for the next page. -/
theorem listWithPagination_rows_header_once (env : Env) (fuel : Nat) (w : World)
    (ctx : Context) (help path : String) (query : Option Values) (headers : List String)
    (rowFn : String → Except GoError (List (List String))) (ps : List Response)
    (hjson : ctx.Output.JSON = false) (hplain : ctx.Output.Plain = false)
    (hheaders : headers ≠ [])
    (hserve : servesPages env ctx.Client w path query ps = true)
    (hacc : ∀ p ∈ ps, pageAccepted env false rowFn p = true)
    (hfuel : ps.length ≤ fuel) :
    (∃ w', listWithPagination env fuel w ctx help path query true headers rowFn = some (0, w') ∧
      w'.stdout = w.stdout ++ headerOnce headers (ps.map (pageRows rowFn)) ∧
      w'.stderr = w.stderr) ∧
    (∀ (pre : List Response) (last : Response) (post : List Response),
      ps = pre ++ last :: post → post ≠ [] →
      ∃ wk, wk.stdout = w.stdout ++ headerOnce headers ((pre ++ [last]).map (pageRows rowFn)) ∧
        wk.sent.length = w.sent.length + (pre.length + 1) ∧
        listWithPagination env fuel w ctx help path query true headers rowFn =
          rowPagesLoop env ctx help headers rowFn (fuel - (pre.length + 1)) wk true
            (nextLink last.Headers) none) := by
  have hrun : listWithPagination env fuel w ctx help path query true headers rowFn =
      rowPagesLoop env ctx help headers rowFn fuel w false path query := by
    simp [listWithPagination, hjson]
  constructor
  · obtain ⟨w', h, ho, he⟩ :=
      rowPagesLoop_streams env ctx help headers rowFn ps fuel w false path query hserve hfuel hacc
    refine ⟨w', hrun.trans h, ?_, he⟩
    rw [ho, hplain, streamedPages_headerOnce headers hheaders]
  · intro pre last post hps hpost
    subst hps
    obtain ⟨wk, ho, hs, -, h⟩ := rowPagesLoop_passes env ctx help headers rowFn pre last post
      fuel w false path query hserve hpost
      (fun p hp => hacc p (by
        simp only [List.mem_append, List.mem_singleton, List.mem_cons] at hp ⊢
        tauto))
      (by simp at hfuel; omega)
    refine ⟨wk, ?_, hs, hrun.trans h⟩
    rw [ho, hplain, streamedPages_headerOnce headers hheaders]

/-- C18: in `listWithPagination` with all=true and JSON output, when the walk
fails, that is, after any number of pages that were served and decoded, the
request for the next page fails or the body of the next page does not decode,
the run returns a non-zero exit code and has written nothing to standard
output. -/
theorem listWithPagination_json_all_or_nothing (env : Env) (fuel : Nat) (w : World)
    (ctx : Context) (help path : String) (query : Option Values) (headers : List String)
    (rowFn : String → Except GoError (List (List String))) (ps : List Response)
    (hjson : ctx.Output.JSON = true)
    (hfail : failsAfter env ctx.Client (pageAccepted env true rowFn) w path query ps = true)
    (hfuel : ps.length < fuel) :
    ∃ code w', listWithPagination env fuel w ctx help path query true headers rowFn =
        some (code, w') ∧ code ≠ 0 ∧ w'.stdout = w.stdout := by
  obtain ⟨code, w', h, hc, ho⟩ :=
    jsonPagesLoop_fails env ctx help rowFn ps fuel w [] path query hfail hfuel
  refine ⟨code, w', ?_, hc, ho⟩
  simp [listWithPagination, hjson, h]

/-- C19: in `listWithPagination` with all=true and tabular output, when the pages
`ps` were served and accepted by the row mapper and the next page fails (its
request fails or the row mapper rejects its body), the run returns a non-zero
exit code and standard output holds exactly what was there followed by the
rendering of the pages `ps`: the first page as `printTable` prints it with the
headers, the others without a header; without the plain flag and with a header
list that is not empty this is the header once and the rows of `ps`. -/
theorem listWithPagination_rows_keep_prior_pages (env : Env) (fuel : Nat) (w : World)
    (ctx : Context) (help path : String) (query : Option Values) (headers : List String)
    (rowFn : String → Except GoError (List (List String))) (ps : List Response)
    (hjson : ctx.Output.JSON = false)
    (hfail : failsAfter env ctx.Client (pageAccepted env false rowFn) w path query ps = true)
    (hfuel : ps.length < fuel) :
    ∃ code w', listWithPagination env fuel w ctx help path query true headers rowFn =
        some (code, w') ∧ code ≠ 0 ∧
      w'.stdout = w.stdout ++
        streamedPages headers ctx.Output.Plain false (ps.map (pageRows rowFn)) ∧
      (ctx.Output.Plain = false → headers ≠ [] →
        w'.stdout = w.stdout ++ headerOnce headers (ps.map (pageRows rowFn))) := by
  obtain ⟨code, w', h, hc, ho⟩ :=
    rowPagesLoop_fails env ctx help headers rowFn ps fuel w false path query hfail hfuel
  refine ⟨code, w', ?_, hc, ho, ?_⟩
  · simp [listWithPagination, hjson, h]
  · intro hplain hheaders
    rw [ho, hplain, streamedPages_headerOnce headers hheaders]

/-- C15, witness: two pages of one tag each print the header once. -/
theorem listWithPagination_rows_header_once_witness :
    servesPages (Env.demoJSON demoTagDocs [demoTagPage1, demoTagPage2])
        (Context.demo false false).Client ⟨"", "", []⟩ "/acme/tags" none
        [⟨200, demoTagPage1.Header, demoTagPage1.Body⟩,
          ⟨200, demoTagPage2.Header, demoTagPage2.Body⟩] = true ∧
    ∃ w', listWithPagination (Env.demoJSON demoTagDocs [demoTagPage1, demoTagPage2]) 2
        ⟨"", "", []⟩ (Context.demo false false) "" "/acme/tags" none true tagListHeaders
        (tagListRows (Env.demoJSON demoTagDocs [demoTagPage1, demoTagPage2])) = some (0, w') ∧
      w'.stdout = "ID  TITLE\nt1  bug\nt2  feature\n" := by
  have h := (listWithPagination_rows_header_once
    (Env.demoJSON demoTagDocs [demoTagPage1, demoTagPage2]) 2 ⟨"", "", []⟩
    (Context.demo false false) "" "/acme/tags" none tagListHeaders
    (tagListRows (Env.demoJSON demoTagDocs [demoTagPage1, demoTagPage2]))
    [⟨200, demoTagPage1.Header, demoTagPage1.Body⟩,
      ⟨200, demoTagPage2.Header, demoTagPage2.Body⟩]
    rfl rfl (by decide) (by decide) (by decide) (by decide)).1
  obtain ⟨w', hrun, ho, -⟩ := h
  refine ⟨by decide, w', hrun, ?_⟩
  rw [ho]
  decide

/-- C18, witness: the second request of a JSON walk is refused; nothing is printed. -/
theorem listWithPagination_json_all_or_nothing_witness :
    failsAfter (Env.demo [⟨200, [("Link", ["<https://x/acme/cards?page=2>; rel=\"next\""])], "[1]"⟩])
        (Context.demo true false).Client
        (pageAccepted
          (Env.demo [⟨200, [("Link", ["<https://x/acme/cards?page=2>; rel=\"next\""])], "[1]"⟩])
          true (fun _ => .ok []))
        ⟨"", "", []⟩ "/acme/cards" none
        [⟨200, [("Link", ["<https://x/acme/cards?page=2>; rel=\"next\""])], "[1]"⟩] = true ∧
    ∃ code w', listWithPagination
        (Env.demo [⟨200, [("Link", ["<https://x/acme/cards?page=2>; rel=\"next\""])], "[1]"⟩])
        2 ⟨"", "", []⟩ (Context.demo true false) "" "/acme/cards" none true []
        (fun _ => .ok []) = some (code, w') ∧ code ≠ 0 ∧ w'.stdout = "" :=
  ⟨by decide, listWithPagination_json_all_or_nothing
    (Env.demo [⟨200, [("Link", ["<https://x/acme/cards?page=2>; rel=\"next\""])], "[1]"⟩])
    2 ⟨"", "", []⟩ (Context.demo true false) "" "/acme/cards" none [] (fun _ => .ok [])
    [⟨200, [("Link", ["<https://x/acme/cards?page=2>; rel=\"next\""])], "[1]"⟩]
    rfl (by decide) (by decide)⟩

/-- C19, witness: the second request of a tabular walk is refused; the header and
the row of the first page stay on standard output. -/
theorem listWithPagination_rows_keep_prior_pages_witness :
    failsAfter (Env.demoJSON demoTagDocs [demoTagPage1]) (Context.demo false false).Client
        (pageAccepted (Env.demoJSON demoTagDocs [demoTagPage1]) false
          (tagListRows (Env.demoJSON demoTagDocs [demoTagPage1])))
        ⟨"", "", []⟩ "/acme/tags" none
        [⟨200, demoTagPage1.Header, demoTagPage1.Body⟩] = true ∧
    ∃ code w', listWithPagination (Env.demoJSON demoTagDocs [demoTagPage1]) 2
        ⟨"", "", []⟩ (Context.demo false false) "" "/acme/tags" none true tagListHeaders
        (tagListRows (Env.demoJSON demoTagDocs [demoTagPage1])) = some (code, w') ∧
      code ≠ 0 ∧ w'.stdout = "ID  TITLE\nt1  bug\n" := by
  obtain ⟨code, w', hrun, hcode, ho, -⟩ := listWithPagination_rows_keep_prior_pages
    (Env.demoJSON demoTagDocs [demoTagPage1]) 2 ⟨"", "", []⟩
    (Context.demo false false) "" "/acme/tags" none tagListHeaders
    (tagListRows (Env.demoJSON demoTagDocs [demoTagPage1]))
    [⟨200, demoTagPage1.Header, demoTagPage1.Body⟩]
    rfl (by decide) (by decide)
  refine ⟨by decide, code, w', hrun, hcode, ?_⟩
  rw [ho]
  decide

/-! ## Properties: empty bodies in JSON mode (C20) -/

/-- `printJSONResponse` on an empty body prints the status-only object. -/
theorem printJSONResponse_empty (env : Env) (w : World) (resp : Response)
    (h : resp.Body = "") : printJSONResponse env w resp = statusOnly env w resp := by
  simp [printJSONResponse, h, printJSON, statusOnly]

/-- `outputListOrJSON` in JSON mode on an empty body prints the status-only object. -/
theorem outputListOrJSON_empty (env : Env) (w : World) (ctx : Context) (resp : Response)
    (headers : List String) (rowFn : String → Except GoError (List (List String)))
    (hjson : ctx.Output.JSON = true) (h : resp.Body = "") :
    outputListOrJSON env w ctx resp headers rowFn = statusOnly env w resp := by
  simp [outputListOrJSON, hjson, printJSONResponse_empty env w resp h]

/-- `outputJSONOrPretty` in JSON mode on an empty body prints nothing and returns 0. -/
theorem outputJSONOrPretty_empty (env : Env) (w : World) (ctx : Context)
    (formatFn : String → Except GoError String) (hjson : ctx.Output.JSON = true) :
    outputJSONOrPretty env w ctx "" formatFn = (0, w) := by
  simp [outputJSONOrPretty, hjson, printJSONBytes]

/-- C20, counterexample: in JSON mode `board get` answered with an empty body
returns 0 and prints nothing, no status object; and `card list --all` answered
with an empty body fails with exit code 1 and prints nothing. -/
theorem empty_body_without_status_object :
    ((runBoard (Env.demo [⟨204, [], ""⟩]) WriteCommands.demo ⟨"", "", []⟩
        (Context.demo true false) ["get", "b1"]).1 = 0 ∧
      (runBoard (Env.demo [⟨204, [], ""⟩]) WriteCommands.demo ⟨"", "", []⟩
        (Context.demo true false) ["get", "b1"]).2.stdout = "") ∧
    ∃ w', runCard (Env.demo [⟨200, [], ""⟩]) FlagSets.demo WriteCommands.demo 5 ⟨"", "", []⟩
        (Context.demo true false) ["list", "--all"] = some (1, w') ∧ w'.stdout = "" := by
  refine ⟨by decide, _, rfl, by decide⟩

/-- C20 (amended): in JSON mode, with credentials and an account, a response with
an empty body makes every list view that prints one response (board, comment,
tag, column, user and notification list, card list without `--all`, account
list) print the status-only object with the status code and return 0; every
detail (get) view (board, card, comment, column, user) prints nothing for it and
returns 0; and `card list --all` returns a non-zero code without output when the
empty body is not valid JSON. -/
theorem empty_body_in_json_mode (env : Env) (fl : FlagSets) (wr : WriteCommands) (fuel : Nat)
    (w : World) (ctx : Context) (hjson : ctx.Output.JSON = true)
    (htoken : ensureToken ctx = none) (haccount : ensureAccount ctx = none) :
    (∀ resp w1, ctx.Client.Do env w "GET" (withAccount ctx "/boards") none none "" none =
        (.ok resp, w1) → resp.Body = "" →
      runBoard env wr w ctx ["list"] = statusOnly env w1 resp) ∧
    (∀ number resp w1,
      ctx.Client.Do env w "GET" (withAccount ctx ("/cards/" ++ number ++ "/comments")) none none
        "" none = (.ok resp, w1) → resp.Body = "" →
      runComment env wr w ctx ["list", number] = statusOnly env w1 resp) ∧
    (∀ resp w1, ctx.Client.Do env w "GET" (withAccount ctx "/tags") none none "" none =
        (.ok resp, w1) → resp.Body = "" →
      runTag env w ctx ["list"] = statusOnly env w1 resp) ∧
    (∀ rest v resp w1, fl.parse "column list" rest = .ok v →
      strings.TrimSpace (v.string "board-id") ≠ "" →
      ctx.Client.Do env w "GET"
        (withAccount ctx ("/boards/" ++ strings.TrimSpace (v.string "board-id") ++ "/columns"))
        none none "" none = (.ok resp, w1) → resp.Body = "" →
      runColumn env fl wr w ctx ("list" :: rest) = statusOnly env w1 resp) ∧
    (∀ resp w1, ctx.Client.Do env w "GET" (withAccount ctx "/users") none none "" none =
        (.ok resp, w1) → resp.Body = "" →
      runUser env wr w ctx ["list"] = statusOnly env w1 resp) ∧
    (∀ rest v resp w1, fl.parse "notification list" rest = .ok v →
      ctx.Client.Do env w "GET" (withAccount ctx "/notifications")
        (some (if v.bool "unread" then Values.Set [] "unread" "true" else [])) none "" none =
        (.ok resp, w1) → resp.Body = "" →
      runNotification env fl w ctx ("list" :: rest) = statusOnly env w1 resp) ∧
    (∀ rest v resp w1, fl.parse "card list" rest = .ok v → v.bool "all" = false →
      ctx.Client.Do env w "GET" (withAccount ctx "/cards") (some (cardListQuery v)) none ""
        none = (.ok resp, w1) → resp.Body = "" →
      runCard env fl wr fuel w ctx ("list" :: rest) = some (statusOnly env w1 resp)) ∧
    (∀ resp w1, ctx.Client.Do env w "GET" "/my/identity" none none "" none = (.ok resp, w1) →
      resp.Body = "" →
      runAccount env wr w ctx ["list"] = statusOnly env w1 resp) ∧
    (∀ id rest resp w1,
      ctx.Client.Do env w "GET" (withAccount ctx ("/boards/" ++ id)) none none "" none =
        (.ok resp, w1) → resp.Body = "" →
      runBoard env wr w ctx ("get" :: id :: rest) = (0, w1)) ∧
    (∀ number rest resp w1,
      ctx.Client.Do env w "GET" (withAccount ctx ("/cards/" ++ number)) none none "" none =
        (.ok resp, w1) → resp.Body = "" →
      runCard env fl wr fuel w ctx ("get" :: number :: rest) = some (0, w1)) ∧
    (∀ number id rest resp w1,
      ctx.Client.Do env w "GET" (withAccount ctx ("/cards/" ++ number ++ "/comments/" ++ id))
        none none "" none = (.ok resp, w1) → resp.Body = "" →
      runComment env wr w ctx ("get" :: number :: id :: rest) = (0, w1)) ∧
    (∀ id rest v resp w1, fl.parse "column get" rest = .ok v →
      strings.TrimSpace (v.string "board-id") ≠ "" →
      ctx.Client.Do env w "GET"
        (withAccount ctx
          ("/boards/" ++ strings.TrimSpace (v.string "board-id") ++ "/columns/" ++ id))
        none none "" none = (.ok resp, w1) → resp.Body = "" →
      runColumn env fl wr w ctx ("get" :: id :: rest) = (0, w1)) ∧
    (∀ id rest resp w1,
      ctx.Client.Do env w "GET" (withAccount ctx ("/users/" ++ id)) none none "" none =
        (.ok resp, w1) → resp.Body = "" →
      runUser env wr w ctx ("get" :: id :: rest) = (0, w1)) ∧
    (∀ rest v resp w1 e, fl.parse "card list" rest = .ok v → v.bool "all" = true →
      ctx.Client.Do env w "GET" (withAccount ctx "/cards") (some (cardListQuery v)) none ""
        none = (.ok resp, w1) → resp.Body = "" → env.jsonParse "" = .error e → 0 < fuel →
      ∃ code w', runCard env fl wr fuel w ctx ("list" :: rest) = some (code, w') ∧
        code ≠ 0 ∧ w'.stdout = w.stdout) := by
  refine ⟨?_, ?_, ?_, ?_, ?_, ?_, ?_, ?_, ?_, ?_, ?_, ?_, ?_, ?_⟩
  · intro resp w1 hdo hb
    simp [runBoard, htoken, haccount, hdo, outputListOrJSON_empty env w1 ctx resp _ _ hjson hb]
  · intro number resp w1 hdo hb
    simp [runComment, htoken, haccount, hdo,
      outputListOrJSON_empty env w1 ctx resp _ _ hjson hb]
  · intro resp w1 hdo hb
    simp [runTag, htoken, haccount, hdo, outputListOrJSON_empty env w1 ctx resp _ _ hjson hb]
  · intro rest v resp w1 hp hid hdo hb
    simp [runColumn, htoken, haccount, hp, hid, hdo,
      outputListOrJSON_empty env w1 ctx resp _ _ hjson hb]
  · intro resp w1 hdo hb
    simp [runUser, htoken, haccount, hdo, outputListOrJSON_empty env w1 ctx resp _ _ hjson hb]
  · intro rest v resp w1 hp hdo hb
    simp [runNotification, htoken, haccount, hp, hdo,
      outputListOrJSON_empty env w1 ctx resp _ _ hjson hb]
  · intro rest v resp w1 hp hall hdo hb
    simp [runCard, htoken, haccount, hp, hall, listWithPagination, hdo,
      outputListOrJSON_empty env w1 ctx resp _ _ hjson hb]
  · intro resp w1 hdo hb
    simp [runAccount, htoken, hdo, hjson, printJSONResponse_empty env w1 resp hb]
  · intro id rest resp w1 hdo hb
    simp [runBoard, htoken, haccount, hdo, hb, outputJSONOrPretty_empty env w1 ctx _ hjson]
  · intro number rest resp w1 hdo hb
    simp [runCard, htoken, haccount, hdo, hb, outputJSONOrPretty_empty env w1 ctx _ hjson]
  · intro number id rest resp w1 hdo hb
    simp [runComment, htoken, haccount, hdo, hb, outputJSONOrPretty_empty env w1 ctx _ hjson]
  · intro id rest v resp w1 hp hid hdo hb
    simp [runColumn, htoken, haccount, hp, hid, hdo, hb,
      outputJSONOrPretty_empty env w1 ctx _ hjson]
  · intro id rest resp w1 hdo hb
    simp [runUser, htoken, haccount, hdo, hb, outputJSONOrPretty_empty env w1 ctx _ hjson]
  · intro rest v resp w1 e hp hall hdo hb he hfuel
    obtain ⟨f, rfl⟩ : ∃ f, fuel = f + 1 := ⟨fuel - 1, by omega⟩
    have hw := Do_world env ctx.Client w "GET" (withAccount ctx "/cards")
      (some (cardListQuery v)) none "" none
    rw [hdo] at hw
    refine ⟨(handleErr w1 helpForCard (some e)).1, (handleErr w1 helpForCard (some e)).2, ?_,
      handleErr_code_ne_zero _ _ _, ?_⟩
    · simp [runCard, htoken, haccount, hp, hall, listWithPagination, hjson, jsonPagesLoop, hdo,
        unmarshalRawMessages, hb, he]
    · rw [(handleErr_world w1 helpForCard (some e)).1]
      exact hw.1

/-- C20, witness: `board list` in JSON mode answered with status 204 and an empty
body returns 0 and prints the status-only object (which the example environment
shows as `...`). -/
theorem empty_body_in_json_mode_witness :
    ∃ w1, runBoard (Env.demo [⟨204, [], ""⟩]) WriteCommands.demo ⟨"", "", []⟩
        (Context.demo true false) ["list"] =
      statusOnly (Env.demo [⟨204, [], ""⟩]) w1 ⟨204, [], ""⟩ ∧ w1.stdout = "" ∧
      (statusOnly (Env.demo [⟨204, [], ""⟩]) w1 ⟨204, [], ""⟩).2.stdout = "...\n" := by
  have h := (empty_body_in_json_mode (Env.demo [⟨204, [], ""⟩]) FlagSets.demo WriteCommands.demo
    1 ⟨"", "", []⟩ (Context.demo true false) rfl rfl rfl).1 ⟨204, [], ""⟩ _ rfl rfl
  exact ⟨_, h, by decide, by decide⟩

/-! ## Properties: decoding failures (C14) -/

/-- A member that no record accepts makes `decodeMembers` fail. -/
theorem decodeMembers_error_of_mem {α : Type} (setField : α → String → JSON → Except GoError α)
    (ms : List (String × JSON)) (kv : String × JSON) (hmem : kv ∈ ms)
    (hbad : ∀ cur, ∃ err, setField cur kv.1 kv.2 = .error err) :
    ∀ cur, ∃ err, json.decodeMembers setField cur ms = .error err := by
  induction ms with
  | nil => cases hmem
  | cons m rest ih =>
    intro cur
    obtain ⟨key, v⟩ := m
    rw [json.decodeMembers]
    cases hs : setField cur key v with
    | error e => exact ⟨e, rfl⟩
    | ok next =>
      rcases List.mem_cons.mp hmem with h | h
      · subst h
        obtain ⟨err, he⟩ := hbad cur
        rw [hs] at he
        cases he
      · exact ih h next

/-- An element that cannot be stored makes `decodeElems` fail. -/
theorem decodeElems_error_of_mem {α : Type} (decodeElem : α → JSON → Except GoError α) (zero : α)
    (elems : List JSON) (el : JSON) (hmem : el ∈ elems)
    (hbad : ∀ cur, ∃ err, decodeElem cur el = .error err) :
    ∀ cur, ∃ err, json.decodeElems decodeElem zero cur elems = .error err := by
  induction elems with
  | nil => cases hmem
  | cons x rest ih =>
    intro cur
    rw [json.decodeElems]
    cases hs : decodeElem (cur.headD zero) x with
    | error e => exact ⟨e, rfl⟩
    | ok y =>
      rcases List.mem_cons.mp hmem with h | h
      · subst h
        obtain ⟨err, he⟩ := hbad (cur.headD zero)
        rw [hs] at he
        cases he
      · obtain ⟨err, he⟩ := ih h cur.tail
        exact ⟨err, by simp [he]⟩

/-- A string where the card number is expected is rejected. -/
theorem card_setField_number_string (c : card) (s : String) :
    ∃ err, card.setField c "number" (.string s) = .error err := by
  have h1 : json.selects "number" "id" = false := by decide
  have h2 : json.selects "number" "number" = true := by decide
  refine ⟨json.typeError (JSON.string s).kind "int", ?_⟩
  simp [card.setField, h1, h2, json.decodeInt, Except.map]

/-- A value that is neither an array nor `null` cannot be stored into a slice. -/
theorem decodeSlice_error {α : Type} (decodeElem : α → JSON → Except GoError α) (zero : α)
    (goType : String) (cur : List α) (v : JSON) (harr : ∀ elems, v ≠ .array elems)
    (hnull : v ≠ .null) :
    ∃ err, json.decodeSlice decodeElem zero goType cur v = .error err := by
  cases v with
  | null => exact absurd rfl hnull
  | array elems => exact absurd rfl (harr elems)
  | bool b => exact ⟨_, rfl⟩
  | number lit => exact ⟨_, rfl⟩
  | string s => exact ⟨_, rfl⟩
  | object ms => exact ⟨_, rfl⟩

/-- A value that is neither an object nor `null` cannot be stored into a struct. -/
theorem decodeStruct_error {α : Type} (setField : α → String → JSON → Except GoError α)
    (goType : String) (cur : α) (v : JSON) (hobj : ∀ ms, v ≠ .object ms) (hnull : v ≠ .null) :
    ∃ err, json.decodeStruct setField goType cur v = .error err := by
  cases v with
  | null => exact absurd rfl hnull
  | object ms => exact absurd rfl (hobj ms)
  | bool b => exact ⟨_, rfl⟩
  | number lit => exact ⟨_, rfl⟩
  | string s => exact ⟨_, rfl⟩
  | array elems => exact ⟨_, rfl⟩

/-- `Unmarshal` fails when storing the parsed value fails. -/
theorem Unmarshal_error_of_decode {α : Type} (env : Env) (body : String) (v : JSON)
    (decode : JSON → Except GoError α) (hv : env.jsonParse body = .ok v)
    (h : ∃ err, decode v = .error err) : ∃ err, json.Unmarshal env body decode = .error err := by
  obtain ⟨err, he⟩ := h
  exact ⟨err, by simp [json.Unmarshal, hv, he]⟩

/-- What `printJSONBytes` does with a body that is not empty: it decodes the
body into an `any` and prints the value. -/
theorem printJSONBytes_eq (env : Env) (w : World) (body : String) (hne : body ≠ "") :
    (∀ v, json.Unmarshal env body env.jsonAny = .ok v →
      printJSONBytes env w body =
        .ok { w with stdout := w.stdout ++ env.jsonIndent v ++ "\n" }) ∧
    (∀ e, json.Unmarshal env body env.jsonAny = .error e →
      printJSONBytes env w body = .error (.wrapped "invalid JSON response: " e)) := by
  have hlen : ¬ body.length = 0 := by
    intro h
    apply hne
    apply String.ext
    exact List.length_eq_zero.mp h
  constructor
  · intro v hv
    unfold json.Unmarshal at hv
    unfold printJSONBytes
    simp only [hlen, if_false]
    cases hp : env.jsonParse body with
    | error e => rw [hp] at hv; cases hv
    | ok parsed =>
      rw [hp] at hv
      have hv2 : env.jsonAny parsed = .ok v := hv
      simp only [hv2, printJSON]
  · intro e he
    unfold json.Unmarshal at he
    unfold printJSONBytes
    simp only [hlen, if_false]
    cases hp : env.jsonParse body with
    | error e2 =>
      rw [hp] at he
      injection he with he
      subst he
      rfl
    | ok parsed =>
      rw [hp] at he
      have he2 : env.jsonAny parsed = .error e := he
      simp only [he2]

/-- C14, counterexample: in JSON mode `outputJSONOrPretty` does not call the
format function. The body `[1]` is an array where `formatCard` expects an
object, yet it is printed and the exit code is 0; the empty body is not JSON and
`formatCard` rejects it, yet the exit code is 0. -/
theorem outputJSONOrPretty_json_mode_accepts_rejected_bodies :
    (∃ e, formatCard (Env.demo []) "[1]" = .error e) ∧
    outputJSONOrPretty (Env.demo []) ⟨"", "", []⟩ (Context.demo true false) "[1]"
      (formatCard (Env.demo [])) = (0, ⟨"[1]\n", "", []⟩) ∧
    (∃ e, formatCard (Env.demo []) "" = .error e) ∧
    outputJSONOrPretty (Env.demo []) ⟨"", "", []⟩ (Context.demo true false) ""
      (formatCard (Env.demo [])) = (0, ⟨"", "", []⟩) :=
  ⟨⟨_, rfl⟩, by decide, ⟨_, rfl⟩, by decide⟩

/-- C14 (amended): a body that is not JSON makes every row mapper and every format
function return the syntax error; a body of the wrong shape (a value other than
an array or `null` where a list is expected, a value other than an object or
`null` where a record is expected, a string where the card number is expected)
makes them return an error, and an error carries no rows or text.
`outputListRows`, and `outputJSONOrPretty` in tabular mode, then write nothing
to standard output and return a non-zero code. In JSON mode
`outputJSONOrPretty` does not call the format function: for a non-empty body
that `json.Unmarshal` cannot store into an `any`, as is every body that is not
JSON, it writes nothing and returns a non-zero code; for every other non-empty
body it prints the indented encoding of the stored value, whatever its shape
and whatever the format function returns, and returns 0; for the empty body it
returns 0 and writes nothing. -/
theorem decode_failures_abort (env : Env) (w : World) (ctx : Context) (body : String)
    (headers : List String) (rowFn : String → Except GoError (List (List String)))
    (formatFn : String → Except GoError String) :
    (∀ e, env.jsonParse body = .error e →
      boardListRows env body = .error e ∧ cardListRows env body = .error e ∧
      commentListRows env body = .error e ∧ tagListRows env body = .error e ∧
      columnListRows env body = .error e ∧ userListRows env body = .error e ∧
      notificationListRows env body = .error e ∧ identityToRows env body = .error e ∧
      formatBoard env body = .error e ∧ formatCard env body = .error e ∧
      formatComment env body = .error e ∧ formatColumn env body = .error e ∧
      formatUser env body = .error e) ∧
    (∀ v, env.jsonParse body = .ok v → (∀ elems, v ≠ .array elems) → v ≠ .null →
      (∃ e, boardListRows env body = .error e) ∧ (∃ e, cardListRows env body = .error e) ∧
      (∃ e, commentListRows env body = .error e) ∧ (∃ e, tagListRows env body = .error e) ∧
      (∃ e, columnListRows env body = .error e) ∧ (∃ e, userListRows env body = .error e) ∧
      (∃ e, notificationListRows env body = .error e)) ∧
    (∀ v, env.jsonParse body = .ok v → (∀ ms, v ≠ .object ms) → v ≠ .null →
      (∃ e, identityToRows env body = .error e) ∧ (∃ e, formatBoard env body = .error e) ∧
      (∃ e, formatCard env body = .error e) ∧ (∃ e, formatComment env body = .error e) ∧
      (∃ e, formatColumn env body = .error e) ∧ (∃ e, formatUser env body = .error e)) ∧
    (∀ elems ms s, env.jsonParse body = .ok (.array elems) → JSON.object ms ∈ elems →
      ("number", JSON.string s) ∈ ms → ∃ e, cardListRows env body = .error e) ∧
    (∀ ms s, env.jsonParse body = .ok (.object ms) → ("number", JSON.string s) ∈ ms →
      ∃ e, formatCard env body = .error e) ∧
    (∀ e, rowFn body = .error e →
      (outputListRows w ctx body headers rowFn).1 ≠ 0 ∧
      (outputListRows w ctx body headers rowFn).2.stdout = w.stdout) ∧
    (∀ e, ctx.Output.JSON = false → formatFn body = .error e →
      (outputJSONOrPretty env w ctx body formatFn).1 ≠ 0 ∧
      (outputJSONOrPretty env w ctx body formatFn).2.stdout = w.stdout) ∧
    (∀ e, ctx.Output.JSON = true → body ≠ "" → env.jsonParse body = .error e →
      (outputJSONOrPretty env w ctx body formatFn).1 ≠ 0 ∧
      (outputJSONOrPretty env w ctx body formatFn).2.stdout = w.stdout) ∧
    (∀ e, ctx.Output.JSON = true → body ≠ "" →
      json.Unmarshal env body env.jsonAny = .error e →
      (outputJSONOrPretty env w ctx body formatFn).1 ≠ 0 ∧
      (outputJSONOrPretty env w ctx body formatFn).2.stdout = w.stdout) ∧
    (∀ v, ctx.Output.JSON = true → body ≠ "" →
      json.Unmarshal env body env.jsonAny = .ok v →
      outputJSONOrPretty env w ctx body formatFn =
        (0, { w with stdout := w.stdout ++ env.jsonIndent v ++ "\n" })) ∧
    (ctx.Output.JSON = true → body = "" →
      outputJSONOrPretty env w ctx body formatFn = (0, w)) := by
  refine ⟨?_, ?_, ?_, ?_, ?_, ?_, ?_, ?_, ?_, ?_, ?_⟩
  · intro e he
    simp [boardListRows, cardListRows, commentListRows, tagListRows, columnListRows,
      userListRows, notificationListRows, identityToRows, formatBoard, formatCard,
      formatComment, formatColumn, formatUser, json.Unmarshal, he]
  · intro v hv harr hnull
    have h : ∀ {α : Type} (dec : α → JSON → Except GoError α) (zero : α) (goType : String),
        ∃ err, json.Unmarshal env body (json.decodeSlice dec zero goType []) = .error err :=
      fun dec zero goType => Unmarshal_error_of_decode env body v _ hv
        (decodeSlice_error dec zero goType [] v harr hnull)
    refine ⟨?_, ?_, ?_, ?_, ?_, ?_, ?_⟩
    · obtain ⟨err, he⟩ := h board.decode board.zero "[]cli.board"
      exact ⟨err, by simp [boardListRows, he]⟩
    · obtain ⟨err, he⟩ := h card.decode card.zero "[]cli.card"
      exact ⟨err, by simp [cardListRows, he]⟩
    · obtain ⟨err, he⟩ := h comment.decode comment.zero "[]cli.comment"
      exact ⟨err, by simp [commentListRows, he]⟩
    · obtain ⟨err, he⟩ := h tag.decode tag.zero "[]cli.tag"
      exact ⟨err, by simp [tagListRows, he]⟩
    · obtain ⟨err, he⟩ := h column.decode column.zero "[]cli.column"
      exact ⟨err, by simp [columnListRows, he]⟩
    · obtain ⟨err, he⟩ := h user.decode user.zero "[]cli.user"
      exact ⟨err, by simp [userListRows, he]⟩
    · obtain ⟨err, he⟩ := h notification.decode notification.zero "[]cli.notification"
      exact ⟨err, by simp [notificationListRows, he]⟩
  · intro v hv hobj hnull
    have h : ∀ {α : Type} (setField : α → String → JSON → Except GoError α) (goType : String)
        (zero : α),
        ∃ err, json.Unmarshal env body (json.decodeStruct setField goType zero) = .error err :=
      fun setField goType zero => Unmarshal_error_of_decode env body v _ hv
        (decodeStruct_error setField goType zero v hobj hnull)
    refine ⟨?_, ?_, ?_, ?_, ?_, ?_⟩
    · obtain ⟨err, he⟩ := h identity.setField "cli.identity" identity.zero
      exact ⟨err, by simp [identityToRows, identity.decode, he]⟩
    · obtain ⟨err, he⟩ := h board.setField "cli.board" board.zero
      exact ⟨err, by simp [formatBoard, board.decode, he]⟩
    · obtain ⟨err, he⟩ := h card.setField "cli.card" card.zero
      exact ⟨err, by simp [formatCard, card.decode, he]⟩
    · obtain ⟨err, he⟩ := h comment.setField "cli.comment" comment.zero
      exact ⟨err, by simp [formatComment, comment.decode, he]⟩
    · obtain ⟨err, he⟩ := h column.setField "cli.column" column.zero
      exact ⟨err, by simp [formatColumn, column.decode, he]⟩
    · obtain ⟨err, he⟩ := h user.setField "cli.user" user.zero
      exact ⟨err, by simp [formatUser, user.decode, he]⟩
  · intro elems ms s hv hel hnum
    have hcard : ∀ cur, ∃ err, card.decode cur (.object ms) = .error err := fun cur =>
      decodeMembers_error_of_mem card.setField ms _ hnum
        (fun c => card_setField_number_string c s) cur
    obtain ⟨err, he⟩ := decodeElems_error_of_mem card.decode card.zero elems _ hel hcard []
    exact ⟨err, by simp [cardListRows, json.Unmarshal, hv, json.decodeSlice, he]⟩
  · intro ms s hv hnum
    obtain ⟨err, he⟩ := decodeMembers_error_of_mem card.setField ms _ hnum
      (fun c => card_setField_number_string c s) card.zero
    exact ⟨err, by simp [formatCard, json.Unmarshal, hv, card.decode, json.decodeStruct, he]⟩
  · intro e he
    simp only [outputListRows, he]
    exact ⟨handleErr_code_ne_zero _ _ _, (handleErr_world _ _ _).1⟩
  · intro e hjson he
    simp only [outputJSONOrPretty, hjson, he]
    exact ⟨handleErr_code_ne_zero _ _ _, (handleErr_world _ _ _).1⟩
  · intro e hjson hne he
    have hlen : ¬ body.length = 0 := by
      intro h
      apply hne
      apply String.ext
      exact List.length_eq_zero.mp h
    simp only [outputJSONOrPretty, hjson, printJSONBytes, hlen, he, if_true, if_false]
    exact ⟨handleErr_code_ne_zero _ _ _, (handleErr_world _ _ _).1⟩
  · intro e hjson hne he
    simp only [outputJSONOrPretty, hjson, if_true, (printJSONBytes_eq env w body hne).2 e he]
    exact ⟨handleErr_code_ne_zero _ _ _, (handleErr_world _ _ _).1⟩
  · intro v hjson hne hv
    simp only [outputJSONOrPretty, hjson, if_true, (printJSONBytes_eq env w body hne).1 v hv]
  · intro hjson hempty
    subst hempty
    exact outputJSONOrPretty_empty env w ctx formatFn hjson

/-! ## Properties: row mappers (C12, C13) -/

/-- `fmt.Sprintf("%d", n)` is the base-10 text of `n`. -/
theorem Sprintd_eq_decimal (n : Int) : fmt.Sprintd n = decimal n := by
  unfold fmt.Sprintd decimal
  cases n with
  | ofNat m =>
    have : ¬ (Int.ofNat m < 0) := by simp
    simp only [this, if_false]
    show Nat.repr m = _
    simp [Nat.repr, List.asString]
  | negSucc m =>
    have : Int.negSucc m < 0 := Int.negSucc_lt_zero m
    simp only [this, if_true]
    show "-" ++ Nat.repr (m + 1) = _
    simp [Nat.repr, List.asString, Int.natAbs]

/-- `strings.TrimPrefix(slug, "/")` strips one leading slash. -/
theorem TrimPrefix_slash (slug : String) :
    strings.TrimPrefix slug "/" = stripLeadingSlash slug := by
  unfold strings.TrimPrefix strings.HasPrefix stripLeadingSlash
  rcases slug with ⟨cs⟩
  cases cs with
  | nil => simp
  | cons c rest =>
    by_cases hc : c = '/'
    · subst hc
      have hl : "/".length = 1 := by decide
      simp [hl]
    · have : ('/' == c) = false := by simpa using fun h => hc h.symm
      simp [List.isPrefixOf, this]
      split
      · rename_i h
        simp at h
        exact absurd h.1 hc
      · rfl

/-- Decoding an array into a fresh slice decodes each element into a zero value,
in order. -/
theorem decodeElems_nil_iff {α : Type} (decodeElem : α → JSON → Except GoError α) (zero : α)
    (elems : List JSON) :
    ∀ xs, json.decodeElems decodeElem zero [] elems = .ok xs ↔
      List.Forall₂ (fun e x => decodeElem zero e = .ok x) elems xs := by
  induction elems with
  | nil =>
    intro xs
    simp only [json.decodeElems, Except.ok.injEq, List.forall₂_nil_left_iff]
    exact eq_comm
  | cons e es ih =>
    intro xs
    rw [json.decodeElems]
    simp only [List.headD_nil, List.tail_nil]
    cases hd : decodeElem zero e with
    | error err =>
      simp only
      constructor
      · intro h; cases h
      · intro h
        cases h with
        | cons h1 _ => rw [hd] at h1; cases h1
    | ok x =>
      simp only
      cases hr : json.decodeElems decodeElem zero [] es with
      | error err =>
        simp only
        constructor
        · intro h; cases h
        · intro h
          cases h with
          | cons h1 h2 =>
            have := (ih _).mpr h2
            rw [hr] at this
            cases this
      | ok ys =>
        simp only [Except.ok.injEq]
        constructor
        · intro h
          subst h
          exact List.Forall₂.cons hd ((ih ys).mp hr)
        · intro h
          cases h with
          | cons h1 h2 =>
            rw [hd] at h1
            cases h1
            have := (ih _).mpr h2
            rw [hr] at this
            cases this
            rfl

/-- A list mapper on a body that is an array: it succeeds exactly when every
element decodes, with one row per element, in order. -/
theorem listRows_iff {α : Type} (env : Env) (body : String) (elems : List JSON)
    (hbody : env.jsonParse body = .ok (.array elems))
    (decodeElem : α → JSON → Except GoError α) (zero : α) (goType : String)
    (proj : α → List String) (rows : List (List String)) :
    (match json.Unmarshal env body (json.decodeSlice decodeElem zero goType []) with
      | .error e => .error e
      | .ok xs => .ok (xs.map proj)) = (.ok rows : Except GoError (List (List String))) ↔
      ∃ xs, List.Forall₂ (fun e x => decodeElem zero e = .ok x) elems xs ∧ rows = xs.map proj := by
  simp only [json.Unmarshal, hbody, json.decodeSlice]
  cases hd : json.decodeElems decodeElem zero [] elems with
  | error err =>
    simp only
    constructor
    · intro h; cases h
    · rintro ⟨xs, hxs, -⟩
      have := (decodeElems_nil_iff decodeElem zero elems xs).mpr hxs
      rw [hd] at this
      cases this
  | ok ys =>
    simp only [Except.ok.injEq]
    constructor
    · intro h
      exact ⟨ys, (decodeElems_nil_iff decodeElem zero elems ys).mp hd, h.symm⟩
    · rintro ⟨xs, hxs, rfl⟩
      have := (decodeElems_nil_iff decodeElem zero elems xs).mpr hxs
      rw [hd] at this
      cases this
      rfl

/-- A slice of a record that holds nothing yet takes an array as a fresh slice
does, and nothing stays in its backing array. -/
theorem decodeSliceField_fresh {α : Type} (decodeElem : α → JSON → Except GoError α) (zero : α)
    (goType : String) (elems : List JSON) :
    json.decodeSliceField decodeElem zero goType [] [] (.array elems) =
      (json.decodeElems decodeElem zero [] elems).map (fun xs => (xs, [])) := by
  cases elems with
  | nil => rfl
  | cons e es =>
    simp only [json.decodeSliceField, List.append_nil, List.drop_nil]
    cases json.decodeElems decodeElem zero [] (e :: es) <;> rfl

/-- Members that select no field of `identity` leave it as it is. -/
theorem identity_decodeMembers_skip (ms : List (String × JSON))
    (h : ∀ kv ∈ ms, json.selects kv.1 "accounts" = false) (cur : identity) :
    json.decodeMembers identity.setField cur ms = .ok cur := by
  induction ms with
  | nil => rfl
  | cons m rest ih =>
    obtain ⟨key, v⟩ := m
    have hk : json.selects key "accounts" = false := h (key, v) (List.mem_cons_self _ _)
    rw [json.decodeMembers]
    simp only [identity.setField, hk, Bool.false_eq_true, if_false]
    exact ih (fun kv hkv => h kv (List.mem_cons_of_mem _ hkv))

/-- Decoding the members of an object is sequential. -/
theorem decodeMembers_append {α : Type} (setField : α → String → JSON → Except GoError α)
    (ms1 ms2 : List (String × JSON)) :
    ∀ cur mid, json.decodeMembers setField cur ms1 = .ok mid →
      json.decodeMembers setField cur (ms1 ++ ms2) = json.decodeMembers setField mid ms2 := by
  induction ms1 with
  | nil =>
    intro cur mid h
    simp only [json.decodeMembers, Except.ok.injEq] at h
    subst h
    rfl
  | cons m rest ih =>
    intro cur mid h
    obtain ⟨key, v⟩ := m
    rw [json.decodeMembers] at h
    simp only [List.cons_append]
    rw [json.decodeMembers]
    cases hs : setField cur key v with
    | error e => rw [hs] at h; cases h
    | ok next =>
      rw [hs] at h
      simp only at h ⊢
      exact ih next mid h

/-- C12: on a body that is a JSON array, each list mapper succeeds exactly when
every element decodes into its record, and then returns one row per element, in
array order, with the columns of the table: board [id, name, all_access as
`true` or `false`, created_at]; card [number in base 10 without padding, title,
status, board.name, last_active_at]; comment [id, creator.name,
body.plain_text, created_at]; tag [id, title]; column [id, name, color]; user
[id, name, role, email_address]; notification [id, `yes` if read else `no`,
title, card.title, created_at]. On an identity object whose member `accounts` is
an array, `identityToRows` returns in the same way one row per account: [slug
with its leading slash stripped, name, user.name]. -/
theorem rowMappers_project_columns (env : Env) (body : String) (elems : List JSON)
    (hbody : env.jsonParse body = .ok (.array elems)) :
    (∀ rows, boardListRows env body = .ok rows ↔
      ∃ xs, List.Forall₂ (fun e x => board.decode board.zero e = .ok x) elems xs ∧
        rows = xs.map boardColumns) ∧
    (∀ rows, cardListRows env body = .ok rows ↔
      ∃ xs, List.Forall₂ (fun e x => card.decode card.zero e = .ok x) elems xs ∧
        rows = xs.map cardColumns) ∧
    (∀ rows, commentListRows env body = .ok rows ↔
      ∃ xs, List.Forall₂ (fun e x => comment.decode comment.zero e = .ok x) elems xs ∧
        rows = xs.map commentColumns) ∧
    (∀ rows, tagListRows env body = .ok rows ↔
      ∃ xs, List.Forall₂ (fun e x => tag.decode tag.zero e = .ok x) elems xs ∧
        rows = xs.map tagColumns) ∧
    (∀ rows, columnListRows env body = .ok rows ↔
      ∃ xs, List.Forall₂ (fun e x => column.decode column.zero e = .ok x) elems xs ∧
        rows = xs.map columnColumns) ∧
    (∀ rows, userListRows env body = .ok rows ↔
      ∃ xs, List.Forall₂ (fun e x => user.decode user.zero e = .ok x) elems xs ∧
        rows = xs.map userColumns) ∧
    (∀ rows, notificationListRows env body = .ok rows ↔
      ∃ xs, List.Forall₂ (fun e x => notification.decode notification.zero e = .ok x) elems xs ∧
        rows = xs.map notificationColumns) ∧
    (∀ ibody pre key post rows,
      env.jsonParse ibody = .ok (.object (pre ++ (key, .array elems) :: post)) →
      json.selects key "accounts" = true →
      (∀ kv ∈ pre ++ post, json.selects kv.1 "accounts" = false) →
      (identityToRows env ibody = .ok rows ↔
        ∃ xs, List.Forall₂ (fun e x => account.decode account.zero e = .ok x) elems xs ∧
          rows = xs.map accountColumns)) := by
  have key : ∀ {α : Type} (decodeElem : α → JSON → Except GoError α) (zero : α)
      (goType : String) (proj : α → List String) (r : Except GoError (List (List String))),
      (∀ e, json.Unmarshal env body (json.decodeSlice decodeElem zero goType []) = .error e →
        r = .error e) →
      (∀ xs, json.Unmarshal env body (json.decodeSlice decodeElem zero goType []) = .ok xs →
        r = .ok (xs.map proj)) →
      ∀ rows, r = .ok rows ↔
        ∃ xs, List.Forall₂ (fun e x => decodeElem zero e = .ok x) elems xs ∧
          rows = xs.map proj := by
    intro α decodeElem zero goType proj r herr hok rows
    have h := listRows_iff env body elems hbody decodeElem zero goType proj rows
    cases hu : json.Unmarshal env body (json.decodeSlice decodeElem zero goType []) with
    | error e => rw [herr e hu]; rw [hu] at h; exact h
    | ok xs => rw [hok xs hu]; rw [hu] at h; exact h
  refine ⟨?_, ?_, ?_, ?_, ?_, ?_, ?_, ?_⟩
  · exact key board.decode board.zero "[]cli.board" boardColumns _
      (fun e h => by simp [boardListRows, h])
      (fun xs h => by simp [boardListRows, h, boardColumns, fmt.Sprintt])
  · exact key card.decode card.zero "[]cli.card" cardColumns _
      (fun e h => by simp [cardListRows, h])
      (fun xs h => by simp [cardListRows, h, cardColumns, Sprintd_eq_decimal])
  · exact key comment.decode comment.zero "[]cli.comment" commentColumns _
      (fun e h => by simp [commentListRows, h])
      (fun xs h => by simp [commentListRows, h, commentColumns])
  · exact key tag.decode tag.zero "[]cli.tag" tagColumns _
      (fun e h => by simp [tagListRows, h])
      (fun xs h => by simp [tagListRows, h, tagColumns])
  · exact key column.decode column.zero "[]cli.column" columnColumns _
      (fun e h => by simp [columnListRows, h])
      (fun xs h => by simp [columnListRows, h, columnColumns])
  · exact key user.decode user.zero "[]cli.user" userColumns _
      (fun e h => by simp [userListRows, h])
      (fun xs h => by simp [userListRows, h, userColumns])
  · exact key notification.decode notification.zero "[]cli.notification" notificationColumns _
      (fun e h => by simp [notificationListRows, h])
      (fun xs h => by simp [notificationListRows, h, notificationColumns])
  · intro ibody pre key post rows hib hkey hrest
    have hpre := identity_decodeMembers_skip pre
      (fun kv h => hrest kv (List.mem_append_left _ h)) identity.zero
    have ha : (fun acct : account =>
        [strings.TrimPrefix acct.Slug "/", acct.Name, acct.User.Name]) = accountColumns :=
      funext fun a => by simp [accountColumns, TrimPrefix_slash]
    unfold identityToRows
    simp only [ha, json.Unmarshal, hib, identity.decode, json.decodeStruct]
    rw [decodeMembers_append identity.setField pre _ identity.zero identity.zero hpre,
      json.decodeMembers]
    simp only [identity.setField, hkey, if_true]
    rw [show identity.zero.Accounts = [] from rfl,
      show identity.zero.AccountsSpare = [] from rfl, decodeSliceField_fresh]
    cases hd : json.decodeElems account.decode account.zero [] elems with
    | error err =>
      simp only [Except.map]
      constructor
      · intro h; cases h
      · rintro ⟨xs, hxs, -⟩
        have := (decodeElems_nil_iff account.decode account.zero elems xs).mpr hxs
        rw [hd] at this
        cases this
    | ok ys =>
      simp only [Except.map]
      rw [identity_decodeMembers_skip post
        (fun kv h => hrest kv (List.mem_append_right _ h))]
      simp only [Except.ok.injEq]
      constructor
      · intro h
        exact ⟨ys, (decodeElems_nil_iff account.decode account.zero elems ys).mp hd, h.symm⟩
      · rintro ⟨xs, hxs, rfl⟩
        have := (decodeElems_nil_iff account.decode account.zero elems xs).mpr hxs
        rw [hd] at this
        cases this
        rfl

/-- C12, witness: a page with one tag gives one row with its id and title. -/
theorem rowMappers_project_columns_witness :
    tagListRows (Env.demoJSON demoTagDocs []) demoTagPage1.Body = .ok [["t1", "bug"]] :=
  ((rowMappers_project_columns (Env.demoJSON demoTagDocs []) demoTagPage1.Body
    [.object [("id", .string "t1"), ("title", .string "bug")]] rfl).2.2.2.1
    [["t1", "bug"]]).mpr ⟨[⟨"t1", "bug"⟩], List.Forall₂.cons rfl List.Forall₂.nil, rfl⟩

/-- The result of mapping over an `Except` that is `ok`. -/
theorem Except_map_eq_ok {ε α β : Type} (f : α → β) (x : Except ε α) (y : β)
    (h : x.map f = .ok y) : ∃ a, x = .ok a ∧ y = f a := by
  cases x with
  | error e => cases h
  | ok a => exact ⟨a, rfl, by cases h; rfl⟩

/-- A member of an object that selects none of the listed fields of a `board`
leaves them as they are. -/
theorem board_setField_keeps (b : board) (key : String) (v : JSON) (next : board)
    (h : board.setField b key v = .ok next) :
    (json.selects key "id" = false → next.ID = b.ID) ∧
    (json.selects key "name" = false → next.Name = b.Name) ∧
    (json.selects key "all_access" = false → next.AllAccess = b.AllAccess) ∧
    (json.selects key "created_at" = false → next.CreatedAt = b.CreatedAt) := by
  unfold board.setField at h
  by_cases h0 : json.selects key "id" = true
  · rw [if_pos h0] at h
    obtain ⟨x, -, rfl⟩ := Except_map_eq_ok _ _ _ h
    simp_all
  rw [if_neg h0] at h
  by_cases h1 : json.selects key "name" = true
  · rw [if_pos h1] at h
    obtain ⟨x, -, rfl⟩ := Except_map_eq_ok _ _ _ h
    simp_all
  rw [if_neg h1] at h
  by_cases h2 : json.selects key "all_access" = true
  · rw [if_pos h2] at h
    obtain ⟨x, -, rfl⟩ := Except_map_eq_ok _ _ _ h
    simp_all
  rw [if_neg h2] at h
  by_cases h3 : json.selects key "created_at" = true
  · rw [if_pos h3] at h
    obtain ⟨x, -, rfl⟩ := Except_map_eq_ok _ _ _ h
    simp_all
  rw [if_neg h3] at h
  by_cases h4 : json.selects key "creator" = true
  · rw [if_pos h4] at h
    obtain ⟨x, -, rfl⟩ := Except_map_eq_ok _ _ _ h
    simp_all
  rw [if_neg h4] at h
  by_cases h5 : json.selects key "url" = true
  · rw [if_pos h5] at h
    obtain ⟨x, -, rfl⟩ := Except_map_eq_ok _ _ _ h
    simp_all
  rw [if_neg h5] at h
  cases h
  simp

/-- The same for a `card`. -/
theorem card_setField_keeps (c : card) (key : String) (v : JSON) (next : card)
    (h : card.setField c key v = .ok next) :
    (json.selects key "number" = false → next.Number = c.Number) ∧
    (json.selects key "title" = false → next.Title = c.Title) ∧
    (json.selects key "status" = false → next.Status = c.Status) ∧
    (json.selects key "board" = false → next.Board = c.Board) ∧
    (json.selects key "last_active_at" = false → next.LastActiveAt = c.LastActiveAt) := by
  unfold card.setField at h
  by_cases h0 : json.selects key "id" = true
  · rw [if_pos h0] at h
    obtain ⟨x, -, rfl⟩ := Except_map_eq_ok _ _ _ h
    simp_all
  rw [if_neg h0] at h
  by_cases h1 : json.selects key "number" = true
  · rw [if_pos h1] at h
    obtain ⟨x, -, rfl⟩ := Except_map_eq_ok _ _ _ h
    simp_all
  rw [if_neg h1] at h
  by_cases h2 : json.selects key "title" = true
  · rw [if_pos h2] at h
    obtain ⟨x, -, rfl⟩ := Except_map_eq_ok _ _ _ h
    simp_all
  rw [if_neg h2] at h
  by_cases h3 : json.selects key "status" = true
  · rw [if_pos h3] at h
    obtain ⟨x, -, rfl⟩ := Except_map_eq_ok _ _ _ h
    simp_all
  rw [if_neg h3] at h
  by_cases h4 : json.selects key "description" = true
  · rw [if_pos h4] at h
    obtain ⟨x, -, rfl⟩ := Except_map_eq_ok _ _ _ h
    simp_all
  rw [if_neg h4] at h
  by_cases h5 : json.selects key "tags" = true
  · rw [if_pos h5] at h
    obtain ⟨x, -, rfl⟩ := Except_map_eq_ok _ _ _ h
    simp_all
  rw [if_neg h5] at h
  by_cases h6 : json.selects key "golden" = true
  · rw [if_pos h6] at h
    obtain ⟨x, -, rfl⟩ := Except_map_eq_ok _ _ _ h
    simp_all
  rw [if_neg h6] at h
  by_cases h7 : json.selects key "last_active_at" = true
  · rw [if_pos h7] at h
    obtain ⟨x, -, rfl⟩ := Except_map_eq_ok _ _ _ h
    simp_all
  rw [if_neg h7] at h
  by_cases h8 : json.selects key "created_at" = true
  · rw [if_pos h8] at h
    obtain ⟨x, -, rfl⟩ := Except_map_eq_ok _ _ _ h
    simp_all
  rw [if_neg h8] at h
  by_cases h9 : json.selects key "board" = true
  · rw [if_pos h9] at h
    obtain ⟨x, -, rfl⟩ := Except_map_eq_ok _ _ _ h
    simp_all
  rw [if_neg h9] at h
  by_cases h10 : json.selects key "creator" = true
  · rw [if_pos h10] at h
    obtain ⟨x, -, rfl⟩ := Except_map_eq_ok _ _ _ h
    simp_all
  rw [if_neg h10] at h
  by_cases h11 : json.selects key "steps" = true
  · rw [if_pos h11] at h
    obtain ⟨x, -, rfl⟩ := Except_map_eq_ok _ _ _ h
    simp_all
  rw [if_neg h11] at h
  cases h
  simp

/-- The same for a `comment`. -/
theorem comment_setField_keeps (c : comment) (key : String) (v : JSON) (next : comment)
    (h : comment.setField c key v = .ok next) :
    (json.selects key "id" = false → next.ID = c.ID) ∧
    (json.selects key "creator" = false → next.Creator = c.Creator) ∧
    (json.selects key "body" = false → next.Body = c.Body) ∧
    (json.selects key "created_at" = false → next.CreatedAt = c.CreatedAt) := by
  unfold comment.setField at h
  by_cases h0 : json.selects key "id" = true
  · rw [if_pos h0] at h
    obtain ⟨x, -, rfl⟩ := Except_map_eq_ok _ _ _ h
    simp_all
  rw [if_neg h0] at h
  by_cases h1 : json.selects key "created_at" = true
  · rw [if_pos h1] at h
    obtain ⟨x, -, rfl⟩ := Except_map_eq_ok _ _ _ h
    simp_all
  rw [if_neg h1] at h
  by_cases h2 : json.selects key "body" = true
  · rw [if_pos h2] at h
    obtain ⟨x, -, rfl⟩ := Except_map_eq_ok _ _ _ h
    simp_all
  rw [if_neg h2] at h
  by_cases h3 : json.selects key "creator" = true
  · rw [if_pos h3] at h
    obtain ⟨x, -, rfl⟩ := Except_map_eq_ok _ _ _ h
    simp_all
  rw [if_neg h3] at h
  cases h
  simp

/-- The same for a `tag`. -/
theorem tag_setField_keeps (t : tag) (key : String) (v : JSON) (next : tag)
    (h : tag.setField t key v = .ok next) :
    (json.selects key "id" = false → next.ID = t.ID) ∧
    (json.selects key "title" = false → next.Title = t.Title) := by
  unfold tag.setField at h
  by_cases h0 : json.selects key "id" = true
  · rw [if_pos h0] at h
    obtain ⟨x, -, rfl⟩ := Except_map_eq_ok _ _ _ h
    simp_all
  rw [if_neg h0] at h
  by_cases h1 : json.selects key "title" = true
  · rw [if_pos h1] at h
    obtain ⟨x, -, rfl⟩ := Except_map_eq_ok _ _ _ h
    simp_all
  rw [if_neg h1] at h
  cases h
  simp

/-- The same for a `column`. -/
theorem column_setField_keeps (c : column) (key : String) (v : JSON) (next : column)
    (h : column.setField c key v = .ok next) :
    (json.selects key "id" = false → next.ID = c.ID) ∧
    (json.selects key "name" = false → next.Name = c.Name) ∧
    (json.selects key "color" = false → next.Color = c.Color) := by
  unfold column.setField at h
  by_cases h0 : json.selects key "id" = true
  · rw [if_pos h0] at h
    obtain ⟨x, -, rfl⟩ := Except_map_eq_ok _ _ _ h
    simp_all
  rw [if_neg h0] at h
  by_cases h1 : json.selects key "name" = true
  · rw [if_pos h1] at h
    obtain ⟨x, -, rfl⟩ := Except_map_eq_ok _ _ _ h
    simp_all
  rw [if_neg h1] at h
  by_cases h2 : json.selects key "color" = true
  · rw [if_pos h2] at h
    obtain ⟨x, -, rfl⟩ := Except_map_eq_ok _ _ _ h
    simp_all
  rw [if_neg h2] at h
  by_cases h3 : json.selects key "created_at" = true
  · rw [if_pos h3] at h
    obtain ⟨x, -, rfl⟩ := Except_map_eq_ok _ _ _ h
    simp_all
  rw [if_neg h3] at h
  cases h
  simp

/-- The same for a `user`. -/
theorem user_setField_keeps (u : user) (key : String) (v : JSON) (next : user)
    (h : user.setField u key v = .ok next) :
    (json.selects key "id" = false → next.ID = u.ID) ∧
    (json.selects key "name" = false → next.Name = u.Name) ∧
    (json.selects key "role" = false → next.Role = u.Role) ∧
    (json.selects key "email_address" = false → next.Email = u.Email) := by
  unfold user.setField at h
  by_cases h0 : json.selects key "id" = true
  · rw [if_pos h0] at h
    obtain ⟨x, -, rfl⟩ := Except_map_eq_ok _ _ _ h
    simp_all
  rw [if_neg h0] at h
  by_cases h1 : json.selects key "name" = true
  · rw [if_pos h1] at h
    obtain ⟨x, -, rfl⟩ := Except_map_eq_ok _ _ _ h
    simp_all
  rw [if_neg h1] at h
  by_cases h2 : json.selects key "role" = true
  · rw [if_pos h2] at h
    obtain ⟨x, -, rfl⟩ := Except_map_eq_ok _ _ _ h
    simp_all
  rw [if_neg h2] at h
  by_cases h3 : json.selects key "email_address" = true
  · rw [if_pos h3] at h
    obtain ⟨x, -, rfl⟩ := Except_map_eq_ok _ _ _ h
    simp_all
  rw [if_neg h3] at h
  cases h
  simp

/-- The same for a `notification`. -/
theorem notification_setField_keeps (n : notification) (key : String) (v : JSON)
    (next : notification) (h : notification.setField n key v = .ok next) :
    (json.selects key "id" = false → next.ID = n.ID) ∧
    (json.selects key "read" = false → next.Read = n.Read) ∧
    (json.selects key "title" = false → next.Title = n.Title) ∧
    (json.selects key "card" = false → next.Card = n.Card) ∧
    (json.selects key "created_at" = false → next.CreatedAt = n.CreatedAt) := by
  unfold notification.setField at h
  by_cases h0 : json.selects key "id" = true
  · rw [if_pos h0] at h
    obtain ⟨x, -, rfl⟩ := Except_map_eq_ok _ _ _ h
    simp_all
  rw [if_neg h0] at h
  by_cases h1 : json.selects key "read" = true
  · rw [if_pos h1] at h
    obtain ⟨x, -, rfl⟩ := Except_map_eq_ok _ _ _ h
    simp_all
  rw [if_neg h1] at h
  by_cases h2 : json.selects key "created_at" = true
  · rw [if_pos h2] at h
    obtain ⟨x, -, rfl⟩ := Except_map_eq_ok _ _ _ h
    simp_all
  rw [if_neg h2] at h
  by_cases h3 : json.selects key "title" = true
  · rw [if_pos h3] at h
    obtain ⟨x, -, rfl⟩ := Except_map_eq_ok _ _ _ h
    simp_all
  rw [if_neg h3] at h
  by_cases h4 : json.selects key "body" = true
  · rw [if_pos h4] at h
    obtain ⟨x, -, rfl⟩ := Except_map_eq_ok _ _ _ h
    simp_all
  rw [if_neg h4] at h
  by_cases h5 : json.selects key "card" = true
  · rw [if_pos h5] at h
    obtain ⟨x, -, rfl⟩ := Except_map_eq_ok _ _ _ h
    simp_all
  rw [if_neg h5] at h
  cases h
  simp

/-- The same for an account of an `identity`. -/
theorem account_setField_keeps (a : account) (key : String) (v : JSON) (next : account)
    (h : account.setField a key v = .ok next) :
    (json.selects key "slug" = false → next.Slug = a.Slug) ∧
    (json.selects key "name" = false → next.Name = a.Name) ∧
    (json.selects key "user" = false → next.User = a.User) := by
  unfold account.setField at h
  by_cases h0 : json.selects key "name" = true
  · rw [if_pos h0] at h
    obtain ⟨x, -, rfl⟩ := Except_map_eq_ok _ _ _ h
    simp_all
  rw [if_neg h0] at h
  by_cases h1 : json.selects key "slug" = true
  · rw [if_pos h1] at h
    obtain ⟨x, -, rfl⟩ := Except_map_eq_ok _ _ _ h
    simp_all
  rw [if_neg h1] at h
  by_cases h2 : json.selects key "user" = true
  · rw [if_pos h2] at h
    obtain ⟨x, -, rfl⟩ := Except_map_eq_ok _ _ _ h
    simp_all
  rw [if_neg h2] at h
  cases h
  simp

/-- Members that are all accepted are stored without error. -/
theorem decodeMembers_ok_of_accepted {α : Type}
    (setField : α → String → JSON → Except GoError α) (ms : List (String × JSON))
    (hms : ∀ kv ∈ ms, ∀ cur, ∃ next, setField cur kv.1 kv.2 = .ok next) :
    ∀ cur, ∃ r, json.decodeMembers setField cur ms = .ok r := by
  induction ms with
  | nil => exact fun cur => ⟨cur, rfl⟩
  | cons m rest ih =>
    intro cur
    obtain ⟨key, v⟩ := m
    obtain ⟨next, hn⟩ := hms (key, v) (List.mem_cons_self _ _) cur
    rw [json.decodeMembers]
    simp only at hn
    rw [hn]
    exact ih (fun kv h => hms kv (List.mem_cons_of_mem _ h)) next

/-- A projection that the members present do not touch keeps its value. -/
theorem decodeMembers_keeps {α β : Type} (setField : α → String → JSON → Except GoError α)
    (π : α → β) (name : String)
    (hkeep : ∀ cur key v next, setField cur key v = .ok next →
      json.selects key name = false → π next = π cur)
    (ms : List (String × JSON)) (habs : ∀ kv ∈ ms, json.selects kv.1 name = false) :
    ∀ cur r, json.decodeMembers setField cur ms = .ok r → π r = π cur := by
  induction ms with
  | nil =>
    intro cur r h
    simp only [json.decodeMembers, Except.ok.injEq] at h
    rw [h]
  | cons m rest ih =>
    intro cur r h
    obtain ⟨key, v⟩ := m
    rw [json.decodeMembers] at h
    cases hs : setField cur key v with
    | error e => rw [hs] at h; cases h
    | ok next =>
      rw [hs] at h
      simp only at h
      rw [ih (fun kv hkv => habs kv (List.mem_cons_of_mem _ hkv)) next r h]
      exact hkeep cur key v next hs (habs (key, v) (List.mem_cons_self _ _))

/-- Objects that each decode, with a property of the row of each, give the
element-wise decoding of the array and the property row by row. -/
theorem forall₂_of_decode {α : Type} (decodeElem : α → JSON → Except GoError α) (zero : α)
    (proj : α → List String) (P : List (String × JSON) → List String → Prop)
    (objs : List (List (String × JSON)))
    (h : ∀ ms ∈ objs, ∃ r, decodeElem zero (.object ms) = .ok r ∧ P ms (proj r)) :
    ∃ xs, List.Forall₂ (fun e x => decodeElem zero e = .ok x) (objs.map JSON.object) xs ∧
      List.Forall₂ P objs (xs.map proj) := by
  induction objs with
  | nil => exact ⟨[], List.Forall₂.nil, List.Forall₂.nil⟩
  | cons ms rest ih =>
    obtain ⟨r, hr, hp⟩ := h ms (List.mem_cons_self _ _)
    obtain ⟨xs, h1, h2⟩ := ih (fun m hm => h m (List.mem_cons_of_mem _ hm))
    exact ⟨r :: xs, List.Forall₂.cons hr h1, List.Forall₂.cons hp h2⟩

/-- The slice a list mapper decodes from an array whose elements decode. -/
theorem Unmarshal_slice_of_forall₂ {α : Type} (env : Env) (body : String) (elems : List JSON)
    (hbody : env.jsonParse body = .ok (.array elems))
    (decodeElem : α → JSON → Except GoError α) (zero : α) (goType : String) (xs : List α)
    (h : List.Forall₂ (fun e x => decodeElem zero e = .ok x) elems xs) :
    json.Unmarshal env body (json.decodeSlice decodeElem zero goType []) = .ok xs := by
  simp only [json.Unmarshal, hbody, json.decodeSlice]
  exact (decodeElems_nil_iff decodeElem zero elems xs).mpr h

/-- The text of the number zero. -/
theorem Sprintd_zero : fmt.Sprintd 0 = "0" := by decide

/-- A `board` object whose members are accepted decodes, and the columns of the
members it lacks show the text for a missing member. -/
theorem board_row_missing (ms : List (String × JSON))
    (hms : ∀ kv ∈ ms, ∀ cur, ∃ next, board.setField cur kv.1 kv.2 = .ok next) :
    ∃ r, board.decode board.zero (.object ms) = .ok r ∧
      MissingShowsZero boardFields ms
        [r.ID, r.Name, fmt.Sprintt r.AllAccess, r.CreatedAt] := by
  obtain ⟨r, hr⟩ := decodeMembers_ok_of_accepted board.setField ms hms board.zero
  refine ⟨r, hr, rfl, ?_⟩
  intro j key zero hj habs
  have keep := fun {β : Type} (π : board → β) (name : String) hk =>
    decodeMembers_keeps board.setField π name hk ms
  rcases j with _ | _ | _ | _ | j <;>
    simp only [boardFields, List.get?, Option.some.injEq, Prod.mk.injEq] at hj
  · obtain ⟨rfl, rfl⟩ := hj
    have := keep board.ID "id"
      (fun c k v n h => (board_setField_keeps c k v n h).1) habs _ _ hr
    simp [this, board.zero]
  · obtain ⟨rfl, rfl⟩ := hj
    have := keep board.Name "name"
      (fun c k v n h => (board_setField_keeps c k v n h).2.1) habs _ _ hr
    simp [this, board.zero]
  · obtain ⟨rfl, rfl⟩ := hj
    have := keep board.AllAccess "all_access"
      (fun c k v n h => (board_setField_keeps c k v n h).2.2.1) habs _ _ hr
    simp [this, board.zero, fmt.Sprintt]
  · obtain ⟨rfl, rfl⟩ := hj
    have := keep board.CreatedAt "created_at"
      (fun c k v n h => (board_setField_keeps c k v n h).2.2.2) habs _ _ hr
    simp [this, board.zero]
  · cases hj

/-- A `card` object whose members are accepted decodes, and the columns of the
members it lacks show the text for a missing member. -/
theorem card_row_missing (ms : List (String × JSON))
    (hms : ∀ kv ∈ ms, ∀ cur, ∃ next, card.setField cur kv.1 kv.2 = .ok next) :
    ∃ r, card.decode card.zero (.object ms) = .ok r ∧
      MissingShowsZero cardFields ms
        [fmt.Sprintd r.Number, r.Title, r.Status, r.Board.Name, r.LastActiveAt] := by
  obtain ⟨r, hr⟩ := decodeMembers_ok_of_accepted card.setField ms hms card.zero
  refine ⟨r, hr, rfl, ?_⟩
  intro j key zero hj habs
  have keep := fun {β : Type} (π : card → β) (name : String) hk =>
    decodeMembers_keeps card.setField π name hk ms
  rcases j with _ | _ | _ | _ | _ | j <;>
    simp only [cardFields, List.get?, Option.some.injEq, Prod.mk.injEq] at hj
  · obtain ⟨rfl, rfl⟩ := hj
    have := keep card.Number "number"
      (fun c k v n h => (card_setField_keeps c k v n h).1) habs _ _ hr
    simp [this, card.zero, Sprintd_zero]
  · obtain ⟨rfl, rfl⟩ := hj
    have := keep card.Title "title"
      (fun c k v n h => (card_setField_keeps c k v n h).2.1) habs _ _ hr
    simp [this, card.zero]
  · obtain ⟨rfl, rfl⟩ := hj
    have := keep card.Status "status"
      (fun c k v n h => (card_setField_keeps c k v n h).2.2.1) habs _ _ hr
    simp [this, card.zero]
  · obtain ⟨rfl, rfl⟩ := hj
    have := keep card.Board "board"
      (fun c k v n h => (card_setField_keeps c k v n h).2.2.2.1) habs _ _ hr
    simp [this, card.zero, board.zero, user.zero]
  · obtain ⟨rfl, rfl⟩ := hj
    have := keep card.LastActiveAt "last_active_at"
      (fun c k v n h => (card_setField_keeps c k v n h).2.2.2.2) habs _ _ hr
    simp [this, card.zero]
  · cases hj

/-- A `comment` object whose members are accepted decodes, and the columns of the
members it lacks show the text for a missing member. -/
theorem comment_row_missing (ms : List (String × JSON))
    (hms : ∀ kv ∈ ms, ∀ cur, ∃ next, comment.setField cur kv.1 kv.2 = .ok next) :
    ∃ r, comment.decode comment.zero (.object ms) = .ok r ∧
      MissingShowsZero commentFields ms
        [r.ID, r.Creator.Name, r.Body.Plain, r.CreatedAt] := by
  obtain ⟨r, hr⟩ := decodeMembers_ok_of_accepted comment.setField ms hms comment.zero
  refine ⟨r, hr, rfl, ?_⟩
  intro j key zero hj habs
  have keep := fun {β : Type} (π : comment → β) (name : String) hk =>
    decodeMembers_keeps comment.setField π name hk ms
  rcases j with _ | _ | _ | _ | j <;>
    simp only [commentFields, List.get?, Option.some.injEq, Prod.mk.injEq] at hj
  · obtain ⟨rfl, rfl⟩ := hj
    have := keep comment.ID "id"
      (fun c k v n h => (comment_setField_keeps c k v n h).1) habs _ _ hr
    simp [this, comment.zero]
  · obtain ⟨rfl, rfl⟩ := hj
    have := keep comment.Creator "creator"
      (fun c k v n h => (comment_setField_keeps c k v n h).2.1) habs _ _ hr
    simp [this, comment.zero, user.zero]
  · obtain ⟨rfl, rfl⟩ := hj
    have := keep comment.Body "body"
      (fun c k v n h => (comment_setField_keeps c k v n h).2.2.1) habs _ _ hr
    simp [this, comment.zero, commentBody.zero]
  · obtain ⟨rfl, rfl⟩ := hj
    have := keep comment.CreatedAt "created_at"
      (fun c k v n h => (comment_setField_keeps c k v n h).2.2.2) habs _ _ hr
    simp [this, comment.zero]
  · cases hj

/-- A `tag` object whose members are accepted decodes, and the columns of the
members it lacks show the text for a missing member. -/
theorem tag_row_missing (ms : List (String × JSON))
    (hms : ∀ kv ∈ ms, ∀ cur, ∃ next, tag.setField cur kv.1 kv.2 = .ok next) :
    ∃ r, tag.decode tag.zero (.object ms) = .ok r ∧
      MissingShowsZero tagFields ms
        [r.ID, r.Title] := by
  obtain ⟨r, hr⟩ := decodeMembers_ok_of_accepted tag.setField ms hms tag.zero
  refine ⟨r, hr, rfl, ?_⟩
  intro j key zero hj habs
  have keep := fun {β : Type} (π : tag → β) (name : String) hk =>
    decodeMembers_keeps tag.setField π name hk ms
  rcases j with _ | _ | j <;>
    simp only [tagFields, List.get?, Option.some.injEq, Prod.mk.injEq] at hj
  · obtain ⟨rfl, rfl⟩ := hj
    have := keep tag.ID "id"
      (fun c k v n h => (tag_setField_keeps c k v n h).1) habs _ _ hr
    simp [this, tag.zero]
  · obtain ⟨rfl, rfl⟩ := hj
    have := keep tag.Title "title"
      (fun c k v n h => (tag_setField_keeps c k v n h).2) habs _ _ hr
    simp [this, tag.zero]
  · cases hj

/-- A `column` object whose members are accepted decodes, and the columns of the
members it lacks show the text for a missing member. -/
theorem column_row_missing (ms : List (String × JSON))
    (hms : ∀ kv ∈ ms, ∀ cur, ∃ next, column.setField cur kv.1 kv.2 = .ok next) :
    ∃ r, column.decode column.zero (.object ms) = .ok r ∧
      MissingShowsZero columnFields ms
        [r.ID, r.Name, r.Color] := by
  obtain ⟨r, hr⟩ := decodeMembers_ok_of_accepted column.setField ms hms column.zero
  refine ⟨r, hr, rfl, ?_⟩
  intro j key zero hj habs
  have keep := fun {β : Type} (π : column → β) (name : String) hk =>
    decodeMembers_keeps column.setField π name hk ms
  rcases j with _ | _ | _ | j <;>
    simp only [columnFields, List.get?, Option.some.injEq, Prod.mk.injEq] at hj
  · obtain ⟨rfl, rfl⟩ := hj
    have := keep column.ID "id"
      (fun c k v n h => (column_setField_keeps c k v n h).1) habs _ _ hr
    simp [this, column.zero]
  · obtain ⟨rfl, rfl⟩ := hj
    have := keep column.Name "name"
      (fun c k v n h => (column_setField_keeps c k v n h).2.1) habs _ _ hr
    simp [this, column.zero]
  · obtain ⟨rfl, rfl⟩ := hj
    have := keep column.Color "color"
      (fun c k v n h => (column_setField_keeps c k v n h).2.2) habs _ _ hr
    simp [this, column.zero]
  · cases hj

/-- An `user` object whose members are accepted decodes, and the columns of the
members it lacks show the text for a missing member. -/
theorem user_row_missing (ms : List (String × JSON))
    (hms : ∀ kv ∈ ms, ∀ cur, ∃ next, user.setField cur kv.1 kv.2 = .ok next) :
    ∃ r, user.decode user.zero (.object ms) = .ok r ∧
      MissingShowsZero userFields ms
        [r.ID, r.Name, r.Role, r.Email] := by
  obtain ⟨r, hr⟩ := decodeMembers_ok_of_accepted user.setField ms hms user.zero
  refine ⟨r, hr, rfl, ?_⟩
  intro j key zero hj habs
  have keep := fun {β : Type} (π : user → β) (name : String) hk =>
    decodeMembers_keeps user.setField π name hk ms
  rcases j with _ | _ | _ | _ | j <;>
    simp only [userFields, List.get?, Option.some.injEq, Prod.mk.injEq] at hj
  · obtain ⟨rfl, rfl⟩ := hj
    have := keep user.ID "id"
      (fun c k v n h => (user_setField_keeps c k v n h).1) habs _ _ hr
    simp [this, user.zero]
  · obtain ⟨rfl, rfl⟩ := hj
    have := keep user.Name "name"
      (fun c k v n h => (user_setField_keeps c k v n h).2.1) habs _ _ hr
    simp [this, user.zero]
  · obtain ⟨rfl, rfl⟩ := hj
    have := keep user.Role "role"
      (fun c k v n h => (user_setField_keeps c k v n h).2.2.1) habs _ _ hr
    simp [this, user.zero]
  · obtain ⟨rfl, rfl⟩ := hj
    have := keep user.Email "email_address"
      (fun c k v n h => (user_setField_keeps c k v n h).2.2.2) habs _ _ hr
    simp [this, user.zero]
  · cases hj

/-- A `notification` object whose members are accepted decodes, and the columns of the
members it lacks show the text for a missing member. -/
theorem notification_row_missing (ms : List (String × JSON))
    (hms : ∀ kv ∈ ms, ∀ cur, ∃ next, notification.setField cur kv.1 kv.2 = .ok next) :
    ∃ r, notification.decode notification.zero (.object ms) = .ok r ∧
      MissingShowsZero notificationFields ms
        [r.ID, if r.Read then "yes" else "no", r.Title, r.Card.Title, r.CreatedAt] := by
  obtain ⟨r, hr⟩ := decodeMembers_ok_of_accepted notification.setField ms hms notification.zero
  refine ⟨r, hr, rfl, ?_⟩
  intro j key zero hj habs
  have keep := fun {β : Type} (π : notification → β) (name : String) hk =>
    decodeMembers_keeps notification.setField π name hk ms
  rcases j with _ | _ | _ | _ | _ | j <;>
    simp only [notificationFields, List.get?, Option.some.injEq, Prod.mk.injEq] at hj
  · obtain ⟨rfl, rfl⟩ := hj
    have := keep notification.ID "id"
      (fun c k v n h => (notification_setField_keeps c k v n h).1) habs _ _ hr
    simp [this, notification.zero]
  · obtain ⟨rfl, rfl⟩ := hj
    have := keep notification.Read "read"
      (fun c k v n h => (notification_setField_keeps c k v n h).2.1) habs _ _ hr
    simp [this, notification.zero]
  · obtain ⟨rfl, rfl⟩ := hj
    have := keep notification.Title "title"
      (fun c k v n h => (notification_setField_keeps c k v n h).2.2.1) habs _ _ hr
    simp [this, notification.zero]
  · obtain ⟨rfl, rfl⟩ := hj
    have := keep notification.Card "card"
      (fun c k v n h => (notification_setField_keeps c k v n h).2.2.2.1) habs _ _ hr
    simp [this, notification.zero, notificationCard.zero]
  · obtain ⟨rfl, rfl⟩ := hj
    have := keep notification.CreatedAt "created_at"
      (fun c k v n h => (notification_setField_keeps c k v n h).2.2.2.2) habs _ _ hr
    simp [this, notification.zero]
  · cases hj

/-- An `account` object whose members are accepted decodes, and the columns of the
members it lacks show the text for a missing member. -/
theorem account_row_missing (ms : List (String × JSON))
    (hms : ∀ kv ∈ ms, ∀ cur, ∃ next, account.setField cur kv.1 kv.2 = .ok next) :
    ∃ r, account.decode account.zero (.object ms) = .ok r ∧
      MissingShowsZero accountFields ms
        [strings.TrimPrefix r.Slug "/", r.Name, r.User.Name] := by
  obtain ⟨r, hr⟩ := decodeMembers_ok_of_accepted account.setField ms hms account.zero
  refine ⟨r, hr, rfl, ?_⟩
  intro j key zero hj habs
  have keep := fun {β : Type} (π : account → β) (name : String) hk =>
    decodeMembers_keeps account.setField π name hk ms
  rcases j with _ | _ | _ | j <;>
    simp only [accountFields, List.get?, Option.some.injEq, Prod.mk.injEq] at hj
  · obtain ⟨rfl, rfl⟩ := hj
    have := keep account.Slug "slug"
      (fun c k v n h => (account_setField_keeps c k v n h).1) habs _ _ hr
    simp [this, account.zero, TrimPrefix_slash, stripLeadingSlash]
  · obtain ⟨rfl, rfl⟩ := hj
    have := keep account.Name "name"
      (fun c k v n h => (account_setField_keeps c k v n h).2.1) habs _ _ hr
    simp [this, account.zero]
  · obtain ⟨rfl, rfl⟩ := hj
    have := keep account.User "user"
      (fun c k v n h => (account_setField_keeps c k v n h).2.2) habs _ _ hr
    simp [this, account.zero, user.zero]
  · cases hj

/-- `identityToRows` on an identity object whose member `accounts` is an array of
elements that decode. -/
theorem identityToRows_of_forall₂ (env : Env) (ibody : String) (pre post : List (String × JSON))
    (key : String) (elems : List JSON) (xs : List account)
    (hib : env.jsonParse ibody = .ok (.object (pre ++ (key, .array elems) :: post)))
    (hkey : json.selects key "accounts" = true)
    (hrest : ∀ kv ∈ pre ++ post, json.selects kv.1 "accounts" = false)
    (hxs : List.Forall₂ (fun e x => account.decode account.zero e = .ok x) elems xs) :
    identityToRows env ibody =
      .ok (xs.map (fun acct => [strings.TrimPrefix acct.Slug "/", acct.Name, acct.User.Name])) := by
  have hpre := identity_decodeMembers_skip pre
    (fun kv h => hrest kv (List.mem_append_left _ h)) identity.zero
  have hd := (decodeElems_nil_iff account.decode account.zero elems xs).mpr hxs
  unfold identityToRows
  simp only [json.Unmarshal, hib, identity.decode, json.decodeStruct]
  rw [decodeMembers_append identity.setField pre _ identity.zero identity.zero hpre,
    json.decodeMembers]
  simp only [identity.setField, hkey, if_true]
  rw [show identity.zero.Accounts = [] from rfl,
    show identity.zero.AccountsSpare = [] from rfl, decodeSliceField_fresh, hd]
  simp only [Except.map]
  rw [identity_decodeMembers_skip post (fun kv h => hrest kv (List.mem_append_right _ h))]

/-- C13: a list body whose elements are JSON objects in which every member
present is accepted by the record (has a value of the type of the field it
names, or names no field) is decoded without error by the corresponding row
mapper, which returns one row per element, and in each row every column whose
member the element lacks shows the empty string, `0` for the card number,
`false` for the board flag and `no` for the notification flag: a card without
board, a comment without creator or body, a notification without card and an
account without user give an empty column. -/
theorem rowMappers_tolerate_missing_fields (env : Env) (body : String)
    (objs : List (List (String × JSON)))
    (hbody : env.jsonParse body = .ok (.array (objs.map JSON.object))) :
    ((∀ ms ∈ objs, ∀ kv ∈ ms, ∀ cur, ∃ next, board.setField cur kv.1 kv.2 = .ok next) →
      ∃ rows, boardListRows env body = .ok rows ∧
        List.Forall₂ (MissingShowsZero boardFields) objs rows) ∧
    ((∀ ms ∈ objs, ∀ kv ∈ ms, ∀ cur, ∃ next, card.setField cur kv.1 kv.2 = .ok next) →
      ∃ rows, cardListRows env body = .ok rows ∧
        List.Forall₂ (MissingShowsZero cardFields) objs rows) ∧
    ((∀ ms ∈ objs, ∀ kv ∈ ms, ∀ cur, ∃ next, comment.setField cur kv.1 kv.2 = .ok next) →
      ∃ rows, commentListRows env body = .ok rows ∧
        List.Forall₂ (MissingShowsZero commentFields) objs rows) ∧
    ((∀ ms ∈ objs, ∀ kv ∈ ms, ∀ cur, ∃ next, tag.setField cur kv.1 kv.2 = .ok next) →
      ∃ rows, tagListRows env body = .ok rows ∧
        List.Forall₂ (MissingShowsZero tagFields) objs rows) ∧
    ((∀ ms ∈ objs, ∀ kv ∈ ms, ∀ cur, ∃ next, column.setField cur kv.1 kv.2 = .ok next) →
      ∃ rows, columnListRows env body = .ok rows ∧
        List.Forall₂ (MissingShowsZero columnFields) objs rows) ∧
    ((∀ ms ∈ objs, ∀ kv ∈ ms, ∀ cur, ∃ next, user.setField cur kv.1 kv.2 = .ok next) →
      ∃ rows, userListRows env body = .ok rows ∧
        List.Forall₂ (MissingShowsZero userFields) objs rows) ∧
    ((∀ ms ∈ objs, ∀ kv ∈ ms, ∀ cur, ∃ next, notification.setField cur kv.1 kv.2 = .ok next) →
      ∃ rows, notificationListRows env body = .ok rows ∧
        List.Forall₂ (MissingShowsZero notificationFields) objs rows) ∧
    (∀ ibody pre key post,
      env.jsonParse ibody = .ok (.object (pre ++ (key, .array (objs.map JSON.object)) :: post)) →
      json.selects key "accounts" = true →
      (∀ kv ∈ pre ++ post, json.selects kv.1 "accounts" = false) →
      (∀ ms ∈ objs, ∀ kv ∈ ms, ∀ cur, ∃ next, account.setField cur kv.1 kv.2 = .ok next) →
      ∃ rows, identityToRows env ibody = .ok rows ∧
        List.Forall₂ (MissingShowsZero accountFields) objs rows) := by
  refine ⟨?_, ?_, ?_, ?_, ?_, ?_, ?_, ?_⟩
  · intro h
    obtain ⟨xs, h1, h2⟩ := forall₂_of_decode board.decode board.zero _ _ objs
      (fun ms hm => board_row_missing ms (h ms hm))
    refine ⟨_, ?_, h2⟩
    simp [boardListRows, Unmarshal_slice_of_forall₂ env body _ hbody _ _ "[]cli.board" xs h1]
  · intro h
    obtain ⟨xs, h1, h2⟩ := forall₂_of_decode card.decode card.zero _ _ objs
      (fun ms hm => card_row_missing ms (h ms hm))
    refine ⟨_, ?_, h2⟩
    simp [cardListRows, Unmarshal_slice_of_forall₂ env body _ hbody _ _ "[]cli.card" xs h1]
  · intro h
    obtain ⟨xs, h1, h2⟩ := forall₂_of_decode comment.decode comment.zero _ _ objs
      (fun ms hm => comment_row_missing ms (h ms hm))
    refine ⟨_, ?_, h2⟩
    simp [commentListRows,
      Unmarshal_slice_of_forall₂ env body _ hbody _ _ "[]cli.comment" xs h1]
  · intro h
    obtain ⟨xs, h1, h2⟩ := forall₂_of_decode tag.decode tag.zero _ _ objs
      (fun ms hm => tag_row_missing ms (h ms hm))
    refine ⟨_, ?_, h2⟩
    simp [tagListRows, Unmarshal_slice_of_forall₂ env body _ hbody _ _ "[]cli.tag" xs h1]
  · intro h
    obtain ⟨xs, h1, h2⟩ := forall₂_of_decode column.decode column.zero _ _ objs
      (fun ms hm => column_row_missing ms (h ms hm))
    refine ⟨_, ?_, h2⟩
    simp [columnListRows, Unmarshal_slice_of_forall₂ env body _ hbody _ _ "[]cli.column" xs h1]
  · intro h
    obtain ⟨xs, h1, h2⟩ := forall₂_of_decode user.decode user.zero _ _ objs
      (fun ms hm => user_row_missing ms (h ms hm))
    refine ⟨_, ?_, h2⟩
    simp [userListRows, Unmarshal_slice_of_forall₂ env body _ hbody _ _ "[]cli.user" xs h1]
  · intro h
    obtain ⟨xs, h1, h2⟩ := forall₂_of_decode notification.decode notification.zero _ _ objs
      (fun ms hm => notification_row_missing ms (h ms hm))
    refine ⟨_, ?_, h2⟩
    simp [notificationListRows,
      Unmarshal_slice_of_forall₂ env body _ hbody _ _ "[]cli.notification" xs h1]
  · intro ibody pre key post hib hkey hrest h
    obtain ⟨xs, h1, h2⟩ := forall₂_of_decode account.decode account.zero _ _ objs
      (fun ms hm => account_row_missing ms (h ms hm))
    exact ⟨_, identityToRows_of_forall₂ env ibody pre post key _ xs hib hkey hrest h1, h2⟩

/-- C13, witness: a card with a number and a title only gives the row with empty
status, board and last-active columns. -/
theorem rowMappers_tolerate_missing_fields_witness :
    cardListRows (Env.demoJSON demoPartialCardDocs [])
      "[\x7b\"number\":7,\"title\":\"Fix bug\"\x7d]" = .ok [["7", "Fix bug", "", "", ""]] ∧
    ∃ rows, cardListRows (Env.demoJSON demoPartialCardDocs [])
        "[\x7b\"number\":7,\"title\":\"Fix bug\"\x7d]" = .ok rows ∧
      List.Forall₂ (MissingShowsZero cardFields)
        [[("number", .number "7"), ("title", .string "Fix bug")]] rows :=
  ⟨rfl, (rowMappers_tolerate_missing_fields (Env.demoJSON demoPartialCardDocs [])
    "[\x7b\"number\":7,\"title\":\"Fix bug\"\x7d]"
    [[("number", .number "7"), ("title", .string "Fix bug")]] rfl).2.1 (by
      intro ms hm kv hkv cur
      simp only [List.mem_singleton] at hm
      subst hm
      simp only [List.mem_cons, List.mem_singleton, List.not_mem_nil, or_false] at hkv
      rcases hkv with rfl | rfl
      · exact ⟨_, rfl⟩
      · exact ⟨_, rfl⟩)⟩

/-! ## Properties: the tab writer and printTable (C16, C17) -/

/-- The code points of `String.intercalate.go`. -/
theorem intercalate_go_data (s : String) (as : List String) :
    ∀ acc : String, (String.intercalate.go acc s as).data =
      acc.data ++ as.flatMap (fun a => s.data ++ a.data) := by
  induction as with
  | nil => intro acc; simp [String.intercalate.go]
  | cons a as ih =>
    intro acc
    rw [String.intercalate.go, ih]
    simp [List.flatMap_cons, List.append_assoc]

/-- The code points of a joined row: the cells with a tab before every cell but
the first. -/
theorem joinRow_data (c : String) (cs : List String) :
    (joinRow (c :: cs)).data = c.data ++ cs.flatMap (fun a => '\t' :: a.data) := by
  unfold joinRow
  rw [String.intercalate, intercalate_go_data]
  rfl

/-- Cutting a clean cell off the front of a line. -/
theorem splitCells_clean_append (a rest : List Char)
    (ha : ∀ x ∈ a, tabwriter.isCellEnd x = false) :
    tabwriter.splitCells (a ++ '\t' :: rest) = a :: tabwriter.splitCells rest := by
  induction a with
  | nil =>
    have : tabwriter.isCellEnd '\t' = true := by decide
    simp [tabwriter.splitCells, this]
  | cons x a ih =>
    have hx : tabwriter.isCellEnd x = false := ha x (List.mem_cons_self _ _)
    have h2 : tabwriter.splitCells (a.append ('\t' :: rest)) = a :: tabwriter.splitCells rest :=
      ih (fun y hy => ha y (List.mem_cons_of_mem _ hy))
    simp only [List.cons_append, tabwriter.splitCells, hx, Bool.false_eq_true, if_false]
    rw [h2]

/-- A clean cell is a line of one cell. -/
theorem splitCells_clean (a : List Char) (ha : ∀ x ∈ a, tabwriter.isCellEnd x = false) :
    tabwriter.splitCells a = [a] := by
  induction a with
  | nil => rfl
  | cons x a ih =>
    have hx : tabwriter.isCellEnd x = false := ha x (List.mem_cons_self _ _)
    have := ih (fun y hy => ha y (List.mem_cons_of_mem _ hy))
    simp only [tabwriter.splitCells, hx, Bool.false_eq_true, if_false, this]

/-- The cells the tab writer reads from a joined row of clean cells. -/
theorem splitCells_joined (c : List Char) (cs : List (List Char))
    (h : ∀ cell ∈ c :: cs, ∀ x ∈ cell, tabwriter.isCellEnd x = false) :
    tabwriter.splitCells (c ++ cs.flatMap (fun a => '\t' :: a)) = c :: cs := by
  induction cs generalizing c with
  | nil =>
    simp only [List.flatMap_nil, List.append_nil]
    exact splitCells_clean c (h c (List.mem_cons_self _ _))
  | cons d ds ih =>
    simp only [List.flatMap_cons, List.cons_append]
    rw [splitCells_clean_append c _ (h c (List.mem_cons_self _ _)),
      ih d (fun cell hc => h cell (List.mem_cons_of_mem _ hc))]

/-- Cutting a line without line ends off the front of the text. -/
theorem splitLines_append (a rest : List Char)
    (ha : ∀ x ∈ a, tabwriter.isLineEnd x = false) :
    tabwriter.splitLines (a ++ '\n' :: rest) = (a, some false) :: tabwriter.splitLines rest := by
  induction a with
  | nil =>
    have h1 : tabwriter.isLineEnd '\n' = true := by decide
    have h2 : ('\n' == Char.ofNat 12) = false := by decide
    simp [tabwriter.splitLines, h1, h2]
  | cons x a ih =>
    have hx : tabwriter.isLineEnd x = false := ha x (List.mem_cons_self _ _)
    have h2 : tabwriter.splitLines (a.append ('\n' :: rest)) =
        (a, some false) :: tabwriter.splitLines rest :=
      ih (fun y hy => ha y (List.mem_cons_of_mem _ hy))
    simp only [List.cons_append, tabwriter.splitLines, hx, Bool.false_eq_true, if_false]
    rw [h2]

/-- The pieces of a text made of lines without line ends, each ended by a
newline. -/
theorem splitLines_lines (segs : List (List Char))
    (h : ∀ seg ∈ segs, ∀ x ∈ seg, tabwriter.isLineEnd x = false) :
    tabwriter.splitLines (segs.flatMap (fun seg => seg ++ ['\n'])) =
      segs.map (fun seg => (seg, some false)) ++ [([], none)] := by
  induction segs with
  | nil => rfl
  | cons seg segs ih =>
    simp only [List.flatMap_cons, List.append_assoc, List.singleton_append, List.map_cons,
      List.cons_append]
    rw [splitLines_append seg _ (h seg (List.mem_cons_self _ _)), List.nil_append,
      ih (fun s hs => h s (List.mem_cons_of_mem _ hs))]

/-- Cells written with widths that leave room for the padding are shown in order,
each but the last followed by at least two spaces. -/
theorem writeCells_shows (cells : List (List Char)) :
    ∀ ws : List Nat,
      (∀ j, j + 1 < cells.length → (cells.getD j []).length + 2 ≤ ws.getD j 0) →
      ShowsCells (tabwriter.writeCells ws cells) cells := by
  induction cells with
  | nil => intro ws _; rfl
  | cons c rest ih =>
    intro ws h
    cases rest with
    | nil => rfl
    | cons c2 cs =>
      rw [tabwriter.writeCells, ShowsCells]
      refine ⟨ws.headD 0 - c.length, tabwriter.writeCells ws.tail (c2 :: cs), ?_, rfl, ?_⟩
      · have h0 := h 0 (by simp)
        have : ws.getD 0 0 = ws.headD 0 := by cases ws <;> rfl
        simp only [List.getD_cons_zero] at h0
        omega
      · apply ih
        intro j hj
        have hj' := h (j + 1) (by simp only [List.length_cons] at hj ⊢; omega)
        have : ws.getD (j + 1) 0 = ws.tail.getD j 0 := by cases ws <;> simp
        simpa [this] using hj'

/-- The widths in force for a line, column by column. -/
theorem lineWidths_getD (carry : List Nat) (ls : List tabwriter.Line) (n j : Nat) (hj : j < n) :
    (tabwriter.lineWidths carry ls n).getD j 0 =
      if j < carry.length then carry.getD j 0 else tabwriter.blockWidth j ls := by
  unfold tabwriter.lineWidths
  rw [List.getD_eq_getElem?_getD, List.getElem?_map, List.getElem?_range hj]
  rfl

/-- The number of widths in force for a line. -/
theorem lineWidths_length (carry : List Nat) (ls : List tabwriter.Line) (n : Nat) :
    (tabwriter.lineWidths carry ls n).length = n := by
  simp [tabwriter.lineWidths]

/-- The block of a column that starts at a line with a cell in that column. -/
theorem blockWidth_cons (j : Nat) (l : tabwriter.Line) (rest : List tabwriter.Line)
    (hj : j + 1 < l.cells.length) (hl : l.ending ≠ some true) :
    tabwriter.blockWidth j (l :: rest) =
      max ((l.cells.getD j []).length + 2) (tabwriter.blockWidth j rest) := by
  rw [tabwriter.blockWidth]
  simp [hj, hl, tabwriter.padding]

/-- The lines of a table of rows, all ended by a newline, are written one output
line per row, each showing the cells of its row. -/
theorem format_rows (rowsCells : List (List (List Char))) :
    ∀ carry : List Nat,
      (∀ j, j < carry.length →
        tabwriter.blockWidth j
          (rowsCells.map (fun cells => (⟨cells, some false⟩ : tabwriter.Line)) ++ [⟨[], none⟩]) ≤
          carry.getD j 0) →
      ∃ outs : List (List Char), List.Forall₂ ShowsCells outs rowsCells ∧
        tabwriter.format carry
          (rowsCells.map (fun cells => (⟨cells, some false⟩ : tabwriter.Line)) ++ [⟨[], none⟩]) =
          outs.flatMap (fun out => out ++ ['\n']) := by
  induction rowsCells with
  | nil =>
    intro carry _
    exact ⟨[], List.Forall₂.nil, by simp [tabwriter.format, tabwriter.writeCells]⟩
  | cons cells rest ih =>
    intro carry hinv
    simp only [List.map_cons, List.cons_append] at hinv ⊢
    rw [tabwriter.format]
    simp only
    set L := rest.map (fun cells => (⟨cells, some false⟩ : tabwriter.Line)) ++ [⟨[], none⟩]
      with hL
    set ws := tabwriter.lineWidths carry (⟨cells, some false⟩ :: L) (cells.length - 1) with hws
    have hwidth : ∀ j, j + 1 < cells.length →
        tabwriter.blockWidth j (⟨cells, some false⟩ :: L) ≤ ws.getD j 0 := by
      intro j hj
      rw [hws, lineWidths_getD _ _ _ _ (by omega)]
      split
      · rename_i hc
        exact hinv j hc
      · exact le_refl _
    obtain ⟨outs, hshow, hfmt⟩ := ih ws (by
      intro j hj
      rw [hws, lineWidths_length] at hj
      have hj' : j + 1 < cells.length := by omega
      have := hwidth j hj'
      rw [blockWidth_cons j ⟨cells, some false⟩ L hj' (by simp)] at this
      exact le_trans (le_max_right _ _) this)
    refine ⟨tabwriter.writeCells ws cells :: outs, List.Forall₂.cons ?_ hshow, ?_⟩
    · apply writeCells_shows
      intro j hj
      have := hwidth j hj
      rw [blockWidth_cons j ⟨cells, some false⟩ L hj (by simp)] at this
      exact le_trans (le_max_left _ _) this
    · simp [hfmt]

/-- The text `printTable` hands to the tab writer: one line per shown row. -/
theorem tableText_eq (headers : List String) (rows : List (List String)) (plain : Bool) :
    tableText headers rows plain =
      String.join ((shownRows headers rows plain).map (fun row => joinRow row ++ "\n")) := by
  unfold tableText shownRows
  split
  · simp only [List.singleton_append, List.map_cons, string_join_cons]
  · simp

/-- The code points of that text. -/
theorem tableText_data (headers : List String) (rows : List (List String)) (plain : Bool) :
    (tableText headers rows plain).data =
      ((shownRows headers rows plain).map (fun row => (joinRow row).data)).flatMap
        (fun seg => seg ++ ['\n']) := by
  rw [tableText_eq, String.join_eq]
  simp only [List.map_map, List.flatMap, List.flatten]
  induction shownRows headers rows plain with
  | nil => rfl
  | cons row rest ih =>
    simp only [List.map_cons, List.flatten, Function.comp] at ih ⊢
    rw [ih]
    simp [String.data_append]

/-- What a clean cell is, code point by code point. -/
theorem cleanCell_iff (s : String) :
    CleanCell s = true ↔
      ∀ c ∈ s.data, tabwriter.isCellEnd c = false ∧ tabwriter.isLineEnd c = false := by
  simp [CleanCell, List.all_eq_true]

/-- The cells the tab writer reads from the line of a row of clean cells are the
cells of the row; the line of the empty row is read as one empty cell. -/
theorem splitCells_joinRow (row : List String) (h : ∀ cell ∈ row, CleanCell cell = true) :
    tabwriter.splitCells (joinRow row).data = if row = [] then [[]] else row.map String.data := by
  cases row with
  | nil => rfl
  | cons c cs =>
    simp only [reduceCtorEq, if_false, List.map_cons]
    rw [joinRow_data]
    have : cs.flatMap (fun a => '\t' :: a.data) =
        (cs.map String.data).flatMap (fun a => '\t' :: a) := by
      simp [List.flatMap, List.map_map, Function.comp_def]
    rw [this]
    apply splitCells_joined
    intro cell hcell x hx
    have hmem : cell ∈ (c :: cs).map String.data := by simpa using hcell
    obtain ⟨s, hs, rfl⟩ := List.mem_map.mp hmem
    exact ((cleanCell_iff s).mp (h s hs) x hx).1

/-- The line of a row of clean cells holds no line end. -/
theorem joinRow_no_lineEnd (row : List String) (h : ∀ cell ∈ row, CleanCell cell = true) :
    ∀ x ∈ (joinRow row).data, tabwriter.isLineEnd x = false := by
  cases row with
  | nil => intro x hx; cases hx
  | cons c cs =>
    rw [joinRow_data]
    intro x hx
    simp only [List.mem_append, List.mem_flatMap, List.mem_cons] at hx
    rcases hx with hx | ⟨a, ha, rfl | hx⟩
    · exact ((cleanCell_iff c).mp (h c (List.mem_cons_self _ _)) x hx).2
    · decide
    · exact ((cleanCell_iff a).mp (h a (List.mem_cons_of_mem _ ha)) x hx).2

/-- A line that shows the one empty cell shows no cell. -/
theorem showsCells_of_split (out : List Char) (row : List String)
    (h : ShowsCells out (if row = [] then [[]] else row.map String.data)) :
    ShowsCells out (row.map String.data) := by
  cases row with
  | nil => exact h
  | cons c cs => simpa using h

/-- A line that shows clean cells holds no line end. -/
theorem showsCells_no_lineEnd (cells : List (List Char)) :
    ∀ out, ShowsCells out cells →
      (∀ cell ∈ cells, ∀ x ∈ cell, tabwriter.isLineEnd x = false) →
      ∀ x ∈ out, tabwriter.isLineEnd x = false := by
  induction cells with
  | nil => intro out h _ x hx; rw [show out = [] from h] at hx; cases hx
  | cons c rest ih =>
    intro out h hclean x hx
    cases rest with
    | nil =>
      rw [show out = c from h] at hx
      exact hclean c (List.mem_cons_self _ _) x hx
    | cons c2 cs =>
      obtain ⟨n, tl, -, rfl, htl⟩ := h
      simp only [List.mem_append, List.mem_replicate] at hx
      rcases hx with (hx | ⟨-, rfl⟩) | hx
      · exact hclean c (List.mem_cons_self _ _) x hx
      · decide
      · exact ih tl htl (fun cell hc => hclean cell (List.mem_cons_of_mem _ hc)) x hx

/-- A relation between two lists, element by element, carried over to another
one that it implies on the elements of the second list. -/
theorem forall₂_imp_mem {α β : Type} {R S : α → β → Prop} {l1 : List α} {l2 : List β}
    (h : List.Forall₂ R l1 l2) (himp : ∀ a b, b ∈ l2 → R a b → S a b) :
    List.Forall₂ S l1 l2 := by
  induction h with
  | nil => exact List.Forall₂.nil
  | cons hab _ ih =>
    exact List.Forall₂.cons (himp _ _ (List.mem_cons_self _ _) hab)
      (ih (fun a b hb => himp a b (List.mem_cons_of_mem _ hb)))

/-- A property of the elements of the first list that the relation implies. -/
theorem forall₂_forall_left {α β : Type} {R : α → β → Prop} {P : α → Prop} {l1 : List α}
    {l2 : List β} (h : List.Forall₂ R l1 l2) (himp : ∀ a b, b ∈ l2 → R a b → P a) :
    ∀ a ∈ l1, P a := by
  induction h with
  | nil => intro a ha; cases ha
  | cons hab _ ih =>
    intro a ha
    rcases List.mem_cons.mp ha with rfl | ha
    · exact himp _ _ (List.mem_cons_self _ _) hab
    · exact ih (fun a b hb => himp a b (List.mem_cons_of_mem _ hb)) a ha

/-- `printTable` on clean cells writes one line per shown row, in order, each
showing the cells of its row and holding no line end. -/
theorem printTable_shown (w : World) (headers : List String) (rows : List (List String))
    (plain : Bool)
    (hclean : ∀ row ∈ shownRows headers rows plain, ∀ cell ∈ row, CleanCell cell = true) :
    ∃ lines : List (List Char),
      (printTable w headers rows plain).stdout =
        w.stdout ++ ⟨lines.flatMap (fun l => l ++ ['\n'])⟩ ∧
      List.Forall₂ ShowsCells lines
        ((shownRows headers rows plain).map (fun row => row.map String.data)) ∧
      ∀ l ∈ lines, ∀ x ∈ l, tabwriter.isLineEnd x = false := by
  have hsplit := splitLines_lines
    ((shownRows headers rows plain).map (fun row => (joinRow row).data))
    (by
      intro seg hseg
      obtain ⟨row, hrow, rfl⟩ := List.mem_map.mp hseg
      exact joinRow_no_lineEnd row (hclean row hrow))
  have hlast : tabwriter.Line.ofText ([], none) = ⟨[], none⟩ := by decide
  obtain ⟨outs, hshow, hfmt⟩ := format_rows
    ((shownRows headers rows plain).map (fun row => tabwriter.splitCells (joinRow row).data)) []
    (fun j hj => by cases hj)
  have hshow' : List.Forall₂ ShowsCells outs
      ((shownRows headers rows plain).map (fun row => row.map String.data)) := by
    rw [List.forall₂_map_right_iff] at hshow ⊢
    refine forall₂_imp_mem hshow (fun out row hrow h => ?_)
    rw [splitCells_joinRow row (hclean row hrow)] at h
    exact showsCells_of_split out row h
  refine ⟨outs, ?_, hshow', ?_⟩
  · simp only [printTable, tabwriter.Flush]
    rw [tableText_data, hsplit]
    simp only [List.map_append, List.map_map, List.map_cons, List.map_nil, hlast]
    have : (fun row => tabwriter.Line.ofText ((joinRow row).data, some false)) =
        (fun row => (⟨tabwriter.splitCells (joinRow row).data, some false⟩ : tabwriter.Line)) :=
      funext fun row => rfl
    simp only [Function.comp_def, this]
    simp only [List.map_map, Function.comp_def] at hfmt
    rw [hfmt]
  · rw [List.forall₂_map_right_iff] at hshow'
    refine forall₂_forall_left hshow' (fun out row hrow h => ?_)
    apply showsCells_no_lineEnd _ out h
    intro cell hcell x hx
    obtain ⟨s, hs, rfl⟩ := List.mem_map.mp hcell
    exact ((cleanCell_iff s).mp (hclean row hrow s hs) x hx).2

/-- C17, counterexample: one row whose cell holds a newline is printed, with the
plain flag, as two lines. -/
theorem printTable_cell_with_newline :
    (printTable ⟨"", "", []⟩ [] [["a\nb"]] true).stdout = "a\nb\n" ∧
      (printTable ⟨"", "", []⟩ [] [["a\nb"]] true).stdout.data.count '\n' = 2 := by
  decide

/-- C17 (amended): for every header list and every row list whose cells hold none
of the characters the tab writer reads as the end of a cell or of a line (tab,
vertical tab, newline, form feed): when plain is set, `printTable` writes no
header and exactly one line per row, in row order, each line showing the cells
of its row (every cell but the last followed by at least two spaces) and ended
by a newline; when plain is not set and the header list is not empty and clean
as well, it writes the header line first, followed by one such line per row. -/
theorem printTable_header_suppression (w : World) (headers : List String)
    (rows : List (List String)) (plain : Bool)
    (hrows : ∀ row ∈ rows, ∀ cell ∈ row, CleanCell cell = true) :
    (plain = true →
      ∃ lines : List (List Char),
        (printTable w headers rows plain).stdout =
          w.stdout ++ ⟨lines.flatMap (fun l => l ++ ['\n'])⟩ ∧
        List.Forall₂ ShowsCells lines (rows.map (fun row => row.map String.data)) ∧
        ∀ l ∈ lines, ∀ x ∈ l, tabwriter.isLineEnd x = false) ∧
    (plain = false → headers ≠ [] → (∀ cell ∈ headers, CleanCell cell = true) →
      ∃ (hline : List Char) (lines : List (List Char)),
        (printTable w headers rows plain).stdout =
          w.stdout ++ ⟨hline ++ ['\n'] ++ lines.flatMap (fun l => l ++ ['\n'])⟩ ∧
        ShowsCells hline (headers.map String.data) ∧
        List.Forall₂ ShowsCells lines (rows.map (fun row => row.map String.data)) ∧
        ∀ l ∈ hline :: lines, ∀ x ∈ l, tabwriter.isLineEnd x = false) := by
  constructor
  · intro hplain
    subst hplain
    have hshown : shownRows headers rows true = rows := by simp [shownRows]
    have := printTable_shown w headers rows true (by rw [hshown]; exact hrows)
    rw [hshown] at this
    exact this
  · intro hplain hne hheaders
    subst hplain
    have hlen : 0 < headers.length := List.length_pos.mpr hne
    have hshown : shownRows headers rows false = headers :: rows := by
      simp [shownRows, hlen]
    obtain ⟨lines, hout, hshow, hends⟩ := printTable_shown w headers rows false (by
      rw [hshown]
      intro row hrow
      rcases List.mem_cons.mp hrow with rfl | h
      · exact hheaders
      · exact hrows row h)
    rw [hshown, List.map_cons] at hshow
    cases hshow with
    | cons h1 h2 =>
      rename_i hline rest
      refine ⟨hline, rest, ?_, h1, h2, hends⟩
      rw [hout]
      simp [List.flatMap_cons]

/-- C17, witness: a header and one row without the plain flag; the tab writer
aligns the two lines. -/
theorem printTable_header_suppression_witness :
    ∃ (hline : List Char) (lines : List (List Char)),
      (printTable ⟨"", "", []⟩ ["#", "TITLE"] [["12", "Fix bug"]] false).stdout =
        "" ++ ⟨hline ++ ['\n'] ++ lines.flatMap (fun l => l ++ ['\n'])⟩ ∧
      ShowsCells hline (["#", "TITLE"].map String.data) ∧
      List.Forall₂ ShowsCells lines ([["12", "Fix bug"]].map (fun row => row.map String.data)) ∧
      ∀ l ∈ hline :: lines, ∀ x ∈ l, tabwriter.isLineEnd x = false :=
  (printTable_header_suppression ⟨"", "", []⟩ ["#", "TITLE"] [["12", "Fix bug"]] false
    (by decide)).2 rfl (by decide) (by decide)

/-- C16, counterexample: `card list --all --plain` over the pages with the cards
`Fix bug` and `Add feature` writes two lines whose columns are separated by two
spaces; the output holds no tab character. -/
theorem card_list_plain_is_not_tab_separated :
    ∃ w', runCard (Env.demoJSON demoCardDocs [demoCardPage1, demoCardPage2]) FlagSets.demo
        WriteCommands.demo 2 ⟨"", "", []⟩ (Context.demo false true) ["list", "--all"] =
        some (0, w') ∧
      w'.stdout =
        "1  Fix bug  published  Dev  2024-01-02\n2  Add feature  drafted  Dev  2024-01-03\n" ∧
      '\t' ∉ w'.stdout.data := by
  refine ⟨_, rfl, by decide, by decide⟩

/-- Cells written with widths of exactly the cell plus the padding are separated
by two spaces. -/
theorem writeCells_exact (cs : List (List Char)) :
    ∀ (c : List Char) (ws : List Nat),
      (∀ j, j + 1 < (c :: cs).length → ws.getD j 0 = ((c :: cs).getD j []).length + 2) →
      tabwriter.writeCells ws (c :: cs) = c ++ cs.flatMap (fun a => ' ' :: ' ' :: a) := by
  induction cs with
  | nil => intro c ws _; simp [tabwriter.writeCells]
  | cons c2 cs ih =>
    intro c ws h
    rw [tabwriter.writeCells]
    have h0 := h 0 (by simp)
    have hhead : ws.getD 0 0 = ws.headD 0 := by cases ws <;> rfl
    simp only [List.getD_cons_zero] at h0
    have hn : ws.headD 0 - c.length = 2 := by omega
    rw [hn, ih c2 ws.tail (by
      intro j hj
      have hj' := h (j + 1) (by simp only [List.length_cons] at hj ⊢; omega)
      have : ws.getD (j + 1) 0 = ws.tail.getD j 0 := by cases ws <;> simp
      simpa [this] using hj')]
    simp [List.flatMap_cons]

/-- A table of one row of clean cells, printed without header, is the cells of the
row separated by two spaces, on one line. -/
theorem flush_single_row (headers : List String) (row : List String)
    (hclean : ∀ cell ∈ row, CleanCell cell = true) :
    tabwriter.Flush (tableText headers [row] true) = spacedLine row ++ "\n" := by
  apply String.ext
  have hshown : shownRows headers [row] true = [row] := by simp [shownRows]
  have hsplit := splitLines_lines [(joinRow row).data] (by
    intro seg hseg
    rw [List.mem_singleton.mp hseg]
    exact joinRow_no_lineEnd row hclean)
  have hlast : tabwriter.Line.ofText ([], none) = ⟨[], none⟩ := by decide
  simp only [tabwriter.Flush]
  rw [tableText_data, hshown]
  simp only [List.map_cons, List.map_nil] at hsplit ⊢
  rw [hsplit]
  simp only [List.map_cons, List.map_nil, List.singleton_append, hlast]
  have hfirst : tabwriter.Line.ofText ((joinRow row).data, some false) =
      ⟨tabwriter.splitCells (joinRow row).data, some false⟩ := rfl
  rw [hfirst, splitCells_joinRow row hclean]
  cases row with
  | nil => decide
  | cons c cs =>
    simp only [reduceCtorEq, if_false, List.map_cons]
    rw [tabwriter.format, tabwriter.format, tabwriter.format]
    simp only [tabwriter.writeCells, Option.isSome_some, Option.isSome_none, if_true,
      Bool.false_eq_true, if_false, List.append_nil]
    rw [writeCells_exact]
    · simp only [spacedLine, String.data_append]
      rw [String.intercalate, intercalate_go_data]
      have : ("  " : String).data = [' ', ' '] := rfl
      simp [List.flatMap, List.map_map, Function.comp_def, this]
    · intro j hj
      simp only [List.length_cons, List.length_map] at hj
      rw [lineWidths_getD _ _ _ _ (by simp; omega)]
      simp only [List.length_nil, Nat.not_lt_zero, if_false]
      rw [blockWidth_cons j _ _ (by simp; omega) (by simp)]
      simp [tabwriter.blockWidth]

/-- C16 (amended): `card list` with `--all` and `--plain`, with credentials and an
account, where page 1 holds one card and carries a next cursor and page 2 holds
one card and no cursor, and no column of the two cards holds a tab, vertical
tab, newline or form feed, returns 0 and writes exactly two lines, no header
line and no JSON wrapping: the line of the page-1 card first and the line of
the page-2 card second, each line being that row's columns separated by two
spaces. -/
theorem card_list_all_plain_two_pages (env : Env) (fl : FlagSets) (wr : WriteCommands)
    (fuel : Nat) (w : World) (ctx : Context) (rest : List String) (v : FlagValues)
    (p1 p2 : Response) (r1 r2 : List String)
    (htoken : ensureToken ctx = none) (haccount : ensureAccount ctx = none)
    (hjson : ctx.Output.JSON = false) (hplain : ctx.Output.Plain = true)
    (hparse : fl.parse "card list" rest = .ok v) (hall : v.bool "all" = true)
    (hserve : servesPages env ctx.Client w (withAccount ctx "/cards") (some (cardListQuery v))
      [p1, p2] = true)
    (h1 : cardListRows env p1.Body = .ok [r1]) (h2 : cardListRows env p2.Body = .ok [r2])
    (hclean : ∀ cell ∈ r1 ++ r2, CleanCell cell = true) (hfuel : 2 ≤ fuel) :
    ∃ w', runCard env fl wr fuel w ctx ("list" :: rest) = some (0, w') ∧
      w'.stdout = w.stdout ++ spacedLine r1 ++ "\n" ++ spacedLine r2 ++ "\n" ∧
      w'.stderr = w.stderr := by
  have hrun : runCard env fl wr fuel w ctx ("list" :: rest) =
      rowPagesLoop env ctx helpForCard cardListHeaders (cardListRows env) fuel w false
        (withAccount ctx "/cards") (some (cardListQuery v)) := by
    simp [runCard, htoken, haccount, hparse, hall, listWithPagination, hjson]
  obtain ⟨w', h, ho, he⟩ := rowPagesLoop_streams env ctx helpForCard cardListHeaders
    (cardListRows env) [p1, p2] fuel w false (withAccount ctx "/cards")
    (some (cardListQuery v)) hserve (by simpa using hfuel) (by
      intro p hp
      simp only [List.mem_cons, List.mem_singleton, List.not_mem_nil, or_false] at hp
      rcases hp with rfl | rfl
      · simp [pageAccepted, h1]
      · simp [pageAccepted, h2])
  refine ⟨w', hrun.trans h, ?_, he⟩
  rw [ho, hplain]
  have hp1 : pageRows (cardListRows env) p1 = [r1] := by simp [pageRows, h1]
  have hp2 : pageRows (cardListRows env) p2 = [r2] := by simp [pageRows, h2]
  simp only [List.map_cons, List.map_nil, hp1, hp2, streamedPages, Bool.false_eq_true,
    if_false, if_true]
  rw [flush_single_row cardListHeaders r1 (fun c hc => hclean c (List.mem_append_left _ hc)),
    flush_single_row [] r2 (fun c hc => hclean c (List.mem_append_right _ hc))]
  simp [String.append_assoc]

/-- C16, witness: the cards `Fix bug` and `Add feature`, one per page. -/
theorem card_list_all_plain_two_pages_witness :
    ∃ w', runCard (Env.demoJSON demoCardDocs [demoCardPage1, demoCardPage2]) FlagSets.demo
        WriteCommands.demo 2 ⟨"", "", []⟩ (Context.demo false true) ["list", "--all"] =
        some (0, w') ∧
      w'.stdout = "" ++ spacedLine ["1", "Fix bug", "published", "Dev", "2024-01-02"] ++ "\n" ++
        spacedLine ["2", "Add feature", "drafted", "Dev", "2024-01-03"] ++ "\n" ∧
      w'.stderr = "" :=
  card_list_all_plain_two_pages (Env.demoJSON demoCardDocs [demoCardPage1, demoCardPage2])
    FlagSets.demo WriteCommands.demo 2 ⟨"", "", []⟩ (Context.demo false true) ["--all"]
    _ ⟨200, demoCardPage1.Header, demoCardPage1.Body⟩
    ⟨200, demoCardPage2.Header, demoCardPage2.Body⟩
    ["1", "Fix bug", "published", "Dev", "2024-01-02"]
    ["2", "Add feature", "drafted", "Dev", "2024-01-03"]
    rfl rfl rfl rfl rfl (by decide) (by decide) rfl rfl (by decide) (by decide)

/-! ## Examples for C11 and C14 -/

/-- C11, witness: without credentials `board list` and `account list` return 2
and send nothing. -/
theorem unauthenticated_commands_exit_2_witness :
    ((runBoard (Env.demo []) WriteCommands.demo ⟨"", "", []⟩
        ⟨⟨"", "", "", ""⟩, "", "acme", "https://x", "", "", ⟨false, false⟩,
          ⟨"https://x", "", "", ""⟩, "", "", ""⟩ ["list"]).1 = 2 ∧
      (runBoard (Env.demo []) WriteCommands.demo ⟨"", "", []⟩
        ⟨⟨"", "", "", ""⟩, "", "acme", "https://x", "", "", ⟨false, false⟩,
          ⟨"https://x", "", "", ""⟩, "", "", ""⟩ ["list"]).2.sent = []) ∧
    ((runAccount (Env.demo []) WriteCommands.demo ⟨"", "", []⟩
        ⟨⟨"", "", "", ""⟩, "", "acme", "https://x", "", "", ⟨false, false⟩,
          ⟨"https://x", "", "", ""⟩, "", "", ""⟩ ["list"]).1 = 2 ∧
      (runAccount (Env.demo []) WriteCommands.demo ⟨"", "", []⟩
        ⟨⟨"", "", "", ""⟩, "", "acme", "https://x", "", "", ⟨false, false⟩,
          ⟨"https://x", "", "", ""⟩, "", "", ""⟩ ["list"]).2.sent = []) :=
  ⟨((unauthenticated_commands_exit_2 (Env.demo []) FlagSets.demo WriteCommands.demo 0
      ⟨"", "", []⟩
      ⟨⟨"", "", "", ""⟩, "", "acme", "https://x", "", "", ⟨false, false⟩,
        ⟨"https://x", "", "", ""⟩, "", "", ""⟩ ["list"]).2.2 ⟨rfl, rfl⟩).1,
    ((unauthenticated_commands_exit_2 (Env.demo []) FlagSets.demo WriteCommands.demo 0
      ⟨"", "", []⟩
      ⟨⟨"", "", "", ""⟩, "", "acme", "https://x", "", "", ⟨false, false⟩,
        ⟨"https://x", "", "", ""⟩, "", "", ""⟩ []).2.2 ⟨rfl, rfl⟩).2.2.2.2.2.2.2⟩

/-- C14, witness: a body that is not JSON is rejected by `cardListRows`, and
`outputListRows` then returns a non-zero code and leaves standard output
empty; in JSON mode the body `1e999`, valid JSON that does not fit an `any`,
makes `outputJSONOrPretty` return a non-zero code. -/
theorem decode_failures_abort_witness :
    cardListRows (Env.demo []) "oops" = .error (.other "invalid character") ∧
    (outputListRows ⟨"", "", []⟩ (Context.demo false false) "oops" cardListHeaders
        (cardListRows (Env.demo []))).1 ≠ 0 ∧
    (outputListRows ⟨"", "", []⟩ (Context.demo false false) "oops" cardListHeaders
        (cardListRows (Env.demo []))).2.stdout = "" ∧
    (outputJSONOrPretty Env.demoNumbers ⟨"", "", []⟩ (Context.demo true false) "1e999"
        (formatCard Env.demoNumbers)).1 ≠ 0 :=
  ⟨((decode_failures_abort (Env.demo []) ⟨"", "", []⟩ (Context.demo false false) "oops"
      cardListHeaders (cardListRows (Env.demo [])) (formatCard (Env.demo []))).1
      (.other "invalid character") rfl).2.1,
    ((decode_failures_abort (Env.demo []) ⟨"", "", []⟩ (Context.demo false false) "oops"
      cardListHeaders (cardListRows (Env.demo [])) (formatCard (Env.demo []))).2.2.2.2.2.1
      (.other "invalid character") rfl).1,
    ((decode_failures_abort (Env.demo []) ⟨"", "", []⟩ (Context.demo false false) "oops"
      cardListHeaders (cardListRows (Env.demo [])) (formatCard (Env.demo []))).2.2.2.2.2.1
      (.other "invalid character") rfl).2,
    ((decode_failures_abort Env.demoNumbers ⟨"", "", []⟩ (Context.demo true false) "1e999"
      cardListHeaders (cardListRows Env.demoNumbers)
      (formatCard Env.demoNumbers)).2.2.2.2.2.2.2.2.1
      (json.typeError "number 1e999" "float64") rfl (by decide) rfl).1⟩

/-! ## Properties: account slugs (C26) -/

/-- The cutset test of `normalizeAccount` holds for the slash only. -/
theorem slash_cutset (c : Char) : ("/".data.contains c) = true ↔ c = '/' := by
  show (['/'].contains c) = true ↔ _
  simp

/-- Trimming a list whose ends are kept leaves it as it is. -/
theorem trimChars_of_ends (p : Char → Bool) (l : List Char)
    (hh : ∀ c ∈ l.head?, p c = false) (hl : ∀ c ∈ l.getLast?, p c = false) :
    strings.trimRightChars p (strings.trimLeftChars p l) = l := by
  have h1 : l.dropWhile p = l := by
    rw [List.dropWhile_eq_self_iff]
    intro hlen
    have hne : l ≠ [] := List.length_pos.mp hlen
    have := hh (l.head hne) (by rw [List.head?_eq_head hne]; rfl)
    intro hp
    have e : l.get ⟨0, hlen⟩ = l.head hne := by
      cases l with
      | nil => exact absurd rfl hne
      | cons x xs => rfl
    rw [e, this] at hp
    exact Bool.false_ne_true hp
  rw [trimRightChars_eq, strings.trimLeftChars, h1, List.rdropWhile_eq_self_iff]
  intro hne
  have := hl (l.getLast hne) (by rw [List.getLast?_eq_getLast _ hne]; rfl)
  rw [this]
  exact Bool.false_ne_true

/-- Trimming twice is trimming once. -/
theorem trimChars_idem (p : Char → Bool) (l : List Char) :
    strings.trimRightChars p (strings.trimLeftChars p
      (strings.trimRightChars p (strings.trimLeftChars p l))) =
    strings.trimRightChars p (strings.trimLeftChars p l) :=
  trimChars_of_ends p _ (trimChars_spec p l).2.1 (trimChars_spec p l).2.2

/-- A string without a slash is its own normal form. -/
theorem normalizeAccount_of_no_slash (s : String) (hs : '/' ∉ s.data) :
    normalizeAccount s = s := by
  apply String.ext
  show strings.trimRightChars _ (strings.trimLeftChars _ s.data) = s.data
  apply trimChars_of_ends
  · intro c hc
    have hm : c ∈ s.data := List.mem_of_mem_head? hc
    cases h : ("/".data.contains c) with
    | false => rfl
    | true => rw [slash_cutset] at h; rw [h] at hm; exact absurd hm hs
  · intro c hc
    have hm : c ∈ s.data := List.mem_of_mem_getLast? hc
    cases h : ("/".data.contains c) with
    | false => rfl
    | true => rw [slash_cutset] at h; rw [h] at hm; exact absurd hm hs

/-- The result of `normalizeAccount` neither begins nor ends with a slash. -/
theorem normalizeAccount_ends (value : String) :
    (normalizeAccount value).data.head? ≠ some '/' ∧
      (normalizeAccount value).data.getLast? ≠ some '/' := by
  have h := trimChars_spec (fun c => "/".data.contains c) value.data
  constructor
  · intro hc
    have := h.2.1 '/' hc
    exact absurd this (by decide)
  · intro hc
    have := h.2.2 '/' hc
    exact absurd this (by decide)

/-- The account of the context that `parseGlobal` returns is a result of
`normalizeAccount`. -/
theorem parseGlobal_account (os : OS) (args : List String) :
    ∃ value, (parseGlobal os args).ctx.Account = normalizeAccount value := by
  have hz : Context.zero.Account = normalizeAccount "" := by decide
  by_cases hlen : args.length = 0
  · exact ⟨"", by simp only [parseGlobal, hlen, if_true]; exact hz⟩
  · cases hpath : (if os.getenv "FIZZY_CONFIG" == "" then config.DefaultPath os
        else .ok (os.getenv "FIZZY_CONFIG")) with
    | error e => exact ⟨"", by simp only [parseGlobal, hlen, if_false, hpath]; exact hz⟩
    | ok p =>
      cases hflags : os.flagParse p args.tail with
      | error e =>
        cases e with
        | errHelp => exact ⟨"", by simp only [parseGlobal, hlen, if_false, hpath, hflags]; exact hz⟩
        | invalid msg =>
          exact ⟨"", by simp only [parseGlobal, hlen, if_false, hpath, hflags]; exact hz⟩
      | ok r =>
        obtain ⟨fl, rest⟩ := r
        cases hload : config.Load os fl.flagConfig with
        | error e => exact ⟨"", by simp only [parseGlobal, hlen, if_false, hpath, hflags, hload]; exact hz⟩
        | ok cfg =>
          refine ⟨firstNonEmpty [fl.flagAccount, os.getenv "FIZZY_ACCOUNT", cfg.Account], ?_⟩
          simp only [parseGlobal, hlen, if_false, hpath, hflags, hload]
          split_ifs <;> rfl

/-- C26: account slugs can be given with or without a leading slash. For every
string `s` that holds no slash, `normalizeAccount` maps both `"/" ++ s` and `s`
to `s`; `normalizeAccount` is idempotent; its result neither begins nor ends
with a slash; and for the context that `parseGlobal` returns, `withAccount`
yields a slash, the account slug and the path, where the slug does not begin
with a slash, so exactly one slash stands before the slug. -/
theorem normalizeAccount_leading_slash (s value path : String) (os : OS) (args : List String)
    (hs : '/' ∉ s.data) :
    normalizeAccount ("/" ++ s) = s ∧ normalizeAccount s = s ∧
      normalizeAccount (normalizeAccount value) = normalizeAccount value ∧
      (normalizeAccount value).data.head? ≠ some '/' ∧
      (normalizeAccount value).data.getLast? ≠ some '/' ∧
      withAccount (parseGlobal os args).ctx path =
        "/" ++ (parseGlobal os args).ctx.Account ++ path ∧
      (parseGlobal os args).ctx.Account.data.head? ≠ some '/' := by
  refine ⟨?_, normalizeAccount_of_no_slash s hs, ?_, (normalizeAccount_ends value).1,
    (normalizeAccount_ends value).2, rfl, ?_⟩
  · have h := normalizeAccount_of_no_slash s hs
    apply String.ext
    have hd : ("/" ++ s).data = '/' :: s.data := by
      rw [String.data_append]; rfl
    show strings.trimRightChars _ (strings.trimLeftChars _ ("/" ++ s).data) = s.data
    rw [hd, strings.trimLeftChars, List.dropWhile_cons_of_pos (by decide)]
    exact congrArg String.data h
  · apply String.ext
    exact trimChars_idem _ value.data
  · obtain ⟨v, hv⟩ := parseGlobal_account os args
    rw [hv]
    exact (normalizeAccount_ends v).1

/-- C26, witness: `/acme` and `acme` both normalise to `acme`, and with
`FIZZY_ACCOUNT=/acme` the path of the boards is `/acme/boards`. -/
theorem normalizeAccount_leading_slash_witness :
    '/' ∉ "acme".data ∧ normalizeAccount ("/" ++ "acme") = "acme" ∧
      normalizeAccount "acme" = "acme" ∧
      normalizeAccount (normalizeAccount "//acme/") = "acme" ∧
      withAccount (parseGlobal (OS.demo [("FIZZY_ACCOUNT", "/acme")])
        ["fizzy-cli", "board", "list"]).ctx "/boards" = "/acme/boards" := by
  have h := normalizeAccount_leading_slash "acme" "//acme/" "/boards"
    (OS.demo [("FIZZY_ACCOUNT", "/acme")]) ["fizzy-cli", "board", "list"] (by decide)
  exact ⟨by decide, h.1, h.2.1, h.2.2.1.trans (by decide), h.2.2.2.2.2.1.trans (by decide)⟩

/-! ## Properties: the width of rows (C28) -/

/-- C28: rows are fixed-width and match their headers. For every body that a
list mapper decodes, every row it returns has as many columns as the header
list printed with it: 4 for boards, 5 for cards, 4 for comments, 2 for tags,
3 for columns, 4 for users, 5 for notifications, and 3 for the accounts of an
identity (printed under SLUG, NAME, USER), whatever members the elements hold. -/
theorem rowMappers_row_width (env : Env) (body : String) (rows : List (List String))
    (row : List String) (hrow : row ∈ rows) :
    (boardListRows env body = .ok rows → row.length = boardListHeaders.length ∧ row.length = 4) ∧
    (cardListRows env body = .ok rows → row.length = cardListHeaders.length ∧ row.length = 5) ∧
    (commentListRows env body = .ok rows →
      row.length = commentListHeaders.length ∧ row.length = 4) ∧
    (tagListRows env body = .ok rows → row.length = tagListHeaders.length ∧ row.length = 2) ∧
    (columnListRows env body = .ok rows →
      row.length = columnListHeaders.length ∧ row.length = 3) ∧
    (userListRows env body = .ok rows → row.length = userListHeaders.length ∧ row.length = 4) ∧
    (notificationListRows env body = .ok rows →
      row.length = notificationListHeaders.length ∧ row.length = 5) ∧
    (identityToRows env body = .ok rows →
      row.length = ["SLUG", "NAME", "USER"].length ∧ row.length = 3) := by
  refine ⟨?_, ?_, ?_, ?_, ?_, ?_, ?_, ?_⟩
  · intro h
    cases hu : json.Unmarshal env body (json.decodeSlice board.decode board.zero "[]cli.board" []) with
    | error e => simp only [boardListRows, hu] at h; cases h
    | ok xs =>
      simp only [boardListRows, hu, Except.ok.injEq] at h
      subst h
      obtain ⟨x, -, rfl⟩ := List.mem_map.mp hrow
      exact ⟨rfl, rfl⟩
  · intro h
    cases hu : json.Unmarshal env body (json.decodeSlice card.decode card.zero "[]cli.card" []) with
    | error e => simp only [cardListRows, hu] at h; cases h
    | ok xs =>
      simp only [cardListRows, hu, Except.ok.injEq] at h
      subst h
      obtain ⟨x, -, rfl⟩ := List.mem_map.mp hrow
      exact ⟨rfl, rfl⟩
  · intro h
    cases hu : json.Unmarshal env body (json.decodeSlice comment.decode comment.zero "[]cli.comment" []) with
    | error e => simp only [commentListRows, hu] at h; cases h
    | ok xs =>
      simp only [commentListRows, hu, Except.ok.injEq] at h
      subst h
      obtain ⟨x, -, rfl⟩ := List.mem_map.mp hrow
      exact ⟨rfl, rfl⟩
  · intro h
    cases hu : json.Unmarshal env body (json.decodeSlice tag.decode tag.zero "[]cli.tag" []) with
    | error e => simp only [tagListRows, hu] at h; cases h
    | ok xs =>
      simp only [tagListRows, hu, Except.ok.injEq] at h
      subst h
      obtain ⟨x, -, rfl⟩ := List.mem_map.mp hrow
      exact ⟨rfl, rfl⟩
  · intro h
    cases hu : json.Unmarshal env body (json.decodeSlice column.decode column.zero "[]cli.column" []) with
    | error e => simp only [columnListRows, hu] at h; cases h
    | ok xs =>
      simp only [columnListRows, hu, Except.ok.injEq] at h
      subst h
      obtain ⟨x, -, rfl⟩ := List.mem_map.mp hrow
      exact ⟨rfl, rfl⟩
  · intro h
    cases hu : json.Unmarshal env body (json.decodeSlice user.decode user.zero "[]cli.user" []) with
    | error e => simp only [userListRows, hu] at h; cases h
    | ok xs =>
      simp only [userListRows, hu, Except.ok.injEq] at h
      subst h
      obtain ⟨x, -, rfl⟩ := List.mem_map.mp hrow
      exact ⟨rfl, rfl⟩
  · intro h
    cases hu : json.Unmarshal env body (json.decodeSlice notification.decode notification.zero "[]cli.notification" []) with
    | error e => simp only [notificationListRows, hu] at h; cases h
    | ok xs =>
      simp only [notificationListRows, hu, Except.ok.injEq] at h
      subst h
      obtain ⟨x, -, rfl⟩ := List.mem_map.mp hrow
      exact ⟨rfl, rfl⟩
  · intro h
    cases hu : json.Unmarshal env body (identity.decode identity.zero) with
    | error e => simp only [identityToRows, hu] at h; cases h
    | ok xs =>
      simp only [identityToRows, hu, Except.ok.injEq] at h
      subst h
      obtain ⟨x, -, rfl⟩ := List.mem_map.mp hrow
      exact ⟨rfl, rfl⟩

/-- C28, witness: the page with one card that has only a number and a title
gives one row of five columns. -/
theorem rowMappers_row_width_witness :
    ["7", "Fix bug", "", "", ""] ∈ [["7", "Fix bug", "", "", ""]] ∧
      cardListRows (Env.demoJSON demoPartialCardDocs [])
        "[\x7b\"number\":7,\"title\":\"Fix bug\"\x7d]" = .ok [["7", "Fix bug", "", "", ""]] ∧
      (["7", "Fix bug", "", "", ""] : List String).length = cardListHeaders.length := by
  have hrows : cardListRows (Env.demoJSON demoPartialCardDocs [])
      "[\x7b\"number\":7,\"title\":\"Fix bug\"\x7d]" = .ok [["7", "Fix bug", "", "", ""]] := rfl
  exact ⟨by decide, hrows,
    ((rowMappers_row_width (Env.demoJSON demoPartialCardDocs [])
      "[\x7b\"number\":7,\"title\":\"Fix bug\"\x7d]" [["7", "Fix bug", "", "", ""]]
      ["7", "Fix bug", "", "", ""] (by decide)).2.1 hrows).1⟩

/-! ## Properties: the relation parameter of a Link entry (C29) -/

/-- `containsChars` tests whether the pattern is a contiguous part of the text. -/
theorem containsChars_iff_part (pat l : List Char) :
    strings.containsChars pat l = true ↔ pat <:+: l := by
  induction l with
  | nil =>
    rw [strings.containsChars, List.infix_nil, List.isEmpty_iff]
  | cons c cs ih =>
    rw [strings.containsChars, Bool.or_eq_true, ih, List.infix_cons_iff,
      List.isPrefixOf_iff_prefix]

/-- A text that lacks the pattern still lacks it after trimming. -/
theorem contains_trimSpace_false (s pat : String) (h : strings.Contains s pat = false) :
    strings.Contains (strings.TrimSpace s) pat = false := by
  cases hc : strings.Contains (strings.TrimSpace s) pat with
  | false => rfl
  | true =>
    have h1 : pat.data <:+: (strings.TrimSpace s).data := (containsChars_iff_part _ _).mp hc
    obtain ⟨⟨pre, post, hs, -, -⟩, -, -⟩ := TrimSpace_isTrimOf s
    have h2 : (strings.TrimSpace s).data <:+: s.data := ⟨pre, post, hs.symm⟩
    have h3 : strings.Contains s pat = true := (containsChars_iff_part _ _).mpr (h1.trans h2)
    rw [h] at h3
    exact absurd h3 Bool.false_ne_true

/-- A part whose second section does not hold `rel="next"` is skipped, whatever
the sections after it hold. -/
theorem nextLinkParts_skip_second (part : String) (rest : List String) (s0 s1 : String)
    (tl : List String) (hsplit : strings.Split (strings.TrimSpace part) ';' = s0 :: s1 :: tl)
    (hrel : strings.Contains (strings.TrimSpace s1) "rel=\"next\"" = false) :
    nextLinkParts (part :: rest) = nextLinkParts rest := by
  rw [nextLinkParts, hsplit]
  simp only [hrel, Bool.false_eq_true, if_false]

/-- The value that `nextLink` reads is the first value of the first entry named
`Link` under case folding. -/
theorem nextLink_first_value (before after : Header) (k v : String) (vs : List String)
    (hk : strings.EqualFold k "Link" = true)
    (hbefore : ∀ kv ∈ before, strings.EqualFold kv.1 "Link" = false) :
    nextLink (before ++ (k, v :: vs) :: after) = nextLink [("Link", [v])] := by
  have hfind : (before ++ (k, v :: vs) :: after).find?
      (fun kv => strings.EqualFold kv.1 "Link" && kv.2.length > 0) = some (k, v :: vs) := by
    rw [List.find?_append]
    have hb : before.find? (fun kv => strings.EqualFold kv.1 "Link" && kv.2.length > 0) =
        none := by
      rw [List.find?_eq_none]
      intro kv hkv
      simp [hbefore kv hkv]
    rw [hb]
    simp [hk]
  have hfind2 : ([("Link", [v])] : Header).find?
      (fun kv => strings.EqualFold kv.1 "Link" && kv.2.length > 0) = some ("Link", [v]) := by
    have : strings.EqualFold "Link" "Link" = true := by decide
    simp [this]
  unfold nextLink
  simp only [hfind, hfind2]

/-- C29: `nextLink` reads the relation from the first parameter after the url
only. A part of the header value whose second section (between the first and
the second semicolon) does not hold `rel="next"` is skipped, whatever the
sections after it hold; `<u>; title="t"; rel="next"` yields the empty string
although its third section is `rel="next"`. A second section that is the
unquoted `rel=next` is skipped as well, and `<u>; rel=next` yields the empty
string. Of the values stored under the header only the first one is read. -/
theorem nextLink_first_parameter_only (part s0 s1 : String) (tl rest : List String)
    (before after : Header) (k v : String) (vs : List String)
    (hsplit : strings.Split (strings.TrimSpace part) ';' = s0 :: s1 :: tl)
    (hk : strings.EqualFold k "Link" = true)
    (hbefore : ∀ kv ∈ before, strings.EqualFold kv.1 "Link" = false) :
    (strings.Contains s1 "rel=\"next\"" = false →
      nextLinkParts (part :: rest) = nextLinkParts rest) ∧
    (strings.Split (strings.TrimSpace "<u>; title=\"t\"; rel=\"next\"") ';' =
        ["<u>", " title=\"t\"", " rel=\"next\""] ∧
      nextLink [("Link", ["<u>; title=\"t\"; rel=\"next\""])] = "") ∧
    (strings.TrimSpace s1 = "rel=next" → nextLinkParts (part :: rest) = nextLinkParts rest) ∧
    nextLink [("Link", ["<u>; rel=next"])] = "" ∧
    nextLink (before ++ (k, v :: vs) :: after) = nextLink [("Link", [v])] := by
  refine ⟨fun h => nextLinkParts_skip_second part rest s0 s1 tl hsplit
      (contains_trimSpace_false s1 _ h), ⟨by decide, by decide⟩, ?_,
    by decide, nextLink_first_value before after k v vs hk hbefore⟩
  intro h
  apply nextLinkParts_skip_second part rest s0 s1 tl hsplit
  rw [h]
  decide

/-- C29, witness: the part `<u>; title="t"; rel="next"` is skipped, so a later
part `<v>; rel="next"` is the one returned; and a second value of the header
that holds `rel="next"` is not read. -/
theorem nextLink_first_parameter_only_witness :
    strings.Split (strings.TrimSpace "<u>; title=\"t\"; rel=\"next\"") ';' =
        ["<u>", " title=\"t\"", " rel=\"next\""] ∧
      strings.Contains " title=\"t\"" "rel=\"next\"" = false ∧
      nextLinkParts ["<u>; title=\"t\"; rel=\"next\"", " <v>; rel=\"next\""] = "v" ∧
      nextLink [("link", ["<a>; rel=\"prev\"", "<b>; rel=\"next\""]), ("X", ["y"])] = "" := by
  have h := nextLink_first_parameter_only "<u>; title=\"t\"; rel=\"next\"" "<u>" " title=\"t\""
    [" rel=\"next\""] [" <v>; rel=\"next\""] [] [("X", ["y"])] "link" "<a>; rel=\"prev\""
    ["<b>; rel=\"next\""] (by decide) (by decide) (by decide)
  exact ⟨by decide, by decide, (h.1 (by decide)).trans (by decide),
    h.2.2.2.2.trans (by decide)⟩

/-! ## Properties: an API error on card get (C24) -/

/-- A text contains each of its contiguous parts. -/
theorem contains_middle (pre mid post : String) :
    strings.Contains (pre ++ mid ++ post) mid = true := by
  apply (containsChars_iff_part _ _).mpr
  exact ⟨pre.data, post.data, by simp only [String.data_append]⟩

/-- The message of an `APIError` whose body is not blank ends with the trimmed
body. -/
theorem apiError_of_body (e : APIError) (h : Blank e.Body = false) :
    e.Error = "api error: status " ++ fmt.Sprintd e.Status ++ ": " ++ strings.TrimSpace e.Body := by
  have h2 : strings.TrimSpace e.Body ≠ "" := by
    intro hh
    rw [(TrimSpace_eq_empty_iff e.Body).mp hh] at h
    exact absurd h (by decide)
  unfold APIError.Error
  simp [h2]

/-- C24: when the transport answers the request of `card get <n>` with a status
of at least 400 and a body that is not blank, the command returns exit code 1,
leaves standard output as it was, and appends to standard error the line
`error: api error: status <status>: <trimmed body>`, which contains the trimmed
body. (Credentials and account are configured and the request is built, so that
the request is sent.) -/
theorem card_get_api_error (env : Env) (fl : FlagSets) (wr : WriteCommands) (fuel : Nat)
    (w : World) (ctx : Context) (number : String) (more : List String) (urlStr : String)
    (resp : HTTPResponse)
    (htoken : ensureToken ctx = none) (hacct : ensureAccount ctx = none)
    (hurl : buildURL env ctx.Client.BaseURL (withAccount ctx ("/cards/" ++ number)) none =
      .ok urlStr)
    (hreq : env.newRequest "GET" urlStr = none)
    (hresp : env.roundTrip w.sent.length
      ⟨"GET", urlStr, ctx.Client.requestHeader "" none, none⟩ = .ok resp)
    (hstatus : resp.StatusCode ≥ 400) (hbody : Blank resp.Body = false) :
    ∃ w', runCard env fl wr fuel w ctx ("get" :: number :: more) = some (1, w') ∧
      w'.stdout = w.stdout ∧
      w'.stderr = w.stderr ++ ("error: api error: status " ++ fmt.Sprintd resp.StatusCode ++ ": " ++
        strings.TrimSpace resp.Body ++ "\n") ∧
      strings.Contains ("error: api error: status " ++ fmt.Sprintd resp.StatusCode ++ ": " ++
        strings.TrimSpace resp.Body ++ "\n") (strings.TrimSpace resp.Body) = true := by
  have hdo := Do_of_request_built env ctx.Client w "GET" (withAccount ctx ("/cards/" ++ number))
    none none "" none urlStr hurl hreq
  rw [hresp] at hdo
  simp only [hstatus, if_true] at hdo
  have hmsg := apiError_of_body ⟨resp.StatusCode, resp.Body⟩ hbody
  have hl : ("get" == "list") = false := by decide
  have hg : ("get" == "get") = true := by decide
  refine ⟨⟨w.stdout, w.stderr ++ ("error: api error: status " ++ fmt.Sprintd resp.StatusCode ++
      ": " ++ strings.TrimSpace resp.Body ++ "\n"),
    w.sent ++ [⟨"GET", urlStr, ctx.Client.requestHeader "" none, none⟩]⟩, ?_, rfl, rfl,
    contains_middle _ _ _⟩
  have hpre : ∀ x : String, "error: " ++ ("api error: status " ++ x) =
      "error: api error: status " ++ x := fun x => by
    rw [← String.append_assoc]; rfl
  rw [runCard]
  simp only [htoken, hacct, hl, hg, hdo, if_true, Bool.false_eq_true, if_false, handleErr,
    exitCode, GoError.asUsage, Option.bind, printErr, GoError.Error, hmsg, String.append_assoc,
    hpre]

/-- C24, witness: `card get 999` answered with status 404 and the body
`{"error":"not found"}` returns exit code 1, writes nothing to standard output,
and writes to standard error a line that contains `not found`. -/
theorem card_get_api_error_witness :
    (404 : Int) ≥ 400 ∧ Blank "\x7b\"error\":\"not found\"\x7d" = false ∧
      (runCard (Env.demo [⟨404, [], "\x7b\"error\":\"not found\"\x7d"⟩]) FlagSets.demo
          WriteCommands.demo 1 ⟨"", "", []⟩ (Context.demo false false) ["get", "999"]).map
          (fun r => (r.1, r.2.stdout, r.2.stderr)) =
        some (1, "", "error: api error: status 404: \x7b\"error\":\"not found\"\x7d\n") ∧
      strings.Contains "error: api error: status 404: \x7b\"error\":\"not found\"\x7d\n"
        "not found" = true := by
  obtain ⟨w1, hrun, hout, herr, -⟩ := card_get_api_error
    (Env.demo [⟨404, [], "\x7b\"error\":\"not found\"\x7d"⟩]) FlagSets.demo
    WriteCommands.demo 1 ⟨"", "", []⟩ (Context.demo false false) "999" []
    "https://x/acme/cards/999" ⟨404, [], "\x7b\"error\":\"not found\"\x7d"⟩
    (by decide) (by decide) rfl rfl rfl (by decide) (by decide)
  refine ⟨by decide, by decide, ?_, by decide⟩
  rw [hrun]
  show some ((1 : Int), w1.stdout, w1.stderr) = _
  rw [hout, herr]
  decide

/-! ## Properties: the detail view of a card (C30) -/

/-- `String.join` of two lists one after the other. -/
theorem string_join_append (l1 l2 : List String) :
    String.join (l1 ++ l2) = String.join l1 ++ String.join l2 := by
  induction l1 with
  | nil => 
    show String.join l2 = String.join [] ++ String.join l2
    have : String.join [] = "" := rfl
    rw [this, String.empty_append]
  | cons a l ih => rw [List.cons_append, string_join_cons, string_join_cons, ih, String.append_assoc]

/-- The lines of two lists one after the other. -/
theorem unlines_append (l1 l2 : List String) : unlines (l1 ++ l2) = unlines l1 ++ unlines l2 := by
  unfold unlines
  rw [List.map_append, string_join_append]

/-- The lines of a list with a head. -/
theorem unlines_cons (a : String) (l : List String) : unlines (a :: l) = a ++ "\n" ++ unlines l := by
  unfold unlines
  rw [List.map_cons, string_join_cons]

/-- No lines, no text. -/
theorem unlines_nil : unlines [] = "" := rfl

/-- Optional lines. -/
theorem unlines_ite (p : Prop) [Decidable p] (l : List String) :
    unlines (if p then l else []) = if p then unlines l else "" := by
  split_ifs <;> rfl

/-- Text appended under a condition. -/
theorem ite_append_self (p : Prop) [Decidable p] (b x : String) :
    (if p then b ++ x else b) = b ++ (if p then x else "") := by
  split_ifs
  · rfl
  · rw [String.append_empty]

/-- The lines `formatCard` writes for the steps are the step lines. -/
theorem formatSteps_eq (steps : List step) : formatSteps steps = unlines (steps.map stepLine) := by
  unfold formatSteps unlines
  rw [List.map_map]
  congr 1
  apply List.map_congr_left
  intro s _
  show _ = stepLine s ++ "\n"
  unfold stepLine
  cases s.Completed
  · simp only [Bool.false_eq_true, if_false]
    have : "- [" ++ " " ++ "] " = "- [ ] " := by decide
    rw [this]
  · simp only [if_true]
    have : "- [" ++ "x" ++ "] " = "- [x] " := by decide
    rw [this]

/-- Three texts appended under a condition. -/
theorem ite_append_three (p : Prop) [Decidable p] (b x y z : String) :
    (if p then b ++ x ++ y ++ z else b) = b ++ (if p then x ++ y ++ z else "") := by
  split_ifs
  · simp only [String.append_assoc]
  · rw [String.append_empty]

/-- Two texts appended under a condition. -/
theorem ite_append_two (p : Prop) [Decidable p] (b x y : String) :
    (if p then b ++ x ++ y else b) = b ++ (if p then x ++ y else "") := by
  split_ifs
  · simp only [String.append_assoc]
  · rw [String.append_empty]

/-- What `formatCard` returns is the layout, line by line, trimmed. -/
theorem formatCard_layout (env : Env) (body : String) (c : card)
    (h : json.Unmarshal env body (card.decode card.zero) = .ok c) :
    formatCard env body = .ok (strings.TrimSpace (unlines (cardLayout c))) := by
  have hT : (c.Tags.length > 0) ↔ c.Tags ≠ [] := List.length_pos
  have hS : (c.Steps.length > 0) ↔ c.Steps ≠ [] := List.length_pos
  have hL : (c.LastActiveAt != "") = true ↔ c.LastActiveAt ≠ "" := by simp
  have hC : (c.CreatedAt != "") = true ↔ c.CreatedAt ≠ "" := by simp
  have hD : (c.Description != "") = true ↔ c.Description ≠ "" := by simp
  simp only [formatCard, h, formatSteps_eq, Sprintd_eq_decimal, strings.Join, hT, hS,
    hL, hC, hD, ite_append_three, ite_append_two, ite_append_self]
  simp only [cardLayout, unlines_append, unlines_ite]
  have hg : "Golden: true" ++ "\n" = "Golden: true\n" := by decide
  have hd : ∀ x : String, "\n" ++ ("Description:" ++ ("\n" ++ x)) = "\nDescription:\n" ++ x := by
    intro x
    rw [← String.append_assoc, ← String.append_assoc]
    rfl
  have hs : ∀ x : String, "\n" ++ ("Steps:" ++ ("\n" ++ x)) = "\nSteps:\n" ++ x := by
    intro x
    rw [← String.append_assoc, ← String.append_assoc]
    rfl
  simp only [unlines_cons, unlines_nil, String.append_assoc, String.append_empty,
    String.empty_append, hg, hd, hs]

/-- C30: the layout of the detail view of a card. For every body that decodes
into a card, `formatCard` returns the lines `ID`, `Number`, `Title`, `Status`,
`Board`, `Creator` in this order, then a `Tags` line exactly when there are tags
(joined with a comma and a space), a `Golden: true` line exactly when the card is
golden, a `Last active` line and a `Created` line exactly when their fields are
not empty, a `Description` block exactly when the description is not empty, and
a `Steps` block exactly when there are steps, with one line per step in order,
`- [x] <content>` for a completed step and `- [ ] <content>` otherwise; the
lines are separated by newlines and the text is trimmed, so that it neither
begins nor ends with white space. -/
theorem formatCard_detail_layout (env : Env) (body : String) (c : card)
    (h : json.Unmarshal env body (card.decode card.zero) = .ok c) :
    formatCard env body = .ok (strings.TrimSpace (unlines (cardLayout c))) ∧
      IsTrimOf (strings.TrimSpace (unlines (cardLayout c))) (unlines (cardLayout c)) :=
  ⟨formatCard_layout env body c h, TrimSpace_isTrimOf _⟩

/-- C30, witness: a card with two tags, the golden mark and two steps, the first
one completed, and with no dates and no description. -/
theorem formatCard_detail_layout_witness :
    json.Unmarshal (Env.demoJSON demoCardDetailDocs [])
        "\x7b\"id\":\"c1\",\"number\":7,\"title\":\"Fix bug\",\"tags\":[\"a\",\"b\"],\"golden\":true,\"steps\":[\x7b\"content\":\"one\",\"completed\":true\x7d,\x7b\"content\":\"two\"\x7d]\x7d"
        (card.decode card.zero) =
      .ok ⟨"c1", 7, "Fix bug", "", "", ["a", "b"], true, "", "", board.zero, user.zero,
        [⟨"", "one", true⟩, ⟨"", "two", false⟩], [], []⟩ ∧
    formatCard (Env.demoJSON demoCardDetailDocs [])
        "\x7b\"id\":\"c1\",\"number\":7,\"title\":\"Fix bug\",\"tags\":[\"a\",\"b\"],\"golden\":true,\"steps\":[\x7b\"content\":\"one\",\"completed\":true\x7d,\x7b\"content\":\"two\"\x7d]\x7d" =
      .ok ("ID: c1\nNumber: 7\nTitle: Fix bug\nStatus: \nBoard: \nCreator: \nTags: a, b\n" ++
        "Golden: true\n\nSteps:\n- [x] one\n- [ ] two") := by
  have h := formatCard_detail_layout (Env.demoJSON demoCardDetailDocs [])
    "\x7b\"id\":\"c1\",\"number\":7,\"title\":\"Fix bug\",\"tags\":[\"a\",\"b\"],\"golden\":true,\"steps\":[\x7b\"content\":\"one\",\"completed\":true\x7d,\x7b\"content\":\"two\"\x7d]\x7d"
    ⟨"c1", 7, "Fix bug", "", "", ["a", "b"], true, "", "", board.zero, user.zero,
      [⟨"", "one", true⟩, ⟨"", "two", false⟩], [], []⟩ rfl
  refine ⟨rfl, ?_⟩
  rw [h.1]
  exact congrArg Except.ok (by decide)

/-- An example with repeated members: the second `tags` array cuts the slice to
one element and leaves `b` in its backing array, and the third one, made of two
`null`s, extends the slice over it again and stores nothing, so the tags are `c`
and `b`; the steps behave in the same way, an empty object storing nothing into
the step it is decoded into. -/
theorem formatCard_repeated_members :
    json.Unmarshal (Env.demoJSON demoRepeatedMemberDocs [])
        "\x7b\"tags\":[\"a\",\"b\"],\"tags\":[\"c\"],\"tags\":[null,null],\"steps\":[\x7b\"content\":\"one\"\x7d,\x7b\"content\":\"two\",\"completed\":true\x7d],\"steps\":[\x7b\"content\":\"uno\"\x7d],\"steps\":[\x7b\x7d,\x7b\x7d]\x7d"
        (card.decode card.zero) =
      .ok ⟨"", 0, "", "", "", ["c", "b"], false, "", "", board.zero, user.zero,
        [⟨"", "uno", false⟩, ⟨"", "two", true⟩], [], []⟩ ∧
    formatCard (Env.demoJSON demoRepeatedMemberDocs [])
        "\x7b\"tags\":[\"a\",\"b\"],\"tags\":[\"c\"],\"tags\":[null,null],\"steps\":[\x7b\"content\":\"one\"\x7d,\x7b\"content\":\"two\",\"completed\":true\x7d],\"steps\":[\x7b\"content\":\"uno\"\x7d],\"steps\":[\x7b\x7d,\x7b\x7d]\x7d" =
      .ok ("ID: \nNumber: 0\nTitle: \nStatus: \nBoard: \nCreator: \nTags: c, b\n\n" ++
        "Steps:\n- [ ] uno\n- [x] two") :=
  ⟨rfl, congrArg Except.ok (by decide)⟩

/-! ## Properties: config set without a value (C23) -/

/-- C23, counterexample: `config set --help` is invoked with neither
`--base-url` nor `--account`; the flag set fails with `flag.ErrHelp`, the
command prints the usage text to standard output and returns exit code 0, not
2. Nothing is saved. -/
theorem config_set_help_exits_zero :
    FlagSets.demoStrings.parse "config set" ["--help"] = .error .errHelp ∧
      (runConfig (Env.demo []) (OS.demo []) FlagSets.demoStrings ⟨"", "", []⟩
        (Context.demo false false) ["set", "--help"]).1 = (0, ⟨helpForConfig, "", []⟩) ∧
      (runConfig (Env.demo []) (OS.demo []) FlagSets.demoStrings ⟨"", "", []⟩
        (Context.demo false false) ["set", "--help"]).2 = [] :=
  ⟨rfl, by decide, by decide⟩

/-- C23, amended: `config set` invoked with neither a non-blank `--base-url` nor
a non-blank `--account` (whenever its flags parse, both values are blank) never
calls `configSave`. Unless the flag set fails with `flag.ErrHelp`, it returns
exit code 2, writes nothing to standard output and reports a usage error with
the usage text on standard error; when the flags parse that error is `at least
one of --base-url or --account is required`. When the flag set fails with
`flag.ErrHelp` it prints the usage text to standard output and returns 0. -/
theorem config_set_requires_a_value (env : Env) (os : OS) (fl : FlagSets) (w : World)
    (ctx : Context) (rest : List String)
    (hblank : ∀ v, fl.parse "config set" rest = .ok v →
      Blank (v.string "base-url") = true ∧ Blank (v.string "account") = true) :
    (runConfig env os fl w ctx ("set" :: rest)).2 = [] ∧
      (fl.parse "config set" rest ≠ .error .errHelp →
        (runConfig env os fl w ctx ("set" :: rest)).1.1 = 2 ∧
          (runConfig env os fl w ctx ("set" :: rest)).1.2.stdout = w.stdout ∧
          ∃ msg, (runConfig env os fl w ctx ("set" :: rest)).1 =
            handleErr w helpForConfig (some (.usage msg))) ∧
      ((∃ v, fl.parse "config set" rest = .ok v) →
        (runConfig env os fl w ctx ("set" :: rest)).1 = handleErr w helpForConfig
          (some (.usage "at least one of --base-url or --account is required"))) ∧
      (fl.parse "config set" rest = .error .errHelp →
        (runConfig env os fl w ctx ("set" :: rest)).1 =
          (0, { w with stdout := w.stdout ++ helpForConfig })) := by
  have hs : ("set" == "show") = false := by decide
  have hs2 : ("set" == "set") = true := by decide
  cases hp : fl.parse "config set" rest with
  | error e =>
    cases e with
    | errHelp =>
      have hrun : runConfig env os fl w ctx ("set" :: rest) =
          ((0, { w with stdout := w.stdout ++ helpForConfig }), []) := by
        simp only [runConfig, hs, hs2, hp, if_true, Bool.false_eq_true, if_false, usageError]
      rw [hrun]
      refine ⟨rfl, ?_, ?_, ?_⟩
      · intro h
        exact absurd rfl h
      · rintro ⟨v, hv⟩
        cases hv
      · intro _
        rfl
    | invalid msg =>
      have hrun : runConfig env os fl w ctx ("set" :: rest) =
          (handleErr w helpForConfig (some (.usage msg)), []) := by
        simp only [runConfig, hs, hs2, hp, if_true, Bool.false_eq_true, if_false, usageError]
      rw [hrun]
      refine ⟨rfl, ?_, ?_, ?_⟩
      · intro _
        exact ⟨(handleErr_usage w helpForConfig msg).1, (handleErr_world _ _ _).1, msg, rfl⟩
      · rintro ⟨v, hv⟩
        cases hv
      · intro h
        cases h
  | ok v =>
    obtain ⟨hb, ha⟩ := hblank v hp
    have hb2 := (TrimSpace_eq_empty_iff _).mpr hb
    have ha2 := (TrimSpace_eq_empty_iff _).mpr ha
    have hrun : runConfig env os fl w ctx ("set" :: rest) =
        (handleErr w helpForConfig
          (some (.usage "at least one of --base-url or --account is required")), []) := by
      have he : (("" : String) == "") = true := by decide
      simp only [runConfig, hs, hs2, hp, if_true, Bool.false_eq_true, if_false, hb2, ha2, he,
        Bool.and_self]
    rw [hrun]
    refine ⟨rfl, ?_, ?_, ?_⟩
    · intro _
      exact ⟨(handleErr_usage w helpForConfig _).1, (handleErr_world _ _ _).1, _, rfl⟩
    · intro _
      rfl
    · intro h
      cases h

/-- C23, witness: `config set` without arguments returns exit code 2 with the
usage error and saves nothing. -/
theorem config_set_requires_a_value_witness :
    (runConfig (Env.demo []) (OS.demo []) FlagSets.demoStrings ⟨"", "", []⟩
        (Context.demo false false) ["set"]).2 = [] ∧
      (runConfig (Env.demo []) (OS.demo []) FlagSets.demoStrings ⟨"", "", []⟩
        (Context.demo false false) ["set"]).1 =
        (2, ⟨"", "error: at least one of --base-url or --account is required\n\n" ++
          helpForConfig, []⟩) := by
  have h := config_set_requires_a_value (Env.demo []) (OS.demo []) FlagSets.demoStrings
    ⟨"", "", []⟩ (Context.demo false false) [] (by
      intro v hv
      injection hv with hv
      subst hv
      exact ⟨by decide, by decide⟩)
  exact ⟨h.1, (h.2.2.1 ⟨_, rfl⟩).trans (by decide)⟩

/-! ## Properties: the credentials of a saved configuration (C25) -/

/-- A string that is not blank is not empty. -/
theorem ne_empty_of_trimSpace (s : String) (h : ¬ (strings.TrimSpace s == "") = true) :
    s ≠ "" := by
  intro hs
  apply h
  rw [hs]
  decide

/-- What the verification step of the magic-link login saves: a configuration
with the session token set and the token cleared. -/
theorem authMagicLinkVerify_saves (env : Env) (os : OS) (w : World) (ctx : Context)
    (client : Client) (pending : pendingAuthResponse) (code : String) (pc : String × Config)
    (hpc : pc ∈ (authMagicLinkVerify env os w ctx client pending code).2) :
    pc.1 = ctx.ConfigPath ∧ pc.2.Token = "" ∧ pc.2.SessionToken ≠ "" := by
  unfold authMagicLinkVerify at hpc
  split_ifs at hpc with h1
  · simp at hpc
  · try simp only [] at hpc
    split at hpc
    · simp at hpc
    · split at hpc
      · simp at hpc
      · rename_i session _
        split_ifs at hpc with h2
        · simp at hpc
        · have hne := ne_empty_of_trimSpace _ h2
          split at hpc <;>
          · simp only [List.mem_singleton] at hpc
            subst hpc
            exact ⟨rfl, rfl, hne⟩

/-- What the magic-link login saves. -/
theorem authMagicLink_saves (env : Env) (os : OS) (w : World) (ctx : Context)
    (email code : String) (pc : String × Config)
    (hpc : pc ∈ (authMagicLink env os w ctx email code).2) :
    pc.1 = ctx.ConfigPath ∧ pc.2.Token = "" ∧ pc.2.SessionToken ≠ "" := by
  unfold authMagicLink at hpc
  split at hpc
  · simp at hpc
  · try simp only [] at hpc
    split at hpc
    · simp at hpc
    · split at hpc
      · simp at hpc
      · split at hpc
        · simp at hpc
        · split at hpc
          · split at hpc
            · simp at hpc
            · split at hpc
              · simp at hpc
              · exact authMagicLinkVerify_saves _ _ _ _ _ _ _ _ hpc
          · exact authMagicLinkVerify_saves _ _ _ _ _ _ _ _ hpc

/-- What `auth logout` saves: a configuration with both credentials cleared. -/
theorem runAuth_logout_saves (env : Env) (os : OS) (fl : FlagSets) (w : World) (ctx : Context)
    (rest : List String) (pc : String × Config)
    (hpc : pc ∈ (runAuth env os fl w ctx ("logout" :: rest)).2) :
    pc.1 = ctx.ConfigPath ∧ pc.2.Token = "" ∧ pc.2.SessionToken = "" := by
  have h1 : ("logout" == "login") = false := by decide
  have h2 : ("logout" == "logout") = true := by decide
  simp only [runAuth, h1, h2, if_true, Bool.false_eq_true, if_false] at hpc
  split at hpc <;>
  · simp only [List.mem_singleton] at hpc
    subst hpc
    exact ⟨rfl, rfl, rfl⟩

/-- What `auth login` saves: with a blank `--email` a configuration with the
token set and the session token cleared, otherwise one with the session token
set and the token cleared. -/
theorem runAuth_login_saves (env : Env) (os : OS) (fl : FlagSets) (w : World) (ctx : Context)
    (rest : List String) (pc : String × Config)
    (hpc : pc ∈ (runAuth env os fl w ctx ("login" :: rest)).2) :
    pc.1 = ctx.ConfigPath ∧
      ∃ v, fl.parse "auth login" rest = .ok v ∧
        (Blank (v.string "email") = true → pc.2.Token ≠ "" ∧ pc.2.SessionToken = "") ∧
        (Blank (v.string "email") = false → pc.2.Token = "" ∧ pc.2.SessionToken ≠ "") := by
  have h1 : ("login" == "login") = true := by decide
  simp only [runAuth, h1, if_true] at hpc
  cases hv : fl.parse "auth login" rest with
  | error e => simp [hv] at hpc
  | ok v =>
    simp only [hv] at hpc
    split at hpc
    · simp at hpc
    · split at hpc
      · rename_i h3
        have hnb : Blank (v.string "email") = false := by
          cases hb : Blank (v.string "email") with
          | false => rfl
          | true =>
            rw [(TrimSpace_eq_empty_iff _).mpr hb] at h3
            exact absurd h3 (by decide)
        obtain ⟨hp, ht, hs⟩ := authMagicLink_saves _ _ _ _ _ _ _ hpc
        exact ⟨hp, v, rfl, fun hb => (by rw [hnb] at hb; cases hb), fun _ => ⟨ht, hs⟩⟩
      · rename_i h3
        have hb : Blank (v.string "email") = true := by
          apply (TrimSpace_eq_empty_iff _).mp
          simpa using h3
        try simp only [] at hpc
        split at hpc
        · simp at hpc
        · rename_i val w1 _
          split at hpc
          · simp at hpc
          · rename_i h4
            have hval : val ≠ "" := by simpa using h4
            have : pc = (ctx.ConfigPath, { ctx.Config with Token := val, SessionToken := "" }) := by
              split at hpc <;> simpa using hpc
            subst this
            exact ⟨rfl, v, rfl, fun _ => ⟨hval, rfl⟩, fun h => (by rw [hb] at h; cases h)⟩

/-- Every configuration that `runAuth` saves goes to the configured path and has
at most one credential. -/
theorem runAuth_saves (env : Env) (os : OS) (fl : FlagSets) (w : World) (ctx : Context)
    (args : List String) (pc : String × Config)
    (hpc : pc ∈ (runAuth env os fl w ctx args).2) :
    pc.1 = ctx.ConfigPath ∧ (pc.2.Token = "" ∨ pc.2.SessionToken = "") := by
  cases args with
  | nil => simp [runAuth] at hpc
  | cons cmd rest =>
    by_cases h1 : cmd = "login"
    · subst h1
      obtain ⟨hp, v, -, hb, hnb⟩ := runAuth_login_saves env os fl w ctx rest pc hpc
      cases hbl : Blank (v.string "email") with
      | true => exact ⟨hp, Or.inr (hb hbl).2⟩
      | false => exact ⟨hp, Or.inl (hnb hbl).1⟩
    · by_cases h2 : cmd = "logout"
      · subst h2
        obtain ⟨hp, ht, -⟩ := runAuth_logout_saves env os fl w ctx rest pc hpc
        exact ⟨hp, Or.inl ht⟩
      · have e1 : (cmd == "login") = false := by simpa using h1
        have e2 : (cmd == "logout") = false := by simpa using h2
        simp only [runAuth, e1, e2, Bool.false_eq_true, if_false] at hpc
        split at hpc
        · split at hpc
          · simp at hpc
          · split at hpc
            · simp at hpc
            · split at hpc
              · simp at hpc
              · split at hpc
                · simp at hpc
                · try simp only [] at hpc
                  split at hpc <;> simp at hpc
        · simp at hpc

/-- What `account set` saves: the configuration of the context with the account
replaced. -/
theorem accountSet_saves (os : OS) (w : World) (ctx : Context) (args : List String)
    (pc : String × Config) (hpc : pc ∈ (accountSet os w ctx args).2) :
    pc.1 = ctx.ConfigPath ∧ pc.2.Token = ctx.Config.Token ∧
      pc.2.SessionToken = ctx.Config.SessionToken ∧ pc.2.BaseURL = ctx.Config.BaseURL := by
  unfold accountSet at hpc
  split at hpc
  · try simp only [] at hpc
    split at hpc
    · simp at hpc
    · split at hpc <;>
      · simp only [List.mem_singleton] at hpc
        subst hpc
        exact ⟨rfl, rfl, rfl, rfl⟩
  · simp at hpc

/-- What `runConfig` saves: the configuration of the context with the base URL
or the account replaced. -/
theorem runConfig_saves (env : Env) (os : OS) (fl : FlagSets) (w : World) (ctx : Context)
    (args : List String) (pc : String × Config)
    (hpc : pc ∈ (runConfig env os fl w ctx args).2) :
    pc.1 = ctx.ConfigPath ∧ pc.2.Token = ctx.Config.Token ∧
      pc.2.SessionToken = ctx.Config.SessionToken := by
  unfold runConfig at hpc
  split at hpc
  · simp at hpc
  · split at hpc
    · split at hpc
      · simp only [printJSON] at hpc
        simp at hpc
      · simp at hpc
    · split at hpc
      · split at hpc
        · simp at hpc
        · split at hpc
          · simp at hpc
          · try simp only [] at hpc
            have hcfg : ∀ cfg : Config, pc = (ctx.ConfigPath, cfg) →
                cfg.Token = ctx.Config.Token → cfg.SessionToken = ctx.Config.SessionToken →
                pc.1 = ctx.ConfigPath ∧ pc.2.Token = ctx.Config.Token ∧
                  pc.2.SessionToken = ctx.Config.SessionToken := by
              intro cfg h ht hs
              subst h
              exact ⟨rfl, ht, hs⟩
            split at hpc <;>
            · simp only [List.mem_singleton] at hpc
              refine hcfg _ hpc ?_ ?_ <;> split_ifs <;> rfl
      · simp at hpc

/-- C25: mutual exclusion of the credentials in the saved configuration. Every
configuration that `runAuth` passes to `configSave` has an empty token or an
empty session token: `auth login` with a token (blank `--email`) saves the token
and clears the session token, the magic-link login (`--email` not blank) saves
the session token and clears the token, and `auth logout` clears both. Every
configuration that `account set` or `config set` saves has the token and the
session token of the configuration that was loaded. So when the loaded
configuration does not hold both credentials, no configuration saved by any of
these commands does. -/
theorem saved_credentials_exclusive (env : Env) (os : OS) (fl : FlagSets) (w : World)
    (ctx : Context) (args rest : List String) (pc : String × Config) :
    (pc ∈ (runAuth env os fl w ctx args).2 → pc.2.Token = "" ∨ pc.2.SessionToken = "") ∧
    (pc ∈ (runAuth env os fl w ctx ("login" :: rest)).2 →
      ∃ v, fl.parse "auth login" rest = .ok v ∧
        (Blank (v.string "email") = true → pc.2.Token ≠ "" ∧ pc.2.SessionToken = "") ∧
        (Blank (v.string "email") = false → pc.2.Token = "" ∧ pc.2.SessionToken ≠ "")) ∧
    (pc ∈ (runAuth env os fl w ctx ("logout" :: rest)).2 →
      pc.2.Token = "" ∧ pc.2.SessionToken = "") ∧
    (pc ∈ (accountSet os w ctx args).2 →
      pc.2.Token = ctx.Config.Token ∧ pc.2.SessionToken = ctx.Config.SessionToken) ∧
    (pc ∈ (runConfig env os fl w ctx args).2 →
      pc.2.Token = ctx.Config.Token ∧ pc.2.SessionToken = ctx.Config.SessionToken) ∧
    ((ctx.Config.Token = "" ∨ ctx.Config.SessionToken = "") →
      pc ∈ (runAuth env os fl w ctx args).2 ++ (accountSet os w ctx args).2 ++
        (runConfig env os fl w ctx args).2 →
      pc.2.Token = "" ∨ pc.2.SessionToken = "") := by
  refine ⟨fun h => (runAuth_saves env os fl w ctx args pc h).2,
    fun h => (runAuth_login_saves env os fl w ctx rest pc h).2,
    fun h => (runAuth_logout_saves env os fl w ctx rest pc h).2,
    fun h => ⟨(accountSet_saves os w ctx args pc h).2.1, (accountSet_saves os w ctx args pc h).2.2.1⟩,
    fun h => (runConfig_saves env os fl w ctx args pc h).2, ?_⟩
  intro hinv hmem
  rw [List.mem_append, List.mem_append] at hmem
  rcases hmem with (h | h) | h
  · exact (runAuth_saves env os fl w ctx args pc h).2
  · obtain ⟨-, ht, hs, -⟩ := accountSet_saves os w ctx args pc h
    rw [ht, hs]
    exact hinv
  · obtain ⟨-, ht, hs⟩ := runConfig_saves env os fl w ctx args pc h
    rw [ht, hs]
    exact hinv

/-- C25, witness: with the session token `old` in the configuration file,
`auth login --token abc` saves the token `abc` and an empty session token; with
the token `old` in the file, a magic-link login saves the session token `s1` and
an empty token; `auth logout` saves neither; and `account set /acme` keeps the
session token `old`. -/
theorem saved_credentials_exclusive_witness :
    (runAuth (Env.demo []) (OS.demo []) FlagSets.demoStrings ⟨"", "", []⟩
        (Context.demoSaved "" "old") ["login", "--token", "abc"]).2 =
      [("/cfg", ⟨"", "abc", "", ""⟩)] ∧
    (runAuth (Env.demoJSON demoAuthDocs
          [⟨200, [], "\x7b\"pending_authentication_token\":\"p1\"\x7d"⟩,
            ⟨200, [], "\x7b\"session_token\":\"s1\"\x7d"⟩])
        (OS.demo []) FlagSets.demoStrings ⟨"", "", []⟩
        (Context.demoSaved "old" "") ["login", "--email", "a@b.c", "--code", "123"]).2 =
      [("/cfg", ⟨"", "", "s1", ""⟩)] ∧
    (runAuth (Env.demo []) (OS.demo []) FlagSets.demoStrings ⟨"", "", []⟩
        (Context.demoSaved "" "old") ["logout"]).2 = [("/cfg", ⟨"", "", "", ""⟩)] ∧
    (accountSet (OS.demo []) ⟨"", "", []⟩ (Context.demoSaved "" "old") ["set", "/acme"]).2 =
      [("/cfg", ⟨"", "", "old", "acme"⟩)] ∧
    (("/cfg", ⟨"", "abc", "", ""⟩) : String × Config).2.SessionToken = "" := by
  have h := (saved_credentials_exclusive (Env.demo []) (OS.demo []) FlagSets.demoStrings
    ⟨"", "", []⟩ (Context.demoSaved "" "old") ["login", "--token", "abc"] ["--token", "abc"]
    ("/cfg", ⟨"", "abc", "", ""⟩)).2.1 (by decide)
  obtain ⟨v, hv, hb, -⟩ := h
  have hblank : Blank (v.string "email") = true := by
    injection hv with hv
    subst hv
    decide
  exact ⟨by decide, by decide, by decide, by decide, (hb hblank).2⟩

/-! ## Properties: --json with --plain (C27) -/

/-- The error of `parseGlobal` once the flags are parsed: the error of loading
the config file, if any, and otherwise the usage error for `--json` with
`--plain`, if both are set. -/
theorem parseGlobal_err (os : OS) (args : List String) (p : String) (flags : GlobalFlags)
    (rest : List String)
    (hargs : args ≠ [])
    (hpath : (if os.getenv "FIZZY_CONFIG" == "" then config.DefaultPath os
      else .ok (os.getenv "FIZZY_CONFIG")) = .ok p)
    (hflags : os.flagParse p args.tail = .ok (flags, rest)) :
    (∀ e, config.Load os flags.flagConfig = .error e → (parseGlobal os args).err = some e) ∧
    (∀ cfg, config.Load os flags.flagConfig = .ok cfg →
      (parseGlobal os args).err =
        if flags.flagJSON = true ∧ flags.flagPlain = true then
          some (.usage "--json and --plain cannot be used together")
        else none) := by
  have hlen : ¬ args.length = 0 := by
    intro h; exact hargs (List.length_eq_zero.mp h)
  constructor
  · intro e he
    unfold parseGlobal
    simp only [hlen, if_false, hpath, hflags, he]
  · intro cfg hc
    unfold parseGlobal
    simp only [hlen, if_false, hpath, hflags, hc]
    by_cases hj : flags.flagJSON = true <;> by_cases hp : flags.flagPlain = true <;>
      simp [hj, hp]

/-- The flag set of `parseGlobal` writes nothing when the flags parse. -/
theorem parseGlobalOutput_of_flags (os : OS) (args : List String) (p : String)
    (flags : GlobalFlags) (rest : List String)
    (hpath : (if os.getenv "FIZZY_CONFIG" == "" then config.DefaultPath os
      else .ok (os.getenv "FIZZY_CONFIG")) = .ok p)
    (hflags : os.flagParse p args.tail = .ok (flags, rest)) :
    parseGlobalOutput os args = "" := by
  unfold parseGlobalOutput
  by_cases hlen : args.length = 0
  · simp only [hlen, if_true]
  · simp only [hlen, if_false, hpath, hflags]

/-- What `Run` does when `parseGlobal` fails: the error line follows what the
flag set wrote to standard error. -/
theorem Run_of_parse_error (env : Env) (os : OS) (fl : FlagSets) (wr : WriteCommands)
    (fuel : Nat) (w : World) (version commit buildDate : String) (args : List String)
    (e : GoError) (h : (parseGlobal os args).err = some e) :
    Run env os fl wr fuel w version commit buildDate args =
      some (exitCode (some e),
        printErr { w with stderr := w.stderr ++ parseGlobalOutput os args } (some e)) := by
  unfold Run
  simp only [h]

/-- What `Run` does when `parseGlobal` fails after the flags are parsed. -/
theorem Run_of_parse_error_after_flags (env : Env) (os : OS) (fl : FlagSets)
    (wr : WriteCommands) (fuel : Nat) (w : World) (version commit buildDate : String)
    (args : List String) (p : String) (flags : GlobalFlags) (rest : List String)
    (hpath : (if os.getenv "FIZZY_CONFIG" == "" then config.DefaultPath os
      else .ok (os.getenv "FIZZY_CONFIG")) = .ok p)
    (hflags : os.flagParse p args.tail = .ok (flags, rest))
    (e : GoError) (h : (parseGlobal os args).err = some e) :
    Run env os fl wr fuel w version commit buildDate args =
      some (exitCode (some e), printErr w (some e)) := by
  rw [Run_of_parse_error env os fl wr fuel w version commit buildDate args e h,
    parseGlobalOutput_of_flags os args p flags rest hpath hflags, String.append_empty]

/-- C27, counterexample: with a config file that does not decode (its content is
an opening brace), the arguments `--json --plain tag list` set both flags, yet
`parseGlobal` fails with the error of loading the file, which is not a
`UsageError`, and `Run` returns exit code 1. -/
theorem json_and_plain_with_broken_config :
    (OS.demoOutput (some "\x7b")).flagParse "/home/u/.config/fizzy/config.json"
        ["--json", "--plain", "tag", "list"] =
      .ok (⟨"", "", "", "/home/u/.config/fizzy/config.json", true, true, false, false, false⟩,
        ["tag", "list"]) ∧
    (parseGlobal (OS.demoOutput (some "\x7b"))
        ["fizzy-cli", "--json", "--plain", "tag", "list"]).err =
      some (.other "unexpected end of JSON input") ∧
    (GoError.other "unexpected end of JSON input").asUsage = none ∧
    Run (Env.demo []) (OS.demoOutput (some "\x7b")) FlagSets.demo WriteCommands.demo 1
        ⟨"", "", []⟩ "1.0" "abc" "today" ["fizzy-cli", "--json", "--plain", "tag", "list"] =
      some (1, ⟨"", "error: unexpected end of JSON input\n", []⟩) :=
  ⟨rfl, by decide, rfl, by decide⟩

/-- C27, amended: mutually exclusive output flags are a usage error. For every
argument list whose global flags parse with both `--json` and `--plain` set and
for which the config file loads, `parseGlobal` fails with the `UsageError`
`--json and --plain cannot be used together`, and `Run` returns exit code 2
after writing only the error line to standard error, whatever the commands
would do: no command is dispatched. When the config file does not load,
`parseGlobal` fails with the error of loading it, whatever the flags. When at
most one of the two flags is set and the config file loads, `parseGlobal` does
not fail. -/
theorem json_and_plain_exclusive (env : Env) (os : OS) (fl : FlagSets) (wr : WriteCommands)
    (fuel : Nat) (w : World) (version commit buildDate : String) (args : List String)
    (p : String) (flags : GlobalFlags) (rest : List String)
    (hargs : args ≠ [])
    (hpath : (if os.getenv "FIZZY_CONFIG" == "" then config.DefaultPath os
      else .ok (os.getenv "FIZZY_CONFIG")) = .ok p)
    (hflags : os.flagParse p args.tail = .ok (flags, rest)) :
    (flags.flagJSON = true ∧ flags.flagPlain = true →
      (∃ cfg, config.Load os flags.flagConfig = .ok cfg) →
      (parseGlobal os args).err = some (.usage "--json and --plain cannot be used together") ∧
        Run env os fl wr fuel w version commit buildDate args =
          some (2, { w with
            stderr := w.stderr ++ "error: --json and --plain cannot be used together\n" })) ∧
    (∀ e, config.Load os flags.flagConfig = .error e →
      (parseGlobal os args).err = some e ∧
        Run env os fl wr fuel w version commit buildDate args =
          some (exitCode (some e), printErr w (some e))) ∧
    (¬ (flags.flagJSON = true ∧ flags.flagPlain = true) →
      (∃ cfg, config.Load os flags.flagConfig = .ok cfg) →
      (parseGlobal os args).err = none) := by
  obtain ⟨herr, hok⟩ := parseGlobal_err os args p flags rest hargs hpath hflags
  refine ⟨?_, ?_, ?_⟩
  · rintro hboth ⟨cfg, hcfg⟩
    have h := hok cfg hcfg
    rw [if_pos hboth] at h
    refine ⟨h, ?_⟩
    rw [Run_of_parse_error_after_flags env os fl wr fuel w version commit buildDate args p flags
      rest hpath hflags _ h]
    have hline : "error: " ++ ("--json and --plain cannot be used together" ++ "\n") =
        "error: --json and --plain cannot be used together\n" := by decide
    simp only [exitCode, GoError.asUsage, printErr, GoError.Error, String.append_assoc, hline]
  · intro e he
    exact ⟨herr e he, Run_of_parse_error_after_flags env os fl wr fuel w version commit
      buildDate args p flags rest hpath hflags e (herr e he)⟩
  · rintro hnot ⟨cfg, hcfg⟩
    have h := hok cfg hcfg
    rw [if_neg hnot] at h
    exact h

/-- C27, witness: without a config file, `--json --plain tag list` makes `Run`
return exit code 2 with the error line on standard error and no request sent,
and `--json tag list` passes `parseGlobal`. -/
theorem json_and_plain_exclusive_witness :
    Run (Env.demo []) (OS.demoOutput none) FlagSets.demo WriteCommands.demo 1 ⟨"", "", []⟩
        "1.0" "abc" "today" ["fizzy-cli", "--json", "--plain", "tag", "list"] =
      some (2, ⟨"", "error: --json and --plain cannot be used together\n", []⟩) ∧
    (parseGlobal (OS.demoOutput none) ["fizzy-cli", "--json", "tag", "list"]).err = none := by
  have h1 := (json_and_plain_exclusive (Env.demo []) (OS.demoOutput none) FlagSets.demo
    WriteCommands.demo 1 ⟨"", "", []⟩ "1.0" "abc" "today"
    ["fizzy-cli", "--json", "--plain", "tag", "list"] "/home/u/.config/fizzy/config.json"
    ⟨"", "", "", "/home/u/.config/fizzy/config.json", true, true, false, false, false⟩
    ["tag", "list"] (by decide) rfl rfl).1 ⟨rfl, rfl⟩ ⟨_, rfl⟩
  exact ⟨h1.2, by decide⟩

/-! ## Properties: absolute paths in buildURL (C22) -/

/-- C22, counterexample: the path `https://x/p#` begins with `https://` and
parses as a url with an empty fragment; printed back it is `https://x/p`, and
that is what `buildURL` returns, not the path itself. -/
theorem buildURL_drops_empty_fragment :
    strings.HasPrefix "https://x/p#" "https://" = true ∧
      Env.demoURLs.urlParse "https://x/p#" =
        .ok { Scheme := "https", Opaque := "", User := "", Host := "x", Path := "/p",
              RawPath := "", OmitHost := false, ForceQuery := false, RawQuery := "",
              Fragment := "", RawFragment := "" } ∧
      buildURL Env.demoURLs "https://app.fizzy.do" "https://x/p#" none = .ok "https://x/p" ∧
      ("https://x/p" : String) ≠ "https://x/p#" :=
  ⟨by decide, rfl, rfl, by decide⟩

/-- C22, amended: `buildURL` parses an absolute path and prints it back. For every
path that begins with `http://` or `https://` and parses as a url, with a nil
query, `buildURL` returns the text of the parsed url; this is the same for every
base URL, and it is the path itself whenever printing the parsed url gives the
path back. A path without such a beginning is resolved against the parsed base
URL. -/
theorem buildURL_absolute_path (env : Env) (baseURL otherBase path rel : String) (u : URL)
    (habs : (strings.HasPrefix path "http://" || strings.HasPrefix path "https://") = true)
    (hparse : env.urlParse path = .ok u) :
    buildURL env baseURL path none = .ok (env.urlString u) ∧
      buildURL env otherBase path none = buildURL env baseURL path none ∧
      (env.urlString u = path → buildURL env baseURL path none = .ok path) ∧
      ((strings.HasPrefix rel "http://" || strings.HasPrefix rel "https://") = false →
        ∀ base r, env.urlParse baseURL = .ok base → env.urlParse rel = .ok r →
          buildURL env baseURL rel none =
            .ok (env.urlString (env.urlResolveReference base r))) := by
  have h1 := buildURL_nil_query_absolute env baseURL path u habs hparse
  have h2 := buildURL_nil_query_absolute env otherBase path u habs hparse
  refine ⟨h1, h2.trans h1.symm, fun h => by rw [h1, h], ?_⟩
  intro hrel base r hb hr
  unfold buildURL
  simp only [hrel, Bool.false_eq_true, if_false, hb, hr]

/-- C22, witness: the cursor `https://x/acme/cards?page=2` is returned as it is,
whatever the base URL, and the path `/acme/cards` is resolved against the base
URL `https://x`. -/
theorem buildURL_absolute_path_witness :
    buildURL Env.demoURLs "https://app.fizzy.do" "https://x/acme/cards?page=2" none =
        .ok "https://x/acme/cards?page=2" ∧
      buildURL Env.demoURLs "https://x" "/acme/cards" none = .ok "https://x/acme/cards" := by
  have h := buildURL_absolute_path Env.demoURLs "https://app.fizzy.do" "https://x"
    "https://x/acme/cards?page=2" "/acme/cards" (Env.demoParseURL "https://x/acme/cards?page=2")
    (by decide) rfl
  exact ⟨h.2.2.1 (by decide), rfl⟩

/-! ## Properties: JSON rendering (C21) -/

/-- C21, counterexample: the body `1e999` is valid JSON, yet `printJSONBytes`
returns an error for it, because the number does not fit a `float64`; and for
the body `9007199254740993`, valid JSON as well, it prints `9007199254740992`,
which reads back as a different number. -/
theorem printJSONBytes_number_out_of_range_or_rounded :
    (Env.demoNumbers.jsonParse "1e999" = .ok (.number "1e999") ∧
      printJSONBytes Env.demoNumbers ⟨"", "", []⟩ "1e999" =
        .error (.wrapped "invalid JSON response: "
          (json.typeError "number 1e999" "float64"))) ∧
    (Env.demoNumbers.jsonParse "9007199254740993" = .ok (.number "9007199254740993") ∧
      printJSONBytes Env.demoNumbers ⟨"", "", []⟩ "9007199254740993" =
        .ok ⟨"9007199254740992\n", "", []⟩ ∧
      Env.demoNumbers.jsonParse "9007199254740992\n" = .ok (.number "9007199254740992") ∧
      json.parseInt64 "9007199254740992" = some 9007199254740992 ∧
      json.parseInt64 "9007199254740993" = some 9007199254740993) :=
  ⟨⟨rfl, rfl⟩, rfl, rfl, rfl, by decide, by decide⟩

/-- C21, amended: JSON rendering. For every body that is not empty: if
`json.Unmarshal` stores the body into an `any`, `printJSONBytes` succeeds and
appends to standard output the indented encoding of the stored value and a
newline, and so do its callers, which return 0; if `json.Unmarshal` returns an
error, `printJSONBytes` returns that error wrapped as
`invalid JSON response: ...` and its callers leave standard output as it was
and return a non-zero code. `json.Unmarshal` returns an error for every body
that is not valid JSON, and for a valid one it returns what storing the parsed
value into an `any` returns. -/
theorem printJSONBytes_prints_stored_value (env : Env) (w : World) (ctx : Context)
    (status : Int) (headers : Header) (body : String)
    (formatFn : String → Except GoError String) (hne : body ≠ "") :
    (∀ v, json.Unmarshal env body env.jsonAny = .ok v →
      printJSONBytes env w body =
          .ok { w with stdout := w.stdout ++ env.jsonIndent v ++ "\n" } ∧
        printJSONResponse env w ⟨status, headers, body⟩ =
          (0, { w with stdout := w.stdout ++ env.jsonIndent v ++ "\n" }) ∧
        (ctx.Output.JSON = true →
          outputJSONOrPretty env w ctx body formatFn =
            (0, { w with stdout := w.stdout ++ env.jsonIndent v ++ "\n" }))) ∧
    (∀ e, json.Unmarshal env body env.jsonAny = .error e →
      printJSONBytes env w body = .error (.wrapped "invalid JSON response: " e) ∧
        (printJSONResponse env w ⟨status, headers, body⟩).1 ≠ 0 ∧
        (printJSONResponse env w ⟨status, headers, body⟩).2.stdout = w.stdout ∧
        (ctx.Output.JSON = true →
          (outputJSONOrPretty env w ctx body formatFn).1 ≠ 0 ∧
          (outputJSONOrPretty env w ctx body formatFn).2.stdout = w.stdout)) ∧
    (∀ e, env.jsonParse body = .error e →
      json.Unmarshal env body env.jsonAny = .error e) ∧
    (∀ parsed, env.jsonParse body = .ok parsed →
      json.Unmarshal env body env.jsonAny = env.jsonAny parsed) := by
  obtain ⟨hok, herr⟩ := printJSONBytes_eq env w body hne
  have hlen : ¬ body.length = 0 := by
    intro h
    apply hne
    apply String.ext
    exact List.length_eq_zero.mp h
  refine ⟨?_, ?_, ?_, ?_⟩
  · intro v hv
    refine ⟨hok v hv, ?_, ?_⟩
    · simp only [printJSONResponse, hlen, if_false, hok v hv]
    · intro hjson
      simp only [outputJSONOrPretty, hjson, if_true, hok v hv]
  · intro e he
    refine ⟨herr e he, ?_, ?_, ?_⟩
    · simp only [printJSONResponse, hlen, if_false, herr e he]
      exact handleErr_code_ne_zero _ _ _
    · simp only [printJSONResponse, hlen, if_false, herr e he]
      exact (handleErr_world _ _ _).1
    · intro hjson
      simp only [outputJSONOrPretty, hjson, if_true, herr e he]
      exact ⟨handleErr_code_ne_zero _ _ _, (handleErr_world _ _ _).1⟩
  · intro e he
    simp only [json.Unmarshal, he]
  · intro parsed hp
    simp only [json.Unmarshal, hp]

/-- C21, witness: the body `9007199254740993` is stored as the `float64`
9007199254740992 and printed as `9007199254740992` and a newline. -/
theorem printJSONBytes_prints_stored_value_witness :
    ("9007199254740993" : String) ≠ "" ∧
      json.Unmarshal Env.demoNumbers "9007199254740993" Env.demoNumbers.jsonAny =
        .ok (.number "9007199254740992") ∧
      printJSONBytes Env.demoNumbers ⟨"", "", []⟩ "9007199254740993" =
        .ok ⟨"9007199254740992\n", "", []⟩ := by
  have h := (printJSONBytes_prints_stored_value Env.demoNumbers ⟨"", "", []⟩
    (Context.demo true false) 200 [] "9007199254740993" (fun _ => .ok "") (by decide)).1
    (.number "9007199254740992") rfl
  exact ⟨by decide, rfl, h.1⟩

end FizzyCli
